import Mathlib

/-!
Seeding pipeline of the HSR backend (`backend/internal/database/seed.go`)

A shallow embedding of `Seed`, `seedElements`, `seedPaths`, `seedCharacters`,
`seedSkills` and `seedBuilds`, together with the row types of
`backend/internal/models/character.go`.

The Go code talks to PostgreSQL through GORM.  The storage layer is embedded as
follows.

* A table is the list of its rows in the order in which a query returns them
  (primary-key order for the auto-increment tables; new rows receive the next
  id and are appended).
* `Where(k).FirstOrCreate(&x)` looks for the first row matching `k`; when there
  is one it is loaded into `x` and nothing is written, otherwise `x` is
  inserted.
* `Where(k).Assign(v).FirstOrCreate(&x)` with a struct `v`: when a row matches,
  the columns of the non-zero fields of `v` are updated on that row (GORM
  builds the update from the non-zero fields of a struct); otherwise `x` is
  inserted.
* An insert leaves out zero-valued fields that carry a `default:` tag, so the
  column default is stored for them.
* `uniqueIndex` tags are enforced (the only one a seeder write can violate is
  `characters.char_id`), and so is the foreign key of
  `character_build_sets.relic_set_id` (the only reference the seeder can
  write without having read the referenced row first).
* Any call may also be rejected by the storage layer for reasons outside the
  program; `Faults` says which calls are.
* A `float64` is held by its bit pattern, so every value of the Go type has a
  place.  The seeder only copies such values and GORM tests them against zero;
  a row holds the value that the code handed to the storage layer, and what a
  `decimal(_,2)` column makes of it when it is read back is not modelled.
-/

namespace models

/-- A Go `float64`, held by its IEEE-754 bit pattern (`math.Float64bits`) -/
structure Float64 where
  bits : Nat
deriving DecidableEq, Repr

/-- The zero test of a `float64` field of an `Assign` struct or of a row to
insert (`reflect.Value.IsZero`, which compares the value with 0): true of +0
and of -0 -/
def Float64.isZero (x : Float64) : Bool :=
  x.bits == 0 || x.bits == 0x8000000000000000

/-- The `float64` 0.001 -/
def f64_0_001 : Float64 := ⟨0x3F50624DD2F1A9FC⟩

/-- The `float64` 0.05 -/
def f64_0_05 : Float64 := ⟨0x3FA999999999999A⟩

/-- The `float64` 0.1 -/
def f64_0_1 : Float64 := ⟨0x3FB999999999999A⟩

/-- The `float64` 0.3 -/
def f64_0_3 : Float64 := ⟨0x3FD3333333333333⟩

/-- The `float64` 0.5 -/
def f64_0_5 : Float64 := ⟨0x3FE0000000000000⟩

/-- The `float64` 0.7 -/
def f64_0_7 : Float64 := ⟨0x3FE6666666666666⟩

/-- The `float64` 0.8 -/
def f64_0_8 : Float64 := ⟨0x3FE999999999999A⟩

/-- The `float64` 1.0 -/
def f64_1 : Float64 := ⟨0x3FF0000000000000⟩

/-- The `float64` 1.5 -/
def f64_1_5 : Float64 := ⟨0x3FF8000000000000⟩

/-- The `float64` 2.0 -/
def f64_2 : Float64 := ⟨0x4000000000000000⟩

/-- The `float64` 2.5 -/
def f64_2_5 : Float64 := ⟨0x4004000000000000⟩

/-- The `float64` 3.0 -/
def f64_3 : Float64 := ⟨0x4008000000000000⟩

/-- The `float64` 4.0 -/
def f64_4 : Float64 := ⟨0x4010000000000000⟩

/-- Element represents a character's element type -/
structure Element where
  ID : Nat
  Name : String
  IconURL : String
deriving DecidableEq, Repr

/-- Path represents a character's path -/
structure Path where
  ID : Nat
  Name : String
  IconURL : String
deriving DecidableEq, Repr

/-- Character represents a playable game character -/
structure Character where
  ID : String
  CharID : String
  Name : String
  ElementID : Nat
  PathID : Nat
  Rarity : Int
  BaseSpeed : Int
  ReleaseOrder : Int
deriving DecidableEq, Repr

/-- CharacterSkill contains skill multipliers and stats for a character -/
structure CharacterSkill where
  ID : Nat
  CharacterID : String
  BasicMultiplier : Float64
  SkillMultiplier : Float64
  UltMultiplier : Float64
  BasicEnergy : Int
  SkillEnergy : Int
  UltCost : Int
  UltType : String
  Passive : String
  BaseAtk : Int
  BaseCritRate : Float64
  BaseCritDmg : Float64
deriving DecidableEq, Repr

/-- CharacterBuild contains recommended build for a character -/
structure CharacterBuild where
  ID : Nat
  CharacterID : String
  BodyMain : String
  FeetMain : String
  OrbMain : String
  RopeMain : String
deriving DecidableEq, Repr

/-- RelicSet represents a relic/planar set (`SetType` is the Go field `Type`) -/
structure RelicSet where
  ID : Nat
  Name : String
  SetType : String
deriving DecidableEq, Repr

/-- CharacterBuildSet links builds to recommended relic sets -/
structure CharacterBuildSet where
  ID : Nat
  BuildID : Nat
  RelicSetID : Nat
  Priority : Int
deriving DecidableEq, Repr

/-- CharacterBuildSubstat contains substat priorities for a build -/
structure CharacterBuildSubstat where
  ID : Nat
  BuildID : Nat
  StatName : String
  Weight : Float64
deriving DecidableEq, Repr

end models

namespace database

open models

/-! ## The JSON shapes -/

/-- CharacterJSON represents the JSON structure for characters -/
structure CharacterJSON where
  ID : String
  CharID : String
  Name : String
  Path : String
  Element : String
  Rarity : Int
  BaseSpeed : Int
  ReleaseOrder : Int
deriving DecidableEq, Repr

/-- SkillJSON represents the JSON structure for skills -/
structure SkillJSON where
  BasicMultiplier : Float64
  SkillMultiplier : Float64
  UltMultiplier : Float64
  BasicEnergy : Int
  SkillEnergy : Int
  UltCost : Int
  UltType : String
  Passive : String
  BaseAtk : Int
  BaseCritRate : Float64
  BaseCritDmg : Float64
deriving DecidableEq, Repr

/-- The anonymous `MainStats` struct of `BuildJSON` -/
structure MainStatsJSON where
  Body : String
  Feet : String
  Orb : String
  Rope : String
deriving DecidableEq, Repr

/-- BuildJSON represents the JSON structure for builds.  `Substats` is a Go map:
the list holds its entries in the order the `range` loop visits them. -/
structure BuildJSON where
  Name : String
  Substats : List (String × Float64)
  MainStats : MainStatsJSON
  Sets : List String
deriving DecidableEq, Repr

/-- Outcome of `os.ReadFile` followed by `json.Unmarshal` on one data file -/
inductive Source (α : Type) where
  | unreadable (cause : String)
  | malformed (cause : String)
  | parsed (value : α)
deriving DecidableEq, Repr

/-- Whether a data file was read and parsed -/
def Source.isParsed {α : Type} : Source α → Bool
  | .parsed _ => true
  | _ => false

/-- The three files found under `dataPath`.  The two maps are given as the list
of their entries in the order the `range` loop visits them. -/
structure DataFiles where
  characters : Source (List CharacterJSON)
  skills : Source (List (String × SkillJSON))
  builds : Source (List (String × BuildJSON))
deriving DecidableEq, Repr

/-! ## The store behind the global `DB` handle -/

/-- The eight tables the seeder reads and writes -/
structure Store where
  elements : List Element
  paths : List Path
  characters : List Character
  characterSkills : List CharacterSkill
  characterBuilds : List CharacterBuild
  characterBuildSubstats : List CharacterBuildSubstat
  relicSets : List RelicSet
  characterBuildSets : List CharacterBuildSet
deriving DecidableEq, Repr

/-- A store with no rows -/
def Store.empty : Store := ⟨[], [], [], [], [], [], [], []⟩

/-- What `result.Error` can hold after a storage call -/
inductive DBError where
  | rejected
  | uniqueViolation
  | foreignKeyViolation
deriving DecidableEq, Repr

/-- The text of a storage error (`err.Error()`) -/
def DBError.text : DBError → String
  | .rejected => "storage call rejected"
  | .uniqueViolation => "duplicate key value violates unique constraint"
  | .foreignKeyViolation => "insert or update violates foreign key constraint"

/-- The `FirstOrCreate` calls the seeder issues, by table and lookup key -/
inductive Call where
  | element (name : String)
  | path (name : String)
  | character (id : String)
  | skill (characterID : String)
  | build (characterID : String)
  | substat (buildID : Nat) (statName : String)
  | relicSet (name : String)
  | buildSet (buildID relicSetID : Nat)
deriving DecidableEq, Repr

/-- Which calls the storage layer rejects for reasons of its own -/
abbrev Faults := Call → Bool

/-- A storage layer that rejects nothing -/
def noFaults : Faults := fun _ => false

/-- Lines written with `log.Printf` / `log.Println` -/
inductive LogEntry where
  | seedingStarted
  | seedingCompleted
  | seededElements (n : Nat)
  | seededPaths (n : Nat)
  | seededCharacters (n : Nat)
  | seededSkills (n : Nat)
  | seededBuilds (n : Nat)
  | unknownElement (element characterName : String)
  | unknownPath (path characterName : String)
  | characterFailed (characterName : String) (err : DBError)
  | skillFailed (charID : String) (err : DBError)
  | buildFailed (charID : String) (err : DBError)
deriving DecidableEq, Repr

/-- The lines printed with the warning sign -/
def LogEntry.isWarning : LogEntry → Bool
  | .unknownElement _ _ => true
  | .unknownPath _ _ => true
  | .characterFailed _ _ => true
  | .skillFailed _ _ => true
  | .buildFailed _ _ => true
  | _ => false

/-- The store together with the log written so far -/
structure State where
  db : Store
  log : List LogEntry
deriving DecidableEq, Repr

/-- One `log.Printf` -/
def State.logf (st : State) (e : LogEntry) : State :=
  { st with log := st.log ++ [e] }

/-! ## GORM primitives -/

/-- Next value of an auto-increment primary key -/
def nextID (ids : List Nat) : Nat := ids.foldr max 0 + 1

/-- `UPDATE ... WHERE key AND id = found.id`: the first row matching the key is
replaced -/
def replaceFirst {α : Type} (p : α → Bool) (row : α) : List α → List α
  | [] => []
  | x :: xs => if p x then row :: xs else x :: replaceFirst p row xs

/-- A string field of an `Assign` struct: written unless it is the zero value -/
def assignStr (incoming current : String) : String :=
  if incoming = "" then current else incoming

/-- An `int` field of an `Assign` struct -/
def assignInt (incoming current : Int) : Int :=
  if incoming = 0 then current else incoming

/-- A `float64` field of an `Assign` struct -/
def assignFloat (incoming current : Float64) : Float64 :=
  if incoming.isZero then current else incoming

/-- An id field of an `Assign` struct -/
def assignNat (incoming current : Nat) : Nat :=
  if incoming = 0 then current else incoming

/-- A zero-valued `int` field with a `default:` tag is stored as the default -/
def orDefaultInt (dflt value : Int) : Int :=
  if value = 0 then dflt else value

/-- A zero-valued `float64` field with a `default:` tag is stored as the default -/
def orDefaultFloat (dflt value : Float64) : Float64 :=
  if value.isZero then dflt else value

/-- A zero-valued string field with a `default:` tag is stored as the default -/
def orDefaultStr (dflt value : String) : String :=
  if value = "" then dflt else value

/-- `DB.Where("name = ?", elem.Name).FirstOrCreate(&elem)` -/
def firstOrCreateElement (fl : Faults) (elem : Element) (db : Store) :
    Except DBError (Element × Store) :=
  if fl (.element elem.Name) then .error .rejected
  else
    match db.elements.find? (fun e => e.Name == elem.Name) with
    | some found => .ok (found, db)
    | none =>
      .ok ({ elem with ID := nextID (db.elements.map (·.ID)) }, { db with
        elements := db.elements ++ [{ elem with ID := nextID (db.elements.map (·.ID)) }] })

/-- `DB.Where("name = ?", p.Name).FirstOrCreate(&p)` -/
def firstOrCreatePath (fl : Faults) (p : Path) (db : Store) :
    Except DBError (Path × Store) :=
  if fl (.path p.Name) then .error .rejected
  else
    match db.paths.find? (fun e => e.Name == p.Name) with
    | some found => .ok (found, db)
    | none =>
      .ok ({ p with ID := nextID (db.paths.map (·.ID)) }, { db with
        paths := db.paths ++ [{ p with ID := nextID (db.paths.map (·.ID)) }] })

/-- The row an update with `Assign(char)` leaves: non-zero fields of `char`
over the row found -/
def assignCharacter (char found : Character) : Character :=
  { ID := assignStr char.ID found.ID
    CharID := assignStr char.CharID found.CharID
    Name := assignStr char.Name found.Name
    ElementID := assignNat char.ElementID found.ElementID
    PathID := assignNat char.PathID found.PathID
    Rarity := assignInt char.Rarity found.Rarity
    BaseSpeed := assignInt char.BaseSpeed found.BaseSpeed
    ReleaseOrder := assignInt char.ReleaseOrder found.ReleaseOrder }

/-- The row an insert of `char` stores (`default:4`, `default:100`,
`default:0`) -/
def createCharacter (char : Character) : Character :=
  { char with
    Rarity := orDefaultInt 4 char.Rarity
    BaseSpeed := orDefaultInt 100 char.BaseSpeed
    ReleaseOrder := orDefaultInt 0 char.ReleaseOrder }

/-- `DB.Where("id = ?", char.ID).Assign(char).FirstOrCreate(&char)` -/
def assignFirstOrCreateCharacter (fl : Faults) (char : Character) (db : Store) :
    Except DBError (Character × Store) :=
  if fl (.character char.ID) then .error .rejected
  else
    match db.characters.find? (fun r => r.ID == char.ID) with
    | some found =>
      if db.characters.any
          (fun r => r.ID != found.ID && r.CharID == (assignCharacter char found).CharID) then
        .error .uniqueViolation
      else
        .ok (assignCharacter char found, { db with
          characters :=
            replaceFirst (fun r => r.ID == char.ID) (assignCharacter char found) db.characters })
    | none =>
      if db.characters.any (fun r => r.CharID == (createCharacter char).CharID) then
        .error .uniqueViolation
      else
        .ok (createCharacter char, { db with
          characters := db.characters ++ [createCharacter char] })

/-- `DB.Where("id = ?", charID).First(&char)`: the character row, if any -/
def firstCharacter (charID : String) (db : Store) : Option Character :=
  db.characters.find? (fun r => r.ID == charID)

/-- Non-zero fields of `skill` over the row found -/
def assignSkill (skill found : CharacterSkill) : CharacterSkill :=
  { ID := assignNat skill.ID found.ID
    CharacterID := assignStr skill.CharacterID found.CharacterID
    BasicMultiplier := assignFloat skill.BasicMultiplier found.BasicMultiplier
    SkillMultiplier := assignFloat skill.SkillMultiplier found.SkillMultiplier
    UltMultiplier := assignFloat skill.UltMultiplier found.UltMultiplier
    BasicEnergy := assignInt skill.BasicEnergy found.BasicEnergy
    SkillEnergy := assignInt skill.SkillEnergy found.SkillEnergy
    UltCost := assignInt skill.UltCost found.UltCost
    UltType := assignStr skill.UltType found.UltType
    Passive := assignStr skill.Passive found.Passive
    BaseAtk := assignInt skill.BaseAtk found.BaseAtk
    BaseCritRate := assignFloat skill.BaseCritRate found.BaseCritRate
    BaseCritDmg := assignFloat skill.BaseCritDmg found.BaseCritDmg }

/-- The row an insert of `skill` stores: the next id and the column defaults
(1.0, 1.0, 2.0, 20, 30, 120, normal, 500, 0.05, 0.50) -/
def createSkill (id : Nat) (skill : CharacterSkill) : CharacterSkill :=
  { skill with
    ID := id
    BasicMultiplier := orDefaultFloat f64_1 skill.BasicMultiplier
    SkillMultiplier := orDefaultFloat f64_1 skill.SkillMultiplier
    UltMultiplier := orDefaultFloat f64_2 skill.UltMultiplier
    BasicEnergy := orDefaultInt 20 skill.BasicEnergy
    SkillEnergy := orDefaultInt 30 skill.SkillEnergy
    UltCost := orDefaultInt 120 skill.UltCost
    UltType := orDefaultStr "normal" skill.UltType
    BaseAtk := orDefaultInt 500 skill.BaseAtk
    BaseCritRate := orDefaultFloat f64_0_05 skill.BaseCritRate
    BaseCritDmg := orDefaultFloat f64_0_5 skill.BaseCritDmg }

/-- `DB.Where("character_id = ?", charID).Assign(skill).FirstOrCreate(&skill)` -/
def assignFirstOrCreateSkill (fl : Faults) (charID : String) (skill : CharacterSkill)
    (db : Store) : Except DBError (CharacterSkill × Store) :=
  if fl (.skill charID) then .error .rejected
  else
    match db.characterSkills.find? (fun r => r.CharacterID == charID) with
    | some found =>
      .ok (assignSkill skill found, { db with
        characterSkills :=
          replaceFirst (fun r => r.CharacterID == charID) (assignSkill skill found)
            db.characterSkills })
    | none =>
      .ok (createSkill (nextID (db.characterSkills.map (·.ID))) skill, { db with
        characterSkills :=
          db.characterSkills ++ [createSkill (nextID (db.characterSkills.map (·.ID))) skill] })

/-- Non-zero fields of `build` over the row found -/
def assignBuild (build found : CharacterBuild) : CharacterBuild :=
  { ID := assignNat build.ID found.ID
    CharacterID := assignStr build.CharacterID found.CharacterID
    BodyMain := assignStr build.BodyMain found.BodyMain
    FeetMain := assignStr build.FeetMain found.FeetMain
    OrbMain := assignStr build.OrbMain found.OrbMain
    RopeMain := assignStr build.RopeMain found.RopeMain }

/-- The row an insert of `build` stores: the next id (no column defaults) -/
def createBuild (id : Nat) (build : CharacterBuild) : CharacterBuild :=
  { build with ID := id }

/-- `DB.Where("character_id = ?", charID).Assign(build).FirstOrCreate(&build)` -/
def assignFirstOrCreateBuild (fl : Faults) (charID : String) (build : CharacterBuild)
    (db : Store) : Except DBError (CharacterBuild × Store) :=
  if fl (.build charID) then .error .rejected
  else
    match db.characterBuilds.find? (fun r => r.CharacterID == charID) with
    | some found =>
      .ok (assignBuild build found, { db with
        characterBuilds :=
          replaceFirst (fun r => r.CharacterID == charID) (assignBuild build found)
            db.characterBuilds })
    | none =>
      .ok (createBuild (nextID (db.characterBuilds.map (·.ID))) build, { db with
        characterBuilds :=
          db.characterBuilds ++ [createBuild (nextID (db.characterBuilds.map (·.ID))) build] })

/-- Non-zero fields of `substat` over the row found -/
def assignSubstat (substat found : CharacterBuildSubstat) : CharacterBuildSubstat :=
  { ID := assignNat substat.ID found.ID
    BuildID := assignNat substat.BuildID found.BuildID
    StatName := assignStr substat.StatName found.StatName
    Weight := assignFloat substat.Weight found.Weight }

/-- The row an insert of `substat` stores: the next id and the column default
0.5 of `weight` -/
def createSubstat (id : Nat) (substat : CharacterBuildSubstat) : CharacterBuildSubstat :=
  { substat with ID := id, Weight := orDefaultFloat f64_0_5 substat.Weight }

/-- `DB.Where("build_id = ? AND stat_name = ?", build.ID, stat).Assign(substat)
.FirstOrCreate(&substat)` -/
def assignFirstOrCreateSubstat (fl : Faults) (buildID : Nat) (stat : String)
    (substat : CharacterBuildSubstat) (db : Store) :
    Except DBError (CharacterBuildSubstat × Store) :=
  if fl (.substat buildID stat) then .error .rejected
  else
    match db.characterBuildSubstats.find?
        (fun r => r.BuildID == buildID && r.StatName == stat) with
    | some found =>
      .ok (assignSubstat substat found, { db with
        characterBuildSubstats :=
          replaceFirst (fun r => r.BuildID == buildID && r.StatName == stat)
            (assignSubstat substat found) db.characterBuildSubstats })
    | none =>
      .ok (createSubstat (nextID (db.characterBuildSubstats.map (·.ID))) substat, { db with
        characterBuildSubstats :=
          db.characterBuildSubstats ++
            [createSubstat (nextID (db.characterBuildSubstats.map (·.ID))) substat] })

/-- The row an insert of the zero-valued `set` with its name taken from the
condition stores -/
def createRelicSet (id : Nat) (setName : String) : RelicSet :=
  { ID := id, Name := setName, SetType := "" }

/-- `DB.Where("name = ?", setName).FirstOrCreate(&set, models.RelicSet{Name: setName})`
on a zero-valued `set` -/
def firstOrCreateRelicSet (fl : Faults) (setName : String) (db : Store) :
    Except DBError (RelicSet × Store) :=
  if fl (.relicSet setName) then .error .rejected
  else
    match db.relicSets.find? (fun r => r.Name == setName) with
    | some found => .ok (found, db)
    | none =>
      .ok (createRelicSet (nextID (db.relicSets.map (·.ID))) setName, { db with
        relicSets := db.relicSets ++ [createRelicSet (nextID (db.relicSets.map (·.ID))) setName] })

/-- Non-zero fields of `buildSet` over the row found -/
def assignBuildSet (buildSet found : CharacterBuildSet) : CharacterBuildSet :=
  { ID := assignNat buildSet.ID found.ID
    BuildID := assignNat buildSet.BuildID found.BuildID
    RelicSetID := assignNat buildSet.RelicSetID found.RelicSetID
    Priority := assignInt buildSet.Priority found.Priority }

/-- The row an insert of `buildSet` stores: the next id and the column default
1 of `priority` -/
def createBuildSet (id : Nat) (buildSet : CharacterBuildSet) : CharacterBuildSet :=
  { buildSet with ID := id, Priority := orDefaultInt 1 buildSet.Priority }

/-- `DB.Where("build_id = ? AND relic_set_id = ?", build.ID, set.ID).Assign(buildSet)
.FirstOrCreate(&buildSet)`; an insert needs the relic set it refers to -/
def assignFirstOrCreateBuildSet (fl : Faults) (buildID relicSetID : Nat)
    (buildSet : CharacterBuildSet) (db : Store) :
    Except DBError (CharacterBuildSet × Store) :=
  if fl (.buildSet buildID relicSetID) then .error .rejected
  else
    match db.characterBuildSets.find?
        (fun r => r.BuildID == buildID && r.RelicSetID == relicSetID) with
    | some found =>
      .ok (assignBuildSet buildSet found, { db with
        characterBuildSets :=
          replaceFirst (fun r => r.BuildID == buildID && r.RelicSetID == relicSetID)
            (assignBuildSet buildSet found) db.characterBuildSets })
    | none =>
      if db.relicSets.any (fun r => r.ID == buildSet.RelicSetID) then
        .ok (createBuildSet (nextID (db.characterBuildSets.map (·.ID))) buildSet, { db with
          characterBuildSets :=
            db.characterBuildSets ++
              [createBuildSet (nextID (db.characterBuildSets.map (·.ID))) buildSet] })
      else .error .foreignKeyViolation

/-! ## The seeders -/

/-- The compiled-in `elements` slice of `seedElements` -/
def elements : List Element :=
  [ { ID := 0, Name := "Physical", IconURL := "https://raw.githubusercontent.com/Mar-7th/StarRailRes/master/icon/element/Physical.png" },
    { ID := 0, Name := "Fire", IconURL := "https://raw.githubusercontent.com/Mar-7th/StarRailRes/master/icon/element/Fire.png" },
    { ID := 0, Name := "Ice", IconURL := "https://raw.githubusercontent.com/Mar-7th/StarRailRes/master/icon/element/Ice.png" },
    { ID := 0, Name := "Lightning", IconURL := "https://raw.githubusercontent.com/Mar-7th/StarRailRes/master/icon/element/Thunder.png" },
    { ID := 0, Name := "Wind", IconURL := "https://raw.githubusercontent.com/Mar-7th/StarRailRes/master/icon/element/Wind.png" },
    { ID := 0, Name := "Quantum", IconURL := "https://raw.githubusercontent.com/Mar-7th/StarRailRes/master/icon/element/Quantum.png" },
    { ID := 0, Name := "Imaginary", IconURL := "https://raw.githubusercontent.com/Mar-7th/StarRailRes/master/icon/element/Imaginary.png" } ]

/-- The compiled-in `paths` slice of `seedPaths` -/
def paths : List Path :=
  [ { ID := 0, Name := "Destruction", IconURL := "https://raw.githubusercontent.com/Mar-7th/StarRailRes/master/icon/path/Destruction.png" },
    { ID := 0, Name := "The Hunt", IconURL := "https://raw.githubusercontent.com/Mar-7th/StarRailRes/master/icon/path/Hunt.png" },
    { ID := 0, Name := "Erudition", IconURL := "https://raw.githubusercontent.com/Mar-7th/StarRailRes/master/icon/path/Erudition.png" },
    { ID := 0, Name := "Harmony", IconURL := "https://raw.githubusercontent.com/Mar-7th/StarRailRes/master/icon/path/Harmony.png" },
    { ID := 0, Name := "Nihility", IconURL := "https://raw.githubusercontent.com/Mar-7th/StarRailRes/master/icon/path/Nihility.png" },
    { ID := 0, Name := "Preservation", IconURL := "https://raw.githubusercontent.com/Mar-7th/StarRailRes/master/icon/path/Preservation.png" },
    { ID := 0, Name := "Abundance", IconURL := "https://raw.githubusercontent.com/Mar-7th/StarRailRes/master/icon/path/Abundance.png" },
    { ID := 0, Name := "Remembrance", IconURL := "https://raw.githubusercontent.com/Mar-7th/StarRailRes/master/icon/path/Remembrance.png" } ]

/-- The `for _, elem := range elements` loop of `seedElements`: stops at the
first `result.Error` -/
def seedElementsLoop (fl : Faults) : List Element → Store → Store × Option DBError
  | [], db => (db, none)
  | elem :: rest, db =>
    match firstOrCreateElement fl elem db with
    | .error e => (db, some e)
    | .ok (_, db1) => seedElementsLoop fl rest db1

/-- `seedElements`; the second component is the returned `error` (its text) -/
def seedElements (fl : Faults) (st : State) : State × Option String :=
  match seedElementsLoop fl elements st.db with
  | (db, some e) => ({ st with db := db }, some e.text)
  | (db, none) => (State.logf { st with db := db } (.seededElements elements.length), none)

/-- The `for _, p := range paths` loop of `seedPaths` -/
def seedPathsLoop (fl : Faults) : List Path → Store → Store × Option DBError
  | [], db => (db, none)
  | p :: rest, db =>
    match firstOrCreatePath fl p db with
    | .error e => (db, some e)
    | .ok (_, db1) => seedPathsLoop fl rest db1

/-- `seedPaths` -/
def seedPaths (fl : Faults) (st : State) : State × Option String :=
  match seedPathsLoop fl paths st.db with
  | (db, some e) => ({ st with db := db }, some e.text)
  | (db, none) => (State.logf { st with db := db } (.seededPaths paths.length), none)

/-- A Go `map[string]int` -/
abbrev NameMap := String → Option Nat

/-- `m[name] = id` -/
def NameMap.set (m : NameMap) (name : String) (id : Nat) : NameMap :=
  fun k => if k = name then some id else m k

/-- `DB.Find(&elements)` followed by `elementMap[e.Name] = e.ID` for each row -/
def elementMap (db : Store) : NameMap :=
  db.elements.foldl (fun m e => m.set e.Name e.ID) (fun _ => none)

/-- `DB.Find(&paths)` followed by `pathMap[p.Name] = p.ID` for each row -/
def pathMap (db : Store) : NameMap :=
  db.paths.foldl (fun m p => m.set p.Name p.ID) (fun _ => none)

/-- The struct literal `models.Character{...}` of `seedCharacters` -/
def characterRow (c : CharacterJSON) (elementID pathID : Nat) : Character :=
  { ID := c.ID
    CharID := c.CharID
    Name := c.Name
    ElementID := elementID
    PathID := pathID
    Rarity := c.Rarity
    BaseSpeed := c.BaseSpeed
    ReleaseOrder := c.ReleaseOrder }

/-- Body of the `for _, c := range characters` loop of `seedCharacters`, on
the pair (`count`, state) -/
def seedCharacter (fl : Faults) (elementMap pathMap : NameMap)
    (acc : Nat × State) (c : CharacterJSON) : Nat × State :=
  match elementMap c.Element with
  | none => (acc.1, acc.2.logf (.unknownElement c.Element c.Name))
  | some elementID =>
    match pathMap c.Path with
    | none => (acc.1, acc.2.logf (.unknownPath c.Path c.Name))
    | some pathID =>
      match assignFirstOrCreateCharacter fl (characterRow c elementID pathID) acc.2.db with
      | .error e => (acc.1, acc.2.logf (.characterFailed c.Name e))
      | .ok (_, db1) => (acc.1 + 1, { acc.2 with db := db1 })

/-- `seedCharacters` -/
def seedCharacters (fl : Faults) (file : Source (List CharacterJSON)) (st : State) :
    State × Option String :=
  match file with
  | .unreadable cause => (st, some ("failed to read characters.json: " ++ cause))
  | .malformed cause => (st, some ("failed to parse characters.json: " ++ cause))
  | .parsed characters =>
    ((characters.foldl (seedCharacter fl (elementMap st.db) (pathMap st.db)) (0, st)).2.logf
      (.seededCharacters
        (characters.foldl (seedCharacter fl (elementMap st.db) (pathMap st.db)) (0, st)).1),
     none)

/-- The warning `seedCharacters` prints for a record it cannot resolve -/
def unknownReference (db : Store) (c : CharacterJSON) : LogEntry :=
  if elementMap db c.Element = none then .unknownElement c.Element c.Name
  else .unknownPath c.Path c.Name

/-- The struct literal `models.CharacterSkill{...}` of `seedSkills` -/
def skillRow (charID : String) (s : SkillJSON) : CharacterSkill :=
  { ID := 0
    CharacterID := charID
    BasicMultiplier := s.BasicMultiplier
    SkillMultiplier := s.SkillMultiplier
    UltMultiplier := s.UltMultiplier
    BasicEnergy := s.BasicEnergy
    SkillEnergy := s.SkillEnergy
    UltCost := s.UltCost
    UltType := s.UltType
    Passive := s.Passive
    BaseAtk := s.BaseAtk
    BaseCritRate := s.BaseCritRate
    BaseCritDmg := s.BaseCritDmg }

/-- Body of the `for charID, s := range skillsMap` loop of `seedSkills` -/
def seedSkill (fl : Faults) (acc : Nat × State) (entry : String × SkillJSON) : Nat × State :=
  match firstCharacter entry.1 acc.2.db with
  | none => acc
  | some _ =>
    match assignFirstOrCreateSkill fl entry.1 (skillRow entry.1 entry.2) acc.2.db with
    | .error e => (acc.1, acc.2.logf (.skillFailed entry.1 e))
    | .ok (_, db1) => (acc.1 + 1, { acc.2 with db := db1 })

/-- `seedSkills` -/
def seedSkills (fl : Faults) (file : Source (List (String × SkillJSON))) (st : State) :
    State × Option String :=
  match file with
  | .unreadable cause => (st, some ("failed to read skills.json: " ++ cause))
  | .malformed cause => (st, some ("failed to parse skills.json: " ++ cause))
  | .parsed skillsMap =>
    ((skillsMap.foldl (seedSkill fl) (0, st)).2.logf
      (.seededSkills (skillsMap.foldl (seedSkill fl) (0, st)).1), none)

/-- The struct literal `models.CharacterBuildSubstat{...}` of `seedBuilds` -/
def substatRow (buildID : Nat) (stat : String) (weight : Float64) : CharacterBuildSubstat :=
  { ID := 0, BuildID := buildID, StatName := stat, Weight := weight }

/-- Body of the `for stat, weight := range b.Substats` loop: the result of the
call is not looked at -/
def seedSubstat (fl : Faults) (buildID : Nat) (db : Store) (entry : String × Float64) : Store :=
  match assignFirstOrCreateSubstat fl buildID entry.1 (substatRow buildID entry.1 entry.2) db with
  | .error _ => db
  | .ok (_, db1) => db1

/-- The first two lines of the `for i, setName := range b.Sets` loop body:
`set.ID` after the `FirstOrCreate` (0 when the relic set could not be loaded
or inserted, the result not being looked at) and the store -/
def loadRelicSet (fl : Faults) (setName : String) (db : Store) : Nat × Store :=
  match firstOrCreateRelicSet fl setName db with
  | .error _ => (0, db)
  | .ok (set, db1) => (set.ID, db1)

/-- The struct literal `models.CharacterBuildSet{...}` of `seedBuilds` -/
def buildSetRow (buildID setID i : Nat) : CharacterBuildSet :=
  { ID := 0, BuildID := buildID, RelicSetID := setID, Priority := (i : Int) + 1 }

/-- Body of the `for i, setName := range b.Sets` loop: neither result is looked
at -/
def seedSet (fl : Faults) (buildID : Nat) (i : Nat) (setName : String) (db : Store) : Store :=
  match assignFirstOrCreateBuildSet fl buildID (loadRelicSet fl setName db).1
      (buildSetRow buildID (loadRelicSet fl setName db).1 i) (loadRelicSet fl setName db).2 with
  | .error _ => (loadRelicSet fl setName db).2
  | .ok (_, db2) => db2

/-- The `for i, setName := range b.Sets` loop, from index `i` on -/
def seedSets (fl : Faults) (buildID : Nat) : Nat → List String → Store → Store
  | _, [], db => db
  | i, setName :: rest, db => seedSets fl buildID (i + 1) rest (seedSet fl buildID i setName db)

/-- The struct literal `models.CharacterBuild{...}` of `seedBuilds` -/
def buildRow (charID : String) (b : BuildJSON) : CharacterBuild :=
  { ID := 0
    CharacterID := charID
    BodyMain := b.MainStats.Body
    FeetMain := b.MainStats.Feet
    OrbMain := b.MainStats.Orb
    RopeMain := b.MainStats.Rope }

/-- Body of the `for charID, b := range buildsMap` loop of `seedBuilds` -/
def seedBuild (fl : Faults) (acc : Nat × State) (entry : String × BuildJSON) : Nat × State :=
  match firstCharacter entry.1 acc.2.db with
  | none => acc
  | some _ =>
    match assignFirstOrCreateBuild fl entry.1 (buildRow entry.1 entry.2) acc.2.db with
    | .error e => (acc.1, acc.2.logf (.buildFailed entry.1 e))
    | .ok (build, db1) =>
      (acc.1 + 1,
        { acc.2 with
          db := seedSets fl build.ID 0 entry.2.Sets
                  (entry.2.Substats.foldl (seedSubstat fl build.ID) db1) })

/-- `seedBuilds` -/
def seedBuilds (fl : Faults) (file : Source (List (String × BuildJSON))) (st : State) :
    State × Option String :=
  match file with
  | .unreadable cause => (st, some ("failed to read optimal-builds.json: " ++ cause))
  | .malformed cause => (st, some ("failed to parse optimal-builds.json: " ++ cause))
  | .parsed buildsMap =>
    ((buildsMap.foldl (seedBuild fl) (0, st)).2.logf
      (.seededBuilds (buildsMap.foldl (seedBuild fl) (0, st)).1), none)

/-- `Seed(dataPath)`: the five stages in order, the first error wrapped and
returned -/
def Seed (fl : Faults) (files : DataFiles) (st : State) : State × Option String :=
  let st0 := st.logf .seedingStarted
  match seedElements fl st0 with
  | (st1, some err) => (st1, some ("failed to seed elements: " ++ err))
  | (st1, none) =>
    match seedPaths fl st1 with
    | (st2, some err) => (st2, some ("failed to seed paths: " ++ err))
    | (st2, none) =>
      match seedCharacters fl files.characters st2 with
      | (st3, some err) => (st3, some ("failed to seed characters: " ++ err))
      | (st3, none) =>
        match seedSkills fl files.skills st3 with
        | (st4, some err) => (st4, some ("failed to seed skills: " ++ err))
        | (st4, none) =>
          match seedBuilds fl files.builds st4 with
          | (st5, some err) => (st5, some ("failed to seed builds: " ++ err))
          | (st5, none) => (st5.logf .seedingCompleted, none)

/-! ## Predicates and sample data used in the statements -/

/-- Every skill row and every build row belongs to a character row -/
def OrphanFree (db : Store) : Prop :=
  (∀ s ∈ db.characterSkills, s.CharacterID ∈ db.characters.map (·.ID)) ∧
  (∀ b ∈ db.characterBuilds, b.CharacterID ∈ db.characters.map (·.ID))

instance (db : Store) : Decidable (OrphanFree db) := by
  unfold OrphanFree; infer_instance

/-- The row `r` refers to the element and the path that record `c` names -/
def RefersTo (db : Store) (r : Character) (c : CharacterJSON) : Prop :=
  (∃ e ∈ db.elements, e.ID = r.ElementID ∧ e.Name = c.Element) ∧
  (∃ p ∈ db.paths, p.ID = r.PathID ∧ p.Name = c.Path)

/-- The column defaults of `characters` as a row (`default:4`, `default:100`,
`default:0`; no default elsewhere) -/
def characterDefaults : Character := ⟨"", "", "", 0, 0, 4, 100, 0⟩

/-- The row an upsert of a character starts from: the row with that id, or
the column defaults when there is none -/
def baseCharacter (db : Store) (id : String) : Character :=
  (firstCharacter id db).getD characterDefaults

/-- A store holding one element, one path and the character 1001 with rarity 5 -/
def storeWithMarch : Store :=
  { Store.empty with
    elements := [⟨1, "Ice", ""⟩]
    paths := [⟨1, "Preservation", ""⟩]
    characters := [⟨"1001", "mar7", "March 7th", 1, 1, 5, 101, 3⟩] }

/-- A record for character 1001 whose rarity, base speed and release order are 0 -/
def marchZero : CharacterJSON := ⟨"1001", "mar7", "March 7th", "Preservation", "Ice", 0, 0, 0⟩

/-- A record for character 1001 with rarity 4 -/
def marchFour : CharacterJSON := ⟨"1001", "mar7", "March 7th", "Preservation", "Ice", 4, 101, 3⟩

/-- A record naming an element that has no row -/
def voidRecord : CharacterJSON := ⟨"9999", "void", "Nobody", "Preservation", "Void", 5, 100, 9⟩

/-- The table after an accepted `Where(key).Assign(v).FirstOrCreate(&x)`: the
first row matching the key is replaced by `assign` of it, or `create` is
appended when no row matches -/
def upsertRows {α : Type} (key : α → Bool) (assign : α → α) (create : α) (rows : List α) :
    List α :=
  match rows.find? key with
  | some found => replaceFirst key (assign found) rows
  | none => rows ++ [create]

/-- The store after the build-set upsert of the loop body, whose result the
code does not look at -/
def writeBuildSet (fl : Faults) (bid rid i : Nat) (db : Store) : Store :=
  match assignFirstOrCreateBuildSet fl bid rid (buildSetRow bid rid i) db with
  | .error _ => db
  | .ok (_, db2) => db2

/-- The row an accepted upsert leaves at the key: `assign` of the row found,
or `create` -/
def upsertRow {α : Type} (key : α → Bool) (assign : α → α) (create : α) (rows : List α) : α :=
  match rows.find? key with
  | some found => assign found
  | none => create

/-- The `build` variable after the accepted upsert of the build of entry `e` -/
def builtRow (e : String × BuildJSON) (db : Store) : CharacterBuild :=
  upsertRow (fun r => r.CharacterID == e.1) (assignBuild (buildRow e.1 e.2))
    (createBuild (nextID (db.characterBuilds.map (·.ID))) (buildRow e.1 e.2)) db.characterBuilds

/-- The `character_builds` table after the accepted upsert of the build of entry `e` -/
def buildsAfter (e : String × BuildJSON) (db : Store) : List CharacterBuild :=
  upsertRows (fun r => r.CharacterID == e.1) (assignBuild (buildRow e.1 e.2))
    (createBuild (nextID (db.characterBuilds.map (·.ID))) (buildRow e.1 e.2)) db.characterBuilds

/-- Primary keys of the build and relic-set tables are unique -/
def UniqueIDs (db : Store) : Prop :=
  (db.characterBuilds.map (·.ID)).Nodup ∧ (db.relicSets.map (·.ID)).Nodup

instance (db : Store) : Decidable (UniqueIDs db) := by
  unfold UniqueIDs; infer_instance

/-- The recommended sets of character `k` are ranked by position: the build row
of `k` exists and, for every index `j` of `names`, the relic set named
`names[j]` exists and the build-set row keyed by the two ids has priority
`j + 1` -/
def SetsRanked (db : Store) (k : String) (names : List String) : Prop :=
  ∃ build, db.characterBuilds.find? (fun r => r.CharacterID == k) = some build ∧
    ∀ (j : Nat) (n : String), names[j]? = some n →
      ∃ rs, db.relicSets.find? (fun r => r.Name == n) = some rs ∧
        ∃ row, db.characterBuildSets.find?
            (fun r => r.BuildID == build.ID && r.RelicSetID == rs.ID) = some row ∧
          row.Priority = (j : Int) + 1

/-- A build record recommending the sets A, B, C in that order -/
def buildABC : BuildJSON := ⟨"March 7th", [("DEF", f64_1)], ⟨"DEF%", "SPD", "DEF%", "ERR%"⟩, ["A", "B", "C"]⟩

/-- The same build record with the sets C, A -/
def buildCA : BuildJSON := ⟨"March 7th", [("DEF", f64_1)], ⟨"DEF%", "SPD", "DEF%", "ERR%"⟩, ["C", "A"]⟩

/-- What the body of the skill loop does to the skill table, the character
table being `chars` -/
def skillRowsStep (fl : Faults) (chars : List Character) (rows : List CharacterSkill)
    (e : String × SkillJSON) : List CharacterSkill :=
  if chars.find? (fun r => r.ID == e.1) = none ∨ fl (.skill e.1) = true then rows
  else upsertRows (fun r => r.CharacterID == e.1) (assignSkill (skillRow e.1 e.2))
    (createSkill (nextID (rows.map (·.ID))) (skillRow e.1 e.2)) rows

/-- What the body of the substat loop does to the substat table -/
def substatRowsStep (fl : Faults) (bid : Nat) (rows : List CharacterBuildSubstat)
    (e : String × Float64) : List CharacterBuildSubstat :=
  if fl (.substat bid e.1) = true then rows
  else upsertRows (fun r => r.BuildID == bid && r.StatName == e.1)
    (assignSubstat (substatRow bid e.1 e.2))
    (createSubstat (nextID (rows.map (·.ID))) (substatRow bid e.1 e.2)) rows

/-- What the `FirstOrCreate` of a relic set does to the relic-set table, with
the value of `set.ID` afterwards -/
def relicRowsLoad (fl : Faults) (n : String) (rels : List RelicSet) : Nat × List RelicSet :=
  if fl (.relicSet n) = true then (0, rels)
  else match rels.find? (fun r => r.Name == n) with
    | some rs => (rs.ID, rels)
    | none => (nextID (rels.map (·.ID)), rels ++ [createRelicSet (nextID (rels.map (·.ID))) n])

/-- What the upsert of a build set does to the build-set table -/
def buildSetRowsWrite (fl : Faults) (bid rid i : Nat) (rels : List RelicSet)
    (rows : List CharacterBuildSet) : List CharacterBuildSet :=
  if fl (.buildSet bid rid) = true then rows
  else if rows.find? (fun r => r.BuildID == bid && r.RelicSetID == rid) = none
      ∧ rels.any (fun r => r.ID == rid) = false then rows
  else upsertRows (fun r => r.BuildID == bid && r.RelicSetID == rid)
    (assignBuildSet (buildSetRow bid rid i))
    (createBuildSet (nextID (rows.map (·.ID))) (buildSetRow bid rid i)) rows

/-- What the body of the set loop does to the relic-set and build-set tables -/
def setStep (fl : Faults) (bid : Nat) (t : List RelicSet × List CharacterBuildSet)
    (jn : Nat × String) : List RelicSet × List CharacterBuildSet :=
  ((relicRowsLoad fl jn.2 t.1).2,
    buildSetRowsWrite fl bid (relicRowsLoad fl jn.2 t.1).1 jn.1 (relicRowsLoad fl jn.2 t.1).2 t.2)

/-- Relic-set ids are unique and non-zero, and no build-set row refers to the
relic-set id 0 -/
def SetsValid (t : List RelicSet × List CharacterBuildSet) : Prop :=
  (t.1.map (·.ID)).Nodup ∧ (∀ r ∈ t.1, r.ID ≠ 0) ∧ (∀ b ∈ t.2, b.RelicSetID ≠ 0)

instance (t : List RelicSet × List CharacterBuildSet) : Decidable (SetsValid t) := by
  unfold SetsValid; infer_instance

/-- What the body of the build loop does to the store -/
def buildStep (fl : Faults) (db : Store) (e : String × BuildJSON) : Store :=
  if firstCharacter e.1 db = none ∨ fl (.build e.1) = true then db
  else
    { db with
      characterBuilds := buildsAfter e db
      characterBuildSubstats :=
        e.2.Substats.foldl (substatRowsStep fl (builtRow e db).ID) db.characterBuildSubstats
      relicSets := ((e.2.Sets.enumFrom 0).foldl (setStep fl (builtRow e db).ID)
        (db.relicSets, db.characterBuildSets)).1
      characterBuildSets := ((e.2.Sets.enumFrom 0).foldl (setStep fl (builtRow e db).ID)
        (db.relicSets, db.characterBuildSets)).2 }

/-- Build ids are unique, relic-set ids are unique and non-zero, and no build-set
row refers to the relic-set id 0 -/
def ValidKeys (db : Store) : Prop :=
  (db.characterBuilds.map (·.ID)).Nodup ∧ SetsValid (db.relicSets, db.characterBuildSets)

instance (db : Store) : Decidable (ValidKeys db) := by
  unfold ValidKeys; infer_instance

/-- Whether the storage layer accepts the upsert of `char` into `rows`: the call
is not rejected and no other row holds the `charId` the row is to get -/
def characterAccepted (fl : Faults) (char : Character) (rows : List Character) : Bool :=
  !fl (.character char.ID) &&
  !rows.any (fun r => r.ID != char.ID &&
    r.CharID == (upsertRow (fun r => r.ID == char.ID) (assignCharacter char)
      (createCharacter char) rows).CharID)

/-- The character table after an accepted upsert of `char` -/
def charactersAfter (char : Character) (rows : List Character) : List Character :=
  upsertRows (fun r => r.ID == char.ID) (assignCharacter char) (createCharacter char) rows

/-- What the body of the character loop does to the character table -/
def characterRowsStep (fl : Faults) (em pm : NameMap) (rows : List Character)
    (c : CharacterJSON) : List Character :=
  match em c.Element, pm c.Path with
  | some eid, some pid =>
    if characterAccepted fl (characterRow c eid pid) rows = true then
      charactersAfter (characterRow c eid pid) rows
    else rows
  | _, _ => rows

/-- The record row `char` is settled in `rows`: the call is accepted, the row
with its id already holds its non-zero fields, and no other row holds that
row's `charId` -/
def RowStable (fl : Faults) (char : Character) (rows : List Character) : Prop :=
  fl (.character char.ID) = false ∧
  ∃ f, rows.find? (fun r => r.ID == char.ID) = some f ∧ assignCharacter char f = f ∧
    rows.any (fun r => r.ID != char.ID && r.CharID == f.CharID) = false

/-- The record `c` is settled in `rows` -/
def RecordStable (fl : Faults) (em pm : NameMap) (c : CharacterJSON) (rows : List Character) :
    Prop :=
  ∀ eid pid, em c.Element = some eid → pm c.Path = some pid →
    RowStable fl (characterRow c eid pid) rows

/-- What the two reference seeders do to the store when no call is rejected -/
def referenceStage (fl : Faults) (db : Store) : Store :=
  (seedPathsLoop fl paths (seedElementsLoop fl elements db).1).1

/-- What the character loop does to the store -/
def charactersStage (fl : Faults) (cs : List CharacterJSON) (db : Store) : Store :=
  { db with
    characters := cs.foldl (characterRowsStep fl (elementMap db) (pathMap db)) db.characters }

/-- What the skill loop does to the store -/
def skillsStage (fl : Faults) (ss : List (String × SkillJSON)) (db : Store) : Store :=
  { db with
    characterSkills := ss.foldl (skillRowsStep fl db.characters) db.characterSkills }

/-- What the build loop does to the store -/
def buildsStage (fl : Faults) (bs : List (String × BuildJSON)) (db : Store) : Store :=
  bs.foldl (buildStep fl) db

/-- The store a run without error ends in -/
def seedStore (fl : Faults) (cs : List CharacterJSON) (ss : List (String × SkillJSON))
    (bs : List (String × BuildJSON)) (db : Store) : Store :=
  buildsStage fl bs (skillsStage fl ss (charactersStage fl cs (referenceStage fl db)))

/-- The lines a run of `Seed` appends to the log -/
def printed (fl : Faults) (files : DataFiles) (st : State) : List LogEntry :=
  (Seed fl files st).1.log.drop st.log.length

/-- The line printed when the upsert of a character fails -/
def LogEntry.isCharacterFailure : LogEntry → Bool
  | .characterFailed _ _ => true
  | _ => false

/-- A record for a second character, 1002, carrying the `charId` of 1001 -/
def marchTwin : CharacterJSON :=
  ⟨"1002", "mar7", "March 7th (Hunt)", "Preservation", "Ice", 4, 101, 4⟩

/-- A record for character 1001 giving it another `charId` -/
def marchRenamed : CharacterJSON :=
  ⟨"1001", "mar7b", "March 7th", "Preservation", "Ice", 4, 101, 3⟩

/-- Data files holding the records `marchTwin`, `marchRenamed` and nothing else -/
def twinFiles : DataFiles := ⟨.parsed [marchTwin, marchRenamed], .parsed [], .parsed []⟩

/-- A character list in which character 1002 is listed three times, with the
`charId` values `dan`, `danIL`, `danPT` and the rarities 5, 4, 0, followed by a
character 1003 with the `charId` `danIL` -/
def repeatedRecords : List CharacterJSON :=
  [⟨"1002", "dan", "Dan Heng", "Preservation", "Ice", 5, 110, 5⟩,
   ⟨"1002", "danIL", "Dan Heng", "Preservation", "Ice", 4, 110, 5⟩,
   ⟨"1002", "danPT", "Dan Heng", "Preservation", "Ice", 0, 110, 5⟩,
   ⟨"1003", "danIL", "Imbibitor Lunae", "Preservation", "Ice", 5, 102, 6⟩]

/-- Data files in which character 1002 is listed three times, with the
`charId` values `dan`, `danIL`, `danPT` and the rarities 5, 4, 0, followed by a
character 1003 with the `charId` `danIL` -/
def repeatedFiles : DataFiles :=
  ⟨.parsed repeatedRecords, .parsed [], .parsed []⟩

/-- A build record that lists the set A twice -/
def buildABA : BuildJSON :=
  ⟨"March 7th", [("DEF", f64_1)], ⟨"DEF%", "SPD", "DEF%", "ERR%"⟩, ["A", "B", "A"]⟩

/-- A skill record -/
def marchSkills : SkillJSON :=
  ⟨f64_1, f64_2, f64_3, 20, 30, 120, "normal", "", 500, f64_0_05, f64_0_5⟩

/-- The build-set write for `(bid, rid)` inserts no row: it is rejected, or
fails on the foreign key, or finds its row -/
def InPlace (fl : Faults) (bid rid : Nat) (rels : List RelicSet)
    (rows : List CharacterBuildSet) : Prop :=
  fl (.buildSet bid rid) = true ∨
  (rows.find? (fun r => r.BuildID == bid && r.RelicSetID == rid) = none ∧
    rels.any (fun r => r.ID == rid) = false) ∨
  (rows.find? (fun r => r.BuildID == bid && r.RelicSetID == rid)).isSome = true

/-- The set named `n` is settled for build `bid`: loading it inserts no relic
set, and writing its build-set row inserts no row -/
def SetSettled (fl : Faults) (bid : Nat) (t : List RelicSet × List CharacterBuildSet)
    (n : String) : Prop :=
  (relicRowsLoad fl n t.1).2 = t.1 ∧ InPlace fl bid (relicRowsLoad fl n t.1).1 t.1 t.2

/-- The state when `seedElements` has returned -/
def afterElements (fl : Faults) (st : State) : State :=
  (seedElements fl (st.logf .seedingStarted)).1

/-- The state when `seedPaths` has returned -/
def afterPaths (fl : Faults) (st : State) : State :=
  (seedPaths fl (afterElements fl st)).1

/-- The state when `seedCharacters` has returned -/
def afterCharacters (fl : Faults) (files : DataFiles) (st : State) : State :=
  (seedCharacters fl files.characters (afterPaths fl st)).1

/-- The state when `seedSkills` has returned -/
def afterSkills (fl : Faults) (files : DataFiles) (st : State) : State :=
  (seedSkills fl files.skills (afterCharacters fl files st)).1

/-- Data files in which `skills.json` is missing -/
def noSkillsFiles : DataFiles :=
  ⟨.parsed [marchFour], .unreadable "open skills.json: no such file or directory",
    .parsed [("1001", buildABC)]⟩

/-- Whether the element name and the path name of a record are in the lookup maps -/
def resolvable (em pm : NameMap) (c : CharacterJSON) : Bool :=
  (em c.Element).isSome && (pm c.Path).isSome

/-- A record for character 1002 -/
def danHeng : CharacterJSON := ⟨"1002", "dan", "Dan Heng", "The Hunt", "Wind", 4, 110, 5⟩

/-- A record naming a path that is not compiled in -/
def voyager : CharacterJSON := ⟨"1003", "himeko", "Himeko", "Voyage", "Fire", 5, 96, 6⟩

/-- No two substat rows share `(buildId, statName)`, no two build-set rows share
`(buildId, relicSetId)`, no two relic sets share a name -/
def ChildKeysUnique (db : Store) : Prop :=
  (db.characterBuildSubstats.map (fun r => (r.BuildID, r.StatName))).Nodup ∧
  (db.characterBuildSets.map (fun r => (r.BuildID, r.RelicSetID))).Nodup ∧
  (db.relicSets.map (·.Name)).Nodup

instance (db : Store) : Decidable (ChildKeysUnique db) := by
  unfold ChildKeysUnique; infer_instance

/-- The weight an upsert of `(bid, stat)` starts from: the weight of the row
with that key, or the column default 0.5 when there is none -/
def baseWeight (rows : List CharacterBuildSubstat) (bid : Nat) (stat : String) : Float64 :=
  ((rows.find? (fun r => r.BuildID == bid && r.StatName == stat)).map (·.Weight)).getD f64_0_5

/-- A store holding character 1001, its build (id 1) and the substat row
`SPD` of that build with weight 0.8 -/
def storeWithBuild : Store :=
  { storeWithMarch with
    characterBuilds := [⟨1, "1001", "DEF%", "SPD", "DEF%", "ERR%"⟩]
    characterBuildSubstats := [⟨1, 1, "SPD", f64_0_8⟩] }

/-- A build record whose substat weights are 0 -/
def buildZeroWeights : BuildJSON :=
  ⟨"March 7th", [("SPD", ⟨0⟩), ("DEF", ⟨0⟩)], ⟨"DEF%", "SPD", "DEF%", "ERR%"⟩, []⟩

/-- A build record with the weight 0.001 for `SPD` and the weight 0 for `DEF` -/
def buildSpeed : BuildJSON :=
  ⟨"March 7th", [("SPD", f64_0_001), ("DEF", ⟨0⟩)], ⟨"DEF%", "SPD", "DEF%", "ERR%"⟩, []⟩

/-- The column defaults of `character_skills` as a row (1.0, 1.0, 2.0, 20, 30,
120, normal, 500, 0.05, 0.50; `passive` has none) -/
def skillDefaults : CharacterSkill :=
  ⟨0, "", f64_1, f64_1, f64_2, 20, 30, 120, "normal", "", 500, f64_0_05, f64_0_5⟩

/-- The row an upsert of the skills of `k` starts from: the row of `k`, or the
column defaults when there is none -/
def baseSkill (rows : List CharacterSkill) (k : String) : CharacterSkill :=
  (rows.find? (fun r => r.CharacterID == k)).getD skillDefaults

/-- A store holding character 1001 and its skill row -/
def storeWithSkill : Store :=
  { storeWithMarch with
    characterSkills :=
      [⟨1, "1001", f64_1_5, f64_2_5, f64_4, 25, 35, 130, "enhance", "Freeze", 600, f64_0_1, f64_0_7⟩] }

/-- A skill record with a basic multiplier of 0.001, off the grid of the
`decimal(4,2)` column, an ult multiplier of 0, a skill energy of 0 and a crit
damage of -0 -/
def fineSkills : SkillJSON :=
  ⟨f64_0_001, f64_2, ⟨0⟩, 20, 0, 120, "normal", "", 500, f64_0_05, ⟨0x8000000000000000⟩⟩

/-- A skill record whose values are 0 and the empty string -/
def skillZero : SkillJSON := ⟨⟨0⟩, ⟨0⟩, ⟨0⟩, 0, 0, 0, "", "", 0, ⟨0⟩, ⟨0⟩⟩

/-- The row an accepted skill upsert for `k` leaves, from the row it starts from -/
def mergedSkill (v : SkillJSON) (base row : CharacterSkill) : Prop :=
  row.BasicMultiplier = (if v.BasicMultiplier.isZero then base.BasicMultiplier
    else v.BasicMultiplier) ∧
  row.SkillMultiplier = (if v.SkillMultiplier.isZero then base.SkillMultiplier
    else v.SkillMultiplier) ∧
  row.UltMultiplier = (if v.UltMultiplier.isZero then base.UltMultiplier else v.UltMultiplier) ∧
  row.BasicEnergy = (if v.BasicEnergy = 0 then base.BasicEnergy else v.BasicEnergy) ∧
  row.SkillEnergy = (if v.SkillEnergy = 0 then base.SkillEnergy else v.SkillEnergy) ∧
  row.UltCost = (if v.UltCost = 0 then base.UltCost else v.UltCost) ∧
  row.UltType = (if v.UltType = "" then base.UltType else v.UltType) ∧
  row.Passive = (if v.Passive = "" then base.Passive else v.Passive) ∧
  row.BaseAtk = (if v.BaseAtk = 0 then base.BaseAtk else v.BaseAtk) ∧
  row.BaseCritRate = (if v.BaseCritRate.isZero then base.BaseCritRate else v.BaseCritRate) ∧
  row.BaseCritDmg = (if v.BaseCritDmg.isZero then base.BaseCritDmg else v.BaseCritDmg)

/-- A store holding character 1001 and the relic set A with a type -/
def storeWithRelic : Store :=
  { storeWithMarch with relicSets := [⟨1, "A", "relic"⟩] }

/-- A build map with an entry for character 1001 listing A, B, A and an entry
for a character that has no row, listing Z -/
def buildsWithStranger : List (String × BuildJSON) :=
  [("1001", buildABA),
   ("9999", ⟨"Nobody", [], ⟨"HP%", "SPD", "HP%", "ERR%"⟩, ["Z"]⟩)]

/-- The number of entries `seedBuilds` counts: the character exists and the
build upsert is accepted -/
def buildsCounted (fl : Faults) (db : Store) (m : List (String × BuildJSON)) : Nat :=
  (m.filter (fun e => (firstCharacter e.1 db).isSome && !fl (.build e.1))).length

/-- The warnings `seedBuilds` prints: one for each entry whose character exists
and whose build upsert is rejected -/
def buildsFailed (fl : Faults) (db : Store) (m : List (String × BuildJSON)) : List LogEntry :=
  (m.filter (fun e => (firstCharacter e.1 db).isSome && fl (.build e.1))).map
    (fun e => LogEntry.buildFailed e.1 .rejected)

/-- A storage layer that rejects every substat write and every build-set write -/
def rejectChildren : Faults := fun c =>
  match c with
  | .substat _ _ => true
  | .buildSet _ _ => true
  | _ => false

/-- A storage layer that rejects every substat write and nothing else -/
def rejectSubstats : Faults := fun c =>
  match c with
  | .substat _ _ => true
  | _ => false

/-- The row `r` is a build-set row of the build of character `k` for the relic
set `s`, in a store with valid keys -/
def DroppedRow (db : Store) (k : String) (s : RelicSet) (r : CharacterBuildSet) : Prop :=
  ValidKeys db ∧ s ∈ db.relicSets ∧ r ∈ db.characterBuildSets ∧ r.RelicSetID = s.ID ∧
    ∃ build, db.characterBuilds.find? (fun b => b.CharacterID == k) = some build ∧
      build.ID = r.BuildID

/-- The state after the builds of the map {1001: sets A, B, C} have been seeded
into the store holding character 1001 -/
def seededABC : State :=
  (seedBuilds noFaults (.parsed [("1001", buildABC)]) ⟨storeWithMarch, []⟩).1

/-- A build record for character 1001 that lists the set A twice -/
def buildAA : BuildJSON := ⟨"March 7th", [("DEF", f64_1)], ⟨"DEF%", "SPD", "DEF%", "ERR%"⟩, ["A", "A"]⟩

/-- A store holding character 1001 with its skill row, its build row and a
substat row of that build -/
def storeWithRows : Store :=
  { storeWithBuild with characterSkills := storeWithSkill.characterSkills }

/-- Three data files: the characters 1001 and 1002, and skills and builds for
1001, 1002 and for the id 9999, which no character has -/
def orphanFiles : DataFiles :=
  ⟨.parsed [marchFour, danHeng],
    .parsed [("1001", marchSkills), ("9999", marchSkills), ("1002", fineSkills)],
    .parsed [("9999", buildAA), ("1001", buildABC), ("1002", buildCA)]⟩

/-- A store in which the element Ice has the id 0, holding character 1001 as a
Fire character -/
def storeZeroIce : Store :=
  { Store.empty with
    elements := [⟨0, "Ice", ""⟩, ⟨5, "Fire", ""⟩]
    paths := [⟨1, "Preservation", ""⟩]
    characters := [⟨"1001", "mar7", "March 7th", 5, 1, 5, 101, 3⟩] }

instance (db : Store) (r : Character) (c : CharacterJSON) : Decidable (RefersTo db r c) := by
  unfold RefersTo; infer_instance

/-- The relic-set id the set loop uses for the name `n` on the table `rels`: the
id of the row found or inserted, or 0 when the call is rejected -/
def setKey (fl : Faults) (rels : List RelicSet) (n : String) : Nat :=
  (relicRowsLoad fl n rels).1

/-- Every name of `l` is settled, and the step of every last occurrence of a
relic-set id in `l` writes nothing -/
def SetsDone (fl : Faults) (bid : Nat) (l : List (Nat × String))
    (t : List RelicSet × List CharacterBuildSet) : Prop :=
  (∀ jn ∈ l, SetSettled fl bid t jn.2) ∧
  (∀ pre jn post, l = pre ++ jn :: post →
    setKey fl t.1 jn.2 ∉ post.map (fun x => setKey fl t.1 x.2) → setStep fl bid t jn = t)

/-- The build entry `e` is done in `db`: processing it again writes nothing -/
def BuildDone (fl : Faults) (e : String × BuildJSON) (db : Store) : Prop :=
  firstCharacter e.1 db = none ∨ fl (.build e.1) = true ∨
  (buildsAfter e db = db.characterBuilds ∧
    (∀ s ∈ e.2.Substats,
      substatRowsStep fl (builtRow e db).ID db.characterBuildSubstats s =
        db.characterBuildSubstats) ∧
    SetsDone fl (builtRow e db).ID (e.2.Sets.enumFrom 0)
      (db.relicSets, db.characterBuildSets))

/-- Two entries of the build map that hold the same record: same key, same
build, same set list, and the same substat map, possibly visited in another
order -/
def SameBuild (a b : String × BuildJSON) : Prop :=
  a.1 = b.1 ∧ a.2.Name = b.2.Name ∧ a.2.MainStats = b.2.MainStats ∧ a.2.Sets = b.2.Sets ∧
    a.2.Substats.Perm b.2.Substats

/-- The records of the list whose upsert the storage layer refuses at their
turn, `rows` being the character table when the loop starts -/
def refusedRecords (fl : Faults) (em pm : NameMap) :
    List Character → List CharacterJSON → List CharacterJSON
  | _, [] => []
  | rows, c :: rest =>
    (match em c.Element, pm c.Path with
      | some eid, some pid =>
        if characterAccepted fl (characterRow c eid pid) rows = true then [] else [c]
      | _, _ => []) ++
    refusedRecords fl em pm (characterRowsStep fl em pm rows c) rest

/-- Whether the storage layer refuses the upsert of record `c` on the table `rows` -/
def refusedOn (fl : Faults) (em pm : NameMap) (rows : List Character) (c : CharacterJSON) :
    Bool :=
  match em c.Element, pm c.Path with
  | some eid, some pid => !characterAccepted fl (characterRow c eid pid) rows
  | _, _ => false

/-- The character records whose upsert fails during a run of `Seed` from `st` -/
def failedCharacters (fl : Faults) (cs : List CharacterJSON) (st : State) :
    List CharacterJSON :=
  refusedRecords fl (elementMap (afterPaths fl st).db) (pathMap (afterPaths fl st).db)
    (afterPaths fl st).db.characters cs

/-- Whether the upsert of record `c` fails on the store `db` -/
def failsOn (fl : Faults) (db : Store) (c : CharacterJSON) : Bool :=
  refusedOn fl (elementMap db) (pathMap db) db.characters c

/-- The character named by a line that reports a failed character upsert -/
def LogEntry.failedCharacter : LogEntry → Option String
  | .characterFailed name _ => some name
  | _ => none

/-- A store holding character 1001 and a relic set with the id 0 -/
def storeZeroRelic : Store :=
  { storeWithMarch with relicSets := [⟨0, "Z", ""⟩] }

/-- A record for character 1004 -/
def himeko : CharacterJSON := ⟨"1004", "himeko", "Himeko", "Erudition", "Fire", 5, 96, 6⟩

/-- A record for character 1006 -/
def welt : CharacterJSON := ⟨"1006", "welt", "Welt", "Nihility", "Imaginary", 5, 102, 7⟩

/-- A storage layer that rejects every upsert of character 1006 and every
look-up of the relic set Q -/
def flakyLayer : Faults := fun c =>
  match c with
  | .character "1006" => true
  | .relicSet "Q" => true
  | _ => false

/-- A build record with two substats, listing the set Z twice and the set Q -/
def buildZQ : BuildJSON :=
  ⟨"March 7th", [("DEF", f64_1), ("SPD", f64_0_001)], ⟨"DEF%", "SPD", "DEF%", "ERR%"⟩,
    ["Z", "Q", "A", "Z"]⟩

/-- The record `buildZQ` with its substat map visited in the other order -/
def buildZQ2 : BuildJSON :=
  ⟨"March 7th", [("SPD", f64_0_001), ("DEF", f64_1)], ⟨"DEF%", "SPD", "DEF%", "ERR%"⟩,
    ["Z", "Q", "A", "Z"]⟩

/-- A build record that lists the set A only -/
def buildA : BuildJSON := ⟨"March 7th", [("DEF", f64_1)], ⟨"DEF%", "SPD", "DEF%", "ERR%"⟩, ["A"]⟩

/-- A store holding the characters 1001 and 1004, whose build rows share the id 1 -/
def storeTwinBuilds : Store :=
  { storeWithMarch with
    characters := [⟨"1001", "mar7", "March 7th", 1, 1, 5, 101, 3⟩,
      ⟨"1004", "himeko", "Himeko", 1, 1, 5, 96, 6⟩]
    characterBuilds := [⟨1, "1001", "DEF%", "SPD", "DEF%", "ERR%"⟩,
      ⟨1, "1004", "DEF%", "SPD", "DEF%", "ERR%"⟩] }

/-! ## Reference seeder -/

theorem find?_name_some {α : Type} (nm : α → String) (n : String) (l : List α) (r : α)
    (h : l.find? (fun e => nm e == n) = some r) : r ∈ l ∧ nm r = n := by
  have h1 := List.find?_some h
  have h2 := List.mem_of_find?_eq_some h
  exact ⟨h2, by simpa using h1⟩

theorem seedElementsLoop_spec (fl : Faults) (l : List Element) (db : Store) :
    ∃ added : List Element,
      (seedElementsLoop fl l db).1 = { db with elements := db.elements ++ added } ∧
      (∀ a ∈ added, (∃ e ∈ l, a.Name = e.Name ∧ a.IconURL = e.IconURL) ∧
        ∀ e0 ∈ db.elements, e0.Name ≠ a.Name) ∧
      ((seedElementsLoop fl l db).2 = none ↔ ∀ e ∈ l, fl (.element e.Name) = false) ∧
      ((seedElementsLoop fl l db).2 = none →
        ∀ e ∈ l, ∃ r ∈ (seedElementsLoop fl l db).1.elements, r.Name = e.Name) := by
  induction l generalizing db with
  | nil => exact ⟨[], by simp [seedElementsLoop]⟩
  | cons e rest ih =>
    by_cases hf : fl (.element e.Name) = true
    · refine ⟨[], ?_⟩
      simp [seedElementsLoop, firstOrCreateElement, hf]
    · simp only [Bool.not_eq_true] at hf
      cases hfind : db.elements.find? (fun r => r.Name == e.Name) with
      | some found =>
        obtain ⟨added, h1, h2, h3, h4⟩ := ih db
        have hstep : seedElementsLoop fl (e :: rest) db = seedElementsLoop fl rest db := by
          simp [seedElementsLoop, firstOrCreateElement, hf, hfind]
        obtain ⟨hmem, hname⟩ := find?_name_some (fun r : Element => r.Name) e.Name _ _ hfind
        refine ⟨added, by rw [hstep, h1], ?_, ?_, ?_⟩
        · intro a ha
          obtain ⟨⟨e1, he1, hn⟩, hfresh⟩ := h2 a ha
          exact ⟨⟨e1, List.mem_cons_of_mem _ he1, hn⟩, hfresh⟩
        · rw [hstep, h3]; simp [hf]
        · rw [hstep]
          intro hnone x hx
          rcases List.mem_cons.1 hx with rfl | hx
          · rw [h1]
            exact ⟨found, by simp [hmem], hname⟩
          · exact h4 hnone x hx
      | none =>
        let row : Element := { e with ID := nextID (db.elements.map (·.ID)) }
        let db1 : Store := { db with elements := db.elements ++ [row] }
        obtain ⟨added, h1, h2, h3, h4⟩ := ih db1
        have hstep : seedElementsLoop fl (e :: rest) db = seedElementsLoop fl rest db1 := by
          simp [seedElementsLoop, firstOrCreateElement, hf, hfind, db1, row]
        have hfresh : ∀ e0 ∈ db.elements, e0.Name ≠ e.Name := by
          intro e0 he0
          have := List.find?_eq_none.1 hfind e0 he0
          simpa using this
        refine ⟨row :: added, by rw [hstep, h1]; simp [db1], ?_, ?_, ?_⟩
        · intro a ha
          rcases List.mem_cons.1 ha with rfl | ha
          · exact ⟨⟨e, by simp, rfl, rfl⟩, hfresh⟩
          · obtain ⟨⟨e1, he1, hn⟩, hfr⟩ := h2 a ha
            exact ⟨⟨e1, List.mem_cons_of_mem _ he1, hn⟩,
              fun e0 he0 => hfr e0 (by simp [db1, he0])⟩
        · rw [hstep, h3]; simp [hf]
        · rw [hstep]
          intro hnone x hx
          rcases List.mem_cons.1 hx with rfl | hx
          · rw [h1]
            exact ⟨row, by simp [db1], rfl⟩
          · exact h4 hnone x hx

theorem seedPathsLoop_spec (fl : Faults) (l : List Path) (db : Store) :
    ∃ added : List Path,
      (seedPathsLoop fl l db).1 = { db with paths := db.paths ++ added } ∧
      (∀ a ∈ added, (∃ e ∈ l, a.Name = e.Name ∧ a.IconURL = e.IconURL) ∧
        ∀ e0 ∈ db.paths, e0.Name ≠ a.Name) ∧
      ((seedPathsLoop fl l db).2 = none ↔ ∀ e ∈ l, fl (.path e.Name) = false) ∧
      ((seedPathsLoop fl l db).2 = none →
        ∀ e ∈ l, ∃ r ∈ (seedPathsLoop fl l db).1.paths, r.Name = e.Name) := by
  induction l generalizing db with
  | nil => exact ⟨[], by simp [seedPathsLoop]⟩
  | cons e rest ih =>
    by_cases hf : fl (.path e.Name) = true
    · refine ⟨[], ?_⟩
      simp [seedPathsLoop, firstOrCreatePath, hf]
    · simp only [Bool.not_eq_true] at hf
      cases hfind : db.paths.find? (fun r => r.Name == e.Name) with
      | some found =>
        obtain ⟨added, h1, h2, h3, h4⟩ := ih db
        have hstep : seedPathsLoop fl (e :: rest) db = seedPathsLoop fl rest db := by
          simp [seedPathsLoop, firstOrCreatePath, hf, hfind]
        obtain ⟨hmem, hname⟩ := find?_name_some (fun r : Path => r.Name) e.Name _ _ hfind
        refine ⟨added, by rw [hstep, h1], ?_, ?_, ?_⟩
        · intro a ha
          obtain ⟨⟨e1, he1, hn⟩, hfresh⟩ := h2 a ha
          exact ⟨⟨e1, List.mem_cons_of_mem _ he1, hn⟩, hfresh⟩
        · rw [hstep, h3]; simp [hf]
        · rw [hstep]
          intro hnone x hx
          rcases List.mem_cons.1 hx with rfl | hx
          · rw [h1]
            exact ⟨found, by simp [hmem], hname⟩
          · exact h4 hnone x hx
      | none =>
        let row : Path := { e with ID := nextID (db.paths.map (·.ID)) }
        let db1 : Store := { db with paths := db.paths ++ [row] }
        obtain ⟨added, h1, h2, h3, h4⟩ := ih db1
        have hstep : seedPathsLoop fl (e :: rest) db = seedPathsLoop fl rest db1 := by
          simp [seedPathsLoop, firstOrCreatePath, hf, hfind, db1, row]
        have hfresh : ∀ e0 ∈ db.paths, e0.Name ≠ e.Name := by
          intro e0 he0
          have := List.find?_eq_none.1 hfind e0 he0
          simpa using this
        refine ⟨row :: added, by rw [hstep, h1]; simp [db1], ?_, ?_, ?_⟩
        · intro a ha
          rcases List.mem_cons.1 ha with rfl | ha
          · exact ⟨⟨e, by simp, rfl, rfl⟩, hfresh⟩
          · obtain ⟨⟨e1, he1, hn⟩, hfr⟩ := h2 a ha
            exact ⟨⟨e1, List.mem_cons_of_mem _ he1, hn⟩,
              fun e0 he0 => hfr e0 (by simp [db1, he0])⟩
        · rw [hstep, h3]; simp [hf]
        · rw [hstep]
          intro hnone x hx
          rcases List.mem_cons.1 hx with rfl | hx
          · rw [h1]
            exact ⟨row, by simp [db1], rfl⟩
          · exact h4 hnone x hx

theorem seedElements_error (fl : Faults) (st : State) :
    (seedElements fl st).2 = none ↔ ∀ e ∈ elements, fl (.element e.Name) = false := by
  obtain ⟨_, _, _, h3, _⟩ := seedElementsLoop_spec fl elements st.db
  rw [← h3]
  unfold seedElements
  rcases seedElementsLoop fl elements st.db with ⟨db, _ | e⟩ <;> simp

theorem seedPaths_error (fl : Faults) (st : State) :
    (seedPaths fl st).2 = none ↔ ∀ p ∈ paths, fl (.path p.Name) = false := by
  obtain ⟨_, _, _, h3, _⟩ := seedPathsLoop_spec fl paths st.db
  rw [← h3]
  unfold seedPaths
  rcases seedPathsLoop fl paths st.db with ⟨db, _ | e⟩ <;> simp

theorem seedElements_db (fl : Faults) (st : State) :
    (seedElements fl st).1.db = (seedElementsLoop fl elements st.db).1 := by
  unfold seedElements
  rcases seedElementsLoop fl elements st.db with ⟨db, _ | e⟩ <;> simp [State.logf]

theorem seedPaths_db (fl : Faults) (st : State) :
    (seedPaths fl st).1.db = (seedPathsLoop fl paths st.db).1 := by
  unfold seedPaths
  rcases seedPathsLoop fl paths st.db with ⟨db, _ | e⟩ <;> simp [State.logf]

theorem seedCharacters_error (fl : Faults) (file : Source (List CharacterJSON)) (st : State) :
    (seedCharacters fl file st).2 = none ↔ file.isParsed = true := by
  cases file <;> simp [seedCharacters, Source.isParsed]

theorem seedSkills_error (fl : Faults) (file : Source (List (String × SkillJSON))) (st : State) :
    (seedSkills fl file st).2 = none ↔ file.isParsed = true := by
  cases file <;> simp [seedSkills, Source.isParsed]

theorem seedBuilds_error (fl : Faults) (file : Source (List (String × BuildJSON))) (st : State) :
    (seedBuilds fl file st).2 = none ↔ file.isParsed = true := by
  cases file <;> simp [seedBuilds, Source.isParsed]

/-- C9: the reference seeder only adds rows.  Whatever the store and whatever
the storage layer rejects, `seedElements` leaves every table but `elements`
untouched and leaves every `Element` row that was there exactly as found (id,
name and icon URL); the rows it appends carry compiled-in names for which no
row existed.  It returns no error exactly when none of its 7 calls is rejected,
and then every one of the 7 compiled-in names has a row.  The same holds for
`seedPaths` and its 8 names. -/
theorem reference_seeder_create_if_absent (fl : Faults) (st : State) :
    ((∃ added : List Element,
        (seedElements fl st).1.db = { st.db with elements := st.db.elements ++ added } ∧
        ∀ a ∈ added, (∃ e ∈ elements, a.Name = e.Name ∧ a.IconURL = e.IconURL) ∧
          ∀ e0 ∈ st.db.elements, e0.Name ≠ a.Name) ∧
      ((seedElements fl st).2 = none ↔ ∀ e ∈ elements, fl (.element e.Name) = false) ∧
      ((seedElements fl st).2 = none →
        ∀ e ∈ elements, ∃ r ∈ (seedElements fl st).1.db.elements, r.Name = e.Name) ∧
      elements.length = 7) ∧
    ((∃ added : List Path,
        (seedPaths fl st).1.db = { st.db with paths := st.db.paths ++ added } ∧
        ∀ a ∈ added, (∃ e ∈ paths, a.Name = e.Name ∧ a.IconURL = e.IconURL) ∧
          ∀ e0 ∈ st.db.paths, e0.Name ≠ a.Name) ∧
      ((seedPaths fl st).2 = none ↔ ∀ p ∈ paths, fl (.path p.Name) = false) ∧
      ((seedPaths fl st).2 = none →
        ∀ e ∈ paths, ∃ r ∈ (seedPaths fl st).1.db.paths, r.Name = e.Name) ∧
      paths.length = 8) := by
  refine ⟨⟨?_, seedElements_error fl st, ?_, rfl⟩, ⟨?_, seedPaths_error fl st, ?_, rfl⟩⟩
  · obtain ⟨added, h1, h2, _, _⟩ := seedElementsLoop_spec fl elements st.db
    exact ⟨added, by rw [seedElements_db, h1], h2⟩
  · obtain ⟨_, _, _, h3, h4⟩ := seedElementsLoop_spec fl elements st.db
    intro hnone
    rw [seedElements_db]
    exact h4 (h3.2 ((seedElements_error fl st).1 hnone))
  · obtain ⟨added, h1, h2, _, _⟩ := seedPathsLoop_spec fl paths st.db
    exact ⟨added, by rw [seedPaths_db, h1], h2⟩
  · obtain ⟨_, _, _, h3, h4⟩ := seedPathsLoop_spec fl paths st.db
    intro hnone
    rw [seedPaths_db]
    exact h4 (h3.2 ((seedPaths_error fl st).1 hnone))

/-- C10: `Seed` returns a non-nil error exactly when one of the calls of the
element or path seeder is rejected, or one of the three data files cannot be
read or parsed.  Nothing else makes it fail: the statement holds for every
store, every content of the files and every behaviour of the storage layer on
the character, skill, build, substat, relic-set and build-set calls. -/
theorem seed_fails_exactly_on_fatal (fl : Faults) (files : DataFiles) (st : State) :
    (Seed fl files st).2 ≠ none ↔
      ((∃ e ∈ elements, fl (.element e.Name) = true) ∨
       (∃ p ∈ paths, fl (.path p.Name) = true) ∨
       files.characters.isParsed = false ∨
       files.skills.isParsed = false ∨
       files.builds.isParsed = false) := by
  have key : (Seed fl files st).2 = none ↔
      ((∀ e ∈ elements, fl (.element e.Name) = false) ∧
       (∀ p ∈ paths, fl (.path p.Name) = false) ∧
       files.characters.isParsed = true ∧
       files.skills.isParsed = true ∧
       files.builds.isParsed = true) := by
    unfold Seed
    dsimp only
    have h1 := seedElements_error fl (st.logf .seedingStarted)
    generalize seedElements fl (st.logf .seedingStarted) = r1 at h1 ⊢
    rcases r1 with ⟨st1, _ | e1⟩ <;> dsimp only
    · have h2 := seedPaths_error fl st1
      generalize seedPaths fl st1 = r2 at h2 ⊢
      rcases r2 with ⟨st2, _ | e2⟩ <;> dsimp only
      · have h3 := seedCharacters_error fl files.characters st2
        generalize seedCharacters fl files.characters st2 = r3 at h3 ⊢
        rcases r3 with ⟨st3, _ | e3⟩ <;> dsimp only
        · have h4 := seedSkills_error fl files.skills st3
          generalize seedSkills fl files.skills st3 = r4 at h4 ⊢
          rcases r4 with ⟨st4, _ | e4⟩ <;> dsimp only
          · have h5 := seedBuilds_error fl files.builds st4
            generalize seedBuilds fl files.builds st4 = r5 at h5 ⊢
            rcases r5 with ⟨st5, _ | e5⟩ <;> dsimp only
            · simp only [true_iff] at h1 h2 h3 h4 h5
              simp only [true_iff]
              exact ⟨h1, h2, h3, h4, h5⟩
            · simp only [reduceCtorEq, false_iff] at h5
              simp only [reduceCtorEq, false_iff]
              exact fun h => h5 h.2.2.2.2
          · simp only [reduceCtorEq, false_iff] at h4
            simp only [reduceCtorEq, false_iff]
            exact fun h => h4 h.2.2.2.1
        · simp only [reduceCtorEq, false_iff] at h3
          simp only [reduceCtorEq, false_iff]
          exact fun h => h3 h.2.2.1
      · simp only [reduceCtorEq, false_iff] at h2
        simp only [reduceCtorEq, false_iff]
        exact fun h => h2 h.2.1
    · simp only [reduceCtorEq, false_iff] at h1
      simp only [reduceCtorEq, false_iff]
      exact fun h => h1 h.1
  rw [Ne, key]
  constructor
  · intro h
    by_contra hc
    push_neg at hc
    apply h
    refine ⟨?_, ?_, ?_, ?_, ?_⟩
    · intro e he
      cases hfe : fl (.element e.Name)
      · rfl
      · exact absurd hfe (by simpa using hc.1 e he)
    · intro p hp
      cases hfp : fl (.path p.Name)
      · rfl
      · exact absurd hfp (by simpa using hc.2.1 p hp)
    · simpa using hc.2.2.1
    · simpa using hc.2.2.2.1
    · simpa using hc.2.2.2.2
  · rintro (⟨e, he, hf⟩ | ⟨p, hp, hf⟩ | h | h | h) hall
    · simp [hall.1 e he] at hf
    · simp [hall.2.1 p hp] at hf
    · simp [hall.2.2.1] at h
    · simp [hall.2.2.2.1] at h
    · simp [hall.2.2.2.2] at h

/-! ## Tables a seeder step leaves alone -/

theorem firstOrCreateRelicSet_frame (fl : Faults) (n : String) (db : Store)
    (row : RelicSet) (db1 : Store) (h : firstOrCreateRelicSet fl n db = .ok (row, db1)) :
    ∃ t, db1 = { db with relicSets := t } := by
  unfold firstOrCreateRelicSet at h
  split at h
  · cases h
  · split at h
    · cases h; exact ⟨_, rfl⟩
    · cases h; exact ⟨_, rfl⟩

theorem assignFirstOrCreateBuildSet_frame (fl : Faults) (b r : Nat) (bs : CharacterBuildSet)
    (db : Store) (row : CharacterBuildSet) (db1 : Store)
    (h : assignFirstOrCreateBuildSet fl b r bs db = .ok (row, db1)) :
    ∃ t, db1 = { db with characterBuildSets := t } := by
  unfold assignFirstOrCreateBuildSet at h
  split at h
  · cases h
  · split at h
    · cases h; exact ⟨_, rfl⟩
    · split at h
      · cases h; exact ⟨_, rfl⟩
      · cases h

theorem assignFirstOrCreateSubstat_frame (fl : Faults) (b : Nat) (stat : String)
    (sub : CharacterBuildSubstat) (db : Store) (row : CharacterBuildSubstat) (db1 : Store)
    (h : assignFirstOrCreateSubstat fl b stat sub db = .ok (row, db1)) :
    ∃ t, db1 = { db with characterBuildSubstats := t } := by
  unfold assignFirstOrCreateSubstat at h
  split at h
  · cases h
  · split at h
    · cases h; exact ⟨_, rfl⟩
    · cases h; exact ⟨_, rfl⟩

theorem assignFirstOrCreateBuild_frame (fl : Faults) (k : String) (build : CharacterBuild)
    (db : Store) (row : CharacterBuild) (db1 : Store)
    (h : assignFirstOrCreateBuild fl k build db = .ok (row, db1)) :
    ∃ t, db1 = { db with characterBuilds := t } := by
  unfold assignFirstOrCreateBuild at h
  split at h
  · cases h
  · split at h
    · cases h; exact ⟨_, rfl⟩
    · cases h; exact ⟨_, rfl⟩

theorem assignFirstOrCreateSkill_frame (fl : Faults) (k : String) (skill : CharacterSkill)
    (db : Store) (row : CharacterSkill) (db1 : Store)
    (h : assignFirstOrCreateSkill fl k skill db = .ok (row, db1)) :
    ∃ t, db1 = { db with characterSkills := t } := by
  unfold assignFirstOrCreateSkill at h
  split at h
  · cases h
  · split at h
    · cases h; exact ⟨_, rfl⟩
    · cases h; exact ⟨_, rfl⟩

theorem assignFirstOrCreateCharacter_frame (fl : Faults) (char : Character)
    (db : Store) (row : Character) (db1 : Store)
    (h : assignFirstOrCreateCharacter fl char db = .ok (row, db1)) :
    ∃ t, db1 = { db with characters := t } := by
  unfold assignFirstOrCreateCharacter at h
  split at h
  · cases h
  · split at h
    · split at h
      · cases h
      · cases h; exact ⟨_, rfl⟩
    · split at h
      · cases h
      · cases h; exact ⟨_, rfl⟩

theorem seedSubstat_frame (fl : Faults) (b : Nat) (db : Store) (e : String × Float64) :
    ∃ t, seedSubstat fl b db e = { db with characterBuildSubstats := t } := by
  unfold seedSubstat
  split
  · exact ⟨_, rfl⟩
  · rename_i h
    exact assignFirstOrCreateSubstat_frame _ _ _ _ _ _ _ h

theorem foldl_seedSubstat_frame (fl : Faults) (b : Nat) (l : List (String × Float64)) (db : Store) :
    ∃ t, l.foldl (seedSubstat fl b) db = { db with characterBuildSubstats := t } := by
  induction l generalizing db with
  | nil => exact ⟨db.characterBuildSubstats, rfl⟩
  | cons e rest ih =>
    obtain ⟨t1, h1⟩ := seedSubstat_frame fl b db e
    obtain ⟨t2, h2⟩ := ih (seedSubstat fl b db e)
    exact ⟨t2, by rw [List.foldl_cons, h2, h1]⟩

theorem loadRelicSet_frame (fl : Faults) (n : String) (db : Store) :
    ∃ t, (loadRelicSet fl n db).2 = { db with relicSets := t } := by
  unfold loadRelicSet
  split
  · exact ⟨_, rfl⟩
  · rename_i h
    exact firstOrCreateRelicSet_frame _ _ _ _ _ h

theorem seedSet_frame (fl : Faults) (b i : Nat) (n : String) (db : Store) :
    ∃ t u, seedSet fl b i n db = { db with relicSets := t, characterBuildSets := u } := by
  obtain ⟨t, ht⟩ := loadRelicSet_frame fl n db
  unfold seedSet
  split
  · exact ⟨t, db.characterBuildSets, by rw [ht]⟩
  · rename_i h
    obtain ⟨u, hu⟩ := assignFirstOrCreateBuildSet_frame _ _ _ _ _ _ _ h
    exact ⟨t, u, by rw [hu, ht]⟩

theorem seedSets_frame (fl : Faults) (b : Nat) (l : List String) (i : Nat) (db : Store) :
    ∃ t u, seedSets fl b i l db = { db with relicSets := t, characterBuildSets := u } := by
  induction l generalizing db i with
  | nil => exact ⟨_, _, rfl⟩
  | cons n rest ih =>
    obtain ⟨t1, u1, h1⟩ := seedSet_frame fl b i n db
    obtain ⟨t2, u2, h2⟩ := ih (i + 1) (seedSet fl b i n db)
    exact ⟨t2, u2, by rw [seedSets, h2, h1]⟩

theorem seedBuild_frame (fl : Faults) (acc : Nat × State) (e : String × BuildJSON) :
    ∃ t u v w, (seedBuild fl acc e).2.db =
      { acc.2.db with characterBuilds := t, characterBuildSubstats := u, relicSets := v,
                      characterBuildSets := w } := by
  unfold seedBuild
  split
  · exact ⟨_, _, _, _, rfl⟩
  · split
    · exact ⟨_, _, _, _, rfl⟩
    · rename_i row db1 h
      obtain ⟨t, ht⟩ := assignFirstOrCreateBuild_frame _ _ _ _ _ _ h
      obtain ⟨u, hu⟩ := foldl_seedSubstat_frame fl row.ID e.2.Substats db1
      obtain ⟨v, w, hv⟩ := seedSets_frame fl row.ID e.2.Sets 0
        (e.2.Substats.foldl (seedSubstat fl row.ID) db1)
      exact ⟨t, u, v, w, by dsimp only; rw [hv, hu, ht]⟩

theorem seedSkill_frame (fl : Faults) (acc : Nat × State) (e : String × SkillJSON) :
    ∃ t, (seedSkill fl acc e).2.db = { acc.2.db with characterSkills := t } := by
  unfold seedSkill
  split
  · exact ⟨_, rfl⟩
  · split
    · exact ⟨_, rfl⟩
    · rename_i row db1 h
      obtain ⟨t, ht⟩ := assignFirstOrCreateSkill_frame _ _ _ _ _ _ h
      exact ⟨t, ht⟩

theorem seedCharacter_frame (fl : Faults) (em pm : NameMap) (acc : Nat × State)
    (c : CharacterJSON) :
    ∃ t, (seedCharacter fl em pm acc c).2.db = { acc.2.db with characters := t } := by
  unfold seedCharacter
  split
  · exact ⟨_, rfl⟩
  · split
    · exact ⟨_, rfl⟩
    · split
      · exact ⟨_, rfl⟩
      · rename_i row db1 h
        obtain ⟨t, ht⟩ := assignFirstOrCreateCharacter_frame _ _ _ _ _ h
        exact ⟨t, ht⟩

theorem foldl_seedBuild_frame (fl : Faults) (l : List (String × BuildJSON)) (acc : Nat × State) :
    ∃ t u v w, (l.foldl (seedBuild fl) acc).2.db =
      { acc.2.db with characterBuilds := t, characterBuildSubstats := u, relicSets := v,
                      characterBuildSets := w } := by
  induction l generalizing acc with
  | nil => exact ⟨_, _, _, _, rfl⟩
  | cons e rest ih =>
    obtain ⟨t1, u1, v1, w1, h1⟩ := seedBuild_frame fl acc e
    obtain ⟨t2, u2, v2, w2, h2⟩ := ih (seedBuild fl acc e)
    exact ⟨t2, u2, v2, w2, by rw [List.foldl_cons, h2, h1]⟩

theorem foldl_seedSkill_frame (fl : Faults) (l : List (String × SkillJSON)) (acc : Nat × State) :
    ∃ t, (l.foldl (seedSkill fl) acc).2.db = { acc.2.db with characterSkills := t } := by
  induction l generalizing acc with
  | nil => exact ⟨_, rfl⟩
  | cons e rest ih =>
    obtain ⟨t1, h1⟩ := seedSkill_frame fl acc e
    obtain ⟨t2, h2⟩ := ih (seedSkill fl acc e)
    exact ⟨t2, by rw [List.foldl_cons, h2, h1]⟩

theorem foldl_seedCharacter_frame (fl : Faults) (em pm : NameMap) (l : List CharacterJSON)
    (acc : Nat × State) :
    ∃ t, (l.foldl (seedCharacter fl em pm) acc).2.db = { acc.2.db with characters := t } := by
  induction l generalizing acc with
  | nil => exact ⟨_, rfl⟩
  | cons e rest ih =>
    obtain ⟨t1, h1⟩ := seedCharacter_frame fl em pm acc e
    obtain ⟨t2, h2⟩ := ih (seedCharacter fl em pm acc e)
    exact ⟨t2, by rw [List.foldl_cons, h2, h1]⟩

/-! ## Skipped records -/

theorem seedSkill_of_no_character (fl : Faults) (acc : Nat × State) (e : String × SkillJSON)
    (h : firstCharacter e.1 acc.2.db = none) : seedSkill fl acc e = acc := by
  unfold seedSkill; rw [h]

theorem seedBuild_of_no_character (fl : Faults) (acc : Nat × State) (e : String × BuildJSON)
    (h : firstCharacter e.1 acc.2.db = none) : seedBuild fl acc e = acc := by
  unfold seedBuild; rw [h]

theorem foldl_seedSkill_characters (fl : Faults) (l : List (String × SkillJSON))
    (acc : Nat × State) :
    (l.foldl (seedSkill fl) acc).2.db.characters = acc.2.db.characters := by
  obtain ⟨t, ht⟩ := foldl_seedSkill_frame fl l acc
  rw [ht]

theorem foldl_seedBuild_characters (fl : Faults) (l : List (String × BuildJSON))
    (acc : Nat × State) :
    (l.foldl (seedBuild fl) acc).2.db.characters = acc.2.db.characters := by
  obtain ⟨t, u, v, w, ht⟩ := foldl_seedBuild_frame fl l acc
  rw [ht]

theorem firstCharacter_eq_none (k : String) (db : Store) :
    firstCharacter k db = none ↔ ∀ r ∈ db.characters, r.ID ≠ k := by
  simp [firstCharacter]

theorem foldl_seedSkill_skip (fl : Faults) (m1 m2 : List (String × SkillJSON)) (k : String)
    (v : SkillJSON) (acc : Nat × State) (h : firstCharacter k acc.2.db = none) :
    (m1 ++ (k, v) :: m2).foldl (seedSkill fl) acc = (m1 ++ m2).foldl (seedSkill fl) acc := by
  rw [List.foldl_append, List.foldl_append, List.foldl_cons]
  rw [seedSkill_of_no_character]
  unfold firstCharacter at h ⊢
  rw [foldl_seedSkill_characters]
  exact h

theorem foldl_seedBuild_skip (fl : Faults) (m1 m2 : List (String × BuildJSON)) (k : String)
    (v : BuildJSON) (acc : Nat × State) (h : firstCharacter k acc.2.db = none) :
    (m1 ++ (k, v) :: m2).foldl (seedBuild fl) acc = (m1 ++ m2).foldl (seedBuild fl) acc := by
  rw [List.foldl_append, List.foldl_append, List.foldl_cons]
  rw [seedBuild_of_no_character]
  unfold firstCharacter at h ⊢
  rw [foldl_seedBuild_characters]
  exact h

/-! ## Lists: `replaceFirst` and loop invariants -/

theorem foldl_invariant {α β : Type} (P : β → Prop) (f : β → α → β)
    (hstep : ∀ b a, P b → P (f b a)) (l : List α) (b : β) (h : P b) : P (l.foldl f b) := by
  induction l generalizing b with
  | nil => exact h
  | cons a rest ih => exact ih _ (hstep b a h)

theorem replaceFirst_of_find?_none {α : Type} (p : α → Bool) (row : α) (l : List α)
    (h : l.find? p = none) : replaceFirst p row l = l := by
  induction l with
  | nil => rfl
  | cons x xs ih =>
    rw [List.find?_cons] at h
    cases hp : p x
    · rw [hp] at h
      simp only [replaceFirst, hp, Bool.false_eq_true, if_false]
      rw [ih h]
    · rw [hp] at h; cases h

theorem replaceFirst_self {α : Type} (p : α → Bool) (row : α) (l : List α)
    (h : l.find? p = some row) : replaceFirst p row l = l := by
  induction l with
  | nil => rfl
  | cons x xs ih =>
    rw [List.find?_cons] at h
    cases hp : p x
    · rw [hp] at h
      simp only [replaceFirst, hp, Bool.false_eq_true, if_false]
      rw [ih h]
    · rw [hp] at h
      cases h
      simp [replaceFirst, hp]

theorem filter_replaceFirst {α : Type} (p q : α → Bool) (row : α) (l : List α)
    (hpq : ∀ x, p x = true → q x = false) (hrow : q row = false) :
    (replaceFirst p row l).filter q = l.filter q := by
  induction l with
  | nil => rfl
  | cons x xs ih =>
    cases hp : p x
    · simp only [replaceFirst, hp, Bool.false_eq_true, if_false, List.filter_cons, ih]
    · simp only [replaceFirst, hp, if_true, List.filter_cons, hrow, hpq x hp,
        Bool.false_eq_true, if_false]

theorem mem_replaceFirst {α : Type} (p : α → Bool) (row : α) (l : List α) (x : α)
    (h : x ∈ replaceFirst p row l) : x = row ∨ x ∈ l := by
  induction l with
  | nil => cases h
  | cons y ys ih =>
    cases hp : p y
    · simp only [replaceFirst, hp, Bool.false_eq_true, if_false, List.mem_cons] at h
      rcases h with rfl | h
      · exact Or.inr (List.mem_cons_self _ _)
      · rcases ih h with h | h
        · exact Or.inl h
        · exact Or.inr (List.mem_cons_of_mem _ h)
    · simp only [replaceFirst, hp, if_true, List.mem_cons] at h
      rcases h with rfl | h
      · exact Or.inl rfl
      · exact Or.inr (List.mem_cons_of_mem _ h)

theorem map_replaceFirst {α β : Type} (f : α → β) (p : α → Bool) (row : α) (l : List α)
    (h : ∀ x ∈ l, p x = true → f row = f x) :
    (replaceFirst p row l).map f = l.map f := by
  induction l with
  | nil => rfl
  | cons y ys ih =>
    cases hp : p y
    · simp only [replaceFirst, hp, Bool.false_eq_true, if_false, List.map_cons]
      rw [ih (fun x hx => h x (List.mem_cons_of_mem _ hx))]
    · simp only [replaceFirst, hp, if_true, List.map_cons]
      rw [h y (List.mem_cons_self _ _) hp]

theorem find?_replaceFirst_same {α : Type} (p : α → Bool) (row : α) (l : List α) (found : α)
    (h : l.find? p = some found) (hrow : p row = true) :
    (replaceFirst p row l).find? p = some row := by
  induction l with
  | nil => cases h
  | cons y ys ih =>
    rw [List.find?_cons] at h
    cases hp : p y
    · rw [hp] at h
      simp only [replaceFirst, hp, Bool.false_eq_true, if_false, List.find?_cons]
      exact ih h
    · simp only [replaceFirst, hp, if_true, List.find?_cons, hrow]

theorem find?_replaceFirst_other {α : Type} (p q : α → Bool) (row : α) (l : List α)
    (hpq : ∀ x, p x = true → q x = false) (hrow : q row = false) :
    (replaceFirst p row l).find? q = l.find? q := by
  induction l with
  | nil => rfl
  | cons y ys ih =>
    cases hp : p y
    · simp only [replaceFirst, hp, Bool.false_eq_true, if_false, List.find?_cons, ih]
    · simp only [replaceFirst, hp, if_true, List.find?_cons, hrow, hpq y hp]

theorem find?_append_new {α : Type} (q : α → Bool) (row : α) (l : List α)
    (hrow : q row = false) : (l ++ [row]).find? q = l.find? q := by
  rw [List.find?_append]
  cases l.find? q <;> simp [hrow]

theorem assignStr_key (k cur : String) (h : cur = k) : assignStr k cur = k := by
  unfold assignStr; split <;> simp_all

theorem assignNat_key (k cur : Nat) (h : cur = k) : assignNat k cur = k := by
  unfold assignNat; split <;> simp_all

theorem seedSkill_filter_other (fl : Faults) (acc : Nat × State) (e : String × SkillJSON)
    (k : String) (hk : e.1 ≠ k) :
    (seedSkill fl acc e).2.db.characterSkills.filter (fun r => r.CharacterID == k) =
      acc.2.db.characterSkills.filter (fun r => r.CharacterID == k) := by
  unfold seedSkill
  split
  · rfl
  · split
    · rfl
    · rename_i row db1 h
      unfold assignFirstOrCreateSkill at h
      split at h
      · cases h
      · split at h
        · rename_i found hfind
          cases h
          have hfk : found.CharacterID = e.1 := by
            simpa using List.find?_some hfind
          apply filter_replaceFirst
          · intro x hx
            have : x.CharacterID = e.1 := by simpa using hx
            simp [this, hk]
          · simp [assignSkill, skillRow, assignStr_key _ _ hfk, hk]
        · cases h
          simp [createSkill, skillRow, hk]

theorem seedBuild_filter_other (fl : Faults) (acc : Nat × State) (e : String × BuildJSON)
    (k : String) (hk : e.1 ≠ k) :
    (seedBuild fl acc e).2.db.characterBuilds.filter (fun r => r.CharacterID == k) =
      acc.2.db.characterBuilds.filter (fun r => r.CharacterID == k) := by
  unfold seedBuild
  split
  · rfl
  · split
    · rfl
    · rename_i row db1 h
      obtain ⟨u, hu⟩ := foldl_seedSubstat_frame fl row.ID e.2.Substats db1
      obtain ⟨v, w, hv⟩ := seedSets_frame fl row.ID e.2.Sets 0
        (e.2.Substats.foldl (seedSubstat fl row.ID) db1)
      dsimp only
      rw [hv, hu]
      dsimp only
      unfold assignFirstOrCreateBuild at h
      split at h
      · cases h
      · split at h
        · rename_i found hfind
          cases h
          have hfk : found.CharacterID = e.1 := by
            simpa using List.find?_some hfind
          apply filter_replaceFirst
          · intro x hx
            have : x.CharacterID = e.1 := by simpa using hx
            simp [this, hk]
          · simp [assignBuild, buildRow, assignStr_key _ _ hfk, hk]
        · cases h
          simp [createBuild, buildRow, hk]

theorem seedSkill_log (fl : Faults) (acc : Nat × State) (e : String × SkillJSON) :
    (seedSkill fl acc e).2.log = acc.2.log ∨
    ∃ err, firstCharacter e.1 acc.2.db ≠ none ∧
      (seedSkill fl acc e).2.log = acc.2.log ++ [.skillFailed e.1 err] := by
  unfold seedSkill
  split
  · exact Or.inl rfl
  · rename_i c hc
    split
    · rename_i err h
      exact Or.inr ⟨err, by simp [hc], rfl⟩
    · exact Or.inl rfl

theorem seedBuild_log (fl : Faults) (acc : Nat × State) (e : String × BuildJSON) :
    (seedBuild fl acc e).2.log = acc.2.log ∨
    ∃ err, firstCharacter e.1 acc.2.db ≠ none ∧
      (seedBuild fl acc e).2.log = acc.2.log ++ [.buildFailed e.1 err] := by
  unfold seedBuild
  split
  · exact Or.inl rfl
  · rename_i c hc
    split
    · rename_i err h
      exact Or.inr ⟨err, by simp [hc], rfl⟩
    · exact Or.inl rfl

theorem foldl_seedSkill_orphan (fl : Faults) (k : String) (m : List (String × SkillJSON))
    (st : State) (hk : firstCharacter k st.db = none) (n : Nat) :
    ((m.foldl (seedSkill fl) (n, st)).2.db.characterSkills.filter (fun r => r.CharacterID == k) =
        st.db.characterSkills.filter (fun r => r.CharacterID == k)) ∧
    (∀ err, LogEntry.skillFailed k err ∈ (m.foldl (seedSkill fl) (n, st)).2.log →
        LogEntry.skillFailed k err ∈ st.log) := by
  have h := foldl_invariant
    (fun acc : Nat × State =>
      acc.2.db.characters = st.db.characters ∧
      acc.2.db.characterSkills.filter (fun r => r.CharacterID == k) =
        st.db.characterSkills.filter (fun r => r.CharacterID == k) ∧
      (∀ err, LogEntry.skillFailed k err ∈ acc.2.log → LogEntry.skillFailed k err ∈ st.log))
    (seedSkill fl) ?_ m (n, st) ⟨rfl, rfl, fun _ h => h⟩
  · exact h.2
  · intro acc e ⟨h1, h2, h3⟩
    have hno : firstCharacter k acc.2.db = none := by
      unfold firstCharacter at hk ⊢; rw [h1]; exact hk
    by_cases hek : e.1 = k
    · rw [seedSkill_of_no_character fl acc e (by rw [hek]; exact hno)]
      exact ⟨h1, h2, h3⟩
    · refine ⟨?_, ?_, ?_⟩
      · obtain ⟨t, ht⟩ := seedSkill_frame fl acc e
        rw [ht]; exact h1
      · rw [seedSkill_filter_other fl acc e k hek]; exact h2
      · intro err hmem
        rcases seedSkill_log fl acc e with hl | ⟨err1, _, hl⟩
        · rw [hl] at hmem; exact h3 err hmem
        · rw [hl] at hmem
          rcases List.mem_append.1 hmem with hm | hm
          · exact h3 err hm
          · simp at hm; exact absurd hm.1.symm hek

theorem foldl_seedBuild_orphan (fl : Faults) (k : String) (m : List (String × BuildJSON))
    (st : State) (hk : firstCharacter k st.db = none) (n : Nat) :
    ((m.foldl (seedBuild fl) (n, st)).2.db.characterBuilds.filter (fun r => r.CharacterID == k) =
        st.db.characterBuilds.filter (fun r => r.CharacterID == k)) ∧
    (∀ err, LogEntry.buildFailed k err ∈ (m.foldl (seedBuild fl) (n, st)).2.log →
        LogEntry.buildFailed k err ∈ st.log) := by
  have h := foldl_invariant
    (fun acc : Nat × State =>
      acc.2.db.characters = st.db.characters ∧
      acc.2.db.characterBuilds.filter (fun r => r.CharacterID == k) =
        st.db.characterBuilds.filter (fun r => r.CharacterID == k) ∧
      (∀ err, LogEntry.buildFailed k err ∈ acc.2.log → LogEntry.buildFailed k err ∈ st.log))
    (seedBuild fl) ?_ m (n, st) ⟨rfl, rfl, fun _ h => h⟩
  · exact h.2
  · intro acc e ⟨h1, h2, h3⟩
    have hno : firstCharacter k acc.2.db = none := by
      unfold firstCharacter at hk ⊢; rw [h1]; exact hk
    by_cases hek : e.1 = k
    · rw [seedBuild_of_no_character fl acc e (by rw [hek]; exact hno)]
      exact ⟨h1, h2, h3⟩
    · refine ⟨?_, ?_, ?_⟩
      · obtain ⟨t, u, v, w, ht⟩ := seedBuild_frame fl acc e
        rw [ht]; exact h1
      · rw [seedBuild_filter_other fl acc e k hek]; exact h2
      · intro err hmem
        rcases seedBuild_log fl acc e with hl | ⟨err1, _, hl⟩
        · rw [hl] at hmem; exact h3 err hmem
        · rw [hl] at hmem
          rcases List.mem_append.1 hmem with hm | hm
          · exact h3 err hm
          · simp at hm; exact absurd hm.1.symm hek

/-- C6: a skill or build entry whose key `k` has no `Character` row is passed
over in silence.  With such an entry in the map, `seedSkills` (`seedBuilds`)
ends in the same store, the same log (in particular the same success count) and
the same nil error as without it, so every other entry is processed as usual.
Moreover, whatever the map holds, the `CharacterSkill` (`CharacterBuild`) rows
of `k` are those that were there before, and no failure warning for `k` is
added to the log.  The child tables are written only after the build row, so
nothing is written to them for `k` either (first part). -/
theorem orphan_skill_build_skip (fl : Faults) (st : State) (k : String)
    (hk : ∀ r ∈ st.db.characters, r.ID ≠ k) :
    (∀ m1 m2 v,
      seedSkills fl (.parsed (m1 ++ (k, v) :: m2)) st = seedSkills fl (.parsed (m1 ++ m2)) st) ∧
    (∀ m,
      (seedSkills fl (.parsed m) st).2 = none ∧
      (seedSkills fl (.parsed m) st).1.db.characterSkills.filter (fun r => r.CharacterID == k) =
        st.db.characterSkills.filter (fun r => r.CharacterID == k) ∧
      ∀ err, LogEntry.skillFailed k err ∈ (seedSkills fl (.parsed m) st).1.log →
        LogEntry.skillFailed k err ∈ st.log) ∧
    (∀ m1 m2 b,
      seedBuilds fl (.parsed (m1 ++ (k, b) :: m2)) st = seedBuilds fl (.parsed (m1 ++ m2)) st) ∧
    (∀ m,
      (seedBuilds fl (.parsed m) st).2 = none ∧
      (seedBuilds fl (.parsed m) st).1.db.characterBuilds.filter (fun r => r.CharacterID == k) =
        st.db.characterBuilds.filter (fun r => r.CharacterID == k) ∧
      ∀ err, LogEntry.buildFailed k err ∈ (seedBuilds fl (.parsed m) st).1.log →
        LogEntry.buildFailed k err ∈ st.log) := by
  have hno : firstCharacter k st.db = none := (firstCharacter_eq_none k st.db).2 hk
  refine ⟨?_, ?_, ?_, ?_⟩
  · intro m1 m2 v
    simp only [seedSkills]
    rw [foldl_seedSkill_skip fl m1 m2 k v (0, st) hno]
  · intro m
    obtain ⟨h1, h2⟩ := foldl_seedSkill_orphan fl k m st hno 0
    refine ⟨rfl, h1, ?_⟩
    intro err hmem
    simp only [seedSkills, State.logf, List.mem_append, List.mem_singleton, reduceCtorEq,
      or_false] at hmem
    exact h2 err hmem
  · intro m1 m2 b
    simp only [seedBuilds]
    rw [foldl_seedBuild_skip fl m1 m2 k b (0, st) hno]
  · intro m
    obtain ⟨h1, h2⟩ := foldl_seedBuild_orphan fl k m st hno 0
    refine ⟨rfl, h1, ?_⟩
    intro err hmem
    simp only [seedBuilds, State.logf, List.mem_append, List.mem_singleton, reduceCtorEq,
      or_false] at hmem
    exact h2 err hmem

theorem seedCharacter_log_insert (fl : Faults) (em pm : NameMap) (c : CharacterJSON)
    (acc acc1 : Nat × State) (X Y : List LogEntry) (w : LogEntry)
    (h1 : acc1.1 = acc.1) (h2 : acc1.2.db = acc.2.db)
    (h3 : acc.2.log = X ++ Y) (h4 : acc1.2.log = X ++ w :: Y) :
    (seedCharacter fl em pm acc1 c).1 = (seedCharacter fl em pm acc c).1 ∧
    (seedCharacter fl em pm acc1 c).2.db = (seedCharacter fl em pm acc c).2.db ∧
    ∃ Y1, (seedCharacter fl em pm acc c).2.log = X ++ Y1 ∧
      (seedCharacter fl em pm acc1 c).2.log = X ++ w :: Y1 := by
  unfold seedCharacter
  rw [h2, h1]
  split
  · exact ⟨rfl, h2, Y ++ [.unknownElement c.Element c.Name], by simp [State.logf, h3],
      by simp [State.logf, h4]⟩
  · split
    · exact ⟨rfl, h2, Y ++ [.unknownPath c.Path c.Name], by simp [State.logf, h3],
        by simp [State.logf, h4]⟩
    · split
      · rename_i err _
        exact ⟨rfl, h2, Y ++ [.characterFailed c.Name err], by simp [State.logf, h3],
          by simp [State.logf, h4]⟩
      · exact ⟨rfl, rfl, Y, h3, h4⟩

theorem foldl_seedCharacter_log_insert (fl : Faults) (em pm : NameMap) (l : List CharacterJSON)
    (acc acc1 : Nat × State) (X Y : List LogEntry) (w : LogEntry)
    (h1 : acc1.1 = acc.1) (h2 : acc1.2.db = acc.2.db)
    (h3 : acc.2.log = X ++ Y) (h4 : acc1.2.log = X ++ w :: Y) :
    (l.foldl (seedCharacter fl em pm) acc1).1 = (l.foldl (seedCharacter fl em pm) acc).1 ∧
    (l.foldl (seedCharacter fl em pm) acc1).2.db = (l.foldl (seedCharacter fl em pm) acc).2.db ∧
    ∃ Y1, (l.foldl (seedCharacter fl em pm) acc).2.log = X ++ Y1 ∧
      (l.foldl (seedCharacter fl em pm) acc1).2.log = X ++ w :: Y1 := by
  induction l generalizing acc acc1 Y with
  | nil => exact ⟨h1, h2, Y, h3, h4⟩
  | cons c rest ih =>
    obtain ⟨g1, g2, Y1, g3, g4⟩ := seedCharacter_log_insert fl em pm c acc acc1 X Y w h1 h2 h3 h4
    exact ih _ _ Y1 g1 g2 g3 g4

theorem seedCharacter_unknown (fl : Faults) (db : Store) (acc : Nat × State) (c : CharacterJSON)
    (h : elementMap db c.Element = none ∨ pathMap db c.Path = none) :
    seedCharacter fl (elementMap db) (pathMap db) acc c =
      (acc.1, acc.2.logf (unknownReference db c)) := by
  unfold seedCharacter unknownReference
  cases he : elementMap db c.Element with
  | none => simp
  | some eid =>
    rcases h with h | h
    · rw [he] at h; cases h
    · simp [h]

/-- C5: a record whose element name or path name is not in the lookup maps is
skipped with a warning and nothing else.  With such a record `bad` anywhere in
the list, `seedCharacters` returns nil and ends in the same store as on the
list without it, and its log is the log of that other run (success count
included) with the one warning for `bad` inserted. -/
theorem unknown_reference_skip (fl : Faults) (st : State) (l1 l2 : List CharacterJSON)
    (bad : CharacterJSON)
    (h : elementMap st.db bad.Element = none ∨ pathMap st.db bad.Path = none) :
    (seedCharacters fl (.parsed (l1 ++ bad :: l2)) st).2 = none ∧
    (seedCharacters fl (.parsed (l1 ++ bad :: l2)) st).1.db =
      (seedCharacters fl (.parsed (l1 ++ l2)) st).1.db ∧
    (unknownReference st.db bad).isWarning = true ∧
    ∃ X Y, (seedCharacters fl (.parsed (l1 ++ l2)) st).1.log = X ++ Y ∧
      (seedCharacters fl (.parsed (l1 ++ bad :: l2)) st).1.log =
        X ++ unknownReference st.db bad :: Y := by
  obtain ⟨g1, g2, Y1, g3, g4⟩ := foldl_seedCharacter_log_insert fl (elementMap st.db)
    (pathMap st.db) l2 (l1.foldl (seedCharacter fl (elementMap st.db) (pathMap st.db)) (0, st))
    ((l1.foldl (seedCharacter fl (elementMap st.db) (pathMap st.db)) (0, st)).1,
      (l1.foldl (seedCharacter fl (elementMap st.db) (pathMap st.db)) (0, st)).2.logf
        (unknownReference st.db bad))
    _ [] _ rfl rfl (List.append_nil _).symm rfl
  refine ⟨rfl, ?_, ?_, ?_⟩
  · simp only [seedCharacters, State.logf]
    rw [List.foldl_append, List.foldl_append, List.foldl_cons, seedCharacter_unknown fl st.db _ _ h]
    exact g2
  · unfold unknownReference; split <;> rfl
  · simp only [seedCharacters, State.logf]
    rw [List.foldl_append, List.foldl_append, List.foldl_cons, seedCharacter_unknown fl st.db _ _ h]
    refine ⟨(l1.foldl (seedCharacter fl (elementMap st.db) (pathMap st.db)) (0, st)).2.log,
      Y1 ++ [.seededCharacters ((l1 ++ l2).foldl
        (seedCharacter fl (elementMap st.db) (pathMap st.db)) (0, st)).1], ?_, ?_⟩
    · rw [g3, List.append_assoc, List.foldl_append]
    · rw [g4, g1, List.foldl_append]; simp

/-! ## Orphan freedom -/

theorem firstCharacter_some (k : String) (db : Store) (c : Character)
    (h : firstCharacter k db = some c) : k ∈ db.characters.map (·.ID) := by
  unfold firstCharacter at h
  have h1 := List.find?_some h
  have h2 := List.mem_of_find?_eq_some h
  have : c.ID = k := by simpa using h1
  exact List.mem_map.2 ⟨c, h2, this⟩

theorem assignFirstOrCreateCharacter_ids (fl : Faults) (char : Character) (db : Store)
    (row : Character) (db1 : Store)
    (h : assignFirstOrCreateCharacter fl char db = .ok (row, db1)) :
    ∀ id ∈ db.characters.map (·.ID), id ∈ db1.characters.map (·.ID) := by
  unfold assignFirstOrCreateCharacter at h
  split at h
  · cases h
  · split at h
    · rename_i found hfind
      split at h
      · cases h
      · cases h
        have hfk : found.ID = char.ID := by simpa using List.find?_some hfind
        intro id hid
        dsimp only
        rw [map_replaceFirst]
        · exact hid
        · intro x _ hx
          have : x.ID = char.ID := by simpa using hx
          simp [assignCharacter, assignStr_key _ _ hfk, this]
    · split at h
      · cases h
      · cases h
        intro id hid
        simp only [List.map_append, List.mem_append]
        exact Or.inl hid

theorem seedCharacter_ids (fl : Faults) (em pm : NameMap) (acc : Nat × State)
    (c : CharacterJSON) :
    ∀ id ∈ acc.2.db.characters.map (·.ID),
      id ∈ (seedCharacter fl em pm acc c).2.db.characters.map (·.ID) := by
  unfold seedCharacter
  split
  · exact fun _ h => h
  · split
    · exact fun _ h => h
    · split
      · exact fun _ h => h
      · rename_i row db1 h
        exact assignFirstOrCreateCharacter_ids fl _ _ _ _ h

theorem seedCharacter_orphanFree (fl : Faults) (em pm : NameMap) (acc : Nat × State)
    (c : CharacterJSON) (h : OrphanFree acc.2.db) :
    OrphanFree (seedCharacter fl em pm acc c).2.db := by
  obtain ⟨t, ht⟩ := seedCharacter_frame fl em pm acc c
  have hid := seedCharacter_ids fl em pm acc c
  constructor
  · intro s hs
    rw [ht] at hs
    exact hid _ (h.1 s hs)
  · intro b hb
    rw [ht] at hb
    exact hid _ (h.2 b hb)

theorem seedSkill_orphanFree (fl : Faults) (acc : Nat × State) (e : String × SkillJSON)
    (h : OrphanFree acc.2.db) : OrphanFree (seedSkill fl acc e).2.db := by
  unfold seedSkill
  split
  · exact h
  · rename_i c hc
    have hk := firstCharacter_some _ _ _ hc
    split
    · exact h
    · rename_i row db1 hok
      unfold assignFirstOrCreateSkill at hok
      split at hok
      · cases hok
      · split at hok
        · rename_i found hfind
          cases hok
          have hfk : found.CharacterID = e.1 := by simpa using List.find?_some hfind
          refine ⟨?_, h.2⟩
          intro s hs
          rcases mem_replaceFirst _ _ _ _ hs with rfl | hs
          · simpa [assignSkill, skillRow, assignStr_key _ _ hfk] using hk
          · exact h.1 s hs
        · cases hok
          refine ⟨?_, h.2⟩
          intro s hs
          rcases List.mem_append.1 hs with hs | hs
          · exact h.1 s hs
          · have : s = createSkill (nextID (acc.2.db.characterSkills.map (·.ID)))
                (skillRow e.1 e.2) := by simpa using hs
            subst this
            simpa [createSkill, skillRow] using hk

theorem seedBuild_orphanFree (fl : Faults) (acc : Nat × State) (e : String × BuildJSON)
    (h : OrphanFree acc.2.db) : OrphanFree (seedBuild fl acc e).2.db := by
  unfold seedBuild
  split
  · exact h
  · rename_i c hc
    have hk := firstCharacter_some _ _ _ hc
    split
    · exact h
    · rename_i row db1 hok
      obtain ⟨u, hu⟩ := foldl_seedSubstat_frame fl row.ID e.2.Substats db1
      obtain ⟨v, w, hv⟩ := seedSets_frame fl row.ID e.2.Sets 0
        (e.2.Substats.foldl (seedSubstat fl row.ID) db1)
      dsimp only
      rw [hv, hu]
      unfold assignFirstOrCreateBuild at hok
      split at hok
      · cases hok
      · split at hok
        · rename_i found hfind
          cases hok
          have hfk : found.CharacterID = e.1 := by simpa using List.find?_some hfind
          refine ⟨h.1, ?_⟩
          intro s hs
          rcases mem_replaceFirst _ _ _ _ hs with rfl | hs
          · simpa [assignBuild, buildRow, assignStr_key _ _ hfk] using hk
          · exact h.2 s hs
        · cases hok
          refine ⟨h.1, ?_⟩
          intro s hs
          rcases List.mem_append.1 hs with hs | hs
          · exact h.2 s hs
          · have : s = createBuild (nextID (acc.2.db.characterBuilds.map (·.ID)))
                (buildRow e.1 e.2) := by simpa using hs
            subst this
            simpa [createBuild, buildRow] using hk

theorem seedElements_orphanFree (fl : Faults) (st : State) (h : OrphanFree st.db) :
    OrphanFree (seedElements fl st).1.db := by
  obtain ⟨added, h1, _⟩ := seedElementsLoop_spec fl elements st.db
  rw [seedElements_db, h1]; exact h

theorem seedPaths_orphanFree (fl : Faults) (st : State) (h : OrphanFree st.db) :
    OrphanFree (seedPaths fl st).1.db := by
  obtain ⟨added, h1, _⟩ := seedPathsLoop_spec fl paths st.db
  rw [seedPaths_db, h1]; exact h

theorem seedCharacters_orphanFree (fl : Faults) (file : Source (List CharacterJSON))
    (st : State) (h : OrphanFree st.db) : OrphanFree (seedCharacters fl file st).1.db := by
  cases file with
  | unreadable c => exact h
  | malformed c => exact h
  | parsed l =>
    exact foldl_invariant (fun acc : Nat × State => OrphanFree acc.2.db) _
      (fun acc c hacc => seedCharacter_orphanFree fl _ _ acc c hacc) l (0, st) h

theorem seedSkills_orphanFree (fl : Faults) (file : Source (List (String × SkillJSON)))
    (st : State) (h : OrphanFree st.db) : OrphanFree (seedSkills fl file st).1.db := by
  cases file with
  | unreadable c => exact h
  | malformed c => exact h
  | parsed l =>
    exact foldl_invariant (fun acc : Nat × State => OrphanFree acc.2.db) _
      (fun acc c hacc => seedSkill_orphanFree fl acc c hacc) l (0, st) h

theorem seedBuilds_orphanFree (fl : Faults) (file : Source (List (String × BuildJSON)))
    (st : State) (h : OrphanFree st.db) : OrphanFree (seedBuilds fl file st).1.db := by
  cases file with
  | unreadable c => exact h
  | malformed c => exact h
  | parsed l =>
    exact foldl_invariant (fun acc : Nat × State => OrphanFree acc.2.db) _
      (fun acc c hacc => seedBuild_orphanFree fl acc c hacc) l (0, st) h

/-- A property of the store that every stage preserves is preserved by `Seed`,
whether it completes or stops at a failing stage. -/
theorem Seed_preserves (P : Store → Prop) (fl : Faults) (files : DataFiles)
    (h1 : ∀ st, P st.db → P (seedElements fl st).1.db)
    (h2 : ∀ st, P st.db → P (seedPaths fl st).1.db)
    (h3 : ∀ st, P st.db → P (seedCharacters fl files.characters st).1.db)
    (h4 : ∀ st, P st.db → P (seedSkills fl files.skills st).1.db)
    (h5 : ∀ st, P st.db → P (seedBuilds fl files.builds st).1.db)
    (st : State) (h : P st.db) : P (Seed fl files st).1.db := by
  unfold Seed
  dsimp only
  have g1 := h1 (st.logf .seedingStarted) h
  generalize seedElements fl (st.logf .seedingStarted) = r1 at g1 ⊢
  rcases r1 with ⟨st1, _ | e1⟩ <;> dsimp only
  · have g2 := h2 st1 g1
    generalize seedPaths fl st1 = r2 at g2 ⊢
    rcases r2 with ⟨st2, _ | e2⟩ <;> dsimp only
    · have g3 := h3 st2 g2
      generalize seedCharacters fl files.characters st2 = r3 at g3 ⊢
      rcases r3 with ⟨st3, _ | e3⟩ <;> dsimp only
      · have g4 := h4 st3 g3
        generalize seedSkills fl files.skills st3 = r4 at g4 ⊢
        rcases r4 with ⟨st4, _ | e4⟩ <;> dsimp only
        · have g5 := h5 st4 g4
          generalize seedBuilds fl files.builds st4 = r5 at g5 ⊢
          rcases r5 with ⟨st5, _ | e5⟩ <;> dsimp only
          · exact g5
          · exact g5
        · exact g4
      · exact g3
    · exact g2
  · exact g1

/-- C4: orphan freedom is an invariant of the pipeline.  If every
`CharacterSkill` row and every `CharacterBuild` row carries the id of a
`Character` row before the run, the same is true after `Seed`, after
`seedSkills` alone and after `seedBuilds` alone, whatever the files hold and
whatever the storage layer rejects. -/
theorem orphan_freedom_invariant (fl : Faults) (files : DataFiles) (st : State)
    (h : OrphanFree st.db) :
    OrphanFree (Seed fl files st).1.db ∧
    OrphanFree (seedSkills fl files.skills st).1.db ∧
    OrphanFree (seedBuilds fl files.builds st).1.db :=
  ⟨Seed_preserves OrphanFree fl files (seedElements_orphanFree fl) (seedPaths_orphanFree fl)
      (seedCharacters_orphanFree fl _) (seedSkills_orphanFree fl _)
      (seedBuilds_orphanFree fl _) st h,
    seedSkills_orphanFree fl _ st h, seedBuilds_orphanFree fl _ st h⟩

/-! ## Characters -/

theorem foldl_invariant_mem {α β : Type} (P : β → Prop) (f : β → α → β) (l : List α)
    (hstep : ∀ b a, a ∈ l → P b → P (f b a)) (b : β) (h : P b) : P (l.foldl f b) := by
  induction l generalizing b with
  | nil => exact h
  | cons a rest ih =>
    exact ih (fun b x hx hb => hstep b x (List.mem_cons_of_mem _ hx) hb) _
      (hstep b a (List.mem_cons_self _ _) h)

theorem nameMap_foldl_some {α : Type} (nm : α → String) (idf : α → Nat) (l : List α)
    (m0 : NameMap) (n : String) (id : Nat)
    (h : (l.foldl (fun m e => NameMap.set m (nm e) (idf e)) m0) n = some id) :
    (∃ e ∈ l, nm e = n ∧ idf e = id) ∨ m0 n = some id := by
  induction l generalizing m0 with
  | nil => exact Or.inr h
  | cons x xs ih =>
    rcases ih _ h with ⟨e, he, h1, h2⟩ | h0
    · exact Or.inl ⟨e, List.mem_cons_of_mem _ he, h1, h2⟩
    · unfold NameMap.set at h0
      dsimp only at h0
      split at h0
      · rename_i hn
        exact Or.inl ⟨x, List.mem_cons_self _ _, hn.symm, by simpa using h0⟩
      · exact Or.inr h0

theorem elementMap_some (db : Store) (n : String) (id : Nat) (h : elementMap db n = some id) :
    ∃ e ∈ db.elements, e.Name = n ∧ e.ID = id := by
  rcases nameMap_foldl_some (fun e : Element => e.Name) (fun e => e.ID) db.elements _ n id h
    with h | h
  · exact h
  · cases h

theorem pathMap_some (db : Store) (n : String) (id : Nat) (h : pathMap db n = some id) :
    ∃ e ∈ db.paths, e.Name = n ∧ e.ID = id := by
  rcases nameMap_foldl_some (fun e : Path => e.Name) (fun e => e.ID) db.paths _ n id h
    with h | h
  · exact h
  · cases h

theorem assignNat_of_ne_zero (inc cur : Nat) (h : inc ≠ 0) : assignNat inc cur = inc := by
  unfold assignNat; simp [h]

theorem seedCharacter_refers (fl : Faults) (db0 : Store) (acc : Nat × State) (c : CharacterJSON)
    (he : ∀ e ∈ db0.elements, e.ID ≠ 0) (hp : ∀ p ∈ db0.paths, p.ID ≠ 0) :
    ∀ r ∈ (seedCharacter fl (elementMap db0) (pathMap db0) acc c).2.db.characters,
      r ∈ acc.2.db.characters ∨ (r.ID = c.ID ∧ RefersTo db0 r c) := by
  unfold seedCharacter
  split
  · exact fun r hr => Or.inl hr
  · rename_i eid heid
    split
    · exact fun r hr => Or.inl hr
    · rename_i pid hpid
      obtain ⟨e, hemem, hen, heq⟩ := elementMap_some db0 _ _ heid
      obtain ⟨p, hpmem, hpn, hpq⟩ := pathMap_some db0 _ _ hpid
      have hez : eid ≠ 0 := heq ▸ he e hemem
      have hpz : pid ≠ 0 := hpq ▸ hp p hpmem
      split
      · exact fun r hr => Or.inl hr
      · rename_i row db1 hok
        unfold assignFirstOrCreateCharacter at hok
        split at hok
        · cases hok
        · split at hok
          · rename_i found hfind
            have hfk : found.ID = c.ID := by simpa [characterRow] using List.find?_some hfind
            split at hok
            · cases hok
            · cases hok
              intro r hr
              rcases mem_replaceFirst _ _ _ _ hr with rfl | hr
              · refine Or.inr ⟨?_, ⟨e, hemem, ?_, hen⟩, ⟨p, hpmem, ?_, hpn⟩⟩
                · simp [assignCharacter, characterRow, assignStr_key _ _ hfk]
                · simp [assignCharacter, characterRow, assignNat_of_ne_zero _ _ hez, heq]
                · simp [assignCharacter, characterRow, assignNat_of_ne_zero _ _ hpz, hpq]
              · exact Or.inl hr
          · split at hok
            · cases hok
            · cases hok
              intro r hr
              rcases List.mem_append.1 hr with hr | hr
              · exact Or.inl hr
              · have : r = createCharacter (characterRow c eid pid) := by simpa using hr
                subst this
                exact Or.inr ⟨rfl, ⟨e, hemem, heq, hen⟩, ⟨p, hpmem, hpq, hpn⟩⟩

/-- C3, amended: referential integrity of the character seeder.  In a store whose
element and path ids are non-zero (auto-increment keys), after
`seedCharacters` every `Character` row is either a row that was there before,
untouched, or carries the id of a record of the list together with an
`ElementID` and a `PathID` that are the ids of the `Element` row and the `Path`
row named by that record; these lookup rows are present in the store after the
run, which leaves both lookup tables as they were. -/
theorem character_references_resolve (fl : Faults) (st : State) (l : List CharacterJSON)
    (he : ∀ e ∈ st.db.elements, e.ID ≠ 0) (hp : ∀ p ∈ st.db.paths, p.ID ≠ 0) :
    (seedCharacters fl (.parsed l) st).1.db.elements = st.db.elements ∧
    (seedCharacters fl (.parsed l) st).1.db.paths = st.db.paths ∧
    ∀ r ∈ (seedCharacters fl (.parsed l) st).1.db.characters,
      r ∈ st.db.characters ∨
      ∃ c ∈ l, r.ID = c.ID ∧ RefersTo (seedCharacters fl (.parsed l) st).1.db r c := by
  have hfr : ∃ t, (seedCharacters fl (.parsed l) st).1.db = { st.db with characters := t } := by
    obtain ⟨t, ht⟩ := foldl_seedCharacter_frame fl (elementMap st.db) (pathMap st.db) l (0, st)
    exact ⟨t, ht⟩
  obtain ⟨t, ht⟩ := hfr
  refine ⟨by rw [ht], by rw [ht], ?_⟩
  have hrefer : ∀ r c, RefersTo st.db r c →
      RefersTo (seedCharacters fl (.parsed l) st).1.db r c := by
    intro r c h
    unfold RefersTo at h ⊢
    rw [ht]; exact h
  have hinv := foldl_invariant_mem
    (fun acc : Nat × State => ∀ r ∈ acc.2.db.characters,
      r ∈ st.db.characters ∨ ∃ c ∈ l, r.ID = c.ID ∧ RefersTo st.db r c)
    (seedCharacter fl (elementMap st.db) (pathMap st.db)) l ?_ (0, st)
    (fun r hr => Or.inl hr)
  · intro r hr
    rcases hinv r hr with h | ⟨c, hc, hid, href⟩
    · exact Or.inl h
    · exact Or.inr ⟨c, hc, hid, hrefer r c href⟩
  · intro acc c hc hacc r hr
    rcases seedCharacter_refers fl st.db acc c he hp r hr with h | ⟨hid, href⟩
    · exact hacc r h
    · exact Or.inr ⟨c, hc, hid, href⟩

theorem createCharacter_eq_assign (char : Character) :
    createCharacter char = assignCharacter char characterDefaults := by
  cases char
  simp only [createCharacter, assignCharacter, characterDefaults, assignStr, assignNat,
    assignInt, orDefaultInt]
  congr 1 <;> split <;> simp_all

theorem assignFirstOrCreateCharacter_update (fl : Faults) (char : Character) (db : Store)
    (found : Character) (hfl : fl (.character char.ID) = false)
    (hfind : db.characters.find? (fun r => r.ID == char.ID) = some found)
    (hany : db.characters.any
      (fun r => r.ID != found.ID && r.CharID == (assignCharacter char found).CharID) = false) :
    assignFirstOrCreateCharacter fl char db =
      .ok (assignCharacter char found, { db with
        characters :=
          replaceFirst (fun r => r.ID == char.ID) (assignCharacter char found) db.characters }) := by
  unfold assignFirstOrCreateCharacter
  simp only [hfl, hfind, hany, Bool.false_eq_true, if_false]

theorem assignFirstOrCreateCharacter_create (fl : Faults) (char : Character) (db : Store)
    (hfl : fl (.character char.ID) = false)
    (hfind : db.characters.find? (fun r => r.ID == char.ID) = none)
    (hany : db.characters.any (fun r => r.CharID == (createCharacter char).CharID) = false) :
    assignFirstOrCreateCharacter fl char db =
      .ok (createCharacter char, { db with
        characters := db.characters ++ [createCharacter char] }) := by
  unfold assignFirstOrCreateCharacter
  simp only [hfl, hfind, hany, Bool.false_eq_true, if_false]

theorem seedCharacter_ok (fl : Faults) (em pm : NameMap) (acc : Nat × State)
    (c : CharacterJSON) (eid pid : Nat) (row : Character) (db1 : Store)
    (he : em c.Element = some eid) (hp : pm c.Path = some pid)
    (h : assignFirstOrCreateCharacter fl (characterRow c eid pid) acc.2.db = .ok (row, db1)) :
    seedCharacter fl em pm acc c = (acc.1 + 1, { acc.2 with db := db1 }) := by
  unfold seedCharacter
  simp only [he, hp, h]

theorem seedCharacter_error (fl : Faults) (em pm : NameMap) (acc : Nat × State)
    (c : CharacterJSON) (eid pid : Nat) (err : DBError)
    (he : em c.Element = some eid) (hp : pm c.Path = some pid)
    (h : assignFirstOrCreateCharacter fl (characterRow c eid pid) acc.2.db = .error err) :
    seedCharacter fl em pm acc c = (acc.1, acc.2.logf (.characterFailed c.Name err)) := by
  unfold seedCharacter
  simp only [he, hp, h]

theorem filter_key_replaceFirst {α κ : Type} [DecidableEq κ] (key : α → κ) (k : κ) (row : α)
    (l : List α) (hnd : (l.map key).Nodup) (found : α)
    (hfind : l.find? (fun r => key r == k) = some found) (hrow : key row = k) :
    (replaceFirst (fun r => key r == k) row l).filter (fun r => key r == k) = [row] := by
  induction l with
  | nil => cases hfind
  | cons x xs ih =>
    rw [List.map_cons, List.nodup_cons] at hnd
    rw [List.find?_cons] at hfind
    by_cases hx : key x = k
    · have hxs : xs.filter (fun r => key r == k) = [] := by
        rw [List.filter_eq_nil_iff]
        intro y hy hyk
        have : key y = k := by simpa using hyk
        exact hnd.1 (List.mem_map.2 ⟨y, hy, by rw [this, hx]⟩)
      simp [replaceFirst, hx, hrow, hxs]
    · have hx1 : (key x == k) = false := by simpa using hx
      rw [hx1] at hfind
      simp only [replaceFirst, hx1, Bool.false_eq_true, if_false, List.filter_cons]
      exact ih hnd.2 hfind

theorem seedCharacter_accepted (fl : Faults) (em pm : NameMap) (st : State) (n : Nat)
    (c : CharacterJSON) (eid pid : Nat)
    (he : em c.Element = some eid) (hp : pm c.Path = some pid)
    (hids : (st.db.characters.map (·.ID)).Nodup)
    (hfl : fl (.character c.ID) = false)
    (huniq : ∀ r ∈ st.db.characters, r.ID ≠ c.ID →
      r.CharID ≠ assignStr c.CharID (baseCharacter st.db c.ID).CharID) :
    (seedCharacter fl em pm (n, st) c).1 = n + 1 ∧
    (seedCharacter fl em pm (n, st) c).2.log = st.log ∧
    ((seedCharacter fl em pm (n, st) c).2.db.characters.map (·.ID)).Nodup ∧
    (seedCharacter fl em pm (n, st) c).2.db.characters.filter (fun r => r.ID == c.ID) =
      [assignCharacter (characterRow c eid pid) (baseCharacter st.db c.ID)] ∧
    (seedCharacter fl em pm (n, st) c).2.db.characters.filter (fun r => r.ID != c.ID) =
      st.db.characters.filter (fun r => r.ID != c.ID) := by
  have hcid : (characterRow c eid pid).ID = c.ID := rfl
  cases hfind : st.db.characters.find? (fun r => r.ID == c.ID) with
  | some found =>
    have hfk : found.ID = c.ID := by simpa using List.find?_some hfind
    have hbase : baseCharacter st.db c.ID = found := by
      simp [baseCharacter, firstCharacter, hfind]
    rw [hbase] at huniq
    have hrowid : (assignCharacter (characterRow c eid pid) found).ID = c.ID := by
      simp [assignCharacter, characterRow, assignStr_key _ _ hfk]
    have hany : (st.db.characters.any (fun r => r.ID != found.ID &&
        r.CharID == (assignCharacter (characterRow c eid pid) found).CharID)) = false := by
      rw [List.any_eq_false]
      intro r hr
      simp only [Bool.and_eq_true, bne_iff_ne, ne_eq, beq_iff_eq, not_and]
      intro hne
      rw [hfk] at hne
      simpa [assignCharacter, characterRow] using huniq r hr hne
    rw [seedCharacter_ok fl em pm (n, st) c eid pid _ _ he hp
      (assignFirstOrCreateCharacter_update fl _ st.db found hfl hfind hany), hbase]
    refine ⟨rfl, rfl, ?_, ?_, ?_⟩
    · dsimp only
      rw [map_replaceFirst]
      · exact hids
      · intro x _ hx
        have : x.ID = c.ID := by simpa [characterRow] using hx
        rw [this]; exact hrowid
    · exact filter_key_replaceFirst (fun r : Character => r.ID) c.ID _ _ hids found hfind hrowid
    · apply filter_replaceFirst
      · intro x hx
        have : x.ID = c.ID := by simpa [characterRow] using hx
        simp [this]
      · simp [hrowid]
  | none =>
    have hnone : ∀ r ∈ st.db.characters, r.ID ≠ c.ID := by
      intro r hr
      simpa using List.find?_eq_none.1 hfind r hr
    have hbase : baseCharacter st.db c.ID = characterDefaults := by
      simp [baseCharacter, firstCharacter, hfind]
    rw [hbase] at huniq
    have hrowid : (createCharacter (characterRow c eid pid)).ID = c.ID := rfl
    have hany : (st.db.characters.any (fun r =>
        r.CharID == (createCharacter (characterRow c eid pid)).CharID)) = false := by
      rw [List.any_eq_false]
      intro r hr
      simp only [beq_iff_eq]
      have := huniq r hr (hnone r hr)
      rw [createCharacter_eq_assign]
      simpa [assignCharacter, characterRow] using this
    rw [seedCharacter_ok fl em pm (n, st) c eid pid _ _ he hp
      (assignFirstOrCreateCharacter_create fl _ st.db hfl hfind hany), hbase]
    refine ⟨rfl, rfl, ?_, ?_, ?_⟩
    · dsimp only
      rw [List.map_append, List.nodup_append]
      refine ⟨hids, by simp, ?_⟩
      intro a ha hb
      simp only [List.map_cons, List.map_nil, List.mem_singleton] at hb
      obtain ⟨r, hr, rfl⟩ := List.mem_map.1 ha
      exact hnone r hr hb
    · dsimp only
      rw [List.filter_append]
      have : st.db.characters.filter (fun r => r.ID == c.ID) = [] := by
        rw [List.filter_eq_nil_iff]
        intro r hr
        simpa using hnone r hr
      rw [this, List.nil_append, List.filter_cons, hrowid]
      simp [createCharacter_eq_assign]
    · dsimp only
      rw [List.filter_append]
      simp [hrowid]

theorem find?_of_filter_singleton {α : Type} (p : α → Bool) (l : List α) (x : α)
    (h : l.filter p = [x]) : l.find? p = some x := by
  induction l with
  | nil => cases h
  | cons y ys ih =>
    rw [List.filter_cons] at h
    rw [List.find?_cons]
    cases hp : p y
    · rw [hp] at h
      exact ih h
    · rw [hp] at h
      simp only [if_true, List.cons.injEq] at h
      rw [h.1]

theorem assignStr_idem (inc cur : String) : assignStr inc (assignStr inc cur) = assignStr inc cur := by
  unfold assignStr; split <;> simp_all

/-- C2, counterexample: an incoming 0 is not written.  Re-seeding character
1001 (stored with rarity 5, base speed 101, release order 3) from a record whose
three numbers are 0 leaves the row as it was, and seeding that record into a
table without the row stores the column defaults 4 and 100 instead of 0. -/
theorem character_upsert_not_full_replace :
    marchZero.Rarity = 0 ∧
    (seedCharacters noFaults (.parsed [marchZero]) ⟨storeWithMarch, []⟩).2 = none ∧
    (seedCharacters noFaults (.parsed [marchZero]) ⟨storeWithMarch, []⟩).1.db.characters =
      [⟨"1001", "mar7", "March 7th", 1, 1, 5, 101, 3⟩] ∧
    ¬ (∃ row ∈ (seedCharacters noFaults (.parsed [marchZero])
          ⟨storeWithMarch, []⟩).1.db.characters,
        row.ID = marchZero.ID ∧ row.Rarity = marchZero.Rarity) ∧
    (seedCharacters noFaults (.parsed [marchZero])
        ⟨{ storeWithMarch with characters := [] }, []⟩).1.db.characters =
      [⟨"1001", "mar7", "March 7th", 1, 1, 4, 100, 0⟩] := by
  decide

/-- C2, amended: the character upsert merges the non-zero fields.  Let `c` be a
record whose element and path names resolve (to `eid`, `pid`), in a store whose
character ids are unique, and let the write be accepted: the call is not
rejected and no other row holds the `charId` the row is to get.  Then after the
loop body has processed `c` the success count is one higher, there is exactly
one `Character` row with id `c.ID`, and each of its fields holds the incoming
value when that value is non-zero (non-empty) and otherwise the value of the row
the upsert started from: the existing row, or the column defaults (rarity 4,
base speed 100, everything else zero) when the row is inserted.  In particular,
processing `c` and then the same record with another, non-zero rarity leaves
exactly one row, holding the second rarity. -/
theorem character_upsert_merges_nonzero (fl : Faults) (st : State) (n : Nat)
    (c : CharacterJSON) (eid pid : Nat)
    (he : elementMap st.db c.Element = some eid) (hp : pathMap st.db c.Path = some pid)
    (hids : (st.db.characters.map (·.ID)).Nodup)
    (hfl : fl (.character c.ID) = false)
    (huniq : ∀ r ∈ st.db.characters, r.ID ≠ c.ID →
      r.CharID ≠ (if c.CharID = "" then (baseCharacter st.db c.ID).CharID else c.CharID)) :
    (seedCharacter fl (elementMap st.db) (pathMap st.db) (n, st) c).1 = n + 1 ∧
    (∃ row,
      (seedCharacter fl (elementMap st.db) (pathMap st.db) (n, st) c).2.db.characters.filter
        (fun r => r.ID == c.ID) = [row] ∧
      row.ID = c.ID ∧
      row.CharID = (if c.CharID = "" then (baseCharacter st.db c.ID).CharID else c.CharID) ∧
      row.Name = (if c.Name = "" then (baseCharacter st.db c.ID).Name else c.Name) ∧
      row.ElementID = (if eid = 0 then (baseCharacter st.db c.ID).ElementID else eid) ∧
      row.PathID = (if pid = 0 then (baseCharacter st.db c.ID).PathID else pid) ∧
      row.Rarity = (if c.Rarity = 0 then (baseCharacter st.db c.ID).Rarity else c.Rarity) ∧
      row.BaseSpeed =
        (if c.BaseSpeed = 0 then (baseCharacter st.db c.ID).BaseSpeed else c.BaseSpeed) ∧
      row.ReleaseOrder =
        (if c.ReleaseOrder = 0 then (baseCharacter st.db c.ID).ReleaseOrder
         else c.ReleaseOrder)) ∧
    (∀ rarity2 : Int, rarity2 ≠ 0 →
      ∃ row,
        (seedCharacter fl (elementMap st.db) (pathMap st.db)
          (seedCharacter fl (elementMap st.db) (pathMap st.db) (n, st) c)
          { c with Rarity := rarity2 }).2.db.characters.filter (fun r => r.ID == c.ID) = [row] ∧
        row.Rarity = rarity2) := by
  have huniq1 : ∀ r ∈ st.db.characters, r.ID ≠ c.ID →
      r.CharID ≠ assignStr c.CharID (baseCharacter st.db c.ID).CharID := huniq
  obtain ⟨h1, _, h3, h4, h5⟩ := seedCharacter_accepted fl (elementMap st.db) (pathMap st.db)
    st n c eid pid he hp hids hfl huniq1
  refine ⟨h1, ⟨_, h4, ?_, rfl, rfl, rfl, rfl, rfl, rfl, rfl⟩, ?_⟩
  · have hb : baseCharacter st.db c.ID = characterDefaults ∨ (baseCharacter st.db c.ID).ID = c.ID := by
      unfold baseCharacter firstCharacter
      cases hfind : st.db.characters.find? (fun r => r.ID == c.ID) with
      | none => exact Or.inl rfl
      | some found => exact Or.inr (by simpa using List.find?_some hfind)
    rcases hb with hb | hb
    · rw [hb]; simp only [assignCharacter, characterRow, characterDefaults, assignStr]
      split
      · rename_i h; exact h.symm
      · rfl
    · simp [assignCharacter, characterRow, assignStr_key _ _ hb]
  · intro rarity2 hr2
    have hbase2 : baseCharacter
        (seedCharacter fl (elementMap st.db) (pathMap st.db) (n, st) c).2.db c.ID =
        assignCharacter (characterRow c eid pid) (baseCharacter st.db c.ID) := by
      unfold baseCharacter firstCharacter
      rw [find?_of_filter_singleton _ _ _ h4]
      rfl
    have huniq2 : ∀ r ∈ (seedCharacter fl (elementMap st.db) (pathMap st.db) (n, st) c).2.db.characters,
        r.ID ≠ c.ID → r.CharID ≠ assignStr c.CharID (baseCharacter
          (seedCharacter fl (elementMap st.db) (pathMap st.db) (n, st) c).2.db c.ID).CharID := by
      intro r hr hne
      rw [hbase2]
      have hmem : r ∈ (seedCharacter fl (elementMap st.db) (pathMap st.db) (n, st)
          c).2.db.characters.filter (fun r => r.ID != c.ID) :=
        List.mem_filter.2 ⟨hr, by simpa using hne⟩
      rw [h5] at hmem
      have := huniq1 r (List.mem_filter.1 hmem).1 hne
      simpa [assignCharacter, characterRow, assignStr_idem] using this
    obtain ⟨_, _, _, g4, _⟩ := seedCharacter_accepted fl (elementMap st.db) (pathMap st.db)
      (seedCharacter fl (elementMap st.db) (pathMap st.db) (n, st) c).2
      (seedCharacter fl (elementMap st.db) (pathMap st.db) (n, st) c).1
      { c with Rarity := rarity2 } eid pid he hp h3 hfl huniq2
    exact ⟨_, g4, by simp [assignCharacter, characterRow, assignInt, hr2]⟩

/-! ## Instances -/

theorem character_upsert_merges_nonzero_witness :
    (elementMap storeWithMarch marchFour.Element = some 1 ∧
      pathMap storeWithMarch marchFour.Path = some 1 ∧
      (storeWithMarch.characters.map (·.ID)).Nodup ∧
      noFaults (.character marchFour.ID) = false) ∧
    ((seedCharacter noFaults (elementMap storeWithMarch) (pathMap storeWithMarch)
        (0, ⟨storeWithMarch, []⟩) marchFour).1 = 0 + 1 ∧
     (∃ row,
      (seedCharacter noFaults (elementMap storeWithMarch) (pathMap storeWithMarch)
        (0, ⟨storeWithMarch, []⟩) marchFour).2.db.characters.filter
        (fun r => r.ID == marchFour.ID) = [row] ∧
      row.ID = marchFour.ID ∧
      row.CharID = (if marchFour.CharID = "" then
        (baseCharacter storeWithMarch marchFour.ID).CharID else marchFour.CharID) ∧
      row.Name = (if marchFour.Name = "" then
        (baseCharacter storeWithMarch marchFour.ID).Name else marchFour.Name) ∧
      row.ElementID = (if 1 = 0 then (baseCharacter storeWithMarch marchFour.ID).ElementID else 1) ∧
      row.PathID = (if 1 = 0 then (baseCharacter storeWithMarch marchFour.ID).PathID else 1) ∧
      row.Rarity = (if marchFour.Rarity = 0 then
        (baseCharacter storeWithMarch marchFour.ID).Rarity else marchFour.Rarity) ∧
      row.BaseSpeed = (if marchFour.BaseSpeed = 0 then
        (baseCharacter storeWithMarch marchFour.ID).BaseSpeed else marchFour.BaseSpeed) ∧
      row.ReleaseOrder = (if marchFour.ReleaseOrder = 0 then
        (baseCharacter storeWithMarch marchFour.ID).ReleaseOrder else marchFour.ReleaseOrder)) ∧
     (∀ rarity2 : Int, rarity2 ≠ 0 →
      ∃ row,
        (seedCharacter noFaults (elementMap storeWithMarch) (pathMap storeWithMarch)
          (seedCharacter noFaults (elementMap storeWithMarch) (pathMap storeWithMarch)
            (0, ⟨storeWithMarch, []⟩) marchFour)
          { marchFour with Rarity := rarity2 }).2.db.characters.filter
            (fun r => r.ID == marchFour.ID) = [row] ∧
        row.Rarity = rarity2)) :=
  ⟨by decide,
    character_upsert_merges_nonzero noFaults ⟨storeWithMarch, []⟩ 0 marchFour 1 1
      (by decide) (by decide) (by decide) rfl (by decide)⟩

theorem character_references_resolve_witness :
    ((∀ e ∈ storeWithMarch.elements, e.ID ≠ 0) ∧ (∀ p ∈ storeWithMarch.paths, p.ID ≠ 0)) ∧
    ((seedCharacters noFaults (.parsed [marchFour]) ⟨storeWithMarch, []⟩).1.db.elements =
        storeWithMarch.elements ∧
      (seedCharacters noFaults (.parsed [marchFour]) ⟨storeWithMarch, []⟩).1.db.paths =
        storeWithMarch.paths ∧
      ∀ r ∈ (seedCharacters noFaults (.parsed [marchFour]) ⟨storeWithMarch, []⟩).1.db.characters,
        r ∈ storeWithMarch.characters ∨
        ∃ c ∈ [marchFour], r.ID = c.ID ∧
          RefersTo (seedCharacters noFaults (.parsed [marchFour]) ⟨storeWithMarch, []⟩).1.db r c) :=
  ⟨by decide,
    character_references_resolve noFaults ⟨storeWithMarch, []⟩ [marchFour]
      (by decide) (by decide)⟩

theorem unknown_reference_skip_witness :
    (elementMap storeWithMarch voidRecord.Element = none ∨
      pathMap storeWithMarch voidRecord.Path = none) ∧
    ((seedCharacters noFaults (.parsed ([marchFour] ++ voidRecord :: []))
        ⟨storeWithMarch, []⟩).2 = none ∧
      (seedCharacters noFaults (.parsed ([marchFour] ++ voidRecord :: []))
        ⟨storeWithMarch, []⟩).1.db =
        (seedCharacters noFaults (.parsed ([marchFour] ++ [])) ⟨storeWithMarch, []⟩).1.db ∧
      (unknownReference storeWithMarch voidRecord).isWarning = true ∧
      ∃ X Y,
        (seedCharacters noFaults (.parsed ([marchFour] ++ [])) ⟨storeWithMarch, []⟩).1.log =
          X ++ Y ∧
        (seedCharacters noFaults (.parsed ([marchFour] ++ voidRecord :: []))
          ⟨storeWithMarch, []⟩).1.log = X ++ unknownReference storeWithMarch voidRecord :: Y) :=
  ⟨by decide,
    unknown_reference_skip noFaults ⟨storeWithMarch, []⟩ [marchFour] [] voidRecord (by decide)⟩

theorem orphan_skill_build_skip_witness :
    (∀ r ∈ storeWithMarch.characters, r.ID ≠ "9999") ∧
    (∀ v : SkillJSON,
      seedSkills noFaults (.parsed ([] ++ ("9999", v) :: [])) ⟨storeWithMarch, []⟩ =
        seedSkills noFaults (.parsed ([] ++ [])) ⟨storeWithMarch, []⟩) ∧
    (∀ b : BuildJSON,
      seedBuilds noFaults (.parsed ([] ++ ("9999", b) :: [])) ⟨storeWithMarch, []⟩ =
        seedBuilds noFaults (.parsed ([] ++ [])) ⟨storeWithMarch, []⟩) :=
  ⟨by decide,
    fun v => (orphan_skill_build_skip noFaults ⟨storeWithMarch, []⟩ "9999" (by decide)).1 [] [] v,
    fun b =>
      (orphan_skill_build_skip noFaults ⟨storeWithMarch, []⟩ "9999" (by decide)).2.2.1 [] [] b⟩

/-! ## What an accepted upsert does to a table -/

theorem nextID_gt (ids : List Nat) : ∀ x ∈ ids, x < nextID ids := by
  induction ids with
  | nil => intro x hx; cases hx
  | cons y ys ih =>
    intro x hx
    simp only [nextID, List.foldr_cons] at ih ⊢
    rcases List.mem_cons.1 hx with rfl | hx
    · omega
    · have := ih x hx
      omega

theorem nextID_not_mem (ids : List Nat) : nextID ids ∉ ids :=
  fun h => Nat.lt_irrefl _ (nextID_gt ids _ h)

theorem nextID_ne_zero (ids : List Nat) : nextID ids ≠ 0 := by
  unfold nextID; omega

theorem append_singleton_ne {α : Type} (l : List α) (c : α) : l ++ [c] ≠ l := by
  intro h
  have := congrArg List.length h
  simp at this

theorem eq_of_replaceFirst_eq {α : Type} (p : α → Bool) (row found : α) (l : List α)
    (h : replaceFirst p row l = l) (hfind : l.find? p = some found) : row = found := by
  induction l with
  | nil => cases hfind
  | cons x xs ih =>
    rw [List.find?_cons] at hfind
    cases hp : p x
    · rw [hp] at hfind
      simp only [replaceFirst, hp, Bool.false_eq_true, if_false, List.cons.injEq, true_and] at h
      exact ih h hfind
    · rw [hp] at hfind
      simp only [replaceFirst, hp, if_true, List.cons.injEq, and_true] at h
      simp only [Option.some.injEq] at hfind
      rw [h, hfind]

theorem upsertRows_eq_self_iff {α : Type} (p : α → Bool) (a : α → α) (c : α) (l : List α) :
    upsertRows p a c l = l ↔ ∃ f, l.find? p = some f ∧ a f = f := by
  unfold upsertRows
  cases hfind : l.find? p with
  | none => simp [append_singleton_ne]
  | some f =>
    simp only [Option.some.injEq, exists_eq_left']
    constructor
    · intro h; exact eq_of_replaceFirst_eq p _ _ l h hfind
    · intro h; rw [h]; exact replaceFirst_self p f l hfind

theorem find?_upsertRows_other {α : Type} (p q : α → Bool) (a : α → α) (c : α) (l : List α)
    (hpq : ∀ x, p x = true → q x = false)
    (ha : ∀ f, l.find? p = some f → q (a f) = false) (hc : q c = false) :
    (upsertRows p a c l).find? q = l.find? q := by
  unfold upsertRows
  cases hfind : l.find? p with
  | none => exact find?_append_new q c l hc
  | some f => exact find?_replaceFirst_other p q _ l hpq (ha f hfind)

theorem find?_upsertRows_same {α : Type} (p : α → Bool) (a : α → α) (c : α) (l : List α)
    (ha : ∀ f, l.find? p = some f → p (a f) = true) (hc : p c = true) :
    ∃ row, (upsertRows p a c l).find? p = some row ∧
      ((∃ f, l.find? p = some f ∧ row = a f) ∨ (l.find? p = none ∧ row = c)) := by
  unfold upsertRows
  cases hfind : l.find? p with
  | none =>
    refine ⟨c, ?_, Or.inr ⟨rfl, rfl⟩⟩
    rw [List.find?_append, hfind]
    simp [hc]
  | some f =>
    exact ⟨a f, find?_replaceFirst_same p _ l f hfind (ha f hfind), Or.inl ⟨f, rfl, rfl⟩⟩

theorem upsertRows_fix_other {α : Type} (p q : α → Bool) (a b : α → α) (c d : α) (l : List α)
    (hpq : ∀ x, p x = true → q x = false)
    (ha : ∀ f, l.find? p = some f → q (a f) = false) (hc : q c = false)
    (hfix : upsertRows q b d l = l) (d1 : α) :
    upsertRows q b d1 (upsertRows p a c l) = upsertRows p a c l := by
  rw [upsertRows_eq_self_iff] at hfix ⊢
  obtain ⟨f, hf, hbf⟩ := hfix
  exact ⟨f, by rw [find?_upsertRows_other p q a c l hpq ha hc, hf], hbf⟩

theorem upsertRows_idem {α : Type} (p : α → Bool) (a : α → α) (c c1 : α) (l : List α)
    (ha : ∀ f, l.find? p = some f → p (a f) = true ∧ a (a f) = a f)
    (hc : p c = true ∧ a c = c) :
    upsertRows p a c1 (upsertRows p a c l) = upsertRows p a c l := by
  rw [upsertRows_eq_self_iff]
  obtain ⟨row, hrow, h | h⟩ := find?_upsertRows_same p a c l (fun f hf => (ha f hf).1) hc.1
  · obtain ⟨f, hf, rfl⟩ := h
    exact ⟨_, hrow, (ha f hf).2⟩
  · obtain ⟨_, rfl⟩ := h
    exact ⟨_, hrow, hc.2⟩

theorem map_upsertRows {α β : Type} (g : α → β) (p : α → Bool) (a : α → α) (c : α) (l : List α)
    (ha : ∀ f, l.find? p = some f → ∀ x ∈ l, p x = true → g (a f) = g x) :
    (upsertRows p a c l).map g = l.map g ∨
    (l.find? p = none ∧ (upsertRows p a c l).map g = l.map g ++ [g c]) := by
  unfold upsertRows
  cases hfind : l.find? p with
  | none => exact Or.inr ⟨rfl, by simp⟩
  | some f => exact Or.inl (map_replaceFirst g p _ l (ha f hfind))

theorem mem_upsertRows {α : Type} (p : α → Bool) (a : α → α) (c : α) (l : List α) (x : α)
    (h : x ∈ upsertRows p a c l) :
    x ∈ l ∨ (∃ f, l.find? p = some f ∧ x = a f) ∨ (l.find? p = none ∧ x = c) := by
  unfold upsertRows at h
  cases hfind : l.find? p with
  | none =>
    rw [hfind] at h
    rcases List.mem_append.1 h with h | h
    · exact Or.inl h
    · exact Or.inr (Or.inr ⟨rfl, by simpa using h⟩)
  | some f =>
    rw [hfind] at h
    rcases mem_replaceFirst _ _ _ _ h with h | h
    · exact Or.inr (Or.inl ⟨f, rfl, h⟩)
    · exact Or.inl h

theorem mem_upsertRows_of_mem {α : Type} (p : α → Bool) (a : α → α) (c : α) (l : List α) (x : α)
    (h : x ∈ l) (hx : p x = false) : x ∈ upsertRows p a c l := by
  unfold upsertRows
  cases hfind : l.find? p with
  | none => exact List.mem_append_left _ h
  | some f =>
    dsimp only
    clear hfind
    induction l with
    | nil => cases h
    | cons y ys ih =>
      cases hp : p y
      · simp only [replaceFirst, hp, Bool.false_eq_true, if_false, List.mem_cons]
        rcases List.mem_cons.1 h with rfl | h
        · exact Or.inl rfl
        · exact Or.inr (ih h)
      · simp only [replaceFirst, hp, if_true, List.mem_cons]
        rcases List.mem_cons.1 h with rfl | h
        · rw [hx] at hp; cases hp
        · exact Or.inr h

/-! ## The seeder steps on the tables -/

theorem seedSkill_db (fl : Faults) (acc : Nat × State) (e : String × SkillJSON) :
    (seedSkill fl acc e).2.db =
      if firstCharacter e.1 acc.2.db = none ∨ fl (.skill e.1) = true then acc.2.db
      else { acc.2.db with
        characterSkills := upsertRows (fun r => r.CharacterID == e.1)
          (assignSkill (skillRow e.1 e.2))
          (createSkill (nextID (acc.2.db.characterSkills.map (·.ID))) (skillRow e.1 e.2))
          acc.2.db.characterSkills } := by
  unfold seedSkill assignFirstOrCreateSkill upsertRows
  cases hc : firstCharacter e.1 acc.2.db with
  | none => simp
  | some c =>
    cases hf : fl (.skill e.1)
    · cases hfind : acc.2.db.characterSkills.find? (fun r => r.CharacterID == e.1) <;> simp
    · simp [State.logf]

theorem seedSubstat_db (fl : Faults) (bid : Nat) (db : Store) (e : String × Float64) :
    seedSubstat fl bid db e =
      if fl (.substat bid e.1) = true then db
      else { db with
        characterBuildSubstats := upsertRows (fun r => r.BuildID == bid && r.StatName == e.1)
          (assignSubstat (substatRow bid e.1 e.2))
          (createSubstat (nextID (db.characterBuildSubstats.map (·.ID))) (substatRow bid e.1 e.2))
          db.characterBuildSubstats } := by
  unfold seedSubstat assignFirstOrCreateSubstat upsertRows
  cases hf : fl (.substat bid e.1)
  · cases hfind : db.characterBuildSubstats.find?
      (fun r => r.BuildID == bid && r.StatName == e.1) <;> simp
  · simp

theorem loadRelicSet_eq (fl : Faults) (n : String) (db : Store) :
    loadRelicSet fl n db =
      if fl (.relicSet n) = true then (0, db)
      else match db.relicSets.find? (fun r => r.Name == n) with
        | some rs => (rs.ID, db)
        | none => (nextID (db.relicSets.map (·.ID)),
            { db with relicSets :=
                db.relicSets ++ [createRelicSet (nextID (db.relicSets.map (·.ID))) n] }) := by
  unfold loadRelicSet firstOrCreateRelicSet
  cases hf : fl (.relicSet n)
  · cases hfind : db.relicSets.find? (fun r => r.Name == n) <;> simp [createRelicSet]
  · simp

theorem seedSet_eq (fl : Faults) (bid i : Nat) (n : String) (db : Store) :
    seedSet fl bid i n db =
      writeBuildSet fl bid (loadRelicSet fl n db).1 i (loadRelicSet fl n db).2 := rfl

theorem writeBuildSet_eq (fl : Faults) (bid rid i : Nat) (db : Store) :
    writeBuildSet fl bid rid i db =
      if fl (.buildSet bid rid) = true then db
      else if db.characterBuildSets.find? (fun r => r.BuildID == bid && r.RelicSetID == rid) = none
          ∧ db.relicSets.any (fun r => r.ID == rid) = false then db
      else { db with
        characterBuildSets := upsertRows (fun r => r.BuildID == bid && r.RelicSetID == rid)
          (assignBuildSet (buildSetRow bid rid i))
          (createBuildSet (nextID (db.characterBuildSets.map (·.ID))) (buildSetRow bid rid i))
          db.characterBuildSets } := by
  unfold writeBuildSet assignFirstOrCreateBuildSet upsertRows
  cases hf : fl (.buildSet bid rid)
  · cases hfind : db.characterBuildSets.find?
      (fun r => r.BuildID == bid && r.RelicSetID == rid) with
    | some found => simp
    | none =>
      cases hany : db.relicSets.any (fun r => r.ID == rid)
      · simp [buildSetRow, hany]
      · simp [buildSetRow, hany]
  · simp

theorem assignFirstOrCreateBuild_eq (fl : Faults) (e : String × BuildJSON) (db : Store) :
    assignFirstOrCreateBuild fl e.1 (buildRow e.1 e.2) db =
      if fl (.build e.1) = true then .error .rejected
      else .ok (builtRow e db, { db with characterBuilds := buildsAfter e db }) := by
  unfold assignFirstOrCreateBuild builtRow buildsAfter upsertRow upsertRows
  cases hf : fl (.build e.1)
  · cases hfind : db.characterBuilds.find? (fun r => r.CharacterID == e.1) <;> simp
  · simp

theorem seedBuild_db (fl : Faults) (acc : Nat × State) (e : String × BuildJSON) :
    (seedBuild fl acc e).2.db =
      if firstCharacter e.1 acc.2.db = none ∨ fl (.build e.1) = true then acc.2.db
      else
        seedSets fl (builtRow e acc.2.db).ID 0 e.2.Sets
          (e.2.Substats.foldl (seedSubstat fl (builtRow e acc.2.db).ID)
            { acc.2.db with characterBuilds := buildsAfter e acc.2.db }) := by
  unfold seedBuild
  rw [assignFirstOrCreateBuild_eq]
  cases hc : firstCharacter e.1 acc.2.db with
  | none => simp
  | some c =>
    cases hf : fl (.build e.1)
    · simp
    · simp [State.logf]

/-! ## Recommended sets -/

theorem find?_pred {α : Type} (p : α → Bool) (l : List α) (x : α) (h : l.find? p = some x) :
    p x = true := List.find?_some h

theorem find?_append_of_some {α : Type} (q : α → Bool) (l l1 : List α) (x : α)
    (h : l.find? q = some x) : (l ++ l1).find? q = some x := by
  rw [List.find?_append, h]; rfl

theorem loadRelicSet_characterBuildSets (fl : Faults) (n : String) (db : Store) :
    (loadRelicSet fl n db).2.characterBuildSets = db.characterBuildSets := by
  obtain ⟨t, ht⟩ := loadRelicSet_frame fl n db
  rw [ht]

theorem loadRelicSet_find_keep (fl : Faults) (n m : String) (db : Store) (rs : RelicSet)
    (h : db.relicSets.find? (fun r => r.Name == m) = some rs) :
    (loadRelicSet fl n db).2.relicSets.find? (fun r => r.Name == m) = some rs := by
  rw [loadRelicSet_eq]
  split
  · exact h
  · split
    · exact h
    · exact find?_append_of_some _ _ _ _ h

theorem loadRelicSet_nodup (fl : Faults) (n : String) (db : Store)
    (h : (db.relicSets.map (·.ID)).Nodup) :
    ((loadRelicSet fl n db).2.relicSets.map (·.ID)).Nodup := by
  rw [loadRelicSet_eq]
  split
  · exact h
  · split
    · exact h
    · dsimp only
      rw [List.map_append, List.nodup_append]
      refine ⟨h, by simp, ?_⟩
      intro a ha hb
      simp only [List.map_cons, List.map_nil, List.mem_singleton, createRelicSet] at hb
      rw [hb] at ha
      exact nextID_not_mem _ ha

theorem loadRelicSet_found (fl : Faults) (n : String) (db : Store)
    (hf : fl (.relicSet n) = false) :
    ∃ rs, (loadRelicSet fl n db).2.relicSets.find? (fun r => r.Name == n) = some rs ∧
      rs.ID = (loadRelicSet fl n db).1 := by
  rw [loadRelicSet_eq]
  simp only [hf, Bool.false_eq_true, if_false]
  cases hfind : db.relicSets.find? (fun r => r.Name == n) with
  | some rs => exact ⟨rs, hfind, rfl⟩
  | none =>
    dsimp only
    refine ⟨createRelicSet (nextID (db.relicSets.map (fun r : RelicSet => r.ID))) n, ?_, rfl⟩
    rw [List.find?_append, hfind]
    simp [createRelicSet]

theorem loadRelicSet_id_ne (fl : Faults) (n m : String) (db : Store) (rs : RelicSet)
    (hnd : (db.relicSets.map (·.ID)).Nodup) (hf : fl (.relicSet n) = false)
    (h : db.relicSets.find? (fun r => r.Name == m) = some rs) (hnm : n ≠ m) :
    (loadRelicSet fl n db).1 ≠ rs.ID := by
  have hmem := List.mem_of_find?_eq_some h
  have hname : rs.Name = m := by simpa using List.find?_some h
  rw [loadRelicSet_eq]
  simp only [hf, Bool.false_eq_true, if_false]
  cases hfind : db.relicSets.find? (fun r => r.Name == n) with
  | some rs1 =>
    have hmem1 := List.mem_of_find?_eq_some hfind
    have hname1 : rs1.Name = n := by simpa using List.find?_some hfind
    intro hid
    have : rs1 = rs := List.inj_on_of_nodup_map hnd hmem1 hmem hid
    rw [this, hname] at hname1
    exact hnm hname1.symm
  | none =>
    intro hid
    have hid1 : nextID (db.relicSets.map (·.ID)) = rs.ID := hid
    have hm : rs.ID ∈ db.relicSets.map (·.ID) := List.mem_map.2 ⟨rs, hmem, rfl⟩
    rw [← hid1] at hm
    exact nextID_not_mem _ hm

theorem writeBuildSet_relicSets (fl : Faults) (bid rid i : Nat) (db : Store) :
    (writeBuildSet fl bid rid i db).relicSets = db.relicSets := by
  rw [writeBuildSet_eq]
  split
  · rfl
  · split <;> rfl

theorem writeBuildSet_characterBuilds (fl : Faults) (bid rid i : Nat) (db : Store) :
    (writeBuildSet fl bid rid i db).characterBuilds = db.characterBuilds := by
  rw [writeBuildSet_eq]
  split
  · rfl
  · split <;> rfl

theorem assignBuildSet_key (bid rid i : Nat) (f : CharacterBuildSet)
    (hf : (f.BuildID == bid && f.RelicSetID == rid) = true) :
    (assignBuildSet (buildSetRow bid rid i) f).BuildID = bid ∧
    (assignBuildSet (buildSetRow bid rid i) f).RelicSetID = rid ∧
    (assignBuildSet (buildSetRow bid rid i) f).Priority = (i : Int) + 1 ∧
    (assignBuildSet (buildSetRow bid rid i) f).ID = f.ID := by
  simp only [Bool.and_eq_true, beq_iff_eq] at hf
  refine ⟨?_, ?_, ?_, ?_⟩
  · simp [assignBuildSet, buildSetRow, assignNat_key _ _ hf.1]
  · simp [assignBuildSet, buildSetRow, assignNat_key _ _ hf.2]
  · simp only [assignBuildSet, buildSetRow, assignInt]
    rw [if_neg (by omega)]
  · simp [assignBuildSet, buildSetRow, assignNat]

theorem createBuildSet_key (id bid rid i : Nat) :
    (createBuildSet id (buildSetRow bid rid i)).BuildID = bid ∧
    (createBuildSet id (buildSetRow bid rid i)).RelicSetID = rid ∧
    (createBuildSet id (buildSetRow bid rid i)).Priority = (i : Int) + 1 ∧
    (createBuildSet id (buildSetRow bid rid i)).ID = id := by
  refine ⟨rfl, rfl, ?_, rfl⟩
  simp only [createBuildSet, buildSetRow, orDefaultInt]
  rw [if_neg (by omega)]

theorem writeBuildSet_find_other (fl : Faults) (bid rid i b1 r1 : Nat) (db : Store)
    (hne : b1 ≠ bid ∨ r1 ≠ rid) :
    (writeBuildSet fl bid rid i db).characterBuildSets.find?
        (fun r => r.BuildID == b1 && r.RelicSetID == r1) =
      db.characterBuildSets.find? (fun r => r.BuildID == b1 && r.RelicSetID == r1) := by
  rw [writeBuildSet_eq]
  split
  · rfl
  · split
    · rfl
    · dsimp only
      apply find?_upsertRows_other
      · intro x hx
        simp only [Bool.and_eq_true, beq_iff_eq] at hx
        simp only [Bool.and_eq_false_iff, beq_eq_false_iff_ne, ne_eq]
        rcases hne with h | h
        · exact Or.inl (by rw [hx.1]; exact fun h1 => h h1.symm)
        · exact Or.inr (by rw [hx.2]; exact fun h1 => h h1.symm)
      · intro f hf
        obtain ⟨h1, h2, _, _⟩ := assignBuildSet_key bid rid i f
          (find?_pred (fun r : CharacterBuildSet => r.BuildID == bid && r.RelicSetID == rid) _ _ hf)
        simp only [Bool.and_eq_false_iff, beq_eq_false_iff_ne, ne_eq, h1, h2]
        rcases hne with h | h
        · exact Or.inl (fun h1 => h h1.symm)
        · exact Or.inr (fun h1 => h h1.symm)
      · obtain ⟨h1, h2, _, _⟩ := createBuildSet_key
          (nextID (db.characterBuildSets.map (·.ID))) bid rid i
        simp only [Bool.and_eq_false_iff, beq_eq_false_iff_ne, ne_eq, h1, h2]
        rcases hne with h | h
        · exact Or.inl (fun h1 => h h1.symm)
        · exact Or.inr (fun h1 => h h1.symm)

theorem writeBuildSet_find_same (fl : Faults) (bid rid i : Nat) (db : Store)
    (hf : fl (.buildSet bid rid) = false) (hrs : ∃ rs ∈ db.relicSets, rs.ID = rid) :
    ∃ row, (writeBuildSet fl bid rid i db).characterBuildSets.find?
        (fun r => r.BuildID == bid && r.RelicSetID == rid) = some row ∧
      row.Priority = (i : Int) + 1 := by
  rw [writeBuildSet_eq]
  simp only [hf, Bool.false_eq_true, if_false]
  have hany : db.relicSets.any (fun r => r.ID == rid) = true := by
    obtain ⟨rs, hmem, hid⟩ := hrs
    exact List.any_eq_true.2 ⟨rs, hmem, by simpa using hid⟩
  rw [if_neg (by simp [hany])]
  dsimp only
  obtain ⟨row, hrow, h | h⟩ := find?_upsertRows_same
    (fun r : CharacterBuildSet => r.BuildID == bid && r.RelicSetID == rid)
    (assignBuildSet (buildSetRow bid rid i))
    (createBuildSet (nextID (db.characterBuildSets.map (·.ID))) (buildSetRow bid rid i))
    db.characterBuildSets
    (fun f hf => by
      obtain ⟨h1, h2, _, _⟩ := assignBuildSet_key bid rid i f
          (find?_pred (fun r : CharacterBuildSet => r.BuildID == bid && r.RelicSetID == rid) _ _ hf)
      simp [h1, h2])
    (by
      obtain ⟨h1, h2, _, _⟩ := createBuildSet_key
        (nextID (db.characterBuildSets.map (·.ID))) bid rid i
      simp [h1, h2])
  · obtain ⟨f, hf1, rfl⟩ := h
    exact ⟨_, hrow, (assignBuildSet_key bid rid i f
      (find?_pred (fun r : CharacterBuildSet => r.BuildID == bid && r.RelicSetID == rid) _ _ hf1)).2.2.1⟩
  · obtain ⟨_, rfl⟩ := h
    exact ⟨_, hrow, (createBuildSet_key _ bid rid i).2.2.1⟩

theorem seedSet_relic_keep (fl : Faults) (bid i : Nat) (n m : String) (db : Store)
    (rs : RelicSet) (h : db.relicSets.find? (fun r => r.Name == m) = some rs) :
    (seedSet fl bid i n db).relicSets.find? (fun r => r.Name == m) = some rs := by
  rw [seedSet_eq, writeBuildSet_relicSets]
  exact loadRelicSet_find_keep fl n m db rs h

theorem seedSet_relic_nodup (fl : Faults) (bid i : Nat) (n : String) (db : Store)
    (h : (db.relicSets.map (·.ID)).Nodup) :
    ((seedSet fl bid i n db).relicSets.map (·.ID)).Nodup := by
  rw [seedSet_eq, writeBuildSet_relicSets]
  exact loadRelicSet_nodup fl n db h

theorem seedSet_find_other_build (fl : Faults) (bid i b1 r1 : Nat) (n : String) (db : Store)
    (hne : b1 ≠ bid) :
    (seedSet fl bid i n db).characterBuildSets.find?
        (fun r => r.BuildID == b1 && r.RelicSetID == r1) =
      db.characterBuildSets.find? (fun r => r.BuildID == b1 && r.RelicSetID == r1) := by
  rw [seedSet_eq, writeBuildSet_find_other fl bid _ i b1 r1 _ (Or.inl hne),
    loadRelicSet_characterBuildSets]

theorem seedSet_find_other_relic (fl : Faults) (bid i b1 : Nat) (n m : String) (db : Store)
    (rs : RelicSet) (hnd : (db.relicSets.map (·.ID)).Nodup) (hf : fl (.relicSet n) = false)
    (h : db.relicSets.find? (fun r => r.Name == m) = some rs) (hnm : n ≠ m) :
    (seedSet fl bid i n db).characterBuildSets.find?
        (fun r => r.BuildID == b1 && r.RelicSetID == rs.ID) =
      db.characterBuildSets.find? (fun r => r.BuildID == b1 && r.RelicSetID == rs.ID) := by
  rw [seedSet_eq, writeBuildSet_find_other fl bid _ i b1 rs.ID _
    (Or.inr (fun h1 => loadRelicSet_id_ne fl n m db rs hnd hf h hnm h1.symm)),
    loadRelicSet_characterBuildSets]

theorem seedSet_find_same (fl : Faults) (bid i : Nat) (n : String) (db : Store)
    (hf : fl (.relicSet n) = false) (hb : ∀ r, fl (.buildSet bid r) = false) :
    ∃ rs, (seedSet fl bid i n db).relicSets.find? (fun r => r.Name == n) = some rs ∧
      ∃ row, (seedSet fl bid i n db).characterBuildSets.find?
          (fun r => r.BuildID == bid && r.RelicSetID == rs.ID) = some row ∧
        row.Priority = (i : Int) + 1 := by
  obtain ⟨rs, hrs, hid⟩ := loadRelicSet_found fl n db hf
  refine ⟨rs, ?_, ?_⟩
  · rw [seedSet_eq, writeBuildSet_relicSets]; exact hrs
  · rw [seedSet_eq, hid]
    exact writeBuildSet_find_same fl bid _ i _ (hb _)
      ⟨rs, List.mem_of_find?_eq_some hrs, hid⟩

theorem seedSets_relic_keep (fl : Faults) (bid : Nat) (names : List String) (i : Nat)
    (m : String) (db : Store) (rs : RelicSet)
    (h : db.relicSets.find? (fun r => r.Name == m) = some rs) :
    (seedSets fl bid i names db).relicSets.find? (fun r => r.Name == m) = some rs := by
  induction names generalizing i db with
  | nil => exact h
  | cons n rest ih => exact ih _ _ (seedSet_relic_keep fl bid i n m db rs h)

theorem seedSets_relic_nodup (fl : Faults) (bid : Nat) (names : List String) (i : Nat)
    (db : Store) (h : (db.relicSets.map (·.ID)).Nodup) :
    ((seedSets fl bid i names db).relicSets.map (·.ID)).Nodup := by
  induction names generalizing i db with
  | nil => exact h
  | cons n rest ih => exact ih _ _ (seedSet_relic_nodup fl bid i n db h)

theorem seedSets_find_other_build (fl : Faults) (bid b1 r1 : Nat) (names : List String)
    (i : Nat) (db : Store) (hne : b1 ≠ bid) :
    (seedSets fl bid i names db).characterBuildSets.find?
        (fun r => r.BuildID == b1 && r.RelicSetID == r1) =
      db.characterBuildSets.find? (fun r => r.BuildID == b1 && r.RelicSetID == r1) := by
  induction names generalizing i db with
  | nil => rfl
  | cons n rest ih =>
    rw [seedSets, ih, seedSet_find_other_build fl bid i b1 r1 n db hne]

theorem seedSets_find_other_relic (fl : Faults) (bid b1 : Nat) (names : List String) (i : Nat)
    (m : String) (db : Store) (rs : RelicSet) (hnd : (db.relicSets.map (·.ID)).Nodup)
    (hf : ∀ n ∈ names, fl (.relicSet n) = false)
    (h : db.relicSets.find? (fun r => r.Name == m) = some rs) (hm : m ∉ names) :
    (seedSets fl bid i names db).characterBuildSets.find?
        (fun r => r.BuildID == b1 && r.RelicSetID == rs.ID) =
      db.characterBuildSets.find? (fun r => r.BuildID == b1 && r.RelicSetID == rs.ID) := by
  induction names generalizing i db with
  | nil => rfl
  | cons n rest ih =>
    have hnm : n ≠ m := fun h1 => hm (h1 ▸ List.mem_cons_self _ _)
    rw [seedSets, ih _ _ (seedSet_relic_nodup fl bid i n db hnd)
      (fun x hx => hf x (List.mem_cons_of_mem _ hx))
      (seedSet_relic_keep fl bid i n m db rs h)
      (fun hx => hm (List.mem_cons_of_mem _ hx)),
      seedSet_find_other_relic fl bid i b1 n m db rs hnd (hf n (List.mem_cons_self _ _)) h hnm]

theorem seedSets_priority (fl : Faults) (bid : Nat) (names : List String) (i : Nat)
    (db : Store) (hnd : (db.relicSets.map (·.ID)).Nodup) (hnames : names.Nodup)
    (hf : ∀ n ∈ names, fl (.relicSet n) = false) (hb : ∀ r, fl (.buildSet bid r) = false) :
    ∀ j n, names[j]? = some n →
      ∃ rs, (seedSets fl bid i names db).relicSets.find? (fun r => r.Name == n) = some rs ∧
        ∃ row, (seedSets fl bid i names db).characterBuildSets.find?
            (fun r => r.BuildID == bid && r.RelicSetID == rs.ID) = some row ∧
          row.Priority = ((i + j : Nat) : Int) + 1 := by
  induction names generalizing i db with
  | nil => intro j n h; simp at h
  | cons x rest ih =>
    rw [List.nodup_cons] at hnames
    intro j n hj
    cases j with
    | zero =>
      simp only [List.getElem?_cons_zero, Option.some.injEq] at hj
      subst hj
      obtain ⟨rs, hrs, row, hrow, hprio⟩ :=
        seedSet_find_same fl bid i x db (hf x (List.mem_cons_self _ _)) hb
      refine ⟨rs, ?_, row, ?_, by simpa using hprio⟩
      · rw [seedSets]
        exact seedSets_relic_keep fl bid rest _ x _ rs hrs
      · rw [seedSets, seedSets_find_other_relic fl bid bid rest _ x _ rs
          (seedSet_relic_nodup fl bid i x db hnd)
          (fun y hy => hf y (List.mem_cons_of_mem _ hy)) hrs hnames.1]
        exact hrow
    | succ j =>
      simp only [List.getElem?_cons_succ] at hj
      obtain ⟨rs, hrs, row, hrow, hprio⟩ := ih (i + 1) (seedSet fl bid i x db)
        (seedSet_relic_nodup fl bid i x db hnd) hnames.2
        (fun y hy => hf y (List.mem_cons_of_mem _ hy)) j n hj
      refine ⟨rs, by rw [seedSets]; exact hrs, row, by rw [seedSets]; exact hrow, ?_⟩
      rw [hprio]; push_cast; ring

theorem assignBuild_key (k : String) (b : BuildJSON) (f : CharacterBuild)
    (hf : f.CharacterID = k) :
    (assignBuild (buildRow k b) f).CharacterID = k ∧ (assignBuild (buildRow k b) f).ID = f.ID := by
  constructor
  · simp [assignBuild, buildRow, assignStr_key _ _ hf]
  · simp [assignBuild, buildRow, assignNat]

theorem find?_buildsAfter (e : String × BuildJSON) (db : Store) :
    (buildsAfter e db).find? (fun r => r.CharacterID == e.1) = some (builtRow e db) := by
  unfold buildsAfter builtRow upsertRow upsertRows
  cases hfind : db.characterBuilds.find? (fun r => r.CharacterID == e.1) with
  | none =>
    dsimp only
    rw [List.find?_append, hfind]
    simp [createBuild, buildRow]
  | some f =>
    dsimp only
    apply find?_replaceFirst_same _ _ _ f hfind
    have : f.CharacterID = e.1 := by
      simpa using find?_pred (fun r : CharacterBuild => r.CharacterID == e.1) _ _ hfind
    simp [(assignBuild_key e.1 e.2 f this).1]

theorem find?_buildsAfter_other (e : String × BuildJSON) (db : Store) (k : String)
    (hk : e.1 ≠ k) :
    (buildsAfter e db).find? (fun r => r.CharacterID == k) =
      db.characterBuilds.find? (fun r => r.CharacterID == k) := by
  unfold buildsAfter
  apply find?_upsertRows_other
  · intro x hx
    have : x.CharacterID = e.1 := by simpa using hx
    simp [this, hk]
  · intro f hf
    have : f.CharacterID = e.1 := by
      simpa using find?_pred (fun r : CharacterBuild => r.CharacterID == e.1) _ _ hf
    simp [(assignBuild_key e.1 e.2 f this).1, hk]
  · simp [createBuild, buildRow, hk]

theorem map_replaceFirst_found {α β : Type} (g : α → β) (p : α → Bool) (row f : α)
    (l : List α) (hfind : l.find? p = some f) (h : g row = g f) :
    (replaceFirst p row l).map g = l.map g := by
  induction l with
  | nil => rfl
  | cons y ys ih =>
    rw [List.find?_cons] at hfind
    cases hp : p y
    · rw [hp] at hfind
      simp only [replaceFirst, hp, Bool.false_eq_true, if_false, List.map_cons]
      rw [ih hfind]
    · rw [hp] at hfind
      simp only [Option.some.injEq] at hfind
      simp only [replaceFirst, hp, if_true, List.map_cons]
      rw [h, hfind]

theorem map_upsertRows_found {α β : Type} (g : α → β) (p : α → Bool) (a : α → α) (c : α)
    (l : List α) (ha : ∀ f, l.find? p = some f → g (a f) = g f) :
    (upsertRows p a c l).map g = l.map g ∨
    (l.find? p = none ∧ (upsertRows p a c l).map g = l.map g ++ [g c]) := by
  unfold upsertRows
  cases hfind : l.find? p with
  | none => exact Or.inr ⟨rfl, by simp⟩
  | some f => exact Or.inl (map_replaceFirst_found g p _ f l hfind (ha f hfind))

theorem buildsAfter_nodup (e : String × BuildJSON) (db : Store)
    (h : (db.characterBuilds.map (·.ID)).Nodup) : ((buildsAfter e db).map (·.ID)).Nodup := by
  unfold buildsAfter
  have hkey : ∀ f, db.characterBuilds.find? (fun r => r.CharacterID == e.1) = some f →
      (assignBuild (buildRow e.1 e.2) f).ID = f.ID := by
    intro f hf
    have hf1 : f.CharacterID = e.1 := by
      simpa using find?_pred (fun r : CharacterBuild => r.CharacterID == e.1) _ _ hf
    exact (assignBuild_key e.1 e.2 f hf1).2
  rcases map_upsertRows_found (fun r : CharacterBuild => r.ID) (fun r => r.CharacterID == e.1)
    (assignBuild (buildRow e.1 e.2))
    (createBuild (nextID (db.characterBuilds.map (·.ID))) (buildRow e.1 e.2))
    db.characterBuilds hkey with h1 | ⟨_, h1⟩
  · rw [h1]; exact h
  · rw [h1, List.nodup_append]
    refine ⟨h, by simp, ?_⟩
    intro a ha hb
    simp only [List.mem_singleton, createBuild] at hb
    rw [hb] at ha
    exact nextID_not_mem _ ha

theorem builtRow_id_ne (e : String × BuildJSON) (db : Store) (k : String)
    (build : CharacterBuild) (hnd : (db.characterBuilds.map (·.ID)).Nodup)
    (hb : db.characterBuilds.find? (fun r => r.CharacterID == k) = some build)
    (hk : e.1 ≠ k) : (builtRow e db).ID ≠ build.ID := by
  have hmem := List.mem_of_find?_eq_some hb
  have hbk : build.CharacterID = k := by
    simpa using find?_pred (fun r : CharacterBuild => r.CharacterID == k) _ _ hb
  unfold builtRow upsertRow
  cases hfind : db.characterBuilds.find? (fun r => r.CharacterID == e.1) with
  | none =>
    dsimp only
    intro hid
    have hm : build.ID ∈ db.characterBuilds.map (·.ID) := List.mem_map.2 ⟨build, hmem, rfl⟩
    have hid1 : nextID (db.characterBuilds.map (·.ID)) = build.ID := hid
    rw [← hid1] at hm
    exact nextID_not_mem _ hm
  | some f =>
    dsimp only
    have hf1 : f.CharacterID = e.1 := by
      simpa using find?_pred (fun r : CharacterBuild => r.CharacterID == e.1) _ _ hfind
    rw [(assignBuild_key e.1 e.2 f hf1).2]
    intro hid
    have : f = build := List.inj_on_of_nodup_map hnd (List.mem_of_find?_eq_some hfind) hmem hid
    rw [this, hbk] at hf1
    exact hk hf1.symm

theorem foldl_seedSubstat_tables (fl : Faults) (b : Nat) (l : List (String × Float64)) (db : Store) :
    (l.foldl (seedSubstat fl b) db).characterBuilds = db.characterBuilds ∧
    (l.foldl (seedSubstat fl b) db).relicSets = db.relicSets ∧
    (l.foldl (seedSubstat fl b) db).characterBuildSets = db.characterBuildSets ∧
    (l.foldl (seedSubstat fl b) db).characters = db.characters := by
  obtain ⟨t, ht⟩ := foldl_seedSubstat_frame fl b l db
  rw [ht]; exact ⟨rfl, rfl, rfl, rfl⟩

theorem seedSets_characterBuilds (fl : Faults) (b : Nat) (l : List String) (i : Nat)
    (db : Store) : (seedSets fl b i l db).characterBuilds = db.characterBuilds := by
  obtain ⟨t, u, ht⟩ := seedSets_frame fl b l i db
  rw [ht]

theorem seedBuild_uniqueIDs (fl : Faults) (acc : Nat × State) (e : String × BuildJSON)
    (h : UniqueIDs acc.2.db) : UniqueIDs (seedBuild fl acc e).2.db := by
  rw [seedBuild_db]
  split
  · exact h
  · constructor
    · rw [seedSets_characterBuilds, (foldl_seedSubstat_tables fl _ _ _).1]
      exact buildsAfter_nodup e _ h.1
    · apply seedSets_relic_nodup
      rw [(foldl_seedSubstat_tables fl _ _ _).2.1]
      exact h.2

theorem seedBuild_setsRanked_other (fl : Faults) (acc : Nat × State) (e : String × BuildJSON)
    (k : String) (names : List String) (hu : UniqueIDs acc.2.db) (hk : e.1 ≠ k)
    (h : SetsRanked acc.2.db k names) : SetsRanked (seedBuild fl acc e).2.db k names := by
  rw [seedBuild_db]
  split
  · exact h
  · obtain ⟨build, hbuild, hrank⟩ := h
    refine ⟨build, ?_, ?_⟩
    · rw [seedSets_characterBuilds, (foldl_seedSubstat_tables fl _ _ _).1]
      dsimp only
      rw [find?_buildsAfter_other e _ k hk]
      exact hbuild
    · intro j n hj
      obtain ⟨rs, hrs, row, hrow, hprio⟩ := hrank j n hj
      refine ⟨rs, ?_, row, ?_, hprio⟩
      · apply seedSets_relic_keep
        rw [(foldl_seedSubstat_tables fl _ _ _).2.1]
        exact hrs
      · rw [seedSets_find_other_build fl _ _ _ _ _ _
          (fun h1 => builtRow_id_ne e acc.2.db k build hu.1 hbuild hk h1.symm),
          (foldl_seedSubstat_tables fl _ _ _).2.2.1]
        exact hrow

theorem seedBuild_setsRanked (fl : Faults) (acc : Nat × State) (e : String × BuildJSON)
    (hu : UniqueIDs acc.2.db) (hc : firstCharacter e.1 acc.2.db ≠ none)
    (hnames : e.2.Sets.Nodup) (hfb : fl (.build e.1) = false)
    (hfr : ∀ n ∈ e.2.Sets, fl (.relicSet n) = false)
    (hfs : ∀ b r, fl (.buildSet b r) = false) :
    SetsRanked (seedBuild fl acc e).2.db e.1 e.2.Sets := by
  rw [seedBuild_db, if_neg (by simp [hc, hfb])]
  refine ⟨builtRow e acc.2.db, ?_, ?_⟩
  · rw [seedSets_characterBuilds, (foldl_seedSubstat_tables fl _ _ _).1]
    exact find?_buildsAfter e acc.2.db
  · intro j n hj
    have := seedSets_priority fl (builtRow e acc.2.db).ID e.2.Sets 0
      (e.2.Substats.foldl (seedSubstat fl (builtRow e acc.2.db).ID)
        { acc.2.db with characterBuilds := buildsAfter e acc.2.db })
      (by rw [(foldl_seedSubstat_tables fl _ _ _).2.1]; exact hu.2)
      hnames hfr (hfs _) j n hj
    simpa using this

/-- C7: build-set priority is the 1-based position in the source list.  In a
store whose build and relic-set ids are unique, let `(k, b)` be an entry of the
build map (a Go map: keys pairwise distinct) for an existing character `k`, with
pairwise distinct set names, and let the storage layer accept the build upsert
of `k`, the relic-set calls for the names of `b.Sets` and the build-set calls.
Then after `seedBuilds` the build row of `k` exists and, for every index `j` of
`b.Sets`, the relic set named `b.Sets[j]` exists and the build-set row keyed by
(id of that build row, id of that relic set) has priority `j + 1`. -/
theorem build_set_priority_is_position (fl : Faults) (st : State)
    (m : List (String × BuildJSON)) (k : String) (b : BuildJSON)
    (hkeys : (m.map (·.1)).Nodup) (hmem : (k, b) ∈ m)
    (hchar : ∃ c ∈ st.db.characters, c.ID = k)
    (hsets : b.Sets.Nodup) (huniq : UniqueIDs st.db)
    (hfb : fl (.build k) = false)
    (hfr : ∀ n ∈ b.Sets, fl (.relicSet n) = false)
    (hfs : ∀ bid rid, fl (.buildSet bid rid) = false) :
    (seedBuilds fl (.parsed m) st).2 = none ∧
    SetsRanked (seedBuilds fl (.parsed m) st).1.db k b.Sets := by
  refine ⟨rfl, ?_⟩
  obtain ⟨m1, m2, rfl⟩ := List.append_of_mem hmem
  simp only [seedBuilds, State.logf]
  rw [List.foldl_append, List.foldl_cons]
  rw [List.map_append, List.map_cons, List.nodup_append] at hkeys
  have hk2 : ∀ e ∈ m2, e.1 ≠ k := by
    intro e he hek
    have := (List.nodup_cons.1 hkeys.2.1).1
    exact this (List.mem_map.2 ⟨e, he, hek⟩)
  have h1 : UniqueIDs (m1.foldl (seedBuild fl) (0, st)).2.db :=
    foldl_invariant (fun acc : Nat × State => UniqueIDs acc.2.db) _
      (fun acc e hacc => seedBuild_uniqueIDs fl acc e hacc) m1 (0, st) huniq
  have hc1 : firstCharacter k (m1.foldl (seedBuild fl) (0, st)).2.db ≠ none := by
    unfold firstCharacter
    rw [foldl_seedBuild_characters]
    obtain ⟨c, hc, hid⟩ := hchar
    intro hnone
    have := List.find?_eq_none.1 hnone c hc
    simp [hid] at this
  have h2 := seedBuild_setsRanked fl (m1.foldl (seedBuild fl) (0, st)) (k, b) h1 hc1 hsets
    hfb hfr hfs
  have h3 := foldl_invariant_mem
    (fun acc : Nat × State => UniqueIDs acc.2.db ∧ SetsRanked acc.2.db k b.Sets)
    (seedBuild fl) m2
    (fun acc e he hacc => ⟨seedBuild_uniqueIDs fl acc e hacc.1,
      seedBuild_setsRanked_other fl acc e k b.Sets hacc.1 (hk2 e he) hacc.2⟩)
    (seedBuild fl (m1.foldl (seedBuild fl) (0, st)) (k, b))
    ⟨seedBuild_uniqueIDs fl _ _ h1, h2⟩
  exact h3.2

/-! ## Re-seeding a build -/

theorem writeBuildSet_no_insert (fl : Faults) (bid rid i : Nat) (db : Store)
    (h : (db.characterBuildSets.find?
      (fun r => r.BuildID == bid && r.RelicSetID == rid)).isSome = true) :
    (writeBuildSet fl bid rid i db).characterBuildSets.map (·.ID) =
      db.characterBuildSets.map (·.ID) := by
  rw [writeBuildSet_eq]
  split
  · rfl
  · split
    · rfl
    · dsimp only
      rcases map_upsertRows_found (fun r : CharacterBuildSet => r.ID)
        (fun r => r.BuildID == bid && r.RelicSetID == rid)
        (assignBuildSet (buildSetRow bid rid i))
        (createBuildSet (nextID (db.characterBuildSets.map (·.ID))) (buildSetRow bid rid i))
        db.characterBuildSets
        (fun f hf => (assignBuildSet_key bid rid i f
          (find?_pred (fun r : CharacterBuildSet => r.BuildID == bid && r.RelicSetID == rid)
            _ _ hf)).2.2.2) with h1 | ⟨h1, _⟩
      · exact h1
      · rw [h1] at h; cases h

theorem writeBuildSet_find_isSome (fl : Faults) (bid rid i b1 r1 : Nat) (db : Store)
    (h : (db.characterBuildSets.find?
      (fun r => r.BuildID == b1 && r.RelicSetID == r1)).isSome = true) :
    ((writeBuildSet fl bid rid i db).characterBuildSets.find?
      (fun r => r.BuildID == b1 && r.RelicSetID == r1)).isSome = true := by
  by_cases hne : b1 ≠ bid ∨ r1 ≠ rid
  · rw [writeBuildSet_find_other fl bid rid i b1 r1 db hne]; exact h
  · have hb : b1 = bid := by
      by_contra hc; exact hne (Or.inl hc)
    have hr : r1 = rid := by
      by_contra hc; exact hne (Or.inr hc)
    subst hb hr
    rw [writeBuildSet_eq]
    split
    · exact h
    · split
      · exact h
      · dsimp only
        obtain ⟨row, hrow, _⟩ := find?_upsertRows_same
          (fun r : CharacterBuildSet => r.BuildID == b1 && r.RelicSetID == r1)
          (assignBuildSet (buildSetRow b1 r1 i))
          (createBuildSet (nextID (db.characterBuildSets.map (·.ID))) (buildSetRow b1 r1 i))
          db.characterBuildSets
          (fun f hf => by
            obtain ⟨h1, h2, _, _⟩ := assignBuildSet_key b1 r1 i f
              (find?_pred (fun r : CharacterBuildSet => r.BuildID == b1 && r.RelicSetID == r1)
                _ _ hf)
            simp [h1, h2])
          (by
            obtain ⟨h1, h2, _, _⟩ := createBuildSet_key
              (nextID (db.characterBuildSets.map (·.ID))) b1 r1 i
            simp [h1, h2])
        rw [hrow]; rfl

theorem loadRelicSet_of_found (fl : Faults) (n : String) (db : Store) (rs : RelicSet)
    (hf : fl (.relicSet n) = false) (h : db.relicSets.find? (fun r => r.Name == n) = some rs) :
    loadRelicSet fl n db = (rs.ID, db) := by
  rw [loadRelicSet_eq]
  simp only [hf, Bool.false_eq_true, if_false, h]

theorem seedSets_no_insert (fl : Faults) (bid : Nat) (names : List String) (i : Nat)
    (db : Store) (hf : ∀ n ∈ names, fl (.relicSet n) = false)
    (h : ∀ n ∈ names, ∃ rs, db.relicSets.find? (fun r => r.Name == n) = some rs ∧
      (db.characterBuildSets.find?
        (fun r => r.BuildID == bid && r.RelicSetID == rs.ID)).isSome = true) :
    (seedSets fl bid i names db).relicSets = db.relicSets ∧
    (seedSets fl bid i names db).characterBuildSets.map (·.ID) =
      db.characterBuildSets.map (·.ID) := by
  induction names generalizing i db with
  | nil => exact ⟨rfl, rfl⟩
  | cons x rest ih =>
    obtain ⟨rs, hrs, hsome⟩ := h x (List.mem_cons_self _ _)
    have hstep : seedSet fl bid i x db = writeBuildSet fl bid rs.ID i db := by
      rw [seedSet_eq, loadRelicSet_of_found fl x db rs (hf x (List.mem_cons_self _ _)) hrs]
    have hrel : (seedSet fl bid i x db).relicSets = db.relicSets := by
      rw [hstep, writeBuildSet_relicSets]
    obtain ⟨g1, g2⟩ := ih (i + 1) (seedSet fl bid i x db)
      (fun n hn => hf n (List.mem_cons_of_mem _ hn))
      (fun n hn => by
        obtain ⟨rs1, hrs1, hsome1⟩ := h n (List.mem_cons_of_mem _ hn)
        refine ⟨rs1, by rw [hrel]; exact hrs1, ?_⟩
        rw [hstep]
        exact writeBuildSet_find_isSome fl bid rs.ID i bid rs1.ID db hsome1)
    rw [seedSets]
    refine ⟨by rw [g1, hrel], ?_⟩
    rw [g2, hstep]
    exact writeBuildSet_no_insert fl bid rs.ID i db hsome

theorem builtRow_id_of_found (e : String × BuildJSON) (db : Store) (build : CharacterBuild)
    (h : db.characterBuilds.find? (fun r => r.CharacterID == e.1) = some build) :
    (builtRow e db).ID = build.ID := by
  unfold builtRow upsertRow
  rw [h]
  have hf1 : build.CharacterID = e.1 := by
    simpa using find?_pred (fun r : CharacterBuild => r.CharacterID == e.1) _ _ h
  exact (assignBuild_key e.1 e.2 build hf1).2

theorem seedBuilds_single (fl : Faults) (st : State) (e : String × BuildJSON) :
    (seedBuilds fl (.parsed [e]) st).1.db = (seedBuild fl (0, st) e).2.db := rfl

/-- C8, amended: re-seeding a changed set list updates in place and deletes
nothing.  In a store with unique build and relic-set ids, for an existing
character `k`, pairwise distinct names `A`, `B`, `C` and a storage layer that
accepts the build upsert of `k`, the relic-set calls for the three names and the
build-set calls: after seeding `k` with sets `[A, B, C]` and then with sets
`[C, A]`, the build-set row of `C` has priority 1, the row of `A` has priority
2, the row of `B` is still there with the priority 2 it got in the first run,
and the second run inserted no build-set row and no relic set. -/
theorem reseed_changed_set_list (fl : Faults) (st : State) (k : String) (b1 b2 : BuildJSON)
    (A B C : String) (h1 : b1.Sets = [A, B, C]) (h2 : b2.Sets = [C, A])
    (hd : [A, B, C].Nodup) (hchar : ∃ c ∈ st.db.characters, c.ID = k)
    (huniq : UniqueIDs st.db) (hfb : fl (.build k) = false)
    (hfr : ∀ n ∈ [A, B, C], fl (.relicSet n) = false)
    (hfs : ∀ bid rid, fl (.buildSet bid rid) = false) :
    ∃ build rsA rsB rsC rowA rowB rowC,
      (seedBuilds fl (.parsed [(k, b2)])
        (seedBuilds fl (.parsed [(k, b1)]) st).1).1.db.characterBuilds.find?
          (fun r => r.CharacterID == k) = some build ∧
      (seedBuilds fl (.parsed [(k, b2)])
        (seedBuilds fl (.parsed [(k, b1)]) st).1).1.db.relicSets.find?
          (fun r => r.Name == A) = some rsA ∧
      (seedBuilds fl (.parsed [(k, b2)])
        (seedBuilds fl (.parsed [(k, b1)]) st).1).1.db.relicSets.find?
          (fun r => r.Name == B) = some rsB ∧
      (seedBuilds fl (.parsed [(k, b2)])
        (seedBuilds fl (.parsed [(k, b1)]) st).1).1.db.relicSets.find?
          (fun r => r.Name == C) = some rsC ∧
      (seedBuilds fl (.parsed [(k, b2)])
        (seedBuilds fl (.parsed [(k, b1)]) st).1).1.db.characterBuildSets.find?
          (fun r => r.BuildID == build.ID && r.RelicSetID == rsC.ID) = some rowC ∧
      rowC.Priority = 1 ∧
      (seedBuilds fl (.parsed [(k, b2)])
        (seedBuilds fl (.parsed [(k, b1)]) st).1).1.db.characterBuildSets.find?
          (fun r => r.BuildID == build.ID && r.RelicSetID == rsA.ID) = some rowA ∧
      rowA.Priority = 2 ∧
      (seedBuilds fl (.parsed [(k, b2)])
        (seedBuilds fl (.parsed [(k, b1)]) st).1).1.db.characterBuildSets.find?
          (fun r => r.BuildID == build.ID && r.RelicSetID == rsB.ID) = some rowB ∧
      rowB.Priority = 2 ∧
      (seedBuilds fl (.parsed [(k, b2)])
        (seedBuilds fl (.parsed [(k, b1)]) st).1).1.db.characterBuildSets.map (·.ID) =
        (seedBuilds fl (.parsed [(k, b1)]) st).1.db.characterBuildSets.map (·.ID) ∧
      (seedBuilds fl (.parsed [(k, b2)])
        (seedBuilds fl (.parsed [(k, b1)]) st).1).1.db.relicSets =
        (seedBuilds fl (.parsed [(k, b1)]) st).1.db.relicSets := by
  have hABC : A ≠ B ∧ A ≠ C ∧ B ≠ C := by
    simp only [List.nodup_cons, List.mem_cons, List.mem_singleton, not_or, List.not_mem_nil,
      not_false_eq_true, List.nodup_nil, and_true] at hd
    exact ⟨hd.1.1, hd.1.2, hd.2⟩
  have hc0 : firstCharacter k st.db ≠ none := by
    obtain ⟨c, hc, hid⟩ := hchar
    unfold firstCharacter
    intro hnone
    have := List.find?_eq_none.1 hnone c hc
    simp [hid] at this
  -- the first run
  have hu1 : UniqueIDs (seedBuilds fl (.parsed [(k, b1)]) st).1.db :=
    seedBuild_uniqueIDs fl (0, st) (k, b1) huniq
  have hr1 : SetsRanked (seedBuilds fl (.parsed [(k, b1)]) st).1.db k [A, B, C] := by
    have := seedBuild_setsRanked fl (0, st) (k, b1) huniq hc0 (by rw [h1]; exact hd) hfb
      (by rw [h1]; exact hfr) hfs
    rw [h1] at this
    exact this
  have hc1 : firstCharacter k (seedBuilds fl (.parsed [(k, b1)]) st).1.db ≠ none := by
    have hch : (seedBuilds fl (.parsed [(k, b1)]) st).1.db.characters = st.db.characters :=
      foldl_seedBuild_characters fl [(k, b1)] (0, st)
    unfold firstCharacter at hc0 ⊢
    rw [hch]; exact hc0
  generalize (seedBuilds fl (.parsed [(k, b1)]) st).1 = st1 at hu1 hr1 hc1 ⊢
  obtain ⟨build1, hb1, hrank⟩ := hr1
  obtain ⟨rsA, hrsA, rowA1, hrowA1, _⟩ := hrank 0 A rfl
  obtain ⟨rsB, hrsB, rowB1, hrowB1, hprioB⟩ := hrank 1 B rfl
  obtain ⟨rsC, hrsC, rowC1, hrowC1, _⟩ := hrank 2 C rfl
  -- the second run
  have hbid : (builtRow (k, b2) st1.db).ID = build1.ID := builtRow_id_of_found (k, b2) st1.db _ hb1
  have htab := foldl_seedSubstat_tables fl (builtRow (k, b2) st1.db).ID b2.Substats
    { st1.db with characterBuilds := buildsAfter (k, b2) st1.db }
  have hrelnd : ((b2.Substats.foldl (seedSubstat fl (builtRow (k, b2) st1.db).ID)
      { st1.db with characterBuilds := buildsAfter (k, b2) st1.db }).relicSets.map
        (·.ID)).Nodup := by
    rw [htab.2.1]; exact hu1.2
  have hfr2 : ∀ n ∈ [C, A], fl (.relicSet n) = false := by
    intro n hn
    apply hfr
    simp only [List.mem_cons, List.mem_singleton, List.not_mem_nil, or_false] at hn ⊢
    rcases hn with rfl | rfl
    · exact Or.inr (Or.inr rfl)
    · exact Or.inl rfl
  have hdb2 : (seedBuilds fl (.parsed [(k, b2)]) st1).1.db =
      seedSets fl (builtRow (k, b2) st1.db).ID 0 [C, A]
        (b2.Substats.foldl (seedSubstat fl (builtRow (k, b2) st1.db).ID)
          { st1.db with characterBuilds := buildsAfter (k, b2) st1.db }) := by
    rw [seedBuilds_single, seedBuild_db, if_neg (by simp [hc1, hfb]), h2]
  rw [hdb2]
  have hprio := seedSets_priority fl (builtRow (k, b2) st1.db).ID [C, A] 0 _ hrelnd
    (by
      simp only [List.nodup_cons, List.mem_singleton, List.not_mem_nil, not_false_eq_true,
        List.nodup_nil, and_true]
      exact fun h => hABC.2.1 h.symm)
    hfr2 (hfs _)
  obtain ⟨rsC2, hrsC2, rowC, hrowC, hpC⟩ := hprio 0 C rfl
  obtain ⟨rsA2, hrsA2, rowA, hrowA, hpA⟩ := hprio 1 A rfl
  have keepA := seedSets_relic_keep fl (builtRow (k, b2) st1.db).ID [C, A] 0 A _ rsA
    (by rw [htab.2.1]; exact hrsA)
  have keepB := seedSets_relic_keep fl (builtRow (k, b2) st1.db).ID [C, A] 0 B _ rsB
    (by rw [htab.2.1]; exact hrsB)
  have keepC := seedSets_relic_keep fl (builtRow (k, b2) st1.db).ID [C, A] 0 C _ rsC
    (by rw [htab.2.1]; exact hrsC)
  have eC : rsC2 = rsC := by rw [hrsC2] at keepC; exact Option.some.inj keepC
  have eA : rsA2 = rsA := by rw [hrsA2] at keepA; exact Option.some.inj keepA
  subst eC eA
  have hB := seedSets_find_other_relic fl (builtRow (k, b2) st1.db).ID
    (builtRow (k, b2) st1.db).ID [C, A] 0 B _ rsB hrelnd hfr2
    (by rw [htab.2.1]; exact hrsB)
    (by
      simp only [List.mem_cons, List.mem_singleton, List.not_mem_nil, or_false, not_or]
      exact ⟨hABC.2.2, fun h => hABC.1 h.symm⟩)
  have hnoins := seedSets_no_insert fl (builtRow (k, b2) st1.db).ID [C, A] 0
    (b2.Substats.foldl (seedSubstat fl (builtRow (k, b2) st1.db).ID)
      { st1.db with characterBuilds := buildsAfter (k, b2) st1.db }) hfr2
    (by
      intro n hn
      simp only [List.mem_cons, List.mem_singleton, List.not_mem_nil, or_false] at hn
      rcases hn with rfl | rfl
      · exact ⟨rsC2, by rw [htab.2.1]; exact hrsC, by rw [htab.2.2.1, hbid, hrowC1]; rfl⟩
      · exact ⟨rsA2, by rw [htab.2.1]; exact hrsA, by rw [htab.2.2.1, hbid, hrowA1]; rfl⟩)
  refine ⟨builtRow (k, b2) st1.db, rsA2, rsB, rsC2, rowA, rowB1, rowC, ?_, keepA, keepB, keepC,
    hrowC, by simpa using hpC, hrowA, by simpa using hpA, ?_, by simpa using hprioB, ?_, ?_⟩
  · rw [seedSets_characterBuilds, htab.1]
    exact find?_buildsAfter (k, b2) st1.db
  · rw [hB, htab.2.2.1, hbid]; exact hrowB1
  · rw [hnoins.2, htab.2.2.1]
  · rw [hnoins.1, htab.2.1]

/-- C8, counterexample: the row of a dropped set stays.  Seeding character
1001 with sets A, B, C and then with sets C, A leaves three build-set rows: C
with priority 1, A with priority 2, and the row of B (relic set 2) with its old
priority 2. -/
theorem reseed_leaves_stale_row :
    (seedBuilds noFaults (.parsed [("1001", buildCA)])
      (seedBuilds noFaults (.parsed [("1001", buildABC)])
        ⟨storeWithMarch, []⟩).1).1.db.relicSets =
      [⟨1, "A", ""⟩, ⟨2, "B", ""⟩, ⟨3, "C", ""⟩] ∧
    (seedBuilds noFaults (.parsed [("1001", buildABC)])
        ⟨storeWithMarch, []⟩).1.db.characterBuildSets =
      [⟨1, 1, 1, 1⟩, ⟨2, 1, 2, 2⟩, ⟨3, 1, 3, 3⟩] ∧
    (seedBuilds noFaults (.parsed [("1001", buildCA)])
      (seedBuilds noFaults (.parsed [("1001", buildABC)])
        ⟨storeWithMarch, []⟩).1).1.db.characterBuildSets =
      [⟨1, 1, 1, 2⟩, ⟨2, 1, 2, 2⟩, ⟨3, 1, 3, 1⟩] ∧
    (∃ row ∈ (seedBuilds noFaults (.parsed [("1001", buildCA)])
      (seedBuilds noFaults (.parsed [("1001", buildABC)])
        ⟨storeWithMarch, []⟩).1).1.db.characterBuildSets, row.BuildID = 1 ∧ row.RelicSetID = 2) := by
  decide

theorem build_set_priority_is_position_witness :
    (([("1001", buildABC)].map (·.1)).Nodup ∧ ("1001", buildABC) ∈ [("1001", buildABC)] ∧
      (∃ c ∈ storeWithMarch.characters, c.ID = "1001") ∧ buildABC.Sets.Nodup ∧
      UniqueIDs storeWithMarch) ∧
    ((seedBuilds noFaults (.parsed [("1001", buildABC)]) ⟨storeWithMarch, []⟩).2 = none ∧
      SetsRanked (seedBuilds noFaults (.parsed [("1001", buildABC)]) ⟨storeWithMarch, []⟩).1.db
        "1001" buildABC.Sets) :=
  ⟨by decide,
    build_set_priority_is_position noFaults ⟨storeWithMarch, []⟩ [("1001", buildABC)] "1001"
      buildABC (by decide) (by decide) (by decide) (by decide) (by decide) rfl
      (fun _ _ => rfl) (fun _ _ => rfl)⟩

theorem reseed_changed_set_list_witness :
    (buildABC.Sets = ["A", "B", "C"] ∧ buildCA.Sets = ["C", "A"] ∧ ["A", "B", "C"].Nodup ∧
      (∃ c ∈ storeWithMarch.characters, c.ID = "1001") ∧ UniqueIDs storeWithMarch) ∧
    ∃ build rsA rsB rsC rowA rowB rowC,
      (seedBuilds noFaults (.parsed [("1001", buildCA)])
        (seedBuilds noFaults (.parsed [("1001", buildABC)])
          ⟨storeWithMarch, []⟩).1).1.db.characterBuilds.find?
          (fun r => r.CharacterID == "1001") = some build ∧
      (seedBuilds noFaults (.parsed [("1001", buildCA)])
        (seedBuilds noFaults (.parsed [("1001", buildABC)])
          ⟨storeWithMarch, []⟩).1).1.db.relicSets.find?
          (fun r => r.Name == "A") = some rsA ∧
      (seedBuilds noFaults (.parsed [("1001", buildCA)])
        (seedBuilds noFaults (.parsed [("1001", buildABC)])
          ⟨storeWithMarch, []⟩).1).1.db.relicSets.find?
          (fun r => r.Name == "B") = some rsB ∧
      (seedBuilds noFaults (.parsed [("1001", buildCA)])
        (seedBuilds noFaults (.parsed [("1001", buildABC)])
          ⟨storeWithMarch, []⟩).1).1.db.relicSets.find?
          (fun r => r.Name == "C") = some rsC ∧
      (seedBuilds noFaults (.parsed [("1001", buildCA)])
        (seedBuilds noFaults (.parsed [("1001", buildABC)])
          ⟨storeWithMarch, []⟩).1).1.db.characterBuildSets.find?
          (fun r => r.BuildID == build.ID && r.RelicSetID == rsC.ID) = some rowC ∧
      rowC.Priority = 1 ∧
      (seedBuilds noFaults (.parsed [("1001", buildCA)])
        (seedBuilds noFaults (.parsed [("1001", buildABC)])
          ⟨storeWithMarch, []⟩).1).1.db.characterBuildSets.find?
          (fun r => r.BuildID == build.ID && r.RelicSetID == rsA.ID) = some rowA ∧
      rowA.Priority = 2 ∧
      (seedBuilds noFaults (.parsed [("1001", buildCA)])
        (seedBuilds noFaults (.parsed [("1001", buildABC)])
          ⟨storeWithMarch, []⟩).1).1.db.characterBuildSets.find?
          (fun r => r.BuildID == build.ID && r.RelicSetID == rsB.ID) = some rowB ∧
      rowB.Priority = 2 ∧
      (seedBuilds noFaults (.parsed [("1001", buildCA)])
        (seedBuilds noFaults (.parsed [("1001", buildABC)])
          ⟨storeWithMarch, []⟩).1).1.db.characterBuildSets.map (·.ID) =
        (seedBuilds noFaults (.parsed [("1001", buildABC)])
          ⟨storeWithMarch, []⟩).1.db.characterBuildSets.map (·.ID) ∧
      (seedBuilds noFaults (.parsed [("1001", buildCA)])
        (seedBuilds noFaults (.parsed [("1001", buildABC)])
          ⟨storeWithMarch, []⟩).1).1.db.relicSets =
        (seedBuilds noFaults (.parsed [("1001", buildABC)]) ⟨storeWithMarch, []⟩).1.db.relicSets :=
  ⟨by decide,
    reseed_changed_set_list noFaults ⟨storeWithMarch, []⟩ "1001" buildABC buildCA "A" "B" "C"
      rfl rfl (by decide) (by decide) (by decide) rfl (fun _ _ => rfl) (fun _ _ => rfl)⟩

/-! ## A second run changes nothing: generic part -/

theorem foldl_fixed {σ α κ : Type} (f : σ → α → σ) (key : α → κ) (Inv : σ → Prop)
    (Fix : α → σ → Prop)
    (hinv : ∀ s a, Inv s → Inv (f s a))
    (hest : ∀ s a, Inv s → Fix a (f s a))
    (hpres : ∀ s a b, Inv s → key a ≠ key b → Fix a s → Fix a (f s b))
    (l : List α) (hnd : (l.map key).Nodup) (s : σ) (hs : Inv s) :
    ∀ a ∈ l, Fix a (l.foldl f s) := by
  induction l generalizing s with
  | nil => intro a ha; cases ha
  | cons x rest ih =>
    rw [List.map_cons, List.nodup_cons] at hnd
    intro a ha
    rw [List.foldl_cons]
    rcases List.mem_cons.1 ha with rfl | ha
    · have hkeep : ∀ (r : List α) (t : σ), Inv t → (∀ b ∈ r, key a ≠ key b) → Fix a t →
          Fix a (r.foldl f t) := by
        intro r
        induction r with
        | nil => intro t _ _ h; exact h
        | cons y ys ihr =>
          intro t ht hk h
          rw [List.foldl_cons]
          exact ihr _ (hinv t y ht) (fun b hb => hk b (List.mem_cons_of_mem _ hb))
            (hpres t a y ht (hk y (List.mem_cons_self _ _)) h)
      exact hkeep rest _ (hinv s a hs)
        (fun b hb hab => hnd.1 (List.mem_map.2 ⟨b, hb, hab.symm⟩)) (hest s a hs)
    · exact ih hnd.2 _ (hinv s x hs) a ha

theorem foldl_inv {σ α : Type} (f : σ → α → σ) (Inv : σ → Prop)
    (hinv : ∀ s a, Inv s → Inv (f s a)) (l : List α) (s : σ) (hs : Inv s) :
    Inv (l.foldl f s) := by
  induction l generalizing s with
  | nil => exact hs
  | cons x rest ih => exact ih _ (hinv s x hs)

theorem foldl_noop {σ α : Type} (f : σ → α → σ) (l : List α) (s : σ)
    (h : ∀ a ∈ l, f s a = s) : l.foldl f s = s := by
  induction l with
  | nil => rfl
  | cons x rest ih =>
    rw [List.foldl_cons, h x (List.mem_cons_self _ _)]
    exact ih (fun a ha => h a (List.mem_cons_of_mem _ ha))

/-! ## A second run changes nothing: skills -/

theorem assignInt_idem (inc cur : Int) : assignInt inc (assignInt inc cur) = assignInt inc cur := by
  unfold assignInt; split <;> simp_all

theorem assignNat_idem (inc cur : Nat) : assignNat inc (assignNat inc cur) = assignNat inc cur := by
  unfold assignNat; split <;> simp_all

theorem assignFloat_idem (inc cur : Float64) :
    assignFloat inc (assignFloat inc cur) = assignFloat inc cur := by
  unfold assignFloat; split <;> simp_all

theorem assignFloat_orDefault (d inc : Float64) :
    assignFloat inc (orDefaultFloat d inc) = orDefaultFloat d inc := by
  unfold assignFloat orDefaultFloat; split <;> simp_all

theorem assignInt_orDefault (d inc : Int) : assignInt inc (orDefaultInt d inc) = orDefaultInt d inc := by
  unfold assignInt orDefaultInt; split <;> simp_all

theorem assignStr_orDefault (d inc : String) :
    assignStr inc (orDefaultStr d inc) = orDefaultStr d inc := by
  unfold assignStr orDefaultStr; split <;> simp_all

theorem assignSkill_idem (s f : CharacterSkill) : assignSkill s (assignSkill s f) = assignSkill s f := by
  simp [assignSkill, assignStr_idem, assignInt_idem, assignNat_idem, assignFloat_idem]

theorem assignSkill_create (id : Nat) (k : String) (v : SkillJSON) :
    assignSkill (skillRow k v) (createSkill id (skillRow k v)) = createSkill id (skillRow k v) := by
  simp only [assignSkill, createSkill, skillRow, assignInt_orDefault, assignStr_orDefault,
    assignFloat_orDefault]
  simp [assignNat, assignStr]

theorem assignSkill_key (k : String) (v : SkillJSON) (f : CharacterSkill)
    (hf : f.CharacterID = k) : (assignSkill (skillRow k v) f).CharacterID = k := by
  simp [assignSkill, skillRow, assignStr_key _ _ hf]

theorem seedSkill_rows (fl : Faults) (acc : Nat × State) (e : String × SkillJSON) :
    (seedSkill fl acc e).2.db =
      { acc.2.db with
        characterSkills := skillRowsStep fl acc.2.db.characters acc.2.db.characterSkills e } := by
  rw [seedSkill_db]
  unfold skillRowsStep firstCharacter
  split <;> rfl

theorem foldl_seedSkill_rows (fl : Faults) (l : List (String × SkillJSON)) (acc : Nat × State) :
    (l.foldl (seedSkill fl) acc).2.db =
      { acc.2.db with
        characterSkills :=
          l.foldl (skillRowsStep fl acc.2.db.characters) acc.2.db.characterSkills } := by
  induction l generalizing acc with
  | nil => rfl
  | cons e rest ih =>
    rw [List.foldl_cons, List.foldl_cons, ih, seedSkill_rows]

theorem skillRowsStep_idem (fl : Faults) (chars : List Character) (rows : List CharacterSkill)
    (e : String × SkillJSON) :
    skillRowsStep fl chars (skillRowsStep fl chars rows e) e = skillRowsStep fl chars rows e := by
  unfold skillRowsStep
  by_cases h : chars.find? (fun r => r.ID == e.1) = none ∨ fl (.skill e.1) = true
  · rw [if_pos h, if_pos h]
  · rw [if_neg h, if_neg h]
    apply upsertRows_idem
    · intro f hf
      have hfk : f.CharacterID = e.1 := by
        simpa using find?_pred (fun r : CharacterSkill => r.CharacterID == e.1) _ _ hf
      exact ⟨by simp [assignSkill_key e.1 e.2 f hfk], assignSkill_idem _ _⟩
    · exact ⟨by simp [createSkill, skillRow], assignSkill_create _ _ _⟩

theorem skillRowsStep_fix_other (fl : Faults) (chars : List Character)
    (rows : List CharacterSkill) (e e1 : String × SkillJSON) (hk : e.1 ≠ e1.1)
    (h : skillRowsStep fl chars rows e = rows) :
    skillRowsStep fl chars (skillRowsStep fl chars rows e1) e = skillRowsStep fl chars rows e1 := by
  unfold skillRowsStep at h ⊢
  by_cases hc : chars.find? (fun r => r.ID == e.1) = none ∨ fl (.skill e.1) = true
  · rw [if_pos hc]
  · rw [if_neg hc] at h ⊢
    by_cases hc1 : chars.find? (fun r => r.ID == e1.1) = none ∨ fl (.skill e1.1) = true
    · rw [if_pos hc1]
      rw [upsertRows_eq_self_iff] at h ⊢
      exact h
    · rw [if_neg hc1]
      apply upsertRows_fix_other _ _ _ _ _ _ _ _ _ _ h
      · intro x hx
        have : x.CharacterID = e1.1 := by simpa using hx
        simp [this, hk, Ne.symm hk]
      · intro f hf
        have hfk : f.CharacterID = e1.1 := by
          simpa using find?_pred (fun r : CharacterSkill => r.CharacterID == e1.1) _ _ hf
        simp [assignSkill_key e1.1 e1.2 f hfk, Ne.symm hk]
      · simp [createSkill, skillRow, Ne.symm hk]

/-! ## A second run changes nothing: substats -/

theorem seedSubstat_rows (fl : Faults) (bid : Nat) (db : Store) (e : String × Float64) :
    seedSubstat fl bid db e =
      { db with
        characterBuildSubstats := substatRowsStep fl bid db.characterBuildSubstats e } := by
  rw [seedSubstat_db]
  unfold substatRowsStep
  split <;> rfl

theorem foldl_seedSubstat_rows (fl : Faults) (bid : Nat) (l : List (String × Float64)) (db : Store) :
    l.foldl (seedSubstat fl bid) db =
      { db with
        characterBuildSubstats :=
          l.foldl (substatRowsStep fl bid) db.characterBuildSubstats } := by
  induction l generalizing db with
  | nil => rfl
  | cons e rest ih =>
    rw [List.foldl_cons, List.foldl_cons, ih, seedSubstat_rows]

theorem assignSubstat_key (bid : Nat) (stat : String) (w : Float64) (f : CharacterBuildSubstat)
    (hf : (f.BuildID == bid && f.StatName == stat) = true) :
    (assignSubstat (substatRow bid stat w) f).BuildID = bid ∧
    (assignSubstat (substatRow bid stat w) f).StatName = stat := by
  simp only [Bool.and_eq_true, beq_iff_eq] at hf
  constructor
  · simp [assignSubstat, substatRow, assignNat_key _ _ hf.1]
  · simp [assignSubstat, substatRow, assignStr_key _ _ hf.2]

theorem assignSubstat_idem (s f : CharacterBuildSubstat) :
    assignSubstat s (assignSubstat s f) = assignSubstat s f := by
  simp [assignSubstat, assignStr_idem, assignFloat_idem, assignNat_idem]

theorem assignSubstat_create (id bid : Nat) (stat : String) (w : Float64) :
    assignSubstat (substatRow bid stat w) (createSubstat id (substatRow bid stat w)) =
      createSubstat id (substatRow bid stat w) := by
  simp only [assignSubstat, createSubstat, substatRow, assignFloat_orDefault]
  simp [assignNat, assignStr]

theorem substatRowsStep_idem (fl : Faults) (bid : Nat) (rows : List CharacterBuildSubstat)
    (e : String × Float64) :
    substatRowsStep fl bid (substatRowsStep fl bid rows e) e = substatRowsStep fl bid rows e := by
  unfold substatRowsStep
  by_cases h : fl (.substat bid e.1) = true
  · rw [if_pos h, if_pos h]
  · rw [if_neg h, if_neg h]
    apply upsertRows_idem
    · intro f hf
      obtain ⟨h1, h2⟩ := assignSubstat_key bid e.1 e.2 f
        (find?_pred (fun r : CharacterBuildSubstat => r.BuildID == bid && r.StatName == e.1)
          _ _ hf)
      exact ⟨by simp [h1, h2], assignSubstat_idem _ _⟩
    · exact ⟨by simp [createSubstat, substatRow], assignSubstat_create _ _ _ _⟩

theorem substatRowsStep_fix_other (fl : Faults) (bid bid1 : Nat)
    (rows : List CharacterBuildSubstat) (e e1 : String × Float64)
    (hk : bid ≠ bid1 ∨ e.1 ≠ e1.1) (h : substatRowsStep fl bid rows e = rows) :
    substatRowsStep fl bid (substatRowsStep fl bid1 rows e1) e =
      substatRowsStep fl bid1 rows e1 := by
  unfold substatRowsStep at h ⊢
  by_cases hc : fl (.substat bid e.1) = true
  · rw [if_pos hc]
  · rw [if_neg hc] at h ⊢
    by_cases hc1 : fl (.substat bid1 e1.1) = true
    · rw [if_pos hc1]
      rw [upsertRows_eq_self_iff] at h ⊢
      exact h
    · rw [if_neg hc1]
      have hne : ∀ x : CharacterBuildSubstat, x.BuildID = bid1 → x.StatName = e1.1 →
          (x.BuildID == bid && x.StatName == e.1) = false := by
        intro x h1 h2
        simp only [Bool.and_eq_false_iff, beq_eq_false_iff_ne, ne_eq, h1, h2]
        rcases hk with hk | hk
        · exact Or.inl (fun h => hk h.symm)
        · exact Or.inr (fun h => hk h.symm)
      apply upsertRows_fix_other _ _ _ _ _ _ _ _ _ _ h
      · intro x hx
        simp only [Bool.and_eq_true, beq_iff_eq] at hx
        exact hne x hx.1 hx.2
      · intro f hf
        obtain ⟨h1, h2⟩ := assignSubstat_key bid1 e1.1 e1.2 f
          (find?_pred (fun r : CharacterBuildSubstat => r.BuildID == bid1 && r.StatName == e1.1)
            _ _ hf)
        exact hne _ h1 h2
      · exact hne _ rfl rfl

theorem substats_fixed_after (fl : Faults) (bid : Nat) (l : List (String × Float64))
    (hnd : (l.map (·.1)).Nodup) (rows : List CharacterBuildSubstat) :
    ∀ e ∈ l, substatRowsStep fl bid (l.foldl (substatRowsStep fl bid) rows) e =
      l.foldl (substatRowsStep fl bid) rows :=
  foldl_fixed (substatRowsStep fl bid) (fun e => e.1) (fun _ => True)
    (fun e rows => substatRowsStep fl bid rows e = rows)
    (fun _ _ _ => trivial)
    (fun rows e _ => substatRowsStep_idem fl bid rows e)
    (fun rows e e1 _ hk h => substatRowsStep_fix_other fl bid bid rows e e1 (Or.inr hk) h)
    l hnd rows trivial

theorem substats_fixed_other_build (fl : Faults) (bid bid1 : Nat) (hb : bid ≠ bid1)
    (l : List (String × Float64)) (rows : List CharacterBuildSubstat) (e : String × Float64)
    (h : substatRowsStep fl bid rows e = rows) :
    substatRowsStep fl bid (l.foldl (substatRowsStep fl bid1) rows) e =
      l.foldl (substatRowsStep fl bid1) rows := by
  induction l generalizing rows with
  | nil => exact h
  | cons e1 rest ih =>
    rw [List.foldl_cons]
    exact ih _ (substatRowsStep_fix_other fl bid bid1 rows e e1 (Or.inl hb) h)

/-! ## A second run changes nothing: recommended sets -/

theorem loadRelicSet_rows (fl : Faults) (n : String) (db : Store) :
    loadRelicSet fl n db =
      ((relicRowsLoad fl n db.relicSets).1,
        { db with relicSets := (relicRowsLoad fl n db.relicSets).2 }) := by
  rw [loadRelicSet_eq]
  unfold relicRowsLoad
  split
  · rfl
  · split <;> rfl

theorem writeBuildSet_rows (fl : Faults) (bid rid i : Nat) (db : Store) :
    writeBuildSet fl bid rid i db =
      { db with
        characterBuildSets :=
          buildSetRowsWrite fl bid rid i db.relicSets db.characterBuildSets } := by
  rw [writeBuildSet_eq]
  unfold buildSetRowsWrite
  split
  · rfl
  · split <;> rfl

theorem seedSet_rows (fl : Faults) (bid j : Nat) (n : String) (db : Store) :
    seedSet fl bid j n db =
      { db with
        relicSets := (setStep fl bid (db.relicSets, db.characterBuildSets) (j, n)).1
        characterBuildSets := (setStep fl bid (db.relicSets, db.characterBuildSets) (j, n)).2 } := by
  rw [seedSet_eq, loadRelicSet_rows, writeBuildSet_rows]
  rfl

theorem seedSets_rows (fl : Faults) (bid : Nat) (names : List String) (i : Nat) (db : Store) :
    seedSets fl bid i names db =
      { db with
        relicSets := ((names.enumFrom i).foldl (setStep fl bid)
          (db.relicSets, db.characterBuildSets)).1
        characterBuildSets := ((names.enumFrom i).foldl (setStep fl bid)
          (db.relicSets, db.characterBuildSets)).2 } := by
  induction names generalizing i db with
  | nil => rfl
  | cons n rest ih =>
    rw [seedSets, ih, seedSet_rows]
    rfl

theorem relicRowsLoad_cases (fl : Faults) (n : String) (rels : List RelicSet) :
    (fl (.relicSet n) = true ∧ relicRowsLoad fl n rels = (0, rels)) ∨
    (fl (.relicSet n) = false ∧ ∃ rs, rels.find? (fun r => r.Name == n) = some rs ∧
      relicRowsLoad fl n rels = (rs.ID, rels)) ∨
    (fl (.relicSet n) = false ∧ rels.find? (fun r => r.Name == n) = none ∧
      relicRowsLoad fl n rels =
        (nextID (rels.map (·.ID)), rels ++ [createRelicSet (nextID (rels.map (·.ID))) n])) := by
  unfold relicRowsLoad
  cases hf : fl (.relicSet n)
  · cases hfind : rels.find? (fun r => r.Name == n) with
    | some rs => exact Or.inr (Or.inl ⟨rfl, rs, rfl, by simp⟩)
    | none => exact Or.inr (Or.inr ⟨rfl, rfl, by simp⟩)
  · exact Or.inl ⟨rfl, by simp⟩

theorem relicRowsLoad_valid (fl : Faults) (n : String) (rels : List RelicSet)
    (h1 : (rels.map (·.ID)).Nodup) (h2 : ∀ r ∈ rels, r.ID ≠ 0) :
    ((relicRowsLoad fl n rels).2.map (·.ID)).Nodup ∧
    (∀ r ∈ (relicRowsLoad fl n rels).2, r.ID ≠ 0) := by
  rcases relicRowsLoad_cases fl n rels with ⟨_, h⟩ | ⟨_, rs, _, h⟩ | ⟨_, _, h⟩
  · rw [h]; exact ⟨h1, h2⟩
  · rw [h]; exact ⟨h1, h2⟩
  · rw [h]
    dsimp only
    constructor
    · rw [List.map_append, List.nodup_append]
      refine ⟨h1, by simp, ?_⟩
      intro a ha hb
      simp only [List.map_cons, List.map_nil, List.mem_singleton, createRelicSet] at hb
      rw [hb] at ha
      exact nextID_not_mem _ ha
    · intro r hr
      rcases List.mem_append.1 hr with hr | hr
      · exact h2 r hr
      · have : r = createRelicSet (nextID (rels.map (·.ID))) n := by simpa using hr
        rw [this]
        exact nextID_ne_zero _

theorem relicRowsLoad_keep (fl : Faults) (n m : String) (rels : List RelicSet) (rs : RelicSet)
    (h : rels.find? (fun r => r.Name == m) = some rs) :
    (relicRowsLoad fl n rels).2.find? (fun r => r.Name == m) = some rs := by
  rcases relicRowsLoad_cases fl n rels with ⟨_, h1⟩ | ⟨_, _, _, h1⟩ | ⟨_, _, h1⟩
  · rw [h1]; exact h
  · rw [h1]; exact h
  · rw [h1]; exact find?_append_of_some _ _ _ _ h

theorem relicRowsLoad_any_zero (fl : Faults) (n : String) (rels : List RelicSet)
    (h : rels.any (fun r => r.ID == 0) = false) :
    (relicRowsLoad fl n rels).2.any (fun r => r.ID == 0) = false := by
  rcases relicRowsLoad_cases fl n rels with ⟨_, h1⟩ | ⟨_, _, _, h1⟩ | ⟨_, _, h1⟩
  · rw [h1]; exact h
  · rw [h1]; exact h
  · rw [h1]
    dsimp only
    rw [List.any_append, h]
    simp [createRelicSet, nextID_ne_zero]

theorem relicRowsLoad_idem (fl : Faults) (n : String) (rels : List RelicSet) :
    relicRowsLoad fl n (relicRowsLoad fl n rels).2 = relicRowsLoad fl n rels := by
  rcases relicRowsLoad_cases fl n rels with ⟨hf, h⟩ | ⟨hf, rs, hfind, h⟩ | ⟨hf, hfind, h⟩
  · rw [h]; exact h
  · rw [h]; exact h
  · rw [h]
    dsimp only
    unfold relicRowsLoad
    simp only [hf, Bool.false_eq_true, if_false, hfind]
    rw [List.find?_append, hfind]
    simp [createRelicSet]

/-- A relic-set load is fixed at `rels` when it leaves the table as it is -/
theorem relicRowsLoad_fixed (fl : Faults) (n : String) (rels : List RelicSet)
    (h : (relicRowsLoad fl n rels).2 = rels) :
    (fl (.relicSet n) = true ∧ (relicRowsLoad fl n rels).1 = 0) ∨
    (fl (.relicSet n) = false ∧ ∃ rs, rels.find? (fun r => r.Name == n) = some rs ∧
      (relicRowsLoad fl n rels).1 = rs.ID) := by
  rcases relicRowsLoad_cases fl n rels with ⟨hf, h1⟩ | ⟨hf, rs, hfind, h1⟩ | ⟨hf, hfind, h1⟩
  · exact Or.inl ⟨hf, by rw [h1]⟩
  · exact Or.inr ⟨hf, rs, hfind, by rw [h1]⟩
  · rw [h1] at h
    exact absurd h (append_singleton_ne _ _)

theorem buildSetRowsWrite_find_other (fl : Faults) (bid rid i b1 r1 : Nat)
    (rels : List RelicSet) (rows : List CharacterBuildSet) (hne : b1 ≠ bid ∨ r1 ≠ rid) :
    (buildSetRowsWrite fl bid rid i rels rows).find?
        (fun r => r.BuildID == b1 && r.RelicSetID == r1) =
      rows.find? (fun r => r.BuildID == b1 && r.RelicSetID == r1) := by
  unfold buildSetRowsWrite
  split
  · rfl
  · split
    · rfl
    · apply find?_upsertRows_other
      · intro x hx
        simp only [Bool.and_eq_true, beq_iff_eq] at hx
        simp only [Bool.and_eq_false_iff, beq_eq_false_iff_ne, ne_eq]
        rcases hne with h | h
        · exact Or.inl (by rw [hx.1]; exact fun h1 => h h1.symm)
        · exact Or.inr (by rw [hx.2]; exact fun h1 => h h1.symm)
      · intro f hf
        obtain ⟨h1, h2, _, _⟩ := assignBuildSet_key bid rid i f
          (find?_pred (fun r : CharacterBuildSet => r.BuildID == bid && r.RelicSetID == rid) _ _ hf)
        simp only [Bool.and_eq_false_iff, beq_eq_false_iff_ne, ne_eq, h1, h2]
        rcases hne with h | h
        · exact Or.inl (fun h1 => h h1.symm)
        · exact Or.inr (fun h1 => h h1.symm)
      · obtain ⟨h1, h2, _, _⟩ := createBuildSet_key (nextID (rows.map (·.ID))) bid rid i
        simp only [Bool.and_eq_false_iff, beq_eq_false_iff_ne, ne_eq, h1, h2]
        rcases hne with h | h
        · exact Or.inl (fun h1 => h h1.symm)
        · exact Or.inr (fun h1 => h h1.symm)

theorem assignBuildSet_idem (s f : CharacterBuildSet) :
    assignBuildSet s (assignBuildSet s f) = assignBuildSet s f := by
  simp [assignBuildSet, assignInt_idem, assignNat_idem]

theorem assignBuildSet_create (id bid rid i : Nat) :
    assignBuildSet (buildSetRow bid rid i) (createBuildSet id (buildSetRow bid rid i)) =
      createBuildSet id (buildSetRow bid rid i) := by
  simp only [assignBuildSet, createBuildSet, buildSetRow, assignInt_orDefault]
  simp [assignNat]

/-- A build-set write is fixed at `rows` exactly when it is rejected, or fails on
the foreign key, or finds a row that already holds the values -/
theorem buildSetRowsWrite_fixed_iff (fl : Faults) (bid rid i : Nat) (rels : List RelicSet)
    (rows : List CharacterBuildSet) :
    buildSetRowsWrite fl bid rid i rels rows = rows ↔
      (fl (.buildSet bid rid) = true ∨
       (rows.find? (fun r => r.BuildID == bid && r.RelicSetID == rid) = none ∧
          rels.any (fun r => r.ID == rid) = false) ∨
       ∃ f, rows.find? (fun r => r.BuildID == bid && r.RelicSetID == rid) = some f ∧
          assignBuildSet (buildSetRow bid rid i) f = f) := by
  unfold buildSetRowsWrite
  by_cases hf : fl (.buildSet bid rid) = true
  · simp [hf]
  · by_cases hc : rows.find? (fun r => r.BuildID == bid && r.RelicSetID == rid) = none ∧
        rels.any (fun r => r.ID == rid) = false
    · rw [if_neg hf, if_pos hc]
      simp [hc]
    · rw [if_neg hf, if_neg hc, upsertRows_eq_self_iff]
      constructor
      · intro h; exact Or.inr (Or.inr h)
      · rintro (h | h | h)
        · exact absurd h hf
        · exact absurd h hc
        · exact h

theorem buildSetRowsWrite_idem (fl : Faults) (bid rid i : Nat) (rels : List RelicSet)
    (rows : List CharacterBuildSet) :
    buildSetRowsWrite fl bid rid i rels (buildSetRowsWrite fl bid rid i rels rows) =
      buildSetRowsWrite fl bid rid i rels rows := by
  rw [buildSetRowsWrite_fixed_iff]
  by_cases hf : fl (.buildSet bid rid) = true
  · exact Or.inl hf
  · by_cases hc : rows.find? (fun r => r.BuildID == bid && r.RelicSetID == rid) = none ∧
        rels.any (fun r => r.ID == rid) = false
    · right; left
      unfold buildSetRowsWrite
      rw [if_neg hf, if_pos hc]
      exact hc
    · right; right
      unfold buildSetRowsWrite
      rw [if_neg hf, if_neg hc]
      obtain ⟨row, hrow, h | h⟩ := find?_upsertRows_same
        (fun r : CharacterBuildSet => r.BuildID == bid && r.RelicSetID == rid)
        (assignBuildSet (buildSetRow bid rid i))
        (createBuildSet (nextID (rows.map (·.ID))) (buildSetRow bid rid i)) rows
        (fun f hf => by
          obtain ⟨h1, h2, _, _⟩ := assignBuildSet_key bid rid i f
            (find?_pred (fun r : CharacterBuildSet => r.BuildID == bid && r.RelicSetID == rid)
              _ _ hf)
          simp [h1, h2])
        (by
          obtain ⟨h1, h2, _, _⟩ := createBuildSet_key (nextID (rows.map (·.ID))) bid rid i
          simp [h1, h2])
      · obtain ⟨f, _, rfl⟩ := h
        exact ⟨_, hrow, assignBuildSet_idem _ _⟩
      · obtain ⟨_, rfl⟩ := h
        exact ⟨_, hrow, assignBuildSet_create _ _ _ _⟩

theorem buildSetRowsWrite_fix_other (fl : Faults) (bid rid i bid1 rid1 i1 : Nat)
    (rels rels1 rels2 : List RelicSet) (rows : List CharacterBuildSet)
    (hne : bid ≠ bid1 ∨ rid ≠ rid1)
    (hany : rels.any (fun r => r.ID == rid) = false → rels2.any (fun r => r.ID == rid) = false)
    (h : buildSetRowsWrite fl bid rid i rels rows = rows) :
    buildSetRowsWrite fl bid rid i rels2 (buildSetRowsWrite fl bid1 rid1 i1 rels1 rows) =
      buildSetRowsWrite fl bid1 rid1 i1 rels1 rows := by
  rw [buildSetRowsWrite_fixed_iff] at h ⊢
  rw [buildSetRowsWrite_find_other fl bid1 rid1 i1 bid rid rels1 rows hne]
  rcases h with h | ⟨h1, h2⟩ | h
  · exact Or.inl h
  · exact Or.inr (Or.inl ⟨h1, hany h2⟩)
  · exact Or.inr (Or.inr h)

theorem buildSetRowsWrite_valid (fl : Faults) (bid rid i : Nat) (rels : List RelicSet)
    (rows : List CharacterBuildSet) (h3 : ∀ r ∈ rels, r.ID ≠ 0)
    (h4 : ∀ b ∈ rows, b.RelicSetID ≠ 0) :
    ∀ b ∈ buildSetRowsWrite fl bid rid i rels rows, b.RelicSetID ≠ 0 := by
  unfold buildSetRowsWrite
  split
  · exact h4
  · split
    · exact h4
    · rename_i hc
      intro b hb
      rcases mem_upsertRows _ _ _ _ _ hb with hb | ⟨f, hf, rfl⟩ | ⟨hnone, rfl⟩
      · exact h4 b hb
      · obtain ⟨_, h2, _, _⟩ := assignBuildSet_key bid rid i f
          (find?_pred (fun r : CharacterBuildSet => r.BuildID == bid && r.RelicSetID == rid) _ _ hf)
        have hfk := find?_pred
          (fun r : CharacterBuildSet => r.BuildID == bid && r.RelicSetID == rid) _ _ hf
        simp only [Bool.and_eq_true, beq_iff_eq] at hfk
        rw [h2, ← hfk.2]
        exact h4 f (List.mem_of_find?_eq_some hf)
      · rw [(createBuildSet_key _ bid rid i).2.1]
        have hany : rels.any (fun r => r.ID == rid) = true := by
          by_contra hcontra
          exact hc ⟨hnone, by simpa using hcontra⟩
        obtain ⟨r, hr, hid⟩ := List.any_eq_true.1 hany
        have : r.ID = rid := by simpa using hid
        rw [← this]
        exact h3 r hr

theorem setStep_valid (fl : Faults) (bid : Nat) (t : List RelicSet × List CharacterBuildSet)
    (jn : Nat × String) (h : SetsValid t) : SetsValid (setStep fl bid t jn) := by
  obtain ⟨h1, h2, h3⟩ := h
  obtain ⟨g1, g2⟩ := relicRowsLoad_valid fl jn.2 t.1 h1 h2
  exact ⟨g1, g2, buildSetRowsWrite_valid fl bid _ jn.1 _ t.2 g2 h3⟩

theorem setStep_idem (fl : Faults) (bid : Nat) (t : List RelicSet × List CharacterBuildSet)
    (jn : Nat × String) : setStep fl bid (setStep fl bid t jn) jn = setStep fl bid t jn := by
  unfold setStep
  dsimp only
  rw [relicRowsLoad_idem, buildSetRowsWrite_idem]

theorem relicRowsLoad_after_fixed (fl : Faults) (n n1 : String) (rels : List RelicSet)
    (h : (relicRowsLoad fl n rels).2 = rels) :
    relicRowsLoad fl n (relicRowsLoad fl n1 rels).2 =
      ((relicRowsLoad fl n rels).1, (relicRowsLoad fl n1 rels).2) := by
  rcases relicRowsLoad_fixed fl n rels h with ⟨hf, h0⟩ | ⟨hf, rs, hfind, hid⟩
  · rw [h0]
    unfold relicRowsLoad
    simp only [hf, if_true]
  · rw [hid]
    have hk := relicRowsLoad_keep fl n1 n rels rs hfind
    generalize (relicRowsLoad fl n1 rels).2 = rels1 at hk ⊢
    unfold relicRowsLoad
    simp only [hf, Bool.false_eq_true, if_false, hk]

theorem relicRowsLoad_any_keep (fl : Faults) (n n1 : String) (rels : List RelicSet)
    (h : (relicRowsLoad fl n rels).2 = rels)
    (hany : rels.any (fun r => r.ID == (relicRowsLoad fl n rels).1) = false) :
    (relicRowsLoad fl n1 rels).2.any (fun r => r.ID == (relicRowsLoad fl n rels).1) = false := by
  rcases relicRowsLoad_fixed fl n rels h with ⟨hf, h0⟩ | ⟨hf, rs, hfind, hid⟩
  · rw [h0] at hany ⊢
    exact relicRowsLoad_any_zero fl n1 rels hany
  · rw [hid] at hany
    have hmem := List.mem_of_find?_eq_some hfind
    have : rels.any (fun r => r.ID == rs.ID) = true :=
      List.any_eq_true.2 ⟨rs, hmem, by simp⟩
    rw [this] at hany; cases hany

theorem setStep_fix_other_build (fl : Faults) (bid bid1 : Nat) (hb : bid ≠ bid1)
    (t : List RelicSet × List CharacterBuildSet) (jn jn1 : Nat × String)
    (h : setStep fl bid t jn = t) :
    setStep fl bid (setStep fl bid1 t jn1) jn = setStep fl bid1 t jn1 := by
  have h1 : (relicRowsLoad fl jn.2 t.1).2 = t.1 := congrArg Prod.fst h
  have h2 : buildSetRowsWrite fl bid (relicRowsLoad fl jn.2 t.1).1 jn.1 t.1 t.2 = t.2 := by
    have := congrArg Prod.snd h
    unfold setStep at this
    dsimp only at this
    rw [h1] at this
    exact this
  unfold setStep
  dsimp only
  rw [relicRowsLoad_after_fixed fl jn.2 jn1.2 t.1 h1]
  dsimp only
  rw [buildSetRowsWrite_fix_other fl bid _ jn.1 bid1 _ jn1.1 t.1 _ _ t.2 (Or.inl hb)
    (relicRowsLoad_any_keep fl jn.2 jn1.2 t.1 h1) h2]

theorem sets_valid_fold (fl : Faults) (bid : Nat) (l : List (Nat × String))
    (t : List RelicSet × List CharacterBuildSet) (h : SetsValid t) :
    SetsValid (l.foldl (setStep fl bid) t) :=
  foldl_inv (setStep fl bid) SetsValid (fun s a hs => setStep_valid fl bid s a hs) l t h

theorem sets_fixed_other_build (fl : Faults) (bid bid1 : Nat) (hb : bid ≠ bid1)
    (l : List (Nat × String)) (t : List RelicSet × List CharacterBuildSet) (jn : Nat × String)
    (h : setStep fl bid t jn = t) :
    setStep fl bid (l.foldl (setStep fl bid1) t) jn = l.foldl (setStep fl bid1) t := by
  induction l generalizing t with
  | nil => exact h
  | cons e1 rest ih =>
    rw [List.foldl_cons]
    exact ih _ (setStep_fix_other_build fl bid bid1 hb t jn e1 h)

/-! ## Repeated keys in a loop of upserts -/

theorem replaceFirst_cons_pos {α : Type} (p : α → Bool) (row x : α) (xs : List α)
    (h : p x = true) : replaceFirst p row (x :: xs) = row :: xs := by
  conv_lhs => unfold replaceFirst
  rw [if_pos h]

theorem replaceFirst_cons_neg {α : Type} (p : α → Bool) (row x : α) (xs : List α)
    (h : ¬ p x = true) : replaceFirst p row (x :: xs) = x :: replaceFirst p row xs := by
  conv_lhs => unfold replaceFirst
  rw [if_neg h]

theorem replaceFirst_twice {α : Type} (p : α → Bool) (a b : α) (l : List α)
    (ha : p a = true) : replaceFirst p b (replaceFirst p a l) = replaceFirst p b l := by
  induction l with
  | nil => rfl
  | cons x xs ih =>
    by_cases hx : p x = true
    · rw [replaceFirst_cons_pos p a x xs hx, replaceFirst_cons_pos p b a xs ha,
        replaceFirst_cons_pos p b x xs hx]
    · rw [replaceFirst_cons_neg p a x xs hx, replaceFirst_cons_neg p b x _ hx,
        replaceFirst_cons_neg p b x xs hx, ih]

theorem replaceFirst_append_new {α : Type} (p : α → Bool) (b c : α) (l : List α)
    (hnone : l.find? p = none) (hc : p c = true) :
    replaceFirst p b (l ++ [c]) = l ++ [b] := by
  induction l with
  | nil =>
    show replaceFirst p b [c] = [b]
    unfold replaceFirst
    rw [if_pos hc]
  | cons x xs ih =>
    have hx : ¬ p x = true := by
      have := List.find?_eq_none.1 hnone x (List.mem_cons_self _ _)
      simpa using this
    have hxs : xs.find? p = none := by
      rw [List.find?_eq_none] at hnone ⊢
      exact fun y hy => hnone y (List.mem_cons_of_mem _ hy)
    rw [List.cons_append]
    unfold replaceFirst
    rw [if_neg hx, ih hxs, List.cons_append]

theorem replaceFirst_comm {α : Type} (p q : α → Bool) (a b : α) (l : List α)
    (hpq : ∀ x, p x = true → q x = false) (hqa : q a = false) (hpb : p b = false) :
    replaceFirst p a (replaceFirst q b l) = replaceFirst q b (replaceFirst p a l) := by
  induction l with
  | nil => rfl
  | cons x xs ih =>
    by_cases hx : p x = true
    · have hqx : ¬ q x = true := by rw [hpq x hx]; simp
      have e1 : replaceFirst q b (x :: xs) = x :: replaceFirst q b xs := by
        conv_lhs => unfold replaceFirst
        rw [if_neg hqx]
      have e2 : replaceFirst p a (x :: xs) = a :: xs := by
        conv_lhs => unfold replaceFirst
        rw [if_pos hx]
      have e3 : replaceFirst p a (x :: replaceFirst q b xs) = a :: replaceFirst q b xs := by
        conv_lhs => unfold replaceFirst
        rw [if_pos hx]
      have e4 : replaceFirst q b (a :: xs) = a :: replaceFirst q b xs := by
        conv_lhs => unfold replaceFirst
        rw [if_neg (by rw [hqa]; simp)]
      rw [e1, e2, e3, e4]
    · by_cases hq : q x = true
      · have e1 : replaceFirst q b (x :: xs) = b :: xs := by
          conv_lhs => unfold replaceFirst
          rw [if_pos hq]
        have e2 : replaceFirst p a (x :: xs) = x :: replaceFirst p a xs := by
          conv_lhs => unfold replaceFirst
          rw [if_neg hx]
        have e3 : replaceFirst p a (b :: xs) = b :: replaceFirst p a xs := by
          conv_lhs => unfold replaceFirst
          rw [if_neg (by rw [hpb]; simp)]
        have e4 : replaceFirst q b (x :: replaceFirst p a xs) = b :: replaceFirst p a xs := by
          conv_lhs => unfold replaceFirst
          rw [if_pos hq]
        rw [e1, e2, e3, e4]
      · have e1 : replaceFirst q b (x :: xs) = x :: replaceFirst q b xs := by
          conv_lhs => unfold replaceFirst
          rw [if_neg hq]
        have e2 : replaceFirst p a (x :: xs) = x :: replaceFirst p a xs := by
          conv_lhs => unfold replaceFirst
          rw [if_neg hx]
        have e3 : replaceFirst p a (x :: replaceFirst q b xs) =
            x :: replaceFirst p a (replaceFirst q b xs) := by
          conv_lhs => unfold replaceFirst
          rw [if_neg hx]
        have e4 : replaceFirst q b (x :: replaceFirst p a xs) =
            x :: replaceFirst q b (replaceFirst p a xs) := by
          conv_lhs => unfold replaceFirst
          rw [if_neg hq]
        rw [e1, e2, e3, e4, ih]

theorem foldl_fixed_all {σ α : Type} (f : σ → α → σ) (Inv : σ → Prop) (Fix : α → σ → Prop)
    (hinv : ∀ s a, Inv s → Inv (f s a))
    (hest : ∀ s a, Inv s → Fix a (f s a))
    (hpres : ∀ s a b, Inv s → Fix a s → Fix a (f s b))
    (l : List α) (s : σ) (hs : Inv s) :
    ∀ a ∈ l, Fix a (l.foldl f s) := by
  induction l generalizing s with
  | nil => intro a ha; cases ha
  | cons x rest ih =>
    intro a ha
    rw [List.foldl_cons]
    rcases List.mem_cons.1 ha with rfl | ha
    · have keep : ∀ (r : List α) (t : σ), Inv t → Fix a t → Fix a (r.foldl f t) := by
        intro r
        induction r with
        | nil => intro t _ h; exact h
        | cons y ys ihy =>
          intro t ht h
          exact ihy (f t y) (hinv t y ht) (hpres t a y ht h)
      exact keep rest _ (hinv s a hs) (hest s a hs)
    · exact ih _ (hinv s x hs) a ha

theorem foldl_fixed_last {σ α κ : Type} (f : σ → α → σ) (key : α → κ) (Inv : σ → Prop)
    (Fix : α → σ → Prop)
    (hinv : ∀ s a, Inv s → Inv (f s a))
    (hest : ∀ s a, Inv s → Fix a (f s a))
    (hpres : ∀ s a b, Inv s → key a ≠ key b → Fix a s → Fix a (f s b))
    (pre : List α) (a : α) (post : List α) (hlast : key a ∉ post.map key)
    (s : σ) (hs : Inv s) :
    Fix a ((pre ++ a :: post).foldl f s) := by
  rw [List.foldl_append, List.foldl_cons]
  have hpre : Inv (pre.foldl f s) := foldl_inv f Inv hinv pre s hs
  generalize pre.foldl f s = s1 at hpre
  have keep : ∀ (r : List α) (t : σ), key a ∉ r.map key → Inv t → Fix a t →
      Fix a (r.foldl f t) := by
    intro r
    induction r with
    | nil => intro t _ _ h; exact h
    | cons y ys ihy =>
      intro t hk ht h
      rw [List.map_cons, List.mem_cons, not_or] at hk
      exact ihy (f t y) hk.2 (hinv t y ht) (hpres t a y ht hk.1 h)
  exact keep post _ hlast (hinv s1 a hpre) (hest s1 a hpre)

theorem find?_append_created {α : Type} (p : α → Bool) (l : List α) (c : α)
    (hnone : l.find? p = none) (hc : p c = true) : (l ++ [c]).find? p = some c := by
  rw [List.find?_append, hnone]
  simp [hc]

theorem buildSetRowsWrite_skip (fl : Faults) (bid rid i : Nat) (rels : List RelicSet)
    (rows : List CharacterBuildSet)
    (h : fl (.buildSet bid rid) = true ∨
      (rows.find? (fun r => r.BuildID == bid && r.RelicSetID == rid) = none ∧
        rels.any (fun r => r.ID == rid) = false)) :
    buildSetRowsWrite fl bid rid i rels rows = rows := by
  rw [buildSetRowsWrite_fixed_iff]
  rcases h with h | h
  · exact Or.inl h
  · exact Or.inr (Or.inl h)

theorem buildSetRowsWrite_found (fl : Faults) (bid rid i : Nat) (rels : List RelicSet)
    (rows : List CharacterBuildSet) (f : CharacterBuildSet)
    (hf : ¬ fl (.buildSet bid rid) = true)
    (hfind : rows.find? (fun r => r.BuildID == bid && r.RelicSetID == rid) = some f) :
    buildSetRowsWrite fl bid rid i rels rows =
      replaceFirst (fun r => r.BuildID == bid && r.RelicSetID == rid)
        (assignBuildSet (buildSetRow bid rid i) f) rows := by
  unfold buildSetRowsWrite
  rw [if_neg hf, if_neg (by rw [hfind]; simp)]
  unfold upsertRows
  rw [hfind]

theorem buildSetRowsWrite_new (fl : Faults) (bid rid i : Nat) (rels : List RelicSet)
    (rows : List CharacterBuildSet)
    (hf : ¬ fl (.buildSet bid rid) = true)
    (hfind : rows.find? (fun r => r.BuildID == bid && r.RelicSetID == rid) = none)
    (hany : ¬ rels.any (fun r => r.ID == rid) = false) :
    buildSetRowsWrite fl bid rid i rels rows =
      rows ++ [createBuildSet (nextID (rows.map (·.ID))) (buildSetRow bid rid i)] := by
  unfold buildSetRowsWrite
  rw [if_neg hf, if_neg (fun h => hany h.2)]
  unfold upsertRows
  rw [hfind]

theorem assignBuildSet_twice (bid rid i j : Nat) (f : CharacterBuildSet) :
    assignBuildSet (buildSetRow bid rid j) (assignBuildSet (buildSetRow bid rid i) f) =
      assignBuildSet (buildSetRow bid rid j) f := by
  simp only [assignBuildSet, buildSetRow, assignNat, assignInt]
  have h1 : ¬ ((i : Int) + 1 = 0) := by omega
  have h2 : ¬ ((j : Int) + 1 = 0) := by omega
  by_cases hb : bid = 0 <;> by_cases hr : rid = 0 <;> simp [hb, hr, h1, h2]

theorem assignBuildSet_created (id bid rid i j : Nat) :
    assignBuildSet (buildSetRow bid rid j) (createBuildSet id (buildSetRow bid rid i)) =
      createBuildSet id (buildSetRow bid rid j) := by
  simp only [assignBuildSet, createBuildSet, buildSetRow, assignNat, assignInt, orDefaultInt]
  have h1 : ¬ ((i : Int) + 1 = 0) := by omega
  have h2 : ¬ ((j : Int) + 1 = 0) := by omega
  by_cases hb : bid = 0 <;> by_cases hr : rid = 0 <;> simp [hb, hr, h1, h2]

theorem buildSetRowsWrite_absorb (fl : Faults) (bid rid i j : Nat) (rels : List RelicSet)
    (rows : List CharacterBuildSet) :
    buildSetRowsWrite fl bid rid j rels (buildSetRowsWrite fl bid rid i rels rows) =
      buildSetRowsWrite fl bid rid j rels rows := by
  by_cases hf : fl (.buildSet bid rid) = true
  · rw [buildSetRowsWrite_skip fl bid rid i rels rows (Or.inl hf)]
  · cases hfind : rows.find? (fun r => r.BuildID == bid && r.RelicSetID == rid) with
    | none =>
      by_cases hany : rels.any (fun r => r.ID == rid) = false
      · rw [buildSetRowsWrite_skip fl bid rid i rels rows (Or.inr ⟨hfind, hany⟩)]
      · rw [buildSetRowsWrite_new fl bid rid i rels rows hf hfind hany,
          buildSetRowsWrite_new fl bid rid j rels rows hf hfind hany]
        have hkey : (fun r : CharacterBuildSet => r.BuildID == bid && r.RelicSetID == rid)
            (createBuildSet (nextID (rows.map (·.ID))) (buildSetRow bid rid i)) = true := by
          obtain ⟨h1, h2, _, _⟩ := createBuildSet_key (nextID (rows.map (·.ID))) bid rid i
          simp [h1, h2]
        rw [buildSetRowsWrite_found fl bid rid j rels _ _ hf
          (find?_append_created _ rows _ hfind hkey),
          replaceFirst_append_new _ _ _ rows hfind hkey, assignBuildSet_created]
    | some f =>
      have hkey : (fun r : CharacterBuildSet => r.BuildID == bid && r.RelicSetID == rid)
          (assignBuildSet (buildSetRow bid rid i) f) = true := by
        obtain ⟨h1, h2, _, _⟩ := assignBuildSet_key bid rid i f
          (find?_pred (fun r : CharacterBuildSet => r.BuildID == bid && r.RelicSetID == rid)
            _ _ hfind)
        simp [h1, h2]
      rw [buildSetRowsWrite_found fl bid rid i rels rows f hf hfind,
        buildSetRowsWrite_found fl bid rid j rels rows f hf hfind,
        buildSetRowsWrite_found fl bid rid j rels _ _ hf
          (find?_replaceFirst_same _ _ rows f hfind hkey),
        replaceFirst_twice _ _ _ rows hkey, assignBuildSet_twice]

theorem inPlace_after_write (fl : Faults) (bid rid i : Nat) (rels : List RelicSet)
    (rows : List CharacterBuildSet) :
    InPlace fl bid rid rels (buildSetRowsWrite fl bid rid i rels rows) := by
  by_cases hf : fl (.buildSet bid rid) = true
  · exact Or.inl hf
  · cases hfind : rows.find? (fun r => r.BuildID == bid && r.RelicSetID == rid) with
    | none =>
      by_cases hany : rels.any (fun r => r.ID == rid) = false
      · rw [buildSetRowsWrite_skip fl bid rid i rels rows (Or.inr ⟨hfind, hany⟩)]
        exact Or.inr (Or.inl ⟨hfind, hany⟩)
      · rw [buildSetRowsWrite_new fl bid rid i rels rows hf hfind hany]
        right; right
        rw [find?_append_created _ rows _ hfind (by
          obtain ⟨h1, h2, _, _⟩ := createBuildSet_key (nextID (rows.map (·.ID))) bid rid i
          simp [h1, h2])]
        rfl
    | some f =>
      rw [buildSetRowsWrite_found fl bid rid i rels rows f hf hfind]
      right; right
      rw [find?_replaceFirst_same _ _ rows f hfind (by
        obtain ⟨h1, h2, _, _⟩ := assignBuildSet_key bid rid i f
          (find?_pred (fun r : CharacterBuildSet => r.BuildID == bid && r.RelicSetID == rid)
            _ _ hfind)
        simp [h1, h2])]
      rfl

theorem inPlace_keep (fl : Faults) (bid rid bid1 rid1 i : Nat) (rels rels2 : List RelicSet)
    (rows : List CharacterBuildSet)
    (hany : rels.any (fun r => r.ID == rid) = false → rels2.any (fun r => r.ID == rid) = false)
    (h : InPlace fl bid rid rels rows) :
    InPlace fl bid rid rels2 (buildSetRowsWrite fl bid1 rid1 i rels2 rows) := by
  by_cases hk : bid = bid1 ∧ rid = rid1
  · obtain ⟨rfl, rfl⟩ := hk
    exact inPlace_after_write fl bid rid i rels2 rows
  · have hne : bid ≠ bid1 ∨ rid ≠ rid1 := by
      by_contra hc
      push_neg at hc
      exact hk hc
    unfold InPlace
    rw [buildSetRowsWrite_find_other fl bid1 rid1 i bid rid rels2 rows hne]
    rcases h with h | ⟨h1, h2⟩ | h
    · exact Or.inl h
    · exact Or.inr (Or.inl ⟨h1, hany h2⟩)
    · exact Or.inr (Or.inr h)

theorem buildSetRowsWrite_comm (fl : Faults) (bid rid rid1 i j : Nat) (rels : List RelicSet)
    (rows : List CharacterBuildSet) (hne : rid ≠ rid1)
    (h : InPlace fl bid rid rels rows) (h1 : InPlace fl bid rid1 rels rows) :
    buildSetRowsWrite fl bid rid1 j rels (buildSetRowsWrite fl bid rid i rels rows) =
      buildSetRowsWrite fl bid rid i rels (buildSetRowsWrite fl bid rid1 j rels rows) := by
  have hside : ∀ (r r1 k k1 : Nat), r ≠ r1 →
      (fl (.buildSet bid r) = true ∨
        (rows.find? (fun x => x.BuildID == bid && x.RelicSetID == r) = none ∧
          rels.any (fun x => x.ID == r) = false)) →
      buildSetRowsWrite fl bid r1 k1 rels (buildSetRowsWrite fl bid r k rels rows) =
        buildSetRowsWrite fl bid r k rels (buildSetRowsWrite fl bid r1 k1 rels rows) := by
    intro r r1 k k1 hr hs
    rw [buildSetRowsWrite_skip fl bid r k rels rows hs]
    symm
    apply buildSetRowsWrite_skip
    rcases hs with hs | ⟨hs1, hs2⟩
    · exact Or.inl hs
    · right
      rw [buildSetRowsWrite_find_other fl bid r1 k1 bid r rels rows (Or.inr hr)]
      exact ⟨hs1, hs2⟩
  rcases h with h | h | h
  · exact hside rid rid1 i j hne (Or.inl h)
  · exact hside rid rid1 i j hne (Or.inr h)
  · rcases h1 with h1 | h1 | h1
    · exact (hside rid1 rid j i (Ne.symm hne) (Or.inl h1)).symm
    · exact (hside rid1 rid j i (Ne.symm hne) (Or.inr h1)).symm
    · by_cases hf : fl (.buildSet bid rid) = true
      · exact hside rid rid1 i j hne (Or.inl hf)
      · by_cases hf1 : fl (.buildSet bid rid1) = true
        · exact (hside rid1 rid j i (Ne.symm hne) (Or.inl hf1)).symm
        · obtain ⟨f, hfind⟩ := Option.isSome_iff_exists.1 h
          obtain ⟨g, hgind⟩ := Option.isSome_iff_exists.1 h1
          obtain ⟨a1, a2, _, _⟩ := assignBuildSet_key bid rid i f
            (find?_pred (fun r : CharacterBuildSet => r.BuildID == bid && r.RelicSetID == rid)
              _ _ hfind)
          obtain ⟨b1, b2, _, _⟩ := assignBuildSet_key bid rid1 j g
            (find?_pred (fun r : CharacterBuildSet => r.BuildID == bid && r.RelicSetID == rid1)
              _ _ hgind)
          have hfind1 : (buildSetRowsWrite fl bid rid1 j rels rows).find?
              (fun r => r.BuildID == bid && r.RelicSetID == rid) = some f := by
            rw [buildSetRowsWrite_find_other fl bid rid1 j bid rid rels rows (Or.inr hne)]
            exact hfind
          have hgind1 : (buildSetRowsWrite fl bid rid i rels rows).find?
              (fun r => r.BuildID == bid && r.RelicSetID == rid1) = some g := by
            rw [buildSetRowsWrite_find_other fl bid rid i bid rid1 rels rows
              (Or.inr (Ne.symm hne))]
            exact hgind
          rw [buildSetRowsWrite_found fl bid rid1 j rels _ g hf1 hgind1,
            buildSetRowsWrite_found fl bid rid i rels _ f hf hfind1,
            buildSetRowsWrite_found fl bid rid i rels rows f hf hfind,
            buildSetRowsWrite_found fl bid rid1 j rels rows g hf1 hgind]
          apply replaceFirst_comm
          · intro x hx
            simp only [Bool.and_eq_true, beq_iff_eq] at hx
            simp only [Bool.and_eq_false_iff, beq_eq_false_iff_ne, ne_eq]
            exact Or.inr (by rw [hx.2]; exact Ne.symm hne)
          · simp only [Bool.and_eq_false_iff, beq_eq_false_iff_ne, ne_eq, b2]
            exact Or.inr hne.symm
          · simp only [Bool.and_eq_false_iff, beq_eq_false_iff_ne, ne_eq, a2]
            exact Or.inr hne

theorem setSettled_after (fl : Faults) (bid : Nat) (t : List RelicSet × List CharacterBuildSet)
    (jn : Nat × String) : SetSettled fl bid (setStep fl bid t jn) jn.2 := by
  unfold SetSettled setStep
  dsimp only
  rw [relicRowsLoad_idem]
  exact ⟨rfl, inPlace_after_write fl bid _ jn.1 _ t.2⟩

theorem setSettled_keep (fl : Faults) (bid bid1 : Nat)
    (t : List RelicSet × List CharacterBuildSet) (jm : Nat × String) (n : String)
    (h : SetSettled fl bid t n) : SetSettled fl bid (setStep fl bid1 t jm) n := by
  obtain ⟨h1, h2⟩ := h
  unfold SetSettled setStep
  dsimp only
  rw [relicRowsLoad_after_fixed fl n jm.2 t.1 h1]
  dsimp only
  refine ⟨rfl, ?_⟩
  exact inPlace_keep fl bid _ bid1 _ jm.1 t.1 _ t.2 (relicRowsLoad_any_keep fl n jm.2 t.1 h1) h2

theorem setStep_absorb (fl : Faults) (bid : Nat) (t : List RelicSet × List CharacterBuildSet)
    (jn jm : Nat × String) (h : jn.2 = jm.2) :
    setStep fl bid (setStep fl bid t jn) jm = setStep fl bid t jm := by
  unfold setStep
  dsimp only
  rw [h, relicRowsLoad_idem, buildSetRowsWrite_absorb]

theorem setStep_of_settled (fl : Faults) (bid : Nat)
    (t : List RelicSet × List CharacterBuildSet) (jn : Nat × String)
    (h : (relicRowsLoad fl jn.2 t.1).2 = t.1) :
    setStep fl bid t jn =
      (t.1, buildSetRowsWrite fl bid (relicRowsLoad fl jn.2 t.1).1 jn.1 t.1 t.2) := by
  unfold setStep
  rw [h]

/-! ## A second run changes nothing: builds -/

theorem seedBuild_step (fl : Faults) (acc : Nat × State) (e : String × BuildJSON) :
    (seedBuild fl acc e).2.db = buildStep fl acc.2.db e := by
  rw [seedBuild_db]
  unfold buildStep
  split
  · rfl
  · rw [seedSets_rows, foldl_seedSubstat_rows]

theorem foldl_seedBuild_step (fl : Faults) (l : List (String × BuildJSON)) (acc : Nat × State) :
    (l.foldl (seedBuild fl) acc).2.db = l.foldl (buildStep fl) acc.2.db := by
  induction l generalizing acc with
  | nil => rfl
  | cons e rest ih => rw [List.foldl_cons, List.foldl_cons, ih, seedBuild_step]

theorem buildStep_characters (fl : Faults) (db : Store) (e : String × BuildJSON) :
    (buildStep fl db e).characters = db.characters := by
  unfold buildStep
  split <;> rfl

theorem buildStep_valid (fl : Faults) (db : Store) (e : String × BuildJSON)
    (h : ValidKeys db) : ValidKeys (buildStep fl db e) := by
  unfold buildStep
  split
  · exact h
  · exact ⟨buildsAfter_nodup e db h.1, sets_valid_fold fl _ _ _ h.2⟩

theorem buildsAfter_idem (e : String × BuildJSON) (db db1 : Store)
    (h : db1.characterBuilds = buildsAfter e db) :
    buildsAfter e db1 = db1.characterBuilds ∧ (builtRow e db1).ID = (builtRow e db).ID := by
  have hfind : db1.characterBuilds.find? (fun r => r.CharacterID == e.1) =
      some (builtRow e db) := by rw [h]; exact find?_buildsAfter e db
  have hk : (builtRow e db).CharacterID = e.1 := by
    simpa using find?_pred (fun r : CharacterBuild => r.CharacterID == e.1) _ _ hfind
  constructor
  · unfold buildsAfter
    rw [upsertRows_eq_self_iff]
    refine ⟨_, hfind, ?_⟩
    unfold builtRow upsertRow
    cases hf : db.characterBuilds.find? (fun r => r.CharacterID == e.1) with
    | none =>
      simp [assignBuild, createBuild, buildRow, assignNat, assignStr]
    | some f =>
      simp [assignBuild, assignStr_idem, assignNat_idem]
  · exact builtRow_id_of_found e db1 _ hfind

/-! ## A second run changes nothing: characters -/

theorem any_and_of_all {α : Type} (p q : α → Bool) (l : List α) (h : ∀ r ∈ l, p r = true) :
    l.any (fun r => p r && q r) = l.any q := by
  induction l with
  | nil => rfl
  | cons x xs ih =>
    simp only [List.any_cons]
    rw [ih (fun r hr => h r (List.mem_cons_of_mem _ hr)), h x (List.mem_cons_self _ _)]
    simp

theorem assignFirstOrCreateCharacter_eq (fl : Faults) (char : Character) (db : Store) :
    (characterAccepted fl char db.characters = true ∧
      ∃ row, assignFirstOrCreateCharacter fl char db =
        .ok (row, { db with characters := charactersAfter char db.characters })) ∨
    (characterAccepted fl char db.characters = false ∧
      ∃ err, assignFirstOrCreateCharacter fl char db = .error err) := by
  unfold characterAccepted charactersAfter upsertRow upsertRows assignFirstOrCreateCharacter
  cases hf : fl (.character char.ID)
  · cases hfind : db.characters.find? (fun r => r.ID == char.ID) with
    | some found =>
      have hfk : found.ID = char.ID := by
        simpa using find?_pred (fun r : Character => r.ID == char.ID) _ _ hfind
      dsimp only
      rw [hfk]
      cases hany : db.characters.any (fun r => r.ID != char.ID &&
          r.CharID == (assignCharacter char found).CharID)
      · exact Or.inl ⟨by simp, assignCharacter char found, by simp⟩
      · exact Or.inr ⟨by simp, DBError.uniqueViolation, by simp⟩
    | none =>
      have hall : ∀ r ∈ db.characters, (r.ID != char.ID) = true := by
        intro r hr
        simpa using List.find?_eq_none.1 hfind r hr
      dsimp only
      rw [any_and_of_all (fun r : Character => r.ID != char.ID)
        (fun r => r.CharID == (createCharacter char).CharID) db.characters hall]
      cases hany : db.characters.any (fun r => r.CharID == (createCharacter char).CharID)
      · exact Or.inl ⟨by simp, createCharacter char, by simp⟩
      · exact Or.inr ⟨by simp, DBError.uniqueViolation, by simp⟩
  · exact Or.inr ⟨by simp, DBError.rejected, by simp⟩

theorem seedCharacter_rows (fl : Faults) (em pm : NameMap) (acc : Nat × State)
    (c : CharacterJSON) :
    (seedCharacter fl em pm acc c).2.db =
      { acc.2.db with
        characters := characterRowsStep fl em pm acc.2.db.characters c } := by
  unfold seedCharacter characterRowsStep
  cases he : em c.Element with
  | none => rfl
  | some eid =>
    cases hp : pm c.Path with
    | none => rfl
    | some pid =>
      dsimp only
      rcases assignFirstOrCreateCharacter_eq fl (characterRow c eid pid) acc.2.db with
        ⟨ha, row, h⟩ | ⟨ha, err, h⟩
      · rw [h, ha]; rfl
      · rw [h, ha]; rfl

theorem foldl_seedCharacter_rows (fl : Faults) (em pm : NameMap) (l : List CharacterJSON)
    (acc : Nat × State) :
    (l.foldl (seedCharacter fl em pm) acc).2.db =
      { acc.2.db with
        characters := l.foldl (characterRowsStep fl em pm) acc.2.db.characters } := by
  induction l generalizing acc with
  | nil => rfl
  | cons e rest ih =>
    rw [List.foldl_cons, List.foldl_cons, ih, seedCharacter_rows]

theorem seedCharacter_log_mono (fl : Faults) (em pm : NameMap) (acc : Nat × State)
    (c : CharacterJSON) (x : LogEntry) (h : x ∈ acc.2.log) :
    x ∈ (seedCharacter fl em pm acc c).2.log := by
  unfold seedCharacter
  split
  · exact List.mem_append_left _ h
  · split
    · exact List.mem_append_left _ h
    · split
      · exact List.mem_append_left _ h
      · exact h

theorem foldl_seedCharacter_log_mono (fl : Faults) (em pm : NameMap) (l : List CharacterJSON)
    (acc : Nat × State) (x : LogEntry) (h : x ∈ acc.2.log) :
    x ∈ (l.foldl (seedCharacter fl em pm) acc).2.log := by
  induction l generalizing acc with
  | nil => exact h
  | cons c rest ih => exact ih _ (seedCharacter_log_mono fl em pm acc c x h)

theorem seedCharacter_failed_logged (fl : Faults) (em pm : NameMap) (acc : Nat × State)
    (c : CharacterJSON) (eid pid : Nat) (he : em c.Element = some eid)
    (hp : pm c.Path = some pid)
    (h : characterAccepted fl (characterRow c eid pid) acc.2.db.characters = false) :
    ∃ err, LogEntry.characterFailed c.Name err ∈ (seedCharacter fl em pm acc c).2.log := by
  rcases assignFirstOrCreateCharacter_eq fl (characterRow c eid pid) acc.2.db with
    ⟨ha, _⟩ | ⟨_, err, herr⟩
  · rw [h] at ha; cases ha
  · refine ⟨err, ?_⟩
    rw [seedCharacter_error fl em pm acc c eid pid err he hp herr]
    simp [State.logf]

theorem assignCharacter_idem (s f : Character) :
    assignCharacter s (assignCharacter s f) = assignCharacter s f := by
  simp [assignCharacter, assignStr_idem, assignInt_idem, assignNat_idem]

theorem assignCharacter_create (s : Character) :
    assignCharacter s (createCharacter s) = createCharacter s := by
  rw [createCharacter_eq_assign, assignCharacter_idem]

theorem assignCharacter_id (s f : Character) (h : f.ID = s.ID) :
    (assignCharacter s f).ID = s.ID := by
  simp [assignCharacter, assignStr_key _ _ h]

theorem rowStable_noop (fl : Faults) (char : Character) (rows : List Character)
    (h : RowStable fl char rows) :
    characterAccepted fl char rows = true ∧ charactersAfter char rows = rows := by
  obtain ⟨hf, f, hfind, hassign, hany⟩ := h
  constructor
  · unfold characterAccepted upsertRow
    rw [hfind]
    dsimp only
    rw [hassign, hany, hf]
    rfl
  · unfold charactersAfter
    rw [upsertRows_eq_self_iff]
    exact ⟨f, hfind, hassign⟩

theorem rowStable_est (fl : Faults) (char : Character) (rows : List Character)
    (h : characterAccepted fl char rows = true) :
    RowStable fl char (charactersAfter char rows) := by
  unfold characterAccepted at h
  simp only [Bool.and_eq_true, Bool.not_eq_true', Bool.not_eq_eq_eq_not, Bool.not_true] at h
  obtain ⟨hf, hany⟩ := h
  refine ⟨hf, ?_⟩
  have hkey : ∀ f, rows.find? (fun r => r.ID == char.ID) = some f →
      (fun r : Character => r.ID == char.ID) (assignCharacter char f) = true := by
    intro f hfind
    have hfk : f.ID = char.ID := by
      simpa using find?_pred (fun r : Character => r.ID == char.ID) _ _ hfind
    simp [assignCharacter_id char f hfk]
  obtain ⟨row, hrow, hcase⟩ := find?_upsertRows_same (fun r : Character => r.ID == char.ID)
    (assignCharacter char) (createCharacter char) rows hkey (by simp [createCharacter])
  have hrow_eq : row = upsertRow (fun r => r.ID == char.ID) (assignCharacter char)
      (createCharacter char) rows := by
    unfold upsertRow
    rcases hcase with ⟨f, hf1, rfl⟩ | ⟨hn, rfl⟩
    · rw [hf1]
    · rw [hn]
  have hrid : row.ID = char.ID := by
    simpa using find?_pred (fun r : Character => r.ID == char.ID) _ _ hrow
  refine ⟨row, hrow, ?_, ?_⟩
  · rcases hcase with ⟨f, _, rfl⟩ | ⟨_, rfl⟩
    · exact assignCharacter_idem _ _
    · exact assignCharacter_create _
  · rw [List.any_eq_false]
    intro r hr
    have hold := List.any_eq_false.1 hany
    rcases mem_upsertRows _ _ _ _ _ hr with hmem | ⟨f, hf1, rfl⟩ | ⟨hn, rfl⟩
    · rw [hrow_eq]; exact hold r hmem
    · have hfk : f.ID = char.ID := by
        simpa using find?_pred (fun r : Character => r.ID == char.ID) _ _ hf1
      simp [assignCharacter_id char f hfk]
    · simp [createCharacter]

theorem rowStable_pres (fl : Faults) (char char1 : Character) (rows : List Character)
    (hne : char.ID ≠ char1.ID) (h1 : characterAccepted fl char1 rows = true)
    (h : RowStable fl char rows) : RowStable fl char (charactersAfter char1 rows) := by
  obtain ⟨hf, f, hfind, hassign, hany⟩ := h
  unfold characterAccepted at h1
  simp only [Bool.and_eq_true, Bool.not_eq_true', Bool.not_eq_eq_eq_not, Bool.not_true] at h1
  obtain ⟨_, hany1⟩ := h1
  have hfk : f.ID = char.ID := by
    simpa using find?_pred (fun r : Character => r.ID == char.ID) _ _ hfind
  have hfmem := List.mem_of_find?_eq_some hfind
  have hkey1 : ∀ g, rows.find? (fun r => r.ID == char1.ID) = some g →
      (assignCharacter char1 g).ID = char1.ID := by
    intro g hg
    have hgk : g.ID = char1.ID := by
      simpa using find?_pred (fun r : Character => r.ID == char1.ID) _ _ hg
    exact assignCharacter_id char1 g hgk
  refine ⟨hf, f, ?_, hassign, ?_⟩
  · unfold charactersAfter
    rw [find?_upsertRows_other _ _ _ _ _ _ _ _, hfind]
    · intro x hx
      have : x.ID = char1.ID := by simpa using hx
      simp [this, Ne.symm hne]
    · intro g hg
      simp [hkey1 g hg, Ne.symm hne]
    · simp [createCharacter, Ne.symm hne]
  · rw [List.any_eq_false]
    intro r hr
    have hold := List.any_eq_false.1 hany
    have hnew : (upsertRow (fun r => r.ID == char1.ID) (assignCharacter char1)
        (createCharacter char1) rows).CharID ≠ f.CharID := by
      have := List.any_eq_false.1 hany1 f hfmem
      simp only [Bool.and_eq_true, bne_iff_ne, ne_eq, beq_iff_eq, not_and] at this
      exact fun hc => this (by rw [hfk]; exact hne) hc.symm
    unfold charactersAfter at hr
    rcases mem_upsertRows _ _ _ _ _ hr with hmem | ⟨g, hg, rfl⟩ | ⟨hn, rfl⟩
    · exact hold r hmem
    · have : upsertRow (fun r => r.ID == char1.ID) (assignCharacter char1)
          (createCharacter char1) rows = assignCharacter char1 g := by
        unfold upsertRow; rw [hg]
      rw [this] at hnew
      simp only [Bool.and_eq_true, bne_iff_ne, ne_eq, beq_iff_eq, not_and]
      exact fun _ => hnew
    · have : upsertRow (fun r => r.ID == char1.ID) (assignCharacter char1)
          (createCharacter char1) rows = createCharacter char1 := by
        unfold upsertRow; rw [hn]
      rw [this] at hnew
      simp only [Bool.and_eq_true, bne_iff_ne, ne_eq, beq_iff_eq, not_and]
      exact fun _ => hnew

theorem characterRowsStep_noop (fl : Faults) (em pm : NameMap) (rows : List Character)
    (c : CharacterJSON) (h : RecordStable fl em pm c rows) :
    characterRowsStep fl em pm rows c = rows := by
  unfold characterRowsStep
  cases he : em c.Element with
  | none => rfl
  | some eid =>
    cases hp : pm c.Path with
    | none => rfl
    | some pid =>
      dsimp only
      obtain ⟨h1, h2⟩ := rowStable_noop fl _ rows (h eid pid he hp)
      rw [h1, if_pos rfl, h2]

/-! ## A second run changes nothing: the five stages together -/

theorem seedCharacters_parsed_db (fl : Faults) (cs : List CharacterJSON) (st : State) :
    (seedCharacters fl (.parsed cs) st).1.db = charactersStage fl cs st.db := by
  simp only [seedCharacters, State.logf, charactersStage]
  exact foldl_seedCharacter_rows fl _ _ cs (0, st)

theorem seedSkills_parsed_db (fl : Faults) (ss : List (String × SkillJSON)) (st : State) :
    (seedSkills fl (.parsed ss) st).1.db = skillsStage fl ss st.db := by
  simp only [seedSkills, State.logf, skillsStage]
  exact foldl_seedSkill_rows fl ss (0, st)

theorem seedBuilds_parsed_db (fl : Faults) (bs : List (String × BuildJSON)) (st : State) :
    (seedBuilds fl (.parsed bs) st).1.db = buildsStage fl bs st.db := by
  simp only [seedBuilds, State.logf, buildsStage]
  exact foldl_seedBuild_step fl bs (0, st)

theorem foldl_seedSkill_log_mono (fl : Faults) (l : List (String × SkillJSON))
    (acc : Nat × State) (x : LogEntry) (h : x ∈ acc.2.log) :
    x ∈ (l.foldl (seedSkill fl) acc).2.log := by
  induction l generalizing acc with
  | nil => exact h
  | cons e rest ih =>
    rw [List.foldl_cons]
    apply ih
    rcases seedSkill_log fl acc e with h1 | ⟨err, _, h1⟩ <;> rw [h1]
    · exact h
    · exact List.mem_append_left _ h

theorem foldl_seedBuild_log_mono (fl : Faults) (l : List (String × BuildJSON))
    (acc : Nat × State) (x : LogEntry) (h : x ∈ acc.2.log) :
    x ∈ (l.foldl (seedBuild fl) acc).2.log := by
  induction l generalizing acc with
  | nil => exact h
  | cons e rest ih =>
    rw [List.foldl_cons]
    apply ih
    rcases seedBuild_log fl acc e with h1 | ⟨err, _, h1⟩ <;> rw [h1]
    · exact h
    · exact List.mem_append_left _ h

theorem seedCharacters_log_fold (fl : Faults) (cs : List CharacterJSON) (st : State)
    (x : LogEntry)
    (h : x ∈ (cs.foldl (seedCharacter fl (elementMap st.db) (pathMap st.db)) (0, st)).2.log) :
    x ∈ (seedCharacters fl (.parsed cs) st).1.log := by
  simp only [seedCharacters, State.logf]
  exact List.mem_append_left _ h

theorem seedSkills_log_mono (fl : Faults) (ss : List (String × SkillJSON)) (st : State)
    (x : LogEntry) (h : x ∈ st.log) : x ∈ (seedSkills fl (.parsed ss) st).1.log := by
  simp only [seedSkills, State.logf]
  exact List.mem_append_left _ (foldl_seedSkill_log_mono fl ss (0, st) x h)

theorem seedBuilds_log_mono (fl : Faults) (bs : List (String × BuildJSON)) (st : State)
    (x : LogEntry) (h : x ∈ st.log) : x ∈ (seedBuilds fl (.parsed bs) st).1.log := by
  simp only [seedBuilds, State.logf]
  exact List.mem_append_left _ (foldl_seedBuild_log_mono fl bs (0, st) x h)

theorem Seed_parsed_run (fl : Faults) (cs : List CharacterJSON) (ss : List (String × SkillJSON))
    (bs : List (String × BuildJSON)) (st : State)
    (h : (Seed fl ⟨.parsed cs, .parsed ss, .parsed bs⟩ st).2 = none) :
    (seedElements fl (st.logf .seedingStarted)).2 = none ∧
    (seedPaths fl (seedElements fl (st.logf .seedingStarted)).1).2 = none ∧
    (Seed fl ⟨.parsed cs, .parsed ss, .parsed bs⟩ st).1 =
      (seedBuilds fl (.parsed bs) (seedSkills fl (.parsed ss) (seedCharacters fl (.parsed cs)
        (seedPaths fl (seedElements fl (st.logf .seedingStarted)).1).1).1).1).1.logf
          .seedingCompleted := by
  unfold Seed at h ⊢
  dsimp only at h ⊢
  generalize seedElements fl (st.logf .seedingStarted) = r1 at h ⊢
  rcases r1 with ⟨st1, _ | e1⟩ <;> dsimp only at h ⊢
  · generalize seedPaths fl st1 = r2 at h ⊢
    rcases r2 with ⟨st2, _ | e2⟩ <;> dsimp only at h ⊢
    · exact ⟨rfl, rfl, rfl⟩
    · cases h
  · cases h

theorem seedElementsLoop_noop (fl : Faults) (l : List Element) (db : Store)
    (hf : ∀ e ∈ l, fl (.element e.Name) = false)
    (hr : ∀ e ∈ l, ∃ r ∈ db.elements, r.Name = e.Name) :
    seedElementsLoop fl l db = (db, none) := by
  induction l with
  | nil => rfl
  | cons e rest ih =>
    have hf1 := hf e (List.mem_cons_self _ _)
    obtain ⟨r, hr1, hr2⟩ := hr e (List.mem_cons_self _ _)
    have hs : (db.elements.find? (fun x => x.Name == e.Name)).isSome = true := by
      rw [List.find?_isSome]
      exact ⟨r, hr1, by simp [hr2]⟩
    obtain ⟨found, hfound⟩ := Option.isSome_iff_exists.1 hs
    have hstep : firstOrCreateElement fl e db = .ok (found, db) := by
      unfold firstOrCreateElement
      rw [hf1, hfound]
      rfl
    unfold seedElementsLoop
    rw [hstep]
    exact ih (fun x hx => hf x (List.mem_cons_of_mem _ hx))
      (fun x hx => hr x (List.mem_cons_of_mem _ hx))

theorem seedPathsLoop_noop (fl : Faults) (l : List Path) (db : Store)
    (hf : ∀ e ∈ l, fl (.path e.Name) = false)
    (hr : ∀ e ∈ l, ∃ r ∈ db.paths, r.Name = e.Name) :
    seedPathsLoop fl l db = (db, none) := by
  induction l with
  | nil => rfl
  | cons e rest ih =>
    have hf1 := hf e (List.mem_cons_self _ _)
    obtain ⟨r, hr1, hr2⟩ := hr e (List.mem_cons_self _ _)
    have hs : (db.paths.find? (fun x => x.Name == e.Name)).isSome = true := by
      rw [List.find?_isSome]
      exact ⟨r, hr1, by simp [hr2]⟩
    obtain ⟨found, hfound⟩ := Option.isSome_iff_exists.1 hs
    have hstep : firstOrCreatePath fl e db = .ok (found, db) := by
      unfold firstOrCreatePath
      rw [hf1, hfound]
      rfl
    unfold seedPathsLoop
    rw [hstep]
    exact ih (fun x hx => hf x (List.mem_cons_of_mem _ hx))
      (fun x hx => hr x (List.mem_cons_of_mem _ hx))

theorem buildStep_frame (fl : Faults) (db : Store) (e : String × BuildJSON) :
    (buildStep fl db e).elements = db.elements ∧ (buildStep fl db e).paths = db.paths ∧
    (buildStep fl db e).characters = db.characters ∧
    (buildStep fl db e).characterSkills = db.characterSkills := by
  unfold buildStep
  split <;> exact ⟨rfl, rfl, rfl, rfl⟩

theorem buildsStage_frame (fl : Faults) (bs : List (String × BuildJSON)) (db : Store) :
    (buildsStage fl bs db).elements = db.elements ∧ (buildsStage fl bs db).paths = db.paths ∧
    (buildsStage fl bs db).characters = db.characters ∧
    (buildsStage fl bs db).characterSkills = db.characterSkills := by
  unfold buildsStage
  apply foldl_inv (buildStep fl)
    (fun s => s.elements = db.elements ∧ s.paths = db.paths ∧ s.characters = db.characters ∧
      s.characterSkills = db.characterSkills)
  · intro s a ⟨h1, h2, h3, h4⟩
    obtain ⟨g1, g2, g3, g4⟩ := buildStep_frame fl s a
    exact ⟨g1.trans h1, g2.trans h2, g3.trans h3, g4.trans h4⟩
  · exact ⟨rfl, rfl, rfl, rfl⟩

theorem referenceStage_eq (fl : Faults) (db : Store)
    (he : ∀ e ∈ elements, fl (.element e.Name) = false)
    (hp : ∀ p ∈ paths, fl (.path p.Name) = false) :
    ∃ ae ap, referenceStage fl db =
        { db with elements := db.elements ++ ae, paths := db.paths ++ ap } ∧
      (∀ e ∈ elements, ∃ r ∈ db.elements ++ ae, r.Name = e.Name) ∧
      (∀ p ∈ paths, ∃ r ∈ db.paths ++ ap, r.Name = p.Name) := by
  obtain ⟨ae, hE, -, hEn, hEr⟩ := seedElementsLoop_spec fl elements db
  obtain ⟨ap, hP, -, hPn, hPr⟩ := seedPathsLoop_spec fl paths (seedElementsLoop fl elements db).1
  refine ⟨ae, ap, ?_, ?_, ?_⟩
  · unfold referenceStage
    rw [hP, hE]
  · have := hEr (hEn.2 he)
    rw [hE] at this
    exact this
  · have := hPr (hPn.2 hp)
    rw [hP, hE] at this
    exact this

theorem referenceStage_noop (fl : Faults) (db : Store)
    (he : ∀ e ∈ elements, fl (.element e.Name) = false)
    (hp : ∀ p ∈ paths, fl (.path p.Name) = false)
    (hre : ∀ e ∈ elements, ∃ r ∈ db.elements, r.Name = e.Name)
    (hrp : ∀ p ∈ paths, ∃ r ∈ db.paths, r.Name = p.Name) :
    referenceStage fl db = db := by
  unfold referenceStage
  rw [seedElementsLoop_noop fl elements db he hre, seedPathsLoop_noop fl paths db hp hrp]

/-! ## What a run prints -/

theorem seedCharacter_log_split (fl : Faults) (em pm : NameMap) (n : Nat) (db : Store)
    (L : List LogEntry) (c : CharacterJSON) :
    seedCharacter fl em pm (n, ⟨db, L⟩) c =
      ((seedCharacter fl em pm (n, ⟨db, []⟩) c).1,
       ⟨(seedCharacter fl em pm (n, ⟨db, []⟩) c).2.db,
        L ++ (seedCharacter fl em pm (n, ⟨db, []⟩) c).2.log⟩) := by
  unfold seedCharacter
  dsimp only
  generalize em c.Element = a
  cases a with
  | none => simp [State.logf]
  | some eid =>
    dsimp only
    generalize pm c.Path = b
    cases b with
    | none => simp [State.logf]
    | some pid =>
      dsimp only
      generalize assignFirstOrCreateCharacter fl (characterRow c eid pid) db = r
      rcases r with e | ⟨row, db1⟩ <;> simp [State.logf]

theorem foldl_seedCharacter_log_split (fl : Faults) (em pm : NameMap) (l : List CharacterJSON)
    (n : Nat) (db : Store) (L : List LogEntry) :
    (l.foldl (seedCharacter fl em pm) (n, ⟨db, L⟩)).2.log =
      L ++ (l.foldl (seedCharacter fl em pm) (n, ⟨db, []⟩)).2.log := by
  induction l generalizing n db L with
  | nil => simp
  | cons c rest ih =>
    rw [List.foldl_cons, List.foldl_cons, seedCharacter_log_split, ih]
    have : seedCharacter fl em pm (n, ⟨db, []⟩) c =
        ((seedCharacter fl em pm (n, ⟨db, []⟩) c).1,
          ⟨(seedCharacter fl em pm (n, ⟨db, []⟩) c).2.db,
            (seedCharacter fl em pm (n, ⟨db, []⟩) c).2.log⟩) := rfl
    conv_rhs => rw [this, ih]
    rw [List.append_assoc]

theorem foldl_log_ext {α : Type} (f : Nat × State → α → Nat × State)
    (hf : ∀ acc a, ∃ X, (f acc a).2.log = acc.2.log ++ X) (l : List α) (acc : Nat × State) :
    ∃ X, (l.foldl f acc).2.log = acc.2.log ++ X := by
  induction l generalizing acc with
  | nil => exact ⟨[], by simp⟩
  | cons a rest ih =>
    obtain ⟨X, hX⟩ := hf acc a
    obtain ⟨Y, hY⟩ := ih (f acc a)
    exact ⟨X ++ Y, by rw [List.foldl_cons, hY, hX, List.append_assoc]⟩

theorem seedElements_log_ext (fl : Faults) (st : State) :
    ∃ X, (seedElements fl st).1.log = st.log ++ X := by
  unfold seedElements
  rcases seedElementsLoop fl elements st.db with ⟨db, _ | e⟩
  · exact ⟨_, rfl⟩
  · exact ⟨[], by simp⟩

theorem seedPaths_log_ext (fl : Faults) (st : State) :
    ∃ X, (seedPaths fl st).1.log = st.log ++ X := by
  unfold seedPaths
  rcases seedPathsLoop fl paths st.db with ⟨db, _ | e⟩
  · exact ⟨_, rfl⟩
  · exact ⟨[], by simp⟩

theorem seedSkills_log_ext (fl : Faults) (ss : List (String × SkillJSON)) (st : State) :
    ∃ X, (seedSkills fl (.parsed ss) st).1.log = st.log ++ X := by
  obtain ⟨X, hX⟩ := foldl_log_ext (seedSkill fl) (fun acc a => by
    rcases seedSkill_log fl acc a with h | ⟨err, _, h⟩
    · exact ⟨[], by simp [h]⟩
    · exact ⟨_, h⟩) ss (0, st)
  refine ⟨X ++ [.seededSkills (ss.foldl (seedSkill fl) (0, st)).1], ?_⟩
  simp only [seedSkills, State.logf]
  rw [hX, List.append_assoc]

theorem seedBuilds_log_ext (fl : Faults) (bs : List (String × BuildJSON)) (st : State) :
    ∃ X, (seedBuilds fl (.parsed bs) st).1.log = st.log ++ X := by
  obtain ⟨X, hX⟩ := foldl_log_ext (seedBuild fl) (fun acc a => by
    rcases seedBuild_log fl acc a with h | ⟨err, _, h⟩
    · exact ⟨[], by simp [h]⟩
    · exact ⟨_, h⟩) bs (0, st)
  refine ⟨X ++ [.seededBuilds (bs.foldl (seedBuild fl) (0, st)).1], ?_⟩
  simp only [seedBuilds, State.logf]
  rw [hX, List.append_assoc]

theorem Seed_printed_characters (fl : Faults) (cs : List CharacterJSON)
    (ss : List (String × SkillJSON)) (bs : List (String × BuildJSON)) (st st2 : State)
    (h : (Seed fl ⟨.parsed cs, .parsed ss, .parsed bs⟩ st).2 = none)
    (hst2 : st2 = (seedPaths fl (seedElements fl (st.logf .seedingStarted)).1).1) :
    ∀ x ∈ (cs.foldl (seedCharacter fl (elementMap st2.db) (pathMap st2.db)) (0, st2)).2.log.drop
        st2.log.length,
      x ∈ printed fl ⟨.parsed cs, .parsed ss, .parsed bs⟩ st := by
  obtain ⟨_, _, hS⟩ := Seed_parsed_run fl cs ss bs st h
  obtain ⟨A1, hA1⟩ := seedElements_log_ext fl (st.logf .seedingStarted)
  obtain ⟨A2, hA2⟩ := seedPaths_log_ext fl (seedElements fl (st.logf .seedingStarted)).1
  rw [← hst2] at hA2 hS
  have hY := foldl_seedCharacter_log_split fl (elementMap st2.db) (pathMap st2.db) cs 0
    st2.db st2.log
  have hY1 : (cs.foldl (seedCharacter fl (elementMap st2.db) (pathMap st2.db)) (0, st2)).2.log =
      st2.log ++ (cs.foldl (seedCharacter fl (elementMap st2.db) (pathMap st2.db))
        (0, ⟨st2.db, []⟩)).2.log := hY
  obtain ⟨B1, hB1⟩ := seedSkills_log_ext fl ss (seedCharacters fl (.parsed cs) st2).1
  obtain ⟨B2, hB2⟩ := seedBuilds_log_ext fl bs
    (seedSkills fl (.parsed ss) (seedCharacters fl (.parsed cs) st2).1).1
  have hC : (seedCharacters fl (.parsed cs) st2).1.log =
      (cs.foldl (seedCharacter fl (elementMap st2.db) (pathMap st2.db)) (0, st2)).2.log ++
        [.seededCharacters
          (cs.foldl (seedCharacter fl (elementMap st2.db) (pathMap st2.db)) (0, st2)).1] := rfl
  intro x hx
  rw [hY1, List.drop_left] at hx
  unfold printed
  rw [hS]
  simp only [State.logf]
  rw [hB2, hB1, hC, hY1, hA2, hA1]
  simp only [State.logf, List.append_assoc, List.drop_left]
  simp [hx]

theorem Seed_parsed_db (fl : Faults) (cs : List CharacterJSON) (ss : List (String × SkillJSON))
    (bs : List (String × BuildJSON)) (st : State)
    (h : (Seed fl ⟨.parsed cs, .parsed ss, .parsed bs⟩ st).2 = none) :
    (Seed fl ⟨.parsed cs, .parsed ss, .parsed bs⟩ st).1.db = seedStore fl cs ss bs st.db := by
  obtain ⟨_, _, hS⟩ := Seed_parsed_run fl cs ss bs st h
  rw [hS]
  simp only [State.logf]
  rw [seedBuilds_parsed_db, seedSkills_parsed_db, seedCharacters_parsed_db, seedPaths_db,
    seedElements_db]
  rfl

theorem Seed_parsed_ok (fl : Faults) (cs : List CharacterJSON) (ss : List (String × SkillJSON))
    (bs : List (String × BuildJSON)) (st : State)
    (he : ∀ e ∈ elements, fl (.element e.Name) = false)
    (hp : ∀ p ∈ paths, fl (.path p.Name) = false) :
    (Seed fl ⟨.parsed cs, .parsed ss, .parsed bs⟩ st).2 = none := by
  unfold Seed
  dsimp only
  have h1 := (seedElements_error fl (st.logf .seedingStarted)).2 he
  generalize seedElements fl (st.logf .seedingStarted) = r1 at h1 ⊢
  rcases r1 with ⟨st1, _ | e1⟩
  · dsimp only
    have h2 := (seedPaths_error fl st1).2 hp
    generalize seedPaths fl st1 = r2 at h2 ⊢
    rcases r2 with ⟨st2, _ | e2⟩
    · rfl
    · cases h2
  · cases h1

/-! ## Running `Seed` twice -/

/-! ## A fatal error stops the run -/

theorem seedCharacters_failed (fl : Faults) (file : Source (List CharacterJSON)) (st : State)
    (err : String) (h : (seedCharacters fl file st).2 = some err) :
    (seedCharacters fl file st).1 = st := by
  cases file <;> simp_all [seedCharacters]

theorem seedSkills_failed (fl : Faults) (file : Source (List (String × SkillJSON))) (st : State)
    (err : String) (h : (seedSkills fl file st).2 = some err) :
    (seedSkills fl file st).1 = st := by
  cases file <;> simp_all [seedSkills]

theorem seedBuilds_failed (fl : Faults) (file : Source (List (String × BuildJSON))) (st : State)
    (err : String) (h : (seedBuilds fl file st).2 = some err) :
    (seedBuilds fl file st).1 = st := by
  cases file <;> simp_all [seedBuilds]

theorem afterElements_db (fl : Faults) (st : State) :
    ∃ t, (afterElements fl st).db = { st.db with elements := t } := by
  obtain ⟨added, h1, _⟩ := seedElementsLoop_spec fl elements st.db
  exact ⟨_, by unfold afterElements; rw [seedElements_db]; exact h1⟩

theorem afterPaths_db (fl : Faults) (st : State) :
    ∃ t u, (afterPaths fl st).db = { st.db with elements := t, paths := u } := by
  obtain ⟨t, ht⟩ := afterElements_db fl st
  obtain ⟨added, h1, _⟩ := seedPathsLoop_spec fl paths (afterElements fl st).db
  exact ⟨t, _, by unfold afterPaths; rw [seedPaths_db, h1, ht]⟩

theorem seedCharacters_frame (fl : Faults) (file : Source (List CharacterJSON)) (st : State) :
    ∃ t, (seedCharacters fl file st).1.db = { st.db with characters := t } := by
  cases file with
  | unreadable c => exact ⟨_, rfl⟩
  | malformed c => exact ⟨_, rfl⟩
  | parsed l =>
    obtain ⟨t, ht⟩ := foldl_seedCharacter_frame fl (elementMap st.db) (pathMap st.db) l (0, st)
    exact ⟨t, by simp only [seedCharacters, State.logf]; exact ht⟩

theorem seedSkills_frame (fl : Faults) (file : Source (List (String × SkillJSON))) (st : State) :
    ∃ t, (seedSkills fl file st).1.db = { st.db with characterSkills := t } := by
  cases file with
  | unreadable c => exact ⟨_, rfl⟩
  | malformed c => exact ⟨_, rfl⟩
  | parsed l =>
    obtain ⟨t, ht⟩ := foldl_seedSkill_frame fl l (0, st)
    exact ⟨t, by simp only [seedSkills, State.logf]; exact ht⟩

theorem afterCharacters_db (fl : Faults) (files : DataFiles) (st : State) :
    ∃ t u v, (afterCharacters fl files st).db =
      { st.db with elements := t, paths := u, characters := v } := by
  obtain ⟨t, u, h⟩ := afterPaths_db fl st
  obtain ⟨v, hv⟩ := seedCharacters_frame fl files.characters (afterPaths fl st)
  exact ⟨t, u, v, by unfold afterCharacters; rw [hv, h]⟩

theorem afterSkills_db (fl : Faults) (files : DataFiles) (st : State) :
    ∃ t u v w, (afterSkills fl files st).db =
      { st.db with elements := t, paths := u, characters := v, characterSkills := w } := by
  obtain ⟨t, u, v, h⟩ := afterCharacters_db fl files st
  obtain ⟨w, hw⟩ := seedSkills_frame fl files.skills (afterCharacters fl files st)
  exact ⟨t, u, v, w, by unfold afterSkills; rw [hw, h]⟩

/-- C11: a fatal error stops the run at the failing stage and names it.  The
stages run in the order elements, paths, characters, skills, builds.  When a
stage returns an error and the stages before it returned nil, `Seed` returns
that error behind the prefix of the stage, in the state the failing stage
returned: later stages are not run.  For the three file stages that
state is the one the stage before left (the stage has written nothing), so the
writes of the earlier stages are there; and every table that only a later stage
writes is as it was before the run (with `skills.json` missing, the characters
are seeded and the build tables are untouched). -/
theorem seed_stops_at_failing_stage (fl : Faults) (files : DataFiles) (st : State) :
    (∀ err, (seedElements fl (st.logf .seedingStarted)).2 = some err →
      Seed fl files st = (afterElements fl st, some ("failed to seed elements: " ++ err)) ∧
      ∃ t, (Seed fl files st).1.db = { st.db with elements := t }) ∧
    ((seedElements fl (st.logf .seedingStarted)).2 = none →
      ∀ err, (seedPaths fl (afterElements fl st)).2 = some err →
        Seed fl files st = (afterPaths fl st, some ("failed to seed paths: " ++ err)) ∧
        ∃ t u, (Seed fl files st).1.db = { st.db with elements := t, paths := u }) ∧
    ((seedElements fl (st.logf .seedingStarted)).2 = none →
      (seedPaths fl (afterElements fl st)).2 = none →
      ∀ err, (seedCharacters fl files.characters (afterPaths fl st)).2 = some err →
        Seed fl files st = (afterPaths fl st, some ("failed to seed characters: " ++ err)) ∧
        ∃ t u, (Seed fl files st).1.db = { st.db with elements := t, paths := u }) ∧
    ((seedElements fl (st.logf .seedingStarted)).2 = none →
      (seedPaths fl (afterElements fl st)).2 = none →
      (seedCharacters fl files.characters (afterPaths fl st)).2 = none →
      ∀ err, (seedSkills fl files.skills (afterCharacters fl files st)).2 = some err →
        Seed fl files st =
          (afterCharacters fl files st, some ("failed to seed skills: " ++ err)) ∧
        ∃ t u v, (Seed fl files st).1.db =
          { st.db with elements := t, paths := u, characters := v }) ∧
    ((seedElements fl (st.logf .seedingStarted)).2 = none →
      (seedPaths fl (afterElements fl st)).2 = none →
      (seedCharacters fl files.characters (afterPaths fl st)).2 = none →
      (seedSkills fl files.skills (afterCharacters fl files st)).2 = none →
      ∀ err, (seedBuilds fl files.builds (afterSkills fl files st)).2 = some err →
        Seed fl files st = (afterSkills fl files st, some ("failed to seed builds: " ++ err)) ∧
        ∃ t u v w, (Seed fl files st).1.db =
          { st.db with elements := t, paths := u, characters := v, characterSkills := w }) := by
  have main : ∀ (r1 : State × Option String), seedElements fl (st.logf .seedingStarted) = r1 →
      ∀ (r2 : State × Option String), seedPaths fl r1.1 = r2 →
      ∀ (r3 : State × Option String), seedCharacters fl files.characters r2.1 = r3 →
      ∀ (r4 : State × Option String), seedSkills fl files.skills r3.1 = r4 →
      ∀ (r5 : State × Option String), seedBuilds fl files.builds r4.1 = r5 →
      (∀ err, r1.2 = some err →
        Seed fl files st = (r1.1, some ("failed to seed elements: " ++ err))) ∧
      (r1.2 = none → ∀ err, r2.2 = some err →
        Seed fl files st = (r2.1, some ("failed to seed paths: " ++ err))) ∧
      (r1.2 = none → r2.2 = none → ∀ err, r3.2 = some err →
        Seed fl files st = (r3.1, some ("failed to seed characters: " ++ err))) ∧
      (r1.2 = none → r2.2 = none → r3.2 = none → ∀ err, r4.2 = some err →
        Seed fl files st = (r4.1, some ("failed to seed skills: " ++ err))) ∧
      (r1.2 = none → r2.2 = none → r3.2 = none → r4.2 = none → ∀ err, r5.2 = some err →
        Seed fl files st = (r5.1, some ("failed to seed builds: " ++ err))) := by
    intro r1 h1 r2 h2 r3 h3 r4 h4 r5 h5
    unfold Seed
    dsimp only
    rw [h1]
    rcases r1 with ⟨s1, _ | e1⟩ <;> dsimp only at h2 ⊢
    · rw [h2]
      rcases r2 with ⟨s2, _ | e2⟩ <;> dsimp only at h3 ⊢
      · rw [h3]
        rcases r3 with ⟨s3, _ | e3⟩ <;> dsimp only at h4 ⊢
        · rw [h4]
          rcases r4 with ⟨s4, _ | e4⟩ <;> dsimp only at h5 ⊢
          · rw [h5]
            rcases r5 with ⟨s5, _ | e5⟩ <;> dsimp only <;> simp
          · simp
        · simp
      · simp
    · simp
  obtain ⟨m1, m2, m3, m4, m5⟩ := main _ rfl _ rfl _ rfl _ rfl _ rfl
  refine ⟨?_, ?_, ?_, ?_, ?_⟩
  · intro err h
    have e : Seed fl files st =
        (afterElements fl st, some ("failed to seed elements: " ++ err)) := m1 err h
    refine ⟨e, ?_⟩
    rw [e]
    exact afterElements_db fl st
  · intro h1 err h
    have e : Seed fl files st =
        (afterPaths fl st, some ("failed to seed paths: " ++ err)) := m2 h1 err h
    refine ⟨e, ?_⟩
    rw [e]
    exact afterPaths_db fl st
  · intro h1 h2 err h
    have e : Seed fl files st = ((seedCharacters fl files.characters (afterPaths fl st)).1,
        some ("failed to seed characters: " ++ err)) := m3 h1 h2 err h
    rw [seedCharacters_failed fl _ _ err h] at e
    refine ⟨e, ?_⟩
    rw [e]
    exact afterPaths_db fl st
  · intro h1 h2 h3 err h
    have e : Seed fl files st = ((seedSkills fl files.skills (afterCharacters fl files st)).1,
        some ("failed to seed skills: " ++ err)) := m4 h1 h2 h3 err h
    rw [seedSkills_failed fl _ _ err h] at e
    refine ⟨e, ?_⟩
    rw [e]
    exact afterCharacters_db fl files st
  · intro h1 h2 h3 h4 err h
    have e : Seed fl files st = ((seedBuilds fl files.builds (afterSkills fl files st)).1,
        some ("failed to seed builds: " ++ err)) := m5 h1 h2 h3 h4 err h
    rw [seedBuilds_failed fl _ _ err h] at e
    refine ⟨e, ?_⟩
    rw [e]
    exact afterSkills_db fl files st

theorem seed_stops_at_failing_stage_witness :
    ((seedElements noFaults (State.logf ⟨storeWithMarch, []⟩ .seedingStarted)).2 = none ∧
      (seedPaths noFaults (afterElements noFaults ⟨storeWithMarch, []⟩)).2 = none ∧
      (seedCharacters noFaults noSkillsFiles.characters
        (afterPaths noFaults ⟨storeWithMarch, []⟩)).2 = none ∧
      (seedSkills noFaults noSkillsFiles.skills
        (afterCharacters noFaults noSkillsFiles ⟨storeWithMarch, []⟩)).2 =
        some "failed to read skills.json: open skills.json: no such file or directory") ∧
    (Seed noFaults noSkillsFiles ⟨storeWithMarch, []⟩ =
        (afterCharacters noFaults noSkillsFiles ⟨storeWithMarch, []⟩,
          some ("failed to seed skills: " ++
            "failed to read skills.json: open skills.json: no such file or directory")) ∧
      ∃ t u v, (Seed noFaults noSkillsFiles ⟨storeWithMarch, []⟩).1.db =
        { storeWithMarch with elements := t, paths := u, characters := v }) ∧
    (afterCharacters noFaults noSkillsFiles ⟨storeWithMarch, []⟩).db.characters =
      [⟨"1001", "mar7", "March 7th", 1, 1, 4, 101, 3⟩] ∧
    (Seed noFaults noSkillsFiles ⟨storeWithMarch, []⟩).1.db.characterBuilds = [] :=
  ⟨⟨by decide, by decide, by decide, by decide⟩,
    (seed_stops_at_failing_stage noFaults noSkillsFiles ⟨storeWithMarch, []⟩).2.2.2.1
      (by decide) (by decide) (by decide) _ (by decide),
    by decide, by decide⟩

/-! ## Seeding an empty store -/

theorem nameMap_foldl_ne_none {α : Type} (nm : α → String) (idf : α → Nat) (l : List α)
    (m0 : NameMap) (n : String) (h : m0 n ≠ none ∨ ∃ e ∈ l, nm e = n) :
    (l.foldl (fun m e => NameMap.set m (nm e) (idf e)) m0) n ≠ none := by
  induction l generalizing m0 with
  | nil =>
    rcases h with h | ⟨e, he, _⟩
    · exact h
    · cases he
  | cons x xs ih =>
    rw [List.foldl_cons]
    apply ih
    by_cases hx : n = nm x
    · left
      unfold NameMap.set
      simp [hx]
    · rcases h with h | ⟨e, he, hn⟩
      · left
        unfold NameMap.set
        simp [hx, h]
      · rcases List.mem_cons.1 he with rfl | he
        · exact absurd hn.symm hx
        · exact Or.inr ⟨e, he, hn⟩

theorem upsertRows_new {α : Type} (p : α → Bool) (a : α → α) (c : α) (l : List α)
    (h : l.find? p = none) : upsertRows p a c l = l ++ [c] := by
  unfold upsertRows
  rw [h]

theorem characterRowsStep_skip (fl : Faults) (em pm : NameMap) (rows : List Character)
    (c : CharacterJSON) (h : resolvable em pm c = false) :
    characterRowsStep fl em pm rows c = rows := by
  unfold characterRowsStep
  unfold resolvable at h
  cases he : em c.Element with
  | none => rfl
  | some eid =>
    cases hp : pm c.Path with
    | none => rfl
    | some pid => simp [he, hp] at h

theorem characterRowsStep_new (em pm : NameMap) (rows : List Character) (c : CharacterJSON)
    (h : resolvable em pm c = true)
    (hnew : ∀ r ∈ rows, r.ID ≠ c.ID ∧ r.CharID ≠ c.CharID) :
    ∃ row, row.ID = c.ID ∧ row.CharID = c.CharID ∧
      characterRowsStep noFaults em pm rows c = rows ++ [row] := by
  unfold resolvable at h
  simp only [Bool.and_eq_true, Option.isSome_iff_exists] at h
  obtain ⟨⟨eid, he⟩, ⟨pid, hp⟩⟩ := h
  have hfind : rows.find? (fun r => r.ID == (characterRow c eid pid).ID) = none := by
    rw [List.find?_eq_none]
    intro r hr
    simpa [characterRow] using (hnew r hr).1
  have hacc : characterAccepted noFaults (characterRow c eid pid) rows = true := by
    unfold characterAccepted upsertRow
    rw [hfind]
    simp only [noFaults, Bool.not_false, Bool.true_and, Bool.not_eq_eq_eq_not, Bool.not_true]
    rw [List.any_eq_false]
    intro r hr
    have := (hnew r hr).2
    simp [createCharacter, characterRow, this]
  refine ⟨createCharacter (characterRow c eid pid), rfl, rfl, ?_⟩
  unfold characterRowsStep
  rw [he, hp]
  dsimp only
  rw [hacc, if_pos rfl]
  unfold charactersAfter
  exact upsertRows_new _ _ _ _ hfind

theorem characters_fresh (em pm : NameMap) (l : List CharacterJSON) (rows : List Character)
    (hnew : ∀ c ∈ l, resolvable em pm c = true → ∀ r ∈ rows, r.ID ≠ c.ID ∧ r.CharID ≠ c.CharID)
    (hpw : (l.filter (resolvable em pm)).Pairwise
      (fun a b => a.ID ≠ b.ID ∧ a.CharID ≠ b.CharID)) :
    (l.foldl (characterRowsStep noFaults em pm) rows).map (·.ID) =
      rows.map (·.ID) ++ (l.filter (resolvable em pm)).map (·.ID) := by
  induction l generalizing rows with
  | nil => simp
  | cons c rest ih =>
    rw [List.foldl_cons]
    cases hr : resolvable em pm c with
    | false =>
      rw [characterRowsStep_skip noFaults em pm rows c hr, List.filter_cons_of_neg (by simp [hr])]
      rw [List.filter_cons_of_neg (by simp [hr])] at hpw
      exact ih rows (fun x hx => hnew x (List.mem_cons_of_mem _ hx)) hpw
    | true =>
      obtain ⟨row, h1, h2, h3⟩ := characterRowsStep_new em pm rows c hr
        (hnew c (List.mem_cons_self _ _) hr)
      rw [List.filter_cons_of_pos (by simp [hr])] at hpw ⊢
      rw [List.pairwise_cons] at hpw
      rw [h3, ih (rows ++ [row]) _ hpw.2]
      · simp [h1]
      · intro x hx hxr r hrm
        rcases List.mem_append.1 hrm with hrm | hrm
        · exact hnew x (List.mem_cons_of_mem _ hx) hxr r hrm
        · have : r = row := by simpa using hrm
          subst this
          have := hpw.1 x (List.mem_filter.2 ⟨hx, hxr⟩)
          rw [h1, h2]
          exact this

theorem skills_fresh (chars : List Character) (l : List (String × SkillJSON))
    (rows : List CharacterSkill) (hnd : (l.map (·.1)).Nodup)
    (hch : ∀ e ∈ l, chars.find? (fun r => r.ID == e.1) ≠ none)
    (hnew : ∀ e ∈ l, ∀ r ∈ rows, r.CharacterID ≠ e.1) :
    (l.foldl (skillRowsStep noFaults chars) rows).map (·.CharacterID) =
      rows.map (·.CharacterID) ++ l.map (·.1) := by
  induction l generalizing rows with
  | nil => simp
  | cons e rest ih =>
    rw [List.foldl_cons]
    rw [List.map_cons, List.nodup_cons] at hnd
    have hfind : rows.find? (fun r => r.CharacterID == e.1) = none := by
      rw [List.find?_eq_none]
      intro r hr
      simpa using hnew e (List.mem_cons_self _ _) r hr
    have hstep : skillRowsStep noFaults chars rows e =
        rows ++ [createSkill (nextID (rows.map (·.ID))) (skillRow e.1 e.2)] := by
      unfold skillRowsStep
      rw [if_neg (by simp [noFaults, hch e (List.mem_cons_self _ _)])]
      exact upsertRows_new _ _ _ _ hfind
    rw [hstep, ih _ hnd.2 (fun x hx => hch x (List.mem_cons_of_mem _ hx))]
    · simp [createSkill, skillRow]
    · intro x hx r hr
      rcases List.mem_append.1 hr with hr | hr
      · exact hnew x (List.mem_cons_of_mem _ hx) r hr
      · have : r = createSkill (nextID (rows.map (·.ID))) (skillRow e.1 e.2) := by
          simpa using hr
        subst this
        intro hc
        exact hnd.1 (List.mem_map.2 ⟨x, hx, by simpa [createSkill, skillRow] using hc.symm⟩)

theorem builds_fresh (l : List (String × BuildJSON)) (db : Store)
    (hnd : (l.map (·.1)).Nodup)
    (hch : ∀ e ∈ l, firstCharacter e.1 db ≠ none)
    (hnew : ∀ e ∈ l, ∀ r ∈ db.characterBuilds, r.CharacterID ≠ e.1) :
    (l.foldl (buildStep noFaults) db).characterBuilds.map (·.CharacterID) =
      db.characterBuilds.map (·.CharacterID) ++ l.map (·.1) := by
  induction l generalizing db with
  | nil => simp
  | cons e rest ih =>
    rw [List.foldl_cons]
    rw [List.map_cons, List.nodup_cons] at hnd
    have hfind : db.characterBuilds.find? (fun r => r.CharacterID == e.1) = none := by
      rw [List.find?_eq_none]
      intro r hr
      simpa using hnew e (List.mem_cons_self _ _) r hr
    have hstep : (buildStep noFaults db e).characterBuilds =
        db.characterBuilds ++
          [createBuild (nextID (db.characterBuilds.map (·.ID))) (buildRow e.1 e.2)] := by
      unfold buildStep
      rw [if_neg (by simp [noFaults, hch e (List.mem_cons_self _ _)])]
      dsimp only
      unfold buildsAfter
      exact upsertRows_new _ _ _ _ hfind
    rw [ih (buildStep noFaults db e) hnd.2, hstep]
    · simp [createBuild, buildRow]
    · intro x hx
      unfold firstCharacter
      rw [buildStep_characters]
      exact hch x (List.mem_cons_of_mem _ hx)
    · intro x hx r hr
      rw [hstep] at hr
      rcases List.mem_append.1 hr with hr | hr
      · exact hnew x (List.mem_cons_of_mem _ hx) r hr
      · have : r = createBuild (nextID (db.characterBuilds.map (·.ID))) (buildRow e.1 e.2) := by
          simpa using hr
        subst this
        intro hc
        exact hnd.1 (List.mem_map.2 ⟨x, hx, by simpa [createBuild, buildRow] using hc.symm⟩)

theorem unknown_logged (fl : Faults) (db : Store) (l : List CharacterJSON) (acc : Nat × State)
    (c : CharacterJSON) (hc : c ∈ l)
    (h : elementMap db c.Element = none ∨ pathMap db c.Path = none) :
    unknownReference db c ∈ (l.foldl (seedCharacter fl (elementMap db) (pathMap db)) acc).2.log := by
  obtain ⟨l1, l2, rfl⟩ := List.append_of_mem hc
  rw [List.foldl_append, List.foldl_cons, seedCharacter_unknown fl db _ c h]
  apply foldl_seedCharacter_log_mono
  simp [State.logf]

theorem referenceStage_empty :
    (referenceStage noFaults Store.empty).elements.map (·.Name) = elements.map (·.Name) ∧
    (referenceStage noFaults Store.empty).paths.map (·.Name) = paths.map (·.Name) ∧
    (referenceStage noFaults Store.empty).characters = [] ∧
    (referenceStage noFaults Store.empty).characterSkills = [] ∧
    (referenceStage noFaults Store.empty).characterBuilds = [] := by
  decide

theorem find?_ne_none_of_mem_ids (chars : List Character) (k : String)
    (h : k ∈ chars.map (·.ID)) : chars.find? (fun r => r.ID == k) ≠ none := by
  obtain ⟨c, hc, hk⟩ := List.mem_map.1 h
  intro hnone
  have := List.find?_eq_none.1 hnone c hc
  simp [hk] at this

/-- C12: the end-to-end scenario.  `Seed` runs on the empty store with a storage
layer that rejects nothing.  The character file holds, in any order, two
records `c1`, `c2` whose element and path names are compiled-in names, with
different ids and different short codes, and a record `c3` whose path name is
not a compiled-in name; the skill map and the build map each have the two
keys `c1.ID`, `c2.ID`, in any order.  Then `Seed` returns nil; there are 7
`Element` rows and 8 `Path` rows; there are exactly 2 `Character` rows, with the
ids of `c1` and `c2`; the warning for `c3` is in the log; and there are exactly
2 `CharacterSkill` rows and 2 `CharacterBuild` rows, for the two ids. -/
theorem end_to_end_scenario (c1 c2 c3 : CharacterJSON) (cs : List CharacterJSON)
    (ss : List (String × SkillJSON)) (bs : List (String × BuildJSON))
    (h1e : c1.Element ∈ elements.map (·.Name)) (h1p : c1.Path ∈ paths.map (·.Name))
    (h2e : c2.Element ∈ elements.map (·.Name)) (h2p : c2.Path ∈ paths.map (·.Name))
    (h3 : c3.Path ∉ paths.map (·.Name))
    (hid : c1.ID ≠ c2.ID) (hcode : c1.CharID ≠ c2.CharID)
    (hcs : cs.Perm [c1, c2, c3])
    (hss : (ss.map (·.1)).Perm [c1.ID, c2.ID]) (hbs : (bs.map (·.1)).Perm [c1.ID, c2.ID]) :
    (Seed noFaults ⟨.parsed cs, .parsed ss, .parsed bs⟩ ⟨Store.empty, []⟩).2 = none ∧
    (Seed noFaults ⟨.parsed cs, .parsed ss, .parsed bs⟩ ⟨Store.empty, []⟩).1.db.elements.length
      = 7 ∧
    (Seed noFaults ⟨.parsed cs, .parsed ss, .parsed bs⟩ ⟨Store.empty, []⟩).1.db.paths.length
      = 8 ∧
    (Seed noFaults ⟨.parsed cs, .parsed ss, .parsed bs⟩ ⟨Store.empty, []⟩).1.db.characters.length
      = 2 ∧
    ((Seed noFaults ⟨.parsed cs, .parsed ss, .parsed bs⟩ ⟨Store.empty, []⟩).1.db.characters.map
      (·.ID)).Perm [c1.ID, c2.ID] ∧
    (LogEntry.unknownPath c3.Path c3.Name ∈
        (Seed noFaults ⟨.parsed cs, .parsed ss, .parsed bs⟩ ⟨Store.empty, []⟩).1.log ∨
      LogEntry.unknownElement c3.Element c3.Name ∈
        (Seed noFaults ⟨.parsed cs, .parsed ss, .parsed bs⟩ ⟨Store.empty, []⟩).1.log) ∧
    (Seed noFaults ⟨.parsed cs, .parsed ss, .parsed bs⟩
      ⟨Store.empty, []⟩).1.db.characterSkills.length = 2 ∧
    ((Seed noFaults ⟨.parsed cs, .parsed ss, .parsed bs⟩
      ⟨Store.empty, []⟩).1.db.characterSkills.map (·.CharacterID)).Perm [c1.ID, c2.ID] ∧
    (Seed noFaults ⟨.parsed cs, .parsed ss, .parsed bs⟩
      ⟨Store.empty, []⟩).1.db.characterBuilds.length = 2 ∧
    ((Seed noFaults ⟨.parsed cs, .parsed ss, .parsed bs⟩
      ⟨Store.empty, []⟩).1.db.characterBuilds.map (·.CharacterID)).Perm [c1.ID, c2.ID] := by
  obtain ⟨r1, r2, r3, r4, r5⟩ := referenceStage_empty
  have herr := Seed_parsed_ok noFaults cs ss bs ⟨Store.empty, []⟩ (fun _ _ => rfl)
    (fun _ _ => rfl)
  have hdb := Seed_parsed_db noFaults cs ss bs ⟨Store.empty, []⟩ herr
  obtain ⟨f1, f2, f3, f4⟩ := buildsStage_frame noFaults bs
    (skillsStage noFaults ss (charactersStage noFaults cs (referenceStage noFaults Store.empty)))
  -- the lookup maps
  have hem : ∀ n, n ∈ elements.map (·.Name) →
      elementMap (referenceStage noFaults Store.empty) n ≠ none := by
    intro n hn
    unfold elementMap
    apply nameMap_foldl_ne_none
    right
    rw [← r1] at hn
    obtain ⟨e, he, hen⟩ := List.mem_map.1 hn
    exact ⟨e, he, hen⟩
  have hpm : ∀ n, n ∈ paths.map (·.Name) →
      pathMap (referenceStage noFaults Store.empty) n ≠ none := by
    intro n hn
    unfold pathMap
    apply nameMap_foldl_ne_none
    right
    rw [← r2] at hn
    obtain ⟨e, he, hen⟩ := List.mem_map.1 hn
    exact ⟨e, he, hen⟩
  have hp3 : pathMap (referenceStage noFaults Store.empty) c3.Path = none := by
    cases hx : pathMap (referenceStage noFaults Store.empty) c3.Path with
    | none => rfl
    | some id =>
      obtain ⟨e, he, hen, _⟩ := pathMap_some _ _ _ hx
      exact absurd (by rw [← r2]; exact List.mem_map.2 ⟨e, he, hen⟩) h3
  have hres : ∀ c : CharacterJSON, c.Element ∈ elements.map (·.Name) →
      c.Path ∈ paths.map (·.Name) →
      resolvable (elementMap (referenceStage noFaults Store.empty))
        (pathMap (referenceStage noFaults Store.empty)) c = true := by
    intro c he hp
    unfold resolvable
    rw [Bool.and_eq_true, Option.isSome_iff_ne_none, Option.isSome_iff_ne_none]
    exact ⟨hem _ he, hpm _ hp⟩
  have hres3 : resolvable (elementMap (referenceStage noFaults Store.empty))
      (pathMap (referenceStage noFaults Store.empty)) c3 = false := by
    unfold resolvable
    rw [hp3]
    simp
  -- the character table
  have hfilter : (cs.filter (resolvable (elementMap (referenceStage noFaults Store.empty))
      (pathMap (referenceStage noFaults Store.empty)))).Perm [c1, c2] := by
    have := hcs.filter (resolvable (elementMap (referenceStage noFaults Store.empty))
      (pathMap (referenceStage noFaults Store.empty)))
    simpa [List.filter, hres c1 h1e h1p, hres c2 h2e h2p, hres3] using this
  have hchars : ((seedStore noFaults cs ss bs Store.empty).characters.map (·.ID)).Perm
      [c1.ID, c2.ID] := by
    have h := characters_fresh (elementMap (referenceStage noFaults Store.empty))
      (pathMap (referenceStage noFaults Store.empty)) cs [] (fun _ _ _ r hr => by cases hr)
      ((hfilter.pairwise_iff (fun {a b} h => ⟨h.1.symm, h.2.symm⟩)).2
        (by simp [hid, hcode]))
    have e : (seedStore noFaults cs ss bs Store.empty).characters =
        cs.foldl (characterRowsStep noFaults (elementMap (referenceStage noFaults Store.empty))
          (pathMap (referenceStage noFaults Store.empty))) [] := by
      rw [← r3]; exact f3
    rw [e, h]
    simpa using hfilter.map (·.ID)
  -- the skill table
  have hssnd : (ss.map (·.1)).Nodup := hss.nodup_iff.2 (by simp [hid])
  have hbsnd : (bs.map (·.1)).Nodup := hbs.nodup_iff.2 (by simp [hid])
  have hskills : ((seedStore noFaults cs ss bs Store.empty).characterSkills.map
      (·.CharacterID)).Perm [c1.ID, c2.ID] := by
    have e : (seedStore noFaults cs ss bs Store.empty).characterSkills =
        ss.foldl (skillRowsStep noFaults (seedStore noFaults cs ss bs Store.empty).characters)
          [] := by
      have a : (seedStore noFaults cs ss bs Store.empty).characterSkills =
          ss.foldl (skillRowsStep noFaults
            (charactersStage noFaults cs (referenceStage noFaults Store.empty)).characters)
            (referenceStage noFaults Store.empty).characterSkills := f4
      have b : (seedStore noFaults cs ss bs Store.empty).characters =
          (charactersStage noFaults cs (referenceStage noFaults Store.empty)).characters := f3
      rw [a, b, r4]
    rw [e, skills_fresh _ ss [] hssnd ?_ (fun _ _ r hr => by cases hr)]
    · simpa using hss
    · intro x hx
      apply find?_ne_none_of_mem_ids
      have : x.1 ∈ [c1.ID, c2.ID] := hss.subset (List.mem_map.2 ⟨x, hx, rfl⟩)
      exact hchars.symm.subset this
  -- the build table
  have hbuilds : ((seedStore noFaults cs ss bs Store.empty).characterBuilds.map
      (·.CharacterID)).Perm [c1.ID, c2.ID] := by
    have e0 : (skillsStage noFaults ss (charactersStage noFaults cs
        (referenceStage noFaults Store.empty))).characterBuilds = [] := r5
    unfold seedStore buildsStage
    rw [builds_fresh bs _ hbsnd ?_ ?_, e0]
    · simpa using hbs
    · intro x hx
      unfold firstCharacter
      apply find?_ne_none_of_mem_ids
      have : x.1 ∈ [c1.ID, c2.ID] := hbs.subset (List.mem_map.2 ⟨x, hx, rfl⟩)
      have h2 := hchars.symm.subset this
      have b : (seedStore noFaults cs ss bs Store.empty).characters =
          (skillsStage noFaults ss (charactersStage noFaults cs
            (referenceStage noFaults Store.empty))).characters := f3
      rw [b] at h2
      exact h2
    · intro x _ r hr
      rw [e0] at hr
      cases hr
  -- the log
  have hlog : unknownReference (referenceStage noFaults Store.empty) c3 ∈
      (Seed noFaults ⟨.parsed cs, .parsed ss, .parsed bs⟩ ⟨Store.empty, []⟩).1.log := by
    have hst2 : (seedPaths noFaults (seedElements noFaults
        (State.logf ⟨Store.empty, []⟩ .seedingStarted)).1).1.db =
        referenceStage noFaults Store.empty := by
      rw [seedPaths_db, seedElements_db]; rfl
    have hp := Seed_printed_characters noFaults cs ss bs ⟨Store.empty, []⟩ _ herr rfl
      (unknownReference (referenceStage noFaults Store.empty) c3) (by
        rw [hst2]
        have hs := foldl_seedCharacter_log_split noFaults
          (elementMap (referenceStage noFaults Store.empty))
          (pathMap (referenceStage noFaults Store.empty)) cs 0
          (seedPaths noFaults (seedElements noFaults
            (State.logf ⟨Store.empty, []⟩ .seedingStarted)).1).1.db
          (seedPaths noFaults (seedElements noFaults
            (State.logf ⟨Store.empty, []⟩ .seedingStarted)).1).1.log
        have : cs.foldl (seedCharacter noFaults
            (elementMap (referenceStage noFaults Store.empty))
            (pathMap (referenceStage noFaults Store.empty)))
            (0, (seedPaths noFaults (seedElements noFaults
              (State.logf ⟨Store.empty, []⟩ .seedingStarted)).1).1) =
          cs.foldl (seedCharacter noFaults
            (elementMap (referenceStage noFaults Store.empty))
            (pathMap (referenceStage noFaults Store.empty)))
            (0, ⟨(seedPaths noFaults (seedElements noFaults
              (State.logf ⟨Store.empty, []⟩ .seedingStarted)).1).1.db,
              (seedPaths noFaults (seedElements noFaults
              (State.logf ⟨Store.empty, []⟩ .seedingStarted)).1).1.log⟩) := rfl
        rw [this, hs, List.drop_left]
        exact unknown_logged noFaults (referenceStage noFaults Store.empty) cs _ c3
          (hcs.symm.subset (by simp)) (Or.inr hp3))
    exact List.mem_of_mem_drop hp
  refine ⟨herr, ?_, ?_, ?_, ?_, ?_, ?_, ?_, ?_, ?_⟩
  · have a : (seedStore noFaults cs ss bs Store.empty).elements =
        (referenceStage noFaults Store.empty).elements := f1
    rw [hdb]
    show (seedStore noFaults cs ss bs Store.empty).elements.length = 7
    rw [a, ← List.length_map, r1]; rfl
  · have a : (seedStore noFaults cs ss bs Store.empty).paths =
        (referenceStage noFaults Store.empty).paths := f2
    rw [hdb]
    show (seedStore noFaults cs ss bs Store.empty).paths.length = 8
    rw [a, ← List.length_map, r2]; rfl
  · rw [hdb, ← List.length_map, hchars.length_eq]; rfl
  · rw [hdb]; exact hchars
  · unfold unknownReference at hlog
    split at hlog
    · exact Or.inr hlog
    · exact Or.inl hlog
  · rw [hdb, ← List.length_map, hskills.length_eq]; rfl
  · rw [hdb]; exact hskills
  · rw [hdb, ← List.length_map, hbuilds.length_eq]; rfl
  · rw [hdb]; exact hbuilds

theorem end_to_end_scenario_witness :
    (marchFour.Element ∈ elements.map (·.Name) ∧ marchFour.Path ∈ paths.map (·.Name) ∧
      danHeng.Element ∈ elements.map (·.Name) ∧ danHeng.Path ∈ paths.map (·.Name) ∧
      voyager.Path ∉ paths.map (·.Name) ∧
      marchFour.ID ≠ danHeng.ID ∧ marchFour.CharID ≠ danHeng.CharID ∧
      [voyager, danHeng, marchFour].Perm [marchFour, danHeng, voyager] ∧
      ([("1002", marchSkills), ("1001", marchSkills)].map (·.1)).Perm
        [marchFour.ID, danHeng.ID] ∧
      ([("1001", buildABC), ("1002", buildCA)].map (·.1)).Perm [marchFour.ID, danHeng.ID]) ∧
    ((Seed noFaults ⟨.parsed [voyager, danHeng, marchFour],
        .parsed [("1002", marchSkills), ("1001", marchSkills)],
        .parsed [("1001", buildABC), ("1002", buildCA)]⟩ ⟨Store.empty, []⟩).2 = none ∧
    (Seed noFaults ⟨.parsed [voyager, danHeng, marchFour],
        .parsed [("1002", marchSkills), ("1001", marchSkills)],
        .parsed [("1001", buildABC), ("1002", buildCA)]⟩
      ⟨Store.empty, []⟩).1.db.elements.length = 7 ∧
    (Seed noFaults ⟨.parsed [voyager, danHeng, marchFour],
        .parsed [("1002", marchSkills), ("1001", marchSkills)],
        .parsed [("1001", buildABC), ("1002", buildCA)]⟩
      ⟨Store.empty, []⟩).1.db.paths.length = 8 ∧
    (Seed noFaults ⟨.parsed [voyager, danHeng, marchFour],
        .parsed [("1002", marchSkills), ("1001", marchSkills)],
        .parsed [("1001", buildABC), ("1002", buildCA)]⟩
      ⟨Store.empty, []⟩).1.db.characters.length = 2 ∧
    ((Seed noFaults ⟨.parsed [voyager, danHeng, marchFour],
        .parsed [("1002", marchSkills), ("1001", marchSkills)],
        .parsed [("1001", buildABC), ("1002", buildCA)]⟩
      ⟨Store.empty, []⟩).1.db.characters.map (·.ID)).Perm [marchFour.ID, danHeng.ID] ∧
    (LogEntry.unknownPath voyager.Path voyager.Name ∈
        (Seed noFaults ⟨.parsed [voyager, danHeng, marchFour],
          .parsed [("1002", marchSkills), ("1001", marchSkills)],
          .parsed [("1001", buildABC), ("1002", buildCA)]⟩ ⟨Store.empty, []⟩).1.log ∨
      LogEntry.unknownElement voyager.Element voyager.Name ∈
        (Seed noFaults ⟨.parsed [voyager, danHeng, marchFour],
          .parsed [("1002", marchSkills), ("1001", marchSkills)],
          .parsed [("1001", buildABC), ("1002", buildCA)]⟩ ⟨Store.empty, []⟩).1.log) ∧
    (Seed noFaults ⟨.parsed [voyager, danHeng, marchFour],
        .parsed [("1002", marchSkills), ("1001", marchSkills)],
        .parsed [("1001", buildABC), ("1002", buildCA)]⟩
      ⟨Store.empty, []⟩).1.db.characterSkills.length = 2 ∧
    ((Seed noFaults ⟨.parsed [voyager, danHeng, marchFour],
        .parsed [("1002", marchSkills), ("1001", marchSkills)],
        .parsed [("1001", buildABC), ("1002", buildCA)]⟩
      ⟨Store.empty, []⟩).1.db.characterSkills.map (·.CharacterID)).Perm
        [marchFour.ID, danHeng.ID] ∧
    (Seed noFaults ⟨.parsed [voyager, danHeng, marchFour],
        .parsed [("1002", marchSkills), ("1001", marchSkills)],
        .parsed [("1001", buildABC), ("1002", buildCA)]⟩
      ⟨Store.empty, []⟩).1.db.characterBuilds.length = 2 ∧
    ((Seed noFaults ⟨.parsed [voyager, danHeng, marchFour],
        .parsed [("1002", marchSkills), ("1001", marchSkills)],
        .parsed [("1001", buildABC), ("1002", buildCA)]⟩
      ⟨Store.empty, []⟩).1.db.characterBuilds.map (·.CharacterID)).Perm
        [marchFour.ID, danHeng.ID]) :=
  ⟨⟨by decide, by decide, by decide, by decide, by decide, by decide, by decide, by decide,
      by decide, by decide⟩,
    end_to_end_scenario marchFour danHeng voyager [voyager, danHeng, marchFour]
      [("1002", marchSkills), ("1001", marchSkills)] [("1001", buildABC), ("1002", buildCA)]
      (by decide) (by decide) (by decide) (by decide) (by decide) (by decide) (by decide)
      (by decide) (by decide) (by decide)⟩

/-! ## The child rows of one build -/

theorem filter_upsertRows_other {α : Type} (p q : α → Bool) (a : α → α) (c : α) (l : List α)
    (hpq : ∀ x, p x = true → q x = false)
    (ha : ∀ f, l.find? p = some f → q (a f) = false) (hc : q c = false) :
    (upsertRows p a c l).filter q = l.filter q := by
  unfold upsertRows
  cases hf : l.find? p with
  | none => simp [List.filter_append, hc]
  | some f => exact filter_replaceFirst p q _ l hpq (ha f hf)

theorem substatRowsStep_filter_other (fl : Faults) (bid x : Nat)
    (rows : List CharacterBuildSubstat) (e : String × Float64) (hx : x ≠ bid) :
    (substatRowsStep fl bid rows e).filter (fun r => r.BuildID == x) =
      rows.filter (fun r => r.BuildID == x) := by
  unfold substatRowsStep
  split
  · rfl
  · apply filter_upsertRows_other
    · intro r hr
      simp only [Bool.and_eq_true, beq_iff_eq] at hr
      simp [hr.1, Ne.symm hx]
    · intro f hf
      have := (assignSubstat_key bid e.1 e.2 f
        (find?_pred (fun r : CharacterBuildSubstat => r.BuildID == bid && r.StatName == e.1)
          _ _ hf)).1
      simp [this, Ne.symm hx]
    · simp [createSubstat, substatRow, Ne.symm hx]

theorem foldl_substat_filter_other (fl : Faults) (bid x : Nat) (l : List (String × Float64))
    (rows : List CharacterBuildSubstat) (hx : x ≠ bid) :
    (l.foldl (substatRowsStep fl bid) rows).filter (fun r => r.BuildID == x) =
      rows.filter (fun r => r.BuildID == x) := by
  induction l generalizing rows with
  | nil => rfl
  | cons e rest ih => rw [List.foldl_cons, ih, substatRowsStep_filter_other fl bid x rows e hx]

theorem buildSetRowsWrite_filter_other (fl : Faults) (bid rid i x : Nat) (rels : List RelicSet)
    (rows : List CharacterBuildSet) (hx : x ≠ bid) :
    (buildSetRowsWrite fl bid rid i rels rows).filter (fun r => r.BuildID == x) =
      rows.filter (fun r => r.BuildID == x) := by
  unfold buildSetRowsWrite
  split
  · rfl
  · split
    · rfl
    · apply filter_upsertRows_other
      · intro r hr
        simp only [Bool.and_eq_true, beq_iff_eq] at hr
        simp [hr.1, Ne.symm hx]
      · intro f hf
        obtain ⟨h1, _, _, _⟩ := assignBuildSet_key bid rid i f
          (find?_pred (fun r : CharacterBuildSet => r.BuildID == bid && r.RelicSetID == rid)
            _ _ hf)
        simp [h1, Ne.symm hx]
      · obtain ⟨h1, _, _, _⟩ := createBuildSet_key (nextID (rows.map (·.ID))) bid rid i
        simp [h1, Ne.symm hx]

theorem foldl_setStep_filter_other (fl : Faults) (bid x : Nat) (l : List (Nat × String))
    (t : List RelicSet × List CharacterBuildSet) (hx : x ≠ bid) :
    (l.foldl (setStep fl bid) t).2.filter (fun r => r.BuildID == x) =
      t.2.filter (fun r => r.BuildID == x) := by
  induction l generalizing t with
  | nil => rfl
  | cons e rest ih =>
    rw [List.foldl_cons, ih]
    unfold setStep
    exact buildSetRowsWrite_filter_other fl bid _ _ x _ _ hx

theorem buildStep_filters_other (fl : Faults) (db : Store) (e : String × BuildJSON) (x : Nat)
    (hx : firstCharacter e.1 db = none ∨ fl (.build e.1) = true ∨ x ≠ (builtRow e db).ID) :
    (buildStep fl db e).characterBuildSubstats.filter (fun r => r.BuildID == x) =
      db.characterBuildSubstats.filter (fun r => r.BuildID == x) ∧
    (buildStep fl db e).characterBuildSets.filter (fun r => r.BuildID == x) =
      db.characterBuildSets.filter (fun r => r.BuildID == x) := by
  unfold buildStep
  by_cases hc : firstCharacter e.1 db = none ∨ fl (.build e.1) = true
  · rw [if_pos hc]
    exact ⟨rfl, rfl⟩
  · rw [if_neg hc]
    have hne : x ≠ (builtRow e db).ID := by
      rcases hx with h | h | h
      · exact absurd (Or.inl h) hc
      · exact absurd (Or.inr h) hc
      · exact h
    exact ⟨foldl_substat_filter_other fl _ x _ _ hne, foldl_setStep_filter_other fl _ x _ _ hne⟩

theorem buildStep_ids (fl : Faults) (db : Store) (e : String × BuildJSON) :
    (∀ i ∈ db.characterBuilds.map (·.ID), i ∈ (buildStep fl db e).characterBuilds.map (·.ID)) ∧
    (¬ (firstCharacter e.1 db = none ∨ fl (.build e.1) = true) →
      (builtRow e db).ID ∈ (buildStep fl db e).characterBuilds.map (·.ID)) := by
  unfold buildStep
  by_cases hc : firstCharacter e.1 db = none ∨ fl (.build e.1) = true
  · rw [if_pos hc]
    exact ⟨fun i hi => hi, fun h => absurd hc h⟩
  · rw [if_neg hc]
    dsimp only
    constructor
    · intro i hi
      unfold buildsAfter
      rcases map_upsertRows_found (fun r : CharacterBuild => r.ID)
        (fun r => r.CharacterID == e.1) (assignBuild (buildRow e.1 e.2))
        (createBuild (nextID (db.characterBuilds.map (·.ID))) (buildRow e.1 e.2))
        db.characterBuilds (fun f hf => by
          have hf1 : f.CharacterID = e.1 := by
            simpa using find?_pred (fun r : CharacterBuild => r.CharacterID == e.1) _ _ hf
          exact (assignBuild_key e.1 e.2 f hf1).2) with h | ⟨_, h⟩
      · rw [h]; exact hi
      · rw [h]; exact List.mem_append_left _ hi
    · intro _
      exact List.mem_map.2 ⟨builtRow e db, List.mem_of_find?_eq_some (find?_buildsAfter e db), rfl⟩

theorem foldl_buildStep_ids (fl : Faults) (l : List (String × BuildJSON)) (db : Store) :
    ∀ i ∈ db.characterBuilds.map (·.ID), i ∈ (l.foldl (buildStep fl) db).characterBuilds.map (·.ID) := by
  induction l generalizing db with
  | nil => exact fun i hi => hi
  | cons e rest ih =>
    intro i hi
    rw [List.foldl_cons]
    exact ih _ i ((buildStep_ids fl db e).1 i hi)

/-- The child rows of a build id that no build row carries after the loop are
as before the loop -/
theorem foldl_buildStep_filters_fresh (fl : Faults) (l : List (String × BuildJSON)) (db : Store)
    (x : Nat) (hx : x ∉ (l.foldl (buildStep fl) db).characterBuilds.map (·.ID)) :
    (l.foldl (buildStep fl) db).characterBuildSubstats.filter (fun r => r.BuildID == x) =
      db.characterBuildSubstats.filter (fun r => r.BuildID == x) ∧
    (l.foldl (buildStep fl) db).characterBuildSets.filter (fun r => r.BuildID == x) =
      db.characterBuildSets.filter (fun r => r.BuildID == x) := by
  induction l generalizing db with
  | nil => exact ⟨rfl, rfl⟩
  | cons e rest ih =>
    rw [List.foldl_cons] at hx ⊢
    obtain ⟨h1, h2⟩ := ih (buildStep fl db e) hx
    have hstep := buildStep_filters_other fl db e x (by
      by_cases hc : firstCharacter e.1 db = none ∨ fl (.build e.1) = true
      · rcases hc with hc | hc
        · exact Or.inl hc
        · exact Or.inr (Or.inl hc)
      · right; right
        intro hxe
        apply hx
        apply foldl_buildStep_ids
        rw [hxe]
        exact (buildStep_ids fl db e).2 hc)
    exact ⟨h1.trans hstep.1, h2.trans hstep.2⟩

/-- The build row of a character that the loop does not visit, and the child
rows of that build, are as before the loop -/
theorem foldl_buildStep_filters_kept (fl : Faults) (l : List (String × BuildJSON)) (db : Store)
    (k : String) (build : CharacterBuild) (hk : ∀ e ∈ l, e.1 ≠ k)
    (hnd : (db.characterBuilds.map (·.ID)).Nodup)
    (hb : db.characterBuilds.find? (fun r => r.CharacterID == k) = some build) :
    (l.foldl (buildStep fl) db).characterBuilds.find? (fun r => r.CharacterID == k) =
      some build ∧
    ((l.foldl (buildStep fl) db).characterBuilds.map (·.ID)).Nodup ∧
    (l.foldl (buildStep fl) db).characterBuildSubstats.filter (fun r => r.BuildID == build.ID) =
      db.characterBuildSubstats.filter (fun r => r.BuildID == build.ID) ∧
    (l.foldl (buildStep fl) db).characterBuildSets.filter (fun r => r.BuildID == build.ID) =
      db.characterBuildSets.filter (fun r => r.BuildID == build.ID) := by
  induction l generalizing db with
  | nil => exact ⟨hb, hnd, rfl, rfl⟩
  | cons e rest ih =>
    rw [List.foldl_cons]
    have hek : e.1 ≠ k := hk e (List.mem_cons_self _ _)
    have hb1 : (buildStep fl db e).characterBuilds.find? (fun r => r.CharacterID == k) =
        some build := by
      unfold buildStep
      split
      · exact hb
      · dsimp only
        rw [find?_buildsAfter_other e db k hek]
        exact hb
    have hnd1 : ((buildStep fl db e).characterBuilds.map (·.ID)).Nodup := by
      unfold buildStep
      split
      · exact hnd
      · exact buildsAfter_nodup e db hnd
    obtain ⟨g1, g2, g3, g4⟩ := ih (buildStep fl db e)
      (fun x hx => hk x (List.mem_cons_of_mem _ hx)) hnd1 hb1
    have hstep := buildStep_filters_other fl db e build.ID
      (Or.inr (Or.inr (fun h => builtRow_id_ne e db k build hnd hb hek h.symm)))
    exact ⟨g1, g2, g3.trans hstep.1, g4.trans hstep.2⟩

theorem foldl_buildStep_characters (fl : Faults) (l : List (String × BuildJSON)) (db : Store) :
    (l.foldl (buildStep fl) db).characters = db.characters :=
  foldl_inv (buildStep fl) (fun s => s.characters = db.characters)
    (fun s a hs => (buildStep_characters fl s a).trans hs) l db rfl

theorem foldl_buildStep_nodup (fl : Faults) (l : List (String × BuildJSON)) (db : Store)
    (hnd : (db.characterBuilds.map (·.ID)).Nodup) :
    ((l.foldl (buildStep fl) db).characterBuilds.map (·.ID)).Nodup :=
  foldl_inv (buildStep fl) (fun s => (s.characterBuilds.map (·.ID)).Nodup)
    (fun s a hs => by
      unfold buildStep
      split
      · exact hs
      · exact buildsAfter_nodup a s hs) l db hnd

theorem foldl_buildStep_find_none (fl : Faults) (l : List (String × BuildJSON)) (db : Store)
    (k : String) (hk : ∀ e ∈ l, e.1 ≠ k)
    (h : db.characterBuilds.find? (fun r => r.CharacterID == k) = none) :
    (l.foldl (buildStep fl) db).characterBuilds.find? (fun r => r.CharacterID == k) = none := by
  induction l generalizing db with
  | nil => exact h
  | cons e rest ih =>
    rw [List.foldl_cons]
    apply ih _ (fun x hx => hk x (List.mem_cons_of_mem _ hx))
    unfold buildStep
    split
    · exact h
    · dsimp only
      rw [find?_buildsAfter_other e db k (hk e (List.mem_cons_self _ _))]
      exact h

theorem buildStep_run (fl : Faults) (db : Store) (e : String × BuildJSON)
    (h : ¬ (firstCharacter e.1 db = none ∨ fl (.build e.1) = true)) :
    buildStep fl db e =
      { db with
        characterBuilds := buildsAfter e db
        characterBuildSubstats :=
          e.2.Substats.foldl (substatRowsStep fl (builtRow e db).ID) db.characterBuildSubstats
        relicSets := ((e.2.Sets.enumFrom 0).foldl (setStep fl (builtRow e db).ID)
          (db.relicSets, db.characterBuildSets)).1
        characterBuildSets := ((e.2.Sets.enumFrom 0).foldl (setStep fl (builtRow e db).ID)
          (db.relicSets, db.characterBuildSets)).2 } := by
  unfold buildStep
  rw [if_neg h]

/-- The entry `(k, b)` of a build map in isolation: with `db1` the store when
the loop reaches the entry, the build row of `k` after the loop is the row the
entry's upsert leaves, the child rows of that build were untouched before the
entry was reached, and after the loop they are as the entry's own child loops
left them. -/
theorem build_entry_reached (fl : Faults) (m : List (String × BuildJSON)) (k : String)
    (b : BuildJSON) (db : Store)
    (hkeys : (m.map (·.1)).Nodup) (hmem : (k, b) ∈ m)
    (hchar : firstCharacter k db ≠ none)
    (hnd : (db.characterBuilds.map (·.ID)).Nodup) (hfb : fl (.build k) = false) :
    ∃ db1 : Store,
      (m.foldl (buildStep fl) db).characterBuilds.find? (fun r => r.CharacterID == k) =
        some (builtRow (k, b) db1) ∧
      db1.characterBuildSubstats.filter (fun r => r.BuildID == (builtRow (k, b) db1).ID) =
        db.characterBuildSubstats.filter (fun r => r.BuildID == (builtRow (k, b) db1).ID) ∧
      db1.characterBuildSets.filter (fun r => r.BuildID == (builtRow (k, b) db1).ID) =
        db.characterBuildSets.filter (fun r => r.BuildID == (builtRow (k, b) db1).ID) ∧
      (m.foldl (buildStep fl) db).characterBuildSubstats.filter
          (fun r => r.BuildID == (builtRow (k, b) db1).ID) =
        (b.Substats.foldl (substatRowsStep fl (builtRow (k, b) db1).ID)
          db1.characterBuildSubstats).filter (fun r => r.BuildID == (builtRow (k, b) db1).ID) ∧
      (m.foldl (buildStep fl) db).characterBuildSets.filter
          (fun r => r.BuildID == (builtRow (k, b) db1).ID) =
        ((b.Sets.enumFrom 0).foldl (setStep fl (builtRow (k, b) db1).ID)
          (db1.relicSets, db1.characterBuildSets)).2.filter
            (fun r => r.BuildID == (builtRow (k, b) db1).ID) ∧
      (∃ m1 m2, m = m1 ++ (k, b) :: m2 ∧ db1 = m1.foldl (buildStep fl) db) := by
  obtain ⟨m1, m2, rfl⟩ := List.append_of_mem hmem
  rw [List.map_append, List.map_cons, List.nodup_append] at hkeys
  have hk1 : ∀ e ∈ m1, e.1 ≠ k := by
    intro e he hek
    exact hkeys.2.2 (List.mem_map.2 ⟨e, he, rfl⟩) (by rw [hek]; exact List.mem_cons_self _ _)
  have hk2 : ∀ e ∈ m2, e.1 ≠ k := by
    intro e he hek
    exact (List.nodup_cons.1 hkeys.2.1).1 (List.mem_map.2 ⟨e, he, hek⟩)
  refine ⟨m1.foldl (buildStep fl) db, ?_, ?_, ?_, ?_, ?_, m1, m2, rfl, rfl⟩
  all_goals
    have hnd1 := foldl_buildStep_nodup fl m1 db hnd
    have hchar1 : ¬ (firstCharacter k (m1.foldl (buildStep fl) db) = none ∨
        fl (.build k) = true) := by
      unfold firstCharacter at hchar ⊢
      rw [foldl_buildStep_characters]
      simp [hchar, hfb]
    have hdb2 : buildStep fl (m1.foldl (buildStep fl) db) (k, b) =
        { m1.foldl (buildStep fl) db with
          characterBuilds := buildsAfter (k, b) (m1.foldl (buildStep fl) db)
          characterBuildSubstats :=
            b.Substats.foldl (substatRowsStep fl (builtRow (k, b) (m1.foldl (buildStep fl) db)).ID)
              (m1.foldl (buildStep fl) db).characterBuildSubstats
          relicSets := ((b.Sets.enumFrom 0).foldl
            (setStep fl (builtRow (k, b) (m1.foldl (buildStep fl) db)).ID)
            ((m1.foldl (buildStep fl) db).relicSets,
              (m1.foldl (buildStep fl) db).characterBuildSets)).1
          characterBuildSets := ((b.Sets.enumFrom 0).foldl
            (setStep fl (builtRow (k, b) (m1.foldl (buildStep fl) db)).ID)
            ((m1.foldl (buildStep fl) db).relicSets,
              (m1.foldl (buildStep fl) db).characterBuildSets)).2 } := by
      exact buildStep_run fl _ (k, b) hchar1
    have hkept := foldl_buildStep_filters_kept fl m2
      (buildStep fl (m1.foldl (buildStep fl) db) (k, b)) k
      (builtRow (k, b) (m1.foldl (buildStep fl) db)) hk2
      (by rw [hdb2]; exact buildsAfter_nodup (k, b) _ hnd1)
      (by rw [hdb2]; exact find?_buildsAfter (k, b) _)
    have hbefore :
        (m1.foldl (buildStep fl) db).characterBuildSubstats.filter
            (fun r => r.BuildID == (builtRow (k, b) (m1.foldl (buildStep fl) db)).ID) =
          db.characterBuildSubstats.filter
            (fun r => r.BuildID == (builtRow (k, b) (m1.foldl (buildStep fl) db)).ID) ∧
        (m1.foldl (buildStep fl) db).characterBuildSets.filter
            (fun r => r.BuildID == (builtRow (k, b) (m1.foldl (buildStep fl) db)).ID) =
          db.characterBuildSets.filter
            (fun r => r.BuildID == (builtRow (k, b) (m1.foldl (buildStep fl) db)).ID) := by
      cases hf : db.characterBuilds.find? (fun r => r.CharacterID == k) with
      | some build0 =>
        obtain ⟨g1, _, g3, g4⟩ := foldl_buildStep_filters_kept fl m1 db k build0 hk1 hnd hf
        rw [builtRow_id_of_found (k, b) _ build0 g1]
        exact ⟨g3, g4⟩
      | none =>
        have hnone := foldl_buildStep_find_none fl m1 db k hk1 hf
        have hid : (builtRow (k, b) (m1.foldl (buildStep fl) db)).ID =
            nextID ((m1.foldl (buildStep fl) db).characterBuilds.map (·.ID)) := by
          unfold builtRow upsertRow
          rw [hnone]
          rfl
        rw [hid]
        exact foldl_buildStep_filters_fresh fl m1 db _ (nextID_not_mem _)
  · rw [List.foldl_append, List.foldl_cons]
    exact hkept.1
  · exact hbefore.1
  · exact hbefore.2
  · rw [List.foldl_append, List.foldl_cons, hkept.2.2.1, hdb2]
  · rw [List.foldl_append, List.foldl_cons, hkept.2.2.2, hdb2]

/-! ## Keys of the child tables stay unique -/

theorem upsertRows_nodup {α κ : Type} (key : α → κ) (p : α → Bool) (a : α → α) (c : α)
    (l : List α) (kk : κ) (hp : ∀ x, p x = true ↔ key x = kk)
    (ha : ∀ f, l.find? p = some f → key (a f) = key f) (hc : key c = kk)
    (hnd : (l.map key).Nodup) : ((upsertRows p a c l).map key).Nodup := by
  rcases map_upsertRows_found key p a c l ha with h | ⟨hnone, h⟩
  · rw [h]; exact hnd
  · rw [h, List.nodup_append]
    refine ⟨hnd, List.nodup_singleton _, ?_⟩
    intro x hx hx1
    have hxc : x = key c := by simpa using hx1
    obtain ⟨r, hr, hrx⟩ := List.mem_map.1 hx
    have := List.find?_eq_none.1 hnone r hr
    apply this
    rw [hp, hrx, hxc, hc]

theorem filter_singleton_of_find {α κ : Type} (key : α → κ) (p : α → Bool) (l : List α) (kk : κ)
    (row : α) (hp : ∀ x, p x = true ↔ key x = kk) (hnd : (l.map key).Nodup)
    (hfind : l.find? p = some row) : l.filter p = [row] := by
  induction l with
  | nil => cases hfind
  | cons x xs ih =>
    rw [List.map_cons, List.nodup_cons] at hnd
    rw [List.find?_cons] at hfind
    by_cases hx : p x = true
    · rw [hx] at hfind
      have hrow : x = row := by simpa using hfind
      have hxs : xs.filter p = [] := by
        rw [List.filter_eq_nil_iff]
        intro y hy hpy
        apply hnd.1
        rw [(hp x).1 hx, ← (hp y).1 hpy]
        exact List.mem_map.2 ⟨y, hy, rfl⟩
      rw [List.filter_cons_of_pos hx, hxs, hrow]
    · have hx0 : p x = false := by simpa using hx
      rw [hx0] at hfind
      rw [List.filter_cons_of_neg hx]
      exact ih hnd.2 hfind

theorem find?_and_filter {α : Type} (p q : α → Bool) (l : List α) :
    l.find? (fun r => p r && q r) = (l.filter p).find? q := by
  induction l with
  | nil => rfl
  | cons x xs ih =>
    cases hp : p x
    · rw [List.find?_cons, List.filter_cons_of_neg (by simp [hp])]
      simp only [hp, Bool.false_and]
      exact ih
    · rw [List.find?_cons, List.filter_cons_of_pos hp, List.find?_cons]
      simp only [hp, Bool.true_and]
      cases q x
      · exact ih
      · rfl

theorem filter_and_filter {α : Type} (p q : α → Bool) (l : List α) :
    l.filter (fun r => p r && q r) = (l.filter p).filter q := by
  rw [List.filter_filter]
  congr 1
  funext r
  exact Bool.and_comm _ _

theorem substatRowsStep_nodup (fl : Faults) (bid : Nat) (rows : List CharacterBuildSubstat)
    (e : String × Float64) (hnd : (rows.map (fun r => (r.BuildID, r.StatName))).Nodup) :
    ((substatRowsStep fl bid rows e).map (fun r => (r.BuildID, r.StatName))).Nodup := by
  unfold substatRowsStep
  split
  · exact hnd
  · apply upsertRows_nodup (fun r : CharacterBuildSubstat => (r.BuildID, r.StatName)) _ _ _ _
      (bid, e.1) _ _ _ hnd
    · intro x
      simp [Prod.ext_iff]
    · intro f hf
      have hk := find?_pred
        (fun r : CharacterBuildSubstat => r.BuildID == bid && r.StatName == e.1) _ _ hf
      obtain ⟨h1, h2⟩ := assignSubstat_key bid e.1 e.2 f hk
      simp only [Bool.and_eq_true, beq_iff_eq] at hk
      show ((assignSubstat (substatRow bid e.1 e.2) f).BuildID,
        (assignSubstat (substatRow bid e.1 e.2) f).StatName) = (f.BuildID, f.StatName)
      rw [h1, h2, hk.1, hk.2]
    · simp [createSubstat, substatRow]

theorem buildSetRowsWrite_nodup (fl : Faults) (bid rid i : Nat) (rels : List RelicSet)
    (rows : List CharacterBuildSet)
    (hnd : (rows.map (fun r => (r.BuildID, r.RelicSetID))).Nodup) :
    ((buildSetRowsWrite fl bid rid i rels rows).map (fun r => (r.BuildID, r.RelicSetID))).Nodup := by
  unfold buildSetRowsWrite
  split
  · exact hnd
  · split
    · exact hnd
    · apply upsertRows_nodup (fun r : CharacterBuildSet => (r.BuildID, r.RelicSetID)) _ _ _ _
        (bid, rid) _ _ _ hnd
      · intro x
        simp [Prod.ext_iff]
      · intro f hf
        have hk := find?_pred
          (fun r : CharacterBuildSet => r.BuildID == bid && r.RelicSetID == rid) _ _ hf
        obtain ⟨h1, h2, _, _⟩ := assignBuildSet_key bid rid i f hk
        simp only [Bool.and_eq_true, beq_iff_eq] at hk
        show ((assignBuildSet (buildSetRow bid rid i) f).BuildID,
          (assignBuildSet (buildSetRow bid rid i) f).RelicSetID) = (f.BuildID, f.RelicSetID)
        rw [h1, h2, hk.1, hk.2]
      · obtain ⟨h1, h2, _, _⟩ := createBuildSet_key (nextID (rows.map (·.ID))) bid rid i
        show ((createBuildSet (nextID (rows.map (·.ID))) (buildSetRow bid rid i)).BuildID,
          (createBuildSet (nextID (rows.map (·.ID))) (buildSetRow bid rid i)).RelicSetID) =
            (bid, rid)
        rw [h1, h2]

theorem relicRowsLoad_names_nodup (fl : Faults) (n : String) (rels : List RelicSet)
    (hnd : (rels.map (·.Name)).Nodup) : ((relicRowsLoad fl n rels).2.map (·.Name)).Nodup := by
  rcases relicRowsLoad_cases fl n rels with ⟨_, h⟩ | ⟨_, rs, _, h⟩ | ⟨_, hnone, h⟩
  · rw [h]; exact hnd
  · rw [h]; exact hnd
  · rw [h]
    dsimp only
    rw [List.map_append, List.nodup_append]
    refine ⟨hnd, List.nodup_singleton _, ?_⟩
    intro x hx hx1
    have hxc : x = n := by simpa [createRelicSet] using hx1
    obtain ⟨r, hr, hrx⟩ := List.mem_map.1 hx
    have := List.find?_eq_none.1 hnone r hr
    apply this
    simp [hrx, hxc]

theorem foldl_setStep_nodup (fl : Faults) (bid : Nat) (l : List (Nat × String))
    (t : List RelicSet × List CharacterBuildSet)
    (h : (t.2.map (fun r => (r.BuildID, r.RelicSetID))).Nodup ∧ (t.1.map (·.Name)).Nodup) :
    ((l.foldl (setStep fl bid) t).2.map (fun r => (r.BuildID, r.RelicSetID))).Nodup ∧
    ((l.foldl (setStep fl bid) t).1.map (·.Name)).Nodup :=
  foldl_inv (setStep fl bid)
    (fun s => (s.2.map (fun r => (r.BuildID, r.RelicSetID))).Nodup ∧ (s.1.map (·.Name)).Nodup)
    (fun s a hs => ⟨buildSetRowsWrite_nodup fl bid _ _ _ _ hs.1,
      relicRowsLoad_names_nodup fl a.2 s.1 hs.2⟩) l t h

theorem buildStep_childKeys (fl : Faults) (db : Store) (e : String × BuildJSON)
    (h : ChildKeysUnique db) : ChildKeysUnique (buildStep fl db e) := by
  unfold buildStep
  split
  · exact h
  · obtain ⟨g1, g2⟩ := foldl_setStep_nodup fl (builtRow e db).ID (e.2.Sets.enumFrom 0)
      (db.relicSets, db.characterBuildSets) ⟨h.2.1, h.2.2⟩
    exact ⟨foldl_inv (substatRowsStep fl (builtRow e db).ID)
      (fun s => (s.map (fun r => (r.BuildID, r.StatName))).Nodup)
      (fun s a hs => substatRowsStep_nodup fl _ s a hs) _ _ h.1, g1, g2⟩

theorem foldl_buildStep_childKeys (fl : Faults) (l : List (String × BuildJSON)) (db : Store)
    (h : ChildKeysUnique db) : ChildKeysUnique (l.foldl (buildStep fl) db) :=
  foldl_inv (buildStep fl) ChildKeysUnique (fun s a hs => buildStep_childKeys fl s a hs) l db h

theorem foldl_buildStep_childKeys_substats (fl : Faults) (l : List (String × BuildJSON))
    (db : Store)
    (h : (db.characterBuildSubstats.map (fun r => (r.BuildID, r.StatName))).Nodup) :
    ((l.foldl (buildStep fl) db).characterBuildSubstats.map
      (fun r => (r.BuildID, r.StatName))).Nodup :=
  foldl_inv (buildStep fl)
    (fun s => (s.characterBuildSubstats.map (fun r => (r.BuildID, r.StatName))).Nodup)
    (fun s a hs => by
      unfold buildStep
      split
      · exact hs
      · exact foldl_inv (substatRowsStep fl (builtRow a s).ID)
          (fun t => (t.map (fun r => (r.BuildID, r.StatName))).Nodup)
          (fun t x ht => substatRowsStep_nodup fl _ t x ht) _ _ hs) l db h

theorem foldl_buildStep_childKeys_sets (fl : Faults) (l : List (String × BuildJSON))
    (db : Store)
    (h : (db.characterBuildSets.map (fun r => (r.BuildID, r.RelicSetID))).Nodup ∧
      (db.relicSets.map (·.Name)).Nodup) :
    ((l.foldl (buildStep fl) db).characterBuildSets.map
      (fun r => (r.BuildID, r.RelicSetID))).Nodup ∧
    ((l.foldl (buildStep fl) db).relicSets.map (·.Name)).Nodup :=
  foldl_inv (buildStep fl)
    (fun s => (s.characterBuildSets.map (fun r => (r.BuildID, r.RelicSetID))).Nodup ∧
      (s.relicSets.map (·.Name)).Nodup)
    (fun s a hs => by
      unfold buildStep
      split
      · exact hs
      · exact foldl_setStep_nodup fl (builtRow a s).ID _ (s.relicSets, s.characterBuildSets) hs)
    l db h

theorem seedBuilds_parsed_store (fl : Faults) (l : List (String × BuildJSON)) (st : State) :
    (seedBuilds fl (.parsed l) st).1.db = l.foldl (buildStep fl) st.db :=
  seedBuilds_parsed_db fl l st

/-! ## The substat upsert -/

theorem foldl_substat_find_other (fl : Faults) (bid : Nat) (l : List (String × Float64))
    (rows : List CharacterBuildSubstat) (stat : String) (h : ∀ e ∈ l, e.1 ≠ stat) :
    (l.foldl (substatRowsStep fl bid) rows).find?
        (fun r => r.BuildID == bid && r.StatName == stat) =
      rows.find? (fun r => r.BuildID == bid && r.StatName == stat) := by
  induction l generalizing rows with
  | nil => rfl
  | cons e rest ih =>
    rw [List.foldl_cons, ih _ (fun x hx => h x (List.mem_cons_of_mem _ hx))]
    have hne : e.1 ≠ stat := h e (List.mem_cons_self _ _)
    unfold substatRowsStep
    split
    · rfl
    · apply find?_upsertRows_other
      · intro r hr
        simp only [Bool.and_eq_true, beq_iff_eq] at hr
        simp [hr.2, hne]
      · intro f hf
        have := (assignSubstat_key bid e.1 e.2 f
          (find?_pred (fun r : CharacterBuildSubstat => r.BuildID == bid && r.StatName == e.1)
            _ _ hf)).2
        simp [this, hne]
      · simp [createSubstat, substatRow, hne]

theorem substatRowsStep_written (fl : Faults) (bid : Nat) (rows : List CharacterBuildSubstat)
    (stat : String) (w : Float64) (hf : fl (.substat bid stat) = false) :
    ∃ row, (substatRowsStep fl bid rows (stat, w)).find?
        (fun r => r.BuildID == bid && r.StatName == stat) = some row ∧
      row.Weight = (if w.isZero then baseWeight rows bid stat else w) ∧
      (∀ old, rows.find? (fun r => r.BuildID == bid && r.StatName == stat) = some old →
        row.ID = old.ID) := by
  unfold substatRowsStep baseWeight upsertRows
  rw [if_neg (by simp [hf])]
  dsimp only
  cases hfind : rows.find? (fun r => r.BuildID == bid && r.StatName == stat) with
  | none =>
    refine ⟨_, find?_append_created _ rows _ hfind (by simp [createSubstat, substatRow]), ?_, ?_⟩
    · simp [createSubstat, substatRow, orDefaultFloat]
    · intro old ho; cases ho
  | some f =>
    have hk := find?_pred
      (fun r : CharacterBuildSubstat => r.BuildID == bid && r.StatName == stat) _ _ hfind
    obtain ⟨h1, h2⟩ := assignSubstat_key bid stat w f hk
    refine ⟨_, find?_replaceFirst_same _ _ rows f hfind (by simp [h1, h2]), ?_, ?_⟩
    · simp [assignSubstat, substatRow, assignFloat]
    · intro old ho
      cases ho
      simp [assignSubstat, substatRow, assignNat]

theorem substats_written (fl : Faults) (bid : Nat) (l : List (String × Float64))
    (rows : List CharacterBuildSubstat) (stat : String) (w : Float64)
    (hnd : (l.map (·.1)).Nodup) (hmem : (stat, w) ∈ l) (hf : fl (.substat bid stat) = false) :
    ∃ row, (l.foldl (substatRowsStep fl bid) rows).find?
        (fun r => r.BuildID == bid && r.StatName == stat) = some row ∧
      row.Weight = (if w.isZero then baseWeight rows bid stat else w) ∧
      (∀ old, rows.find? (fun r => r.BuildID == bid && r.StatName == stat) = some old →
        row.ID = old.ID) := by
  obtain ⟨l1, l2, rfl⟩ := List.append_of_mem hmem
  rw [List.map_append, List.map_cons, List.nodup_append] at hnd
  have h1 : ∀ e ∈ l1, e.1 ≠ stat := by
    intro e he hek
    exact hnd.2.2 (List.mem_map.2 ⟨e, he, rfl⟩) (by rw [hek]; exact List.mem_cons_self _ _)
  have h2 : ∀ e ∈ l2, e.1 ≠ stat := by
    intro e he hek
    exact (List.nodup_cons.1 hnd.2.1).1 (List.mem_map.2 ⟨e, he, hek⟩)
  rw [List.foldl_append, List.foldl_cons, foldl_substat_find_other fl bid l2 _ stat h2]
  obtain ⟨row, g1, g2, g3⟩ := substatRowsStep_written fl bid
    (l1.foldl (substatRowsStep fl bid) rows) stat w hf
  have hsame := foldl_substat_find_other fl bid l1 rows stat h1
  refine ⟨row, g1, ?_, ?_⟩
  · rw [g2]
    unfold baseWeight
    rw [hsame]
  · intro old ho
    exact g3 old (by rw [hsame]; exact ho)

/-- C13, counterexample: an incoming weight 0 is not written.  With the row
`SPD` of weight 0.8 in the store, a build record giving `SPD` and `DEF` the
weight 0 leaves `SPD` at 0.8 and inserts `DEF` with the column default 0.5. -/
theorem substat_zero_weight_not_written :
    (seedBuilds noFaults (.parsed [("1001", buildZeroWeights)])
      ⟨storeWithBuild, []⟩).1.db.characterBuildSubstats =
      [⟨1, 1, "SPD", f64_0_8⟩, ⟨2, 1, "DEF", f64_0_5⟩] ∧
    (seedBuilds noFaults (.parsed [("1001", buildZeroWeights)]) ⟨storeWithBuild, []⟩).2 = none := by
  decide

/-- C13, amended: the substat upsert writes a non-zero weight and skips a zero
one.  In a store whose build ids are unique and in which no two substat rows
share `(buildId, statName)`, let `(k, b)` be an entry of the build map (keys
pairwise distinct) for an existing character `k`, let `(stat, w)` be an entry of
`b.Substats` (keys pairwise distinct), and let the storage layer accept the build
upsert of `k` and the substat call for `stat`.  Then after `seedBuilds` there is
exactly one substat row keyed by (id of the build row of `k`, `stat`); its weight
is `w` when `w` is not 0 (any `float64`, on or off the grid of the
`decimal(3,2)` column: the row holds the value handed to the storage layer), and
otherwise the weight the row had before, or the column default 0.5 when the row
is new; and a row that existed before keeps its id (it is updated, no second row
is inserted). -/
theorem substat_upsert_merges_nonzero (fl : Faults) (st : State)
    (m : List (String × BuildJSON)) (k : String) (b : BuildJSON) (stat : String) (w : Float64)
    (hkeys : (m.map (·.1)).Nodup) (hmem : (k, b) ∈ m)
    (hchar : ∃ c ∈ st.db.characters, c.ID = k)
    (hids : (st.db.characterBuilds.map (·.ID)).Nodup)
    (hsub : (st.db.characterBuildSubstats.map (fun r => (r.BuildID, r.StatName))).Nodup)
    (hstats : (b.Substats.map (·.1)).Nodup) (hw : (stat, w) ∈ b.Substats)
    (hfb : fl (.build k) = false) (hfs : ∀ bid, fl (.substat bid stat) = false) :
    (seedBuilds fl (.parsed m) st).2 = none ∧
    ∃ build row,
      (seedBuilds fl (.parsed m) st).1.db.characterBuilds.find?
        (fun r => r.CharacterID == k) = some build ∧
      (seedBuilds fl (.parsed m) st).1.db.characterBuildSubstats.filter
        (fun r => r.BuildID == build.ID && r.StatName == stat) = [row] ∧
      row.Weight =
        (if w.isZero then baseWeight st.db.characterBuildSubstats build.ID stat else w) ∧
      (∀ old, st.db.characterBuildSubstats.find?
          (fun r => r.BuildID == build.ID && r.StatName == stat) = some old →
        row.ID = old.ID) := by
  refine ⟨rfl, ?_⟩
  rw [seedBuilds_parsed_store]
  have hc : firstCharacter k st.db ≠ none := by
    obtain ⟨c, hc, hid⟩ := hchar
    unfold firstCharacter
    exact find?_ne_none_of_mem_ids _ _ (List.mem_map.2 ⟨c, hc, hid⟩)
  obtain ⟨db1, g1, g2, _, g4, _, _⟩ := build_entry_reached fl m k b st.db hkeys hmem hc hids hfb
  obtain ⟨row, r1, r2, r3⟩ := substats_written fl (builtRow (k, b) db1).ID b.Substats
    db1.characterBuildSubstats stat w hstats hw (hfs _)
  have hfindEq : ∀ rows rows1 : List CharacterBuildSubstat,
      rows.filter (fun r => r.BuildID == (builtRow (k, b) db1).ID) =
        rows1.filter (fun r => r.BuildID == (builtRow (k, b) db1).ID) →
      rows.find? (fun r => r.BuildID == (builtRow (k, b) db1).ID && r.StatName == stat) =
        rows1.find? (fun r => r.BuildID == (builtRow (k, b) db1).ID && r.StatName == stat) := by
    intro rows rows1 h
    rw [find?_and_filter, find?_and_filter, h]
  have hbase := hfindEq _ _ g2
  have hfinal := hfindEq _ _ g4
  refine ⟨builtRow (k, b) db1, row, g1, ?_, ?_, ?_⟩
  · apply filter_singleton_of_find (fun r : CharacterBuildSubstat => (r.BuildID, r.StatName))
      _ _ ((builtRow (k, b) db1).ID, stat) row
    · intro x
      simp [Prod.ext_iff]
    · exact (foldl_buildStep_childKeys_substats fl m st.db hsub)
    · rw [hfinal]; exact r1
  · rw [r2]
    unfold baseWeight
    rw [hbase]
  · intro old ho
    exact r3 old (by rw [hbase]; exact ho)

theorem substat_upsert_merges_nonzero_witness :
    (([("1001", buildSpeed)].map (·.1)).Nodup ∧ ("1001", buildSpeed) ∈ [("1001", buildSpeed)] ∧
      (∃ c ∈ storeWithBuild.characters, c.ID = "1001") ∧
      (storeWithBuild.characterBuilds.map (·.ID)).Nodup ∧
      (storeWithBuild.characterBuildSubstats.map (fun r => (r.BuildID, r.StatName))).Nodup ∧
      (buildSpeed.Substats.map (·.1)).Nodup ∧ ("SPD", f64_0_001) ∈ buildSpeed.Substats ∧
      noFaults (.build "1001") = false ∧ ∀ bid, noFaults (.substat bid "SPD") = false) ∧
    ((seedBuilds noFaults (.parsed [("1001", buildSpeed)]) ⟨storeWithBuild, []⟩).2 = none ∧
    ∃ build row,
      (seedBuilds noFaults (.parsed [("1001", buildSpeed)])
        ⟨storeWithBuild, []⟩).1.db.characterBuilds.find?
          (fun r => r.CharacterID == "1001") = some build ∧
      (seedBuilds noFaults (.parsed [("1001", buildSpeed)])
        ⟨storeWithBuild, []⟩).1.db.characterBuildSubstats.filter
          (fun r => r.BuildID == build.ID && r.StatName == "SPD") = [row] ∧
      row.Weight =
        (if f64_0_001.isZero then
          baseWeight storeWithBuild.characterBuildSubstats build.ID "SPD"
          else f64_0_001) ∧
      (∀ old, storeWithBuild.characterBuildSubstats.find?
          (fun r => r.BuildID == build.ID && r.StatName == "SPD") = some old →
        row.ID = old.ID)) ∧
    (seedBuilds noFaults (.parsed [("1001", buildSpeed)])
      ⟨storeWithBuild, []⟩).1.db.characterBuildSubstats =
      [⟨1, 1, "SPD", f64_0_001⟩, ⟨2, 1, "DEF", f64_0_5⟩] :=
  ⟨⟨by decide, by decide, by decide, by decide, by decide, by decide, by decide, rfl,
      fun _ => rfl⟩,
    substat_upsert_merges_nonzero noFaults ⟨storeWithBuild, []⟩ [("1001", buildSpeed)] "1001"
      buildSpeed "SPD" f64_0_001 (by decide) (by decide) (by decide) (by decide) (by decide)
      (by decide) (by decide) rfl (fun _ => rfl),
    by decide⟩

/-! ## The skill upsert -/

theorem foldl_skill_find_other (fl : Faults) (chars : List Character)
    (l : List (String × SkillJSON)) (rows : List CharacterSkill) (k : String)
    (h : ∀ e ∈ l, e.1 ≠ k) :
    (l.foldl (skillRowsStep fl chars) rows).find? (fun r => r.CharacterID == k) =
      rows.find? (fun r => r.CharacterID == k) := by
  induction l generalizing rows with
  | nil => rfl
  | cons e rest ih =>
    rw [List.foldl_cons, ih _ (fun x hx => h x (List.mem_cons_of_mem _ hx))]
    have hne : e.1 ≠ k := h e (List.mem_cons_self _ _)
    unfold skillRowsStep
    split
    · rfl
    · apply find?_upsertRows_other
      · intro r hr
        have : r.CharacterID = e.1 := by simpa using hr
        simp [this, hne]
      · intro f hf
        have hfk : f.CharacterID = e.1 := by
          simpa using find?_pred (fun r : CharacterSkill => r.CharacterID == e.1) _ _ hf
        simp [assignSkill_key e.1 e.2 f hfk, hne]
      · simp [createSkill, skillRow, hne]

theorem skillRowsStep_nodup (fl : Faults) (chars : List Character) (rows : List CharacterSkill)
    (e : String × SkillJSON) (hnd : (rows.map (·.CharacterID)).Nodup) :
    ((skillRowsStep fl chars rows e).map (·.CharacterID)).Nodup := by
  unfold skillRowsStep
  split
  · exact hnd
  · apply upsertRows_nodup (fun r : CharacterSkill => r.CharacterID) _ _ _ _ e.1 _ _ _ hnd
    · intro x
      simp
    · intro f hf
      have hfk : f.CharacterID = e.1 := by
        simpa using find?_pred (fun r : CharacterSkill => r.CharacterID == e.1) _ _ hf
      show (assignSkill (skillRow e.1 e.2) f).CharacterID = f.CharacterID
      rw [assignSkill_key e.1 e.2 f hfk, hfk]
    · simp [createSkill, skillRow]

theorem skillRowsStep_written (fl : Faults) (chars : List Character)
    (rows : List CharacterSkill) (k : String) (v : SkillJSON)
    (hc : chars.find? (fun r => r.ID == k) ≠ none) (hf : fl (.skill k) = false) :
    ∃ row, (skillRowsStep fl chars rows (k, v)).find? (fun r => r.CharacterID == k) = some row ∧
      row.CharacterID = k ∧ mergedSkill v (baseSkill rows k) row ∧
      (∀ old, rows.find? (fun r => r.CharacterID == k) = some old → row.ID = old.ID) := by
  unfold skillRowsStep baseSkill upsertRows
  rw [if_neg (by simp [hf, hc])]
  dsimp only
  cases hfind : rows.find? (fun r => r.CharacterID == k) with
  | none =>
    refine ⟨_, find?_append_created _ rows _ hfind (by simp [createSkill, skillRow]), rfl, ?_, ?_⟩
    · simp only [mergedSkill, createSkill, skillRow, orDefaultInt, orDefaultFloat, orDefaultStr,
        skillDefaults, Option.getD_none, and_self, true_and]
      split <;> simp_all
    · intro old ho; cases ho
  | some f =>
    have hfk : f.CharacterID = k := by
      simpa using find?_pred (fun r : CharacterSkill => r.CharacterID == k) _ _ hfind
    refine ⟨_, find?_replaceFirst_same _ _ rows f hfind
      (by simp [assignSkill_key k v f hfk]), assignSkill_key k v f hfk, ?_, ?_⟩
    · simp [mergedSkill, assignSkill, skillRow, assignInt, assignFloat, assignStr]
    · intro old ho
      cases ho
      simp [assignSkill, skillRow, assignNat]

/-- C14, counterexample: incoming zero values are not written.  A skill record
whose values are all 0 or empty leaves an existing skill row exactly as it was,
and, when the character has no skill row yet, inserts a row holding the column
defaults. -/
theorem skill_zero_values_not_written :
    (seedSkills noFaults (.parsed [("1001", skillZero)])
      ⟨storeWithSkill, []⟩).1.db.characterSkills =
      [⟨1, "1001", f64_1_5, f64_2_5, f64_4, 25, 35, 130, "enhance", "Freeze", 600, f64_0_1,
        f64_0_7⟩] ∧
    (seedSkills noFaults (.parsed [("1001", skillZero)])
      ⟨storeWithMarch, []⟩).1.db.characterSkills =
      [⟨1, "1001", f64_1, f64_1, f64_2, 20, 30, 120, "normal", "", 500, f64_0_05, f64_0_5⟩] := by
  decide

/-- C14, amended: the skill upsert merges the non-zero fields.  In a store in
which no two skill rows share a character id, let `(k, v)` be an entry of the
skill map (keys pairwise distinct) for an existing character `k`, and let the
storage layer accept the skill call for `k`.  Then after `seedSkills` there is
exactly one skill row with character id `k`; each of its eleven value fields is
the incoming value when that value is not 0 (not empty), and otherwise the
value the row of `k` had before or, when the row is new, the column default; a
row that existed before keeps its id.  The five `float64` fields range over
every value of the type, on or off the grid of their `decimal(4,2)` columns: the
row holds the value handed to the storage layer. -/
theorem skill_upsert_merges_nonzero (fl : Faults) (st : State)
    (m : List (String × SkillJSON)) (k : String) (v : SkillJSON)
    (hkeys : (m.map (·.1)).Nodup) (hmem : (k, v) ∈ m)
    (hchar : ∃ c ∈ st.db.characters, c.ID = k)
    (huniq : (st.db.characterSkills.map (·.CharacterID)).Nodup)
    (hf : fl (.skill k) = false) :
    (seedSkills fl (.parsed m) st).2 = none ∧
    ∃ row,
      (seedSkills fl (.parsed m) st).1.db.characterSkills.filter
        (fun r => r.CharacterID == k) = [row] ∧
      row.CharacterID = k ∧
      mergedSkill v (baseSkill st.db.characterSkills k) row ∧
      (∀ old, st.db.characterSkills.find? (fun r => r.CharacterID == k) = some old →
        row.ID = old.ID) := by
  refine ⟨rfl, ?_⟩
  rw [seedSkills_parsed_db]
  unfold skillsStage
  dsimp only
  have hc : st.db.characters.find? (fun r => r.ID == k) ≠ none := by
    obtain ⟨c, hc, hid⟩ := hchar
    exact find?_ne_none_of_mem_ids _ _ (List.mem_map.2 ⟨c, hc, hid⟩)
  obtain ⟨m1, m2, rfl⟩ := List.append_of_mem hmem
  rw [List.map_append, List.map_cons, List.nodup_append] at hkeys
  have h1 : ∀ e ∈ m1, e.1 ≠ k := by
    intro e he hek
    exact hkeys.2.2 (List.mem_map.2 ⟨e, he, rfl⟩) (by rw [hek]; exact List.mem_cons_self _ _)
  have h2 : ∀ e ∈ m2, e.1 ≠ k := by
    intro e he hek
    exact (List.nodup_cons.1 hkeys.2.1).1 (List.mem_map.2 ⟨e, he, hek⟩)
  have hsame := foldl_skill_find_other fl st.db.characters m1 st.db.characterSkills k h1
  obtain ⟨row, g1, g2, g3, g4⟩ := skillRowsStep_written fl st.db.characters
    (m1.foldl (skillRowsStep fl st.db.characters) st.db.characterSkills) k v hc hf
  refine ⟨row, ?_, g2, ?_, ?_⟩
  · apply filter_singleton_of_find (fun r : CharacterSkill => r.CharacterID) _ _ k row
    · intro x
      simp
    · exact foldl_inv (skillRowsStep fl st.db.characters)
        (fun s => (s.map (·.CharacterID)).Nodup)
        (fun s a hs => skillRowsStep_nodup fl _ s a hs) _ _ huniq
    · rw [List.foldl_append, List.foldl_cons, foldl_skill_find_other fl _ m2 _ k h2]
      exact g1
  · unfold baseSkill at g3 ⊢
    rw [hsame] at g3
    exact g3
  · intro old ho
    exact g4 old (by rw [hsame]; exact ho)

theorem skill_upsert_merges_nonzero_witness :
    (([("1001", fineSkills)].map (·.1)).Nodup ∧ ("1001", fineSkills) ∈ [("1001", fineSkills)] ∧
      (∃ c ∈ storeWithSkill.characters, c.ID = "1001") ∧
      (storeWithSkill.characterSkills.map (·.CharacterID)).Nodup ∧
      noFaults (.skill "1001") = false) ∧
    ((seedSkills noFaults (.parsed [("1001", fineSkills)]) ⟨storeWithSkill, []⟩).2 = none ∧
    ∃ row,
      (seedSkills noFaults (.parsed [("1001", fineSkills)])
        ⟨storeWithSkill, []⟩).1.db.characterSkills.filter
          (fun r => r.CharacterID == "1001") = [row] ∧
      row.CharacterID = "1001" ∧
      mergedSkill fineSkills (baseSkill storeWithSkill.characterSkills "1001") row ∧
      (∀ old, storeWithSkill.characterSkills.find? (fun r => r.CharacterID == "1001") =
          some old → row.ID = old.ID)) ∧
    (seedSkills noFaults (.parsed [("1001", fineSkills)]) ⟨storeWithSkill, []⟩).1.db.characterSkills =
      [⟨1, "1001", f64_0_001, f64_2, f64_4, 20, 35, 120, "normal", "Freeze", 500, f64_0_05,
        f64_0_7⟩] :=
  ⟨⟨by decide, by decide, by decide, by decide, rfl⟩,
    skill_upsert_merges_nonzero noFaults ⟨storeWithSkill, []⟩ [("1001", fineSkills)] "1001"
      fineSkills (by decide) (by decide) (by decide) (by decide) rfl,
    by decide⟩

/-- C15: the build seeder keeps the keys of the child tables unique.  If no two
substat rows share `(buildId, statName)`, no two build-set rows share
`(buildId, relicSetId)` and no two relic sets share a name, then the same holds
after `seedBuilds`: for every content of the build file (also a build whose set
list repeats a name, and an unreadable or malformed file), every store and
every behaviour of the storage layer. -/
theorem child_keys_stay_unique (fl : Faults) (file : Source (List (String × BuildJSON)))
    (st : State) (h : ChildKeysUnique st.db) : ChildKeysUnique (seedBuilds fl file st).1.db := by
  cases file with
  | unreadable c => exact h
  | malformed c => exact h
  | parsed l =>
    rw [seedBuilds_parsed_store]
    exact foldl_buildStep_childKeys fl l st.db h

theorem child_keys_stay_unique_witness :
    ChildKeysUnique storeWithBuild ∧
    ChildKeysUnique
      (seedBuilds noFaults (.parsed [("1001", buildABA)]) ⟨storeWithBuild, []⟩).1.db :=
  ⟨by decide,
    child_keys_stay_unique noFaults (.parsed [("1001", buildABA)]) ⟨storeWithBuild, []⟩
      (by decide)⟩

/-! ## Relic sets -/

theorem relicRowsLoad_grow (fl : Faults) (n : String) (rels : List RelicSet) :
    ∃ added, (relicRowsLoad fl n rels).2 = rels ++ added ∧
      ∀ a ∈ added, a.SetType = "" ∧ a.Name = n ∧ ∀ r ∈ rels, r.Name ≠ a.Name := by
  rcases relicRowsLoad_cases fl n rels with ⟨_, h⟩ | ⟨_, rs, _, h⟩ | ⟨_, hnone, h⟩
  · exact ⟨[], by rw [h]; simp, fun a ha => by cases ha⟩
  · exact ⟨[], by rw [h]; simp, fun a ha => by cases ha⟩
  · refine ⟨[createRelicSet (nextID (rels.map (·.ID))) n], by rw [h], ?_⟩
    intro a ha
    have : a = createRelicSet (nextID (rels.map (·.ID))) n := by simpa using ha
    subst this
    refine ⟨rfl, rfl, ?_⟩
    intro r hr
    have := List.find?_eq_none.1 hnone r hr
    simpa [createRelicSet] using this

theorem foldl_setStep_grow (fl : Faults) (bid : Nat) (l : List (Nat × String))
    (t : List RelicSet × List CharacterBuildSet) :
    ∃ added, (l.foldl (setStep fl bid) t).1 = t.1 ++ added ∧
      ∀ a ∈ added, a.SetType = "" ∧ a.Name ∈ l.map (·.2) ∧ ∀ r ∈ t.1, r.Name ≠ a.Name := by
  induction l generalizing t with
  | nil => exact ⟨[], by simp, fun a ha => by cases ha⟩
  | cons e rest ih =>
    obtain ⟨a1, h1, p1⟩ := relicRowsLoad_grow fl e.2 t.1
    obtain ⟨a2, h2, p2⟩ := ih (setStep fl bid t e)
    have hs : (setStep fl bid t e).1 = t.1 ++ a1 := h1
    refine ⟨a1 ++ a2, by rw [List.foldl_cons, h2, hs, List.append_assoc], ?_⟩
    intro a ha
    rcases List.mem_append.1 ha with ha | ha
    · obtain ⟨q1, q2, q3⟩ := p1 a ha
      exact ⟨q1, by rw [q2]; exact List.mem_cons_self _ _, q3⟩
    · obtain ⟨q1, q2, q3⟩ := p2 a ha
      exact ⟨q1, List.mem_cons_of_mem _ q2, fun r hr => q3 r (by rw [hs]; exact List.mem_append_left _ hr)⟩

theorem buildStep_relics_grow (fl : Faults) (db : Store) (e : String × BuildJSON) :
    ∃ added, (buildStep fl db e).relicSets = db.relicSets ++ added ∧
      ∀ a ∈ added, a.SetType = "" ∧ a.Name ∈ e.2.Sets ∧ firstCharacter e.1 db ≠ none ∧
        fl (.build e.1) = false ∧ ∀ r ∈ db.relicSets, r.Name ≠ a.Name := by
  by_cases hc : firstCharacter e.1 db = none ∨ fl (.build e.1) = true
  · refine ⟨[], ?_, fun a ha => by cases ha⟩
    unfold buildStep
    rw [if_pos hc]
    simp
  · obtain ⟨added, h1, p1⟩ := foldl_setStep_grow fl (builtRow e db).ID (e.2.Sets.enumFrom 0)
      (db.relicSets, db.characterBuildSets)
    refine ⟨added, by rw [buildStep_run fl db e hc]; exact h1, ?_⟩
    intro a ha
    obtain ⟨q1, q2, q3⟩ := p1 a ha
    rw [List.enumFrom_map_snd] at q2
    push_neg at hc
    exact ⟨q1, q2, hc.1, by simpa using hc.2, q3⟩

theorem foldl_buildStep_relics_grow (fl : Faults) (l : List (String × BuildJSON)) (db : Store) :
    ∃ added, (l.foldl (buildStep fl) db).relicSets = db.relicSets ++ added ∧
      ∀ a ∈ added, a.SetType = "" ∧
        (∃ e ∈ l, a.Name ∈ e.2.Sets ∧ firstCharacter e.1 db ≠ none ∧ fl (.build e.1) = false) ∧
        ∀ r ∈ db.relicSets, r.Name ≠ a.Name := by
  induction l generalizing db with
  | nil => exact ⟨[], by simp, fun a ha => by cases ha⟩
  | cons e rest ih =>
    obtain ⟨a1, h1, p1⟩ := buildStep_relics_grow fl db e
    obtain ⟨a2, h2, p2⟩ := ih (buildStep fl db e)
    refine ⟨a1 ++ a2, by rw [List.foldl_cons, h2, h1, List.append_assoc], ?_⟩
    intro a ha
    rcases List.mem_append.1 ha with ha | ha
    · obtain ⟨q1, q2, q3, q4, q5⟩ := p1 a ha
      exact ⟨q1, ⟨e, List.mem_cons_self _ _, q2, q3, q4⟩, q5⟩
    · obtain ⟨q1, ⟨x, hx, q2, q3, q4⟩, q5⟩ := p2 a ha
      refine ⟨q1, ⟨x, List.mem_cons_of_mem _ hx, q2, ?_, q4⟩, ?_⟩
      · unfold firstCharacter at q3 ⊢
        rw [buildStep_characters] at q3
        exact q3
      · intro r hr
        exact q5 r (by rw [h1]; exact List.mem_append_left _ hr)

theorem foldl_setStep_loaded (fl : Faults) (bid : Nat) (l : List (Nat × String))
    (t : List RelicSet × List CharacterBuildSet) (n : String) (hmem : n ∈ l.map (·.2))
    (hf : fl (.relicSet n) = false) :
    ∃ rs, (l.foldl (setStep fl bid) t).1.find? (fun r => r.Name == n) = some rs := by
  obtain ⟨jn, hjn, hn⟩ := List.mem_map.1 hmem
  obtain ⟨l1, l2, rfl⟩ := List.append_of_mem hjn
  rw [List.foldl_append, List.foldl_cons]
  obtain ⟨added, h1, _⟩ := foldl_setStep_grow fl bid l2
    (setStep fl bid (l1.foldl (setStep fl bid) t) jn)
  rw [h1]
  have hstep : ∃ rs, (setStep fl bid (l1.foldl (setStep fl bid) t) jn).1.find?
      (fun r => r.Name == n) = some rs := by
    have e1 : (setStep fl bid (l1.foldl (setStep fl bid) t) jn).1 =
        (relicRowsLoad fl n (l1.foldl (setStep fl bid) t).1).2 := by rw [← hn]; rfl
    rw [e1]
    rcases relicRowsLoad_cases fl n (l1.foldl (setStep fl bid) t).1 with
      ⟨hx, _⟩ | ⟨_, rs, hrs, h⟩ | ⟨_, hnone, h⟩
    · rw [hf] at hx; cases hx
    · exact ⟨rs, by rw [h]; exact hrs⟩
    · exact ⟨_, by rw [h]; exact find?_append_created _ _ _ hnone (by simp [createRelicSet])⟩
  obtain ⟨rs, hrs⟩ := hstep
  exact ⟨rs, find?_append_of_some _ _ _ _ hrs⟩

theorem foldl_buildStep_relic_names (fl : Faults) (l : List (String × BuildJSON)) (db : Store)
    (h : (db.relicSets.map (·.Name)).Nodup) :
    ((l.foldl (buildStep fl) db).relicSets.map (·.Name)).Nodup :=
  foldl_inv (buildStep fl) (fun s => (s.relicSets.map (·.Name)).Nodup)
    (fun s a hs => by
      unfold buildStep
      split
      · exact hs
      · exact foldl_inv (setStep fl (builtRow a s).ID) (fun t => (t.1.map (·.Name)).Nodup)
          (fun t x ht => relicRowsLoad_names_nodup fl x.2 t.1 ht) _
          (s.relicSets, s.characterBuildSets) hs) l db h

/-- C16: relic sets are created lazily and never overwritten.  `seedBuilds`
only appends to the relic-set table: the rows that were there stay as they
were (id, name, type).  Every row it appends has an empty type and a name that
was not in the table and that is listed in the sets of an entry whose character
exists (so a name listed only by entries without a character gets no row).
And for every entry of an existing character whose build upsert is accepted,
and every name in its set list whose relic-set call is accepted, a row with that
name exists afterwards; when the names in the table were pairwise distinct
before, it is the only row with that name, and it is the row that had the name
before if there was one. -/
theorem relic_sets_created_lazily (fl : Faults) (st : State) (m : List (String × BuildJSON)) :
    (seedBuilds fl (.parsed m) st).2 = none ∧
    (∃ added, (seedBuilds fl (.parsed m) st).1.db.relicSets = st.db.relicSets ++ added ∧
      ∀ a ∈ added, a.SetType = "" ∧ (∀ r ∈ st.db.relicSets, r.Name ≠ a.Name) ∧
        ∃ e ∈ m, (∃ c ∈ st.db.characters, c.ID = e.1) ∧ a.Name ∈ e.2.Sets) ∧
    (∀ k b n, (k, b) ∈ m → (∃ c ∈ st.db.characters, c.ID = k) → n ∈ b.Sets →
      fl (.build k) = false → fl (.relicSet n) = false →
      ∃ row, row ∈ (seedBuilds fl (.parsed m) st).1.db.relicSets ∧ row.Name = n ∧
        ((st.db.relicSets.map (·.Name)).Nodup →
          (seedBuilds fl (.parsed m) st).1.db.relicSets.filter (fun r => r.Name == n) = [row] ∧
          ∀ old ∈ st.db.relicSets, old.Name = n → row = old)) := by
  refine ⟨rfl, ?_, ?_⟩
  · rw [seedBuilds_parsed_store]
    obtain ⟨added, h1, p1⟩ := foldl_buildStep_relics_grow fl m st.db
    refine ⟨added, h1, ?_⟩
    intro a ha
    obtain ⟨q1, ⟨e, he, q2, q3, _⟩, q5⟩ := p1 a ha
    refine ⟨q1, q5, e, he, ?_, q2⟩
    unfold firstCharacter at q3
    cases hf : st.db.characters.find? (fun r => r.ID == e.1) with
    | none => exact absurd hf q3
    | some c =>
      exact ⟨c, List.mem_of_find?_eq_some hf,
        by simpa using find?_pred (fun r : Character => r.ID == e.1) _ _ hf⟩
  · intro k b n hmem hchar hn hfb hfr
    rw [seedBuilds_parsed_store]
    obtain ⟨m1, m2, rfl⟩ := List.append_of_mem hmem
    have hrun : ¬ (firstCharacter k (m1.foldl (buildStep fl) st.db) = none ∨
        fl (.build k) = true) := by
      obtain ⟨c, hc, hid⟩ := hchar
      unfold firstCharacter
      rw [foldl_buildStep_characters]
      have := find?_ne_none_of_mem_ids _ _ (List.mem_map.2 ⟨c, hc, hid⟩)
      simp [this, hfb]
    obtain ⟨rs, hrs⟩ := foldl_setStep_loaded fl (builtRow (k, b) (m1.foldl (buildStep fl) st.db)).ID
      (b.Sets.enumFrom 0)
      ((m1.foldl (buildStep fl) st.db).relicSets, (m1.foldl (buildStep fl) st.db).characterBuildSets)
      n (by rw [List.enumFrom_map_snd]; exact hn) hfr
    obtain ⟨a2, h2, _⟩ := foldl_buildStep_relics_grow fl m2
      (buildStep fl (m1.foldl (buildStep fl) st.db) (k, b))
    have hfind : ((m1 ++ (k, b) :: m2).foldl (buildStep fl) st.db).relicSets.find?
        (fun r => r.Name == n) = some rs := by
      rw [List.foldl_append, List.foldl_cons, h2]
      apply find?_append_of_some
      rw [buildStep_run fl _ (k, b) hrun]
      exact hrs
    have hname : rs.Name = n := by
      simpa using find?_pred (fun r : RelicSet => r.Name == n) _ _ hfind
    refine ⟨rs, List.mem_of_find?_eq_some hfind, hname, ?_⟩
    intro hnd
    have hnd1 := foldl_buildStep_relic_names fl (m1 ++ (k, b) :: m2) st.db hnd
    have hfilter := filter_singleton_of_find (fun r : RelicSet => r.Name)
      (fun r => r.Name == n) _ n rs (fun x => by simp) hnd1 hfind
    refine ⟨hfilter, ?_⟩
    intro old hold holdn
    obtain ⟨added, h1, _⟩ := foldl_buildStep_relics_grow fl (m1 ++ (k, b) :: m2) st.db
    have hmem1 : old ∈ ((m1 ++ (k, b) :: m2).foldl (buildStep fl) st.db).relicSets.filter
        (fun r => r.Name == n) := by
      rw [List.mem_filter]
      exact ⟨by rw [h1]; exact List.mem_append_left _ hold, by simp [holdn]⟩
    rw [hfilter] at hmem1
    exact (List.mem_singleton.1 hmem1).symm

theorem relic_sets_created_lazily_witness :
    (("1001", buildABA) ∈ buildsWithStranger ∧ (∃ c ∈ storeWithRelic.characters, c.ID = "1001") ∧
      "B" ∈ buildABA.Sets ∧ noFaults (.build "1001") = false ∧
      noFaults (.relicSet "B") = false) ∧
    (∃ row, row ∈ (seedBuilds noFaults (.parsed buildsWithStranger)
          ⟨storeWithRelic, []⟩).1.db.relicSets ∧ row.Name = "B" ∧
        ((storeWithRelic.relicSets.map (·.Name)).Nodup →
          (seedBuilds noFaults (.parsed buildsWithStranger)
            ⟨storeWithRelic, []⟩).1.db.relicSets.filter (fun r => r.Name == "B") = [row] ∧
          ∀ old ∈ storeWithRelic.relicSets, old.Name = "B" → row = old)) ∧
    (seedBuilds noFaults (.parsed buildsWithStranger) ⟨storeWithRelic, []⟩).1.db.relicSets =
      [⟨1, "A", "relic"⟩, ⟨2, "B", ""⟩] :=
  ⟨⟨by decide, by decide, by decide, rfl, rfl⟩,
    (relic_sets_created_lazily noFaults ⟨storeWithRelic, []⟩ buildsWithStranger).2.2
      "1001" buildABA "B" (by decide) (by decide) (by decide) rfl rfl,
    by decide⟩

/-! ## The build seeder never deletes -/

theorem foldl_grows {σ α β : Type} (f : σ → α → σ) (proj : σ → List β)
    (h : ∀ s a, ∃ added, proj (f s a) = proj s ++ added) (l : List α) (s : σ) :
    ∃ added, proj (l.foldl f s) = proj s ++ added := by
  induction l generalizing s with
  | nil => exact ⟨[], by simp⟩
  | cons a rest ih =>
    obtain ⟨a1, h1⟩ := h s a
    obtain ⟨a2, h2⟩ := ih (f s a)
    exact ⟨a1 ++ a2, by rw [List.foldl_cons, h2, h1, List.append_assoc]⟩

theorem upsertRows_grows {α β : Type} (g : α → β) (p : α → Bool) (a : α → α) (c : α)
    (l : List α) (ha : ∀ f, l.find? p = some f → g (a f) = g f) :
    ∃ added, (upsertRows p a c l).map g = l.map g ++ added := by
  rcases map_upsertRows_found g p a c l ha with h | ⟨_, h⟩
  · exact ⟨[], by rw [h]; simp⟩
  · exact ⟨_, h⟩

theorem assignSubstat_id (bid : Nat) (stat : String) (w : Float64) (f : CharacterBuildSubstat) :
    (assignSubstat (substatRow bid stat w) f).ID = f.ID := by
  simp [assignSubstat, substatRow, assignNat]

theorem substatRowsStep_grows (fl : Faults) (bid : Nat) (rows : List CharacterBuildSubstat)
    (e : String × Float64) :
    ∃ added, (substatRowsStep fl bid rows e).map (fun r => (r.ID, r.BuildID, r.StatName)) =
      rows.map (fun r => (r.ID, r.BuildID, r.StatName)) ++ added := by
  unfold substatRowsStep
  split
  · exact ⟨[], by simp⟩
  · apply upsertRows_grows
    intro f hf
    have hk := find?_pred
      (fun r : CharacterBuildSubstat => r.BuildID == bid && r.StatName == e.1) _ _ hf
    obtain ⟨h1, h2⟩ := assignSubstat_key bid e.1 e.2 f hk
    simp only [Bool.and_eq_true, beq_iff_eq] at hk
    show ((assignSubstat (substatRow bid e.1 e.2) f).ID,
      (assignSubstat (substatRow bid e.1 e.2) f).BuildID,
      (assignSubstat (substatRow bid e.1 e.2) f).StatName) = (f.ID, f.BuildID, f.StatName)
    rw [h1, h2, hk.1, hk.2, assignSubstat_id]

theorem buildSetRowsWrite_grows (fl : Faults) (bid rid i : Nat) (rels : List RelicSet)
    (rows : List CharacterBuildSet) :
    ∃ added, (buildSetRowsWrite fl bid rid i rels rows).map
        (fun r => (r.ID, r.BuildID, r.RelicSetID)) =
      rows.map (fun r => (r.ID, r.BuildID, r.RelicSetID)) ++ added := by
  unfold buildSetRowsWrite
  split
  · exact ⟨[], by simp⟩
  · split
    · exact ⟨[], by simp⟩
    · apply upsertRows_grows
      intro f hf
      have hk := find?_pred
        (fun r : CharacterBuildSet => r.BuildID == bid && r.RelicSetID == rid) _ _ hf
      obtain ⟨h1, h2, _, h4⟩ := assignBuildSet_key bid rid i f hk
      simp only [Bool.and_eq_true, beq_iff_eq] at hk
      show ((assignBuildSet (buildSetRow bid rid i) f).ID,
        (assignBuildSet (buildSetRow bid rid i) f).BuildID,
        (assignBuildSet (buildSetRow bid rid i) f).RelicSetID) = (f.ID, f.BuildID, f.RelicSetID)
      rw [h1, h2, h4, hk.1, hk.2]

theorem buildStep_grows (fl : Faults) (db : Store) (e : String × BuildJSON) :
    (∃ added, (buildStep fl db e).characterBuildSubstats.map
        (fun r => (r.ID, r.BuildID, r.StatName)) =
      db.characterBuildSubstats.map (fun r => (r.ID, r.BuildID, r.StatName)) ++ added) ∧
    (∃ added, (buildStep fl db e).characterBuildSets.map
        (fun r => (r.ID, r.BuildID, r.RelicSetID)) =
      db.characterBuildSets.map (fun r => (r.ID, r.BuildID, r.RelicSetID)) ++ added) := by
  unfold buildStep
  split
  · exact ⟨⟨[], by simp⟩, ⟨[], by simp⟩⟩
  · constructor
    · exact foldl_grows (substatRowsStep fl (builtRow e db).ID)
        (fun s => s.map (fun r => (r.ID, r.BuildID, r.StatName)))
        (fun s a => substatRowsStep_grows fl _ s a) _ _
    · exact foldl_grows (setStep fl (builtRow e db).ID)
        (fun t => t.2.map (fun r => (r.ID, r.BuildID, r.RelicSetID)))
        (fun t a => buildSetRowsWrite_grows fl _ _ _ _ t.2) _
        (db.relicSets, db.characterBuildSets)

theorem foldl_buildStep_grows (fl : Faults) (l : List (String × BuildJSON)) (db : Store) :
    (∃ added, (l.foldl (buildStep fl) db).characterBuildSubstats.map
        (fun r => (r.ID, r.BuildID, r.StatName)) =
      db.characterBuildSubstats.map (fun r => (r.ID, r.BuildID, r.StatName)) ++ added) ∧
    (∃ added, (l.foldl (buildStep fl) db).characterBuildSets.map
        (fun r => (r.ID, r.BuildID, r.RelicSetID)) =
      db.characterBuildSets.map (fun r => (r.ID, r.BuildID, r.RelicSetID)) ++ added) :=
  ⟨foldl_grows (buildStep fl)
      (fun s => s.characterBuildSubstats.map (fun r => (r.ID, r.BuildID, r.StatName)))
      (fun s a => (buildStep_grows fl s a).1) l db,
    foldl_grows (buildStep fl)
      (fun s => s.characterBuildSets.map (fun r => (r.ID, r.BuildID, r.RelicSetID)))
      (fun s a => (buildStep_grows fl s a).2) l db⟩

/-! ## Failing child writes -/

theorem buildSetRowsWrite_written (fl : Faults) (bid rid i : Nat) (rels : List RelicSet)
    (rows : List CharacterBuildSet) (hf : fl (.buildSet bid rid) = false)
    (hany : rels.any (fun r => r.ID == rid) = true) :
    ∃ row, (buildSetRowsWrite fl bid rid i rels rows).find?
        (fun r => r.BuildID == bid && r.RelicSetID == rid) = some row ∧
      row.Priority = (i : Int) + 1 := by
  have hf1 : ¬ fl (.buildSet bid rid) = true := by simp [hf]
  cases hfind : rows.find? (fun r => r.BuildID == bid && r.RelicSetID == rid) with
  | none =>
    rw [buildSetRowsWrite_new fl bid rid i rels rows hf1 hfind (by simp [hany])]
    obtain ⟨h1, h2, h3, _⟩ := createBuildSet_key (nextID (rows.map (·.ID))) bid rid i
    exact ⟨_, find?_append_created _ rows _ hfind (by simp [h1, h2]), h3⟩
  | some f =>
    rw [buildSetRowsWrite_found fl bid rid i rels rows f hf1 hfind]
    obtain ⟨h1, h2, h3, _⟩ := assignBuildSet_key bid rid i f
      (find?_pred (fun r : CharacterBuildSet => r.BuildID == bid && r.RelicSetID == rid)
        _ _ hfind)
    exact ⟨_, find?_replaceFirst_same _ _ rows f hfind (by simp [h1, h2]), h3⟩

theorem setStep_written (fl : Faults) (bid : Nat) (t : List RelicSet × List CharacterBuildSet)
    (j : Nat) (n : String) (hf : fl (.relicSet n) = false) :
    ∃ rs, (setStep fl bid t (j, n)).1.find? (fun r => r.Name == n) = some rs ∧
      (fl (.buildSet bid rs.ID) = false →
        ∃ row, (setStep fl bid t (j, n)).2.find?
            (fun r => r.BuildID == bid && r.RelicSetID == rs.ID) = some row ∧
          row.Priority = (j : Int) + 1) := by
  have key : ∃ rs, (relicRowsLoad fl n t.1).2.find? (fun r => r.Name == n) = some rs ∧
      (relicRowsLoad fl n t.1).1 = rs.ID := by
    rcases relicRowsLoad_cases fl n t.1 with ⟨hx, _⟩ | ⟨_, rs, hrs, h⟩ | ⟨_, hnone, h⟩
    · rw [hf] at hx; cases hx
    · exact ⟨rs, by rw [h]; exact hrs, by rw [h]⟩
    · exact ⟨_, by rw [h]; exact find?_append_created _ _ _ hnone (by simp [createRelicSet]),
        by rw [h]; rfl⟩
  obtain ⟨rs, hrs, hid⟩ := key
  refine ⟨rs, hrs, ?_⟩
  intro hfb
  have e2 : (setStep fl bid t (j, n)).2 =
      buildSetRowsWrite fl bid rs.ID j (relicRowsLoad fl n t.1).2 t.2 := by
    unfold setStep
    dsimp only
    rw [hid]
  rw [e2]
  exact buildSetRowsWrite_written fl bid rs.ID j _ t.2 hfb
    (List.any_eq_true.2 ⟨rs, List.mem_of_find?_eq_some hrs, by simp⟩)

theorem exists_of_grows {α β : Type} (g : α → β) (l l1 : List α) (added : List β)
    (h : l1.map g = l.map g ++ added) (r : α) (hr : r ∈ l) : ∃ r1 ∈ l1, g r1 = g r := by
  have : g r ∈ l1.map g := by
    rw [h]
    exact List.mem_append_left _ (List.mem_map.2 ⟨r, hr, rfl⟩)
  obtain ⟨r1, h1, h2⟩ := List.mem_map.1 this
  exact ⟨r1, h1, h2⟩

theorem buildsCounted_cons (fl : Faults) (db : Store) (e : String × BuildJSON)
    (rest : List (String × BuildJSON)) :
    buildsCounted fl db (e :: rest) = buildsCounted fl db [e] + buildsCounted fl db rest := by
  unfold buildsCounted
  rw [← List.length_append, ← List.filter_append]
  rfl

theorem buildsFailed_cons (fl : Faults) (db : Store) (e : String × BuildJSON)
    (rest : List (String × BuildJSON)) :
    buildsFailed fl db (e :: rest) = buildsFailed fl db [e] ++ buildsFailed fl db rest := by
  unfold buildsFailed
  rw [← List.map_append, ← List.filter_append]
  rfl

theorem seedBuild_count_log (fl : Faults) (acc : Nat × State) (e : String × BuildJSON) :
    (seedBuild fl acc e).1 = acc.1 + buildsCounted fl acc.2.db [e] ∧
    (seedBuild fl acc e).2.log = acc.2.log ++ buildsFailed fl acc.2.db [e] := by
  unfold seedBuild
  rw [assignFirstOrCreateBuild_eq]
  cases hc : firstCharacter e.1 acc.2.db with
  | none => simp [buildsCounted, buildsFailed, hc]
  | some c =>
    cases hf : fl (.build e.1)
    · simp [buildsCounted, buildsFailed, hc, hf]
    · simp [buildsCounted, buildsFailed, hc, hf, State.logf]

theorem foldl_seedBuild_count_log (fl : Faults) (l : List (String × BuildJSON))
    (acc : Nat × State) :
    (l.foldl (seedBuild fl) acc).1 = acc.1 + buildsCounted fl acc.2.db l ∧
    (l.foldl (seedBuild fl) acc).2.log = acc.2.log ++ buildsFailed fl acc.2.db l := by
  induction l generalizing acc with
  | nil => simp [buildsCounted, buildsFailed]
  | cons e rest ih =>
    rw [List.foldl_cons]
    obtain ⟨h1, h2⟩ := ih (seedBuild fl acc e)
    obtain ⟨g1, g2⟩ := seedBuild_count_log fl acc e
    have hch : ∀ k, firstCharacter k (seedBuild fl acc e).2.db = firstCharacter k acc.2.db := by
      intro k
      unfold firstCharacter
      rw [seedBuild_step, buildStep_characters]
    have hcnt : buildsCounted fl (seedBuild fl acc e).2.db rest =
        buildsCounted fl acc.2.db rest := by
      unfold buildsCounted
      simp only [hch]
    have hfl : buildsFailed fl (seedBuild fl acc e).2.db rest =
        buildsFailed fl acc.2.db rest := by
      unfold buildsFailed
      simp only [hch]
    rw [h1, h2, g1, g2, hcnt, hfl, buildsCounted_cons fl acc.2.db e rest,
      buildsFailed_cons fl acc.2.db e rest]
    exact ⟨Nat.add_assoc _ _ _, List.append_assoc _ _ _⟩

theorem substats_attempted (fl : Faults) (bid : Nat) (l : List (String × Float64))
    (rows : List CharacterBuildSubstat) (stat : String) (w : Float64) (h : (stat, w) ∈ l)
    (hf : fl (.substat bid stat) = false) :
    ∃ row ∈ l.foldl (substatRowsStep fl bid) rows, row.BuildID = bid ∧ row.StatName = stat := by
  obtain ⟨l1, l2, rfl⟩ := List.append_of_mem h
  rw [List.foldl_append, List.foldl_cons]
  obtain ⟨row, hrow, _, _⟩ := substatRowsStep_written fl bid
    (l1.foldl (substatRowsStep fl bid) rows) stat w hf
  have hk := find?_pred (fun r : CharacterBuildSubstat => r.BuildID == bid && r.StatName == stat)
    _ _ hrow
  simp only [Bool.and_eq_true, beq_iff_eq] at hk
  obtain ⟨added, hg⟩ := foldl_grows (substatRowsStep fl bid)
    (fun s => s.map (fun r => (r.ID, r.BuildID, r.StatName)))
    (fun s a => substatRowsStep_grows fl bid s a) l2
    (substatRowsStep fl bid (l1.foldl (substatRowsStep fl bid) rows) (stat, w))
  obtain ⟨r1, hr1, hr2⟩ := exists_of_grows _ _ _ _ hg row (List.mem_of_find?_eq_some hrow)
  simp only [Prod.mk.injEq] at hr2
  exact ⟨r1, hr1, by rw [hr2.2.1, hk.1], by rw [hr2.2.2, hk.2]⟩

theorem sets_attempted (fl : Faults) (bid : Nat) (l : List (Nat × String))
    (t : List RelicSet × List CharacterBuildSet) (n : String) (h : n ∈ l.map (·.2))
    (hf : fl (.relicSet n) = false) :
    ∃ rs, (l.foldl (setStep fl bid) t).1.find? (fun r => r.Name == n) = some rs ∧
      (fl (.buildSet bid rs.ID) = false →
        ∃ row ∈ (l.foldl (setStep fl bid) t).2, row.BuildID = bid ∧ row.RelicSetID = rs.ID) := by
  obtain ⟨jn, hjn, hn⟩ := List.mem_map.1 h
  obtain ⟨l1, l2, rfl⟩ := List.append_of_mem hjn
  rw [List.foldl_append, List.foldl_cons]
  have hjn2 : jn = (jn.1, n) := by rw [← hn]
  obtain ⟨rs, hrs, hrow⟩ := setStep_written fl bid (l1.foldl (setStep fl bid) t) jn.1 n hf
  rw [← hjn2] at hrs hrow
  obtain ⟨a1, h1, _⟩ := foldl_setStep_grow fl bid l2
    (setStep fl bid (l1.foldl (setStep fl bid) t) jn)
  refine ⟨rs, by rw [h1]; exact find?_append_of_some _ _ _ _ hrs, ?_⟩
  intro hfb
  obtain ⟨row, hfind, _⟩ := hrow hfb
  have hk := find?_pred
    (fun r : CharacterBuildSet => r.BuildID == bid && r.RelicSetID == rs.ID) _ _ hfind
  simp only [Bool.and_eq_true, beq_iff_eq] at hk
  obtain ⟨added, hg⟩ := foldl_grows (setStep fl bid)
    (fun s => s.2.map (fun r => (r.ID, r.BuildID, r.RelicSetID)))
    (fun s a => buildSetRowsWrite_grows fl bid _ _ _ s.2) l2
    (setStep fl bid (l1.foldl (setStep fl bid) t) jn)
  obtain ⟨r1, hr1, hr2⟩ := exists_of_grows _ _ _ _ hg row (List.mem_of_find?_eq_some hfind)
  simp only [Prod.mk.injEq] at hr2
  exact ⟨r1, hr1, by rw [hr2.2.1, hk.1], by rw [hr2.2.2, hk.2]⟩

/-- C17: a failed child write is not logged, unlike the failed upsert of a
character, of a skill row or of a build, each of which is checked and logged.
With every substat and build-set write rejected, seeding the build of character 1001 with
one substat and three sets returns nil and counts the build, writes no substat
and no build-set row, still creates the three relic sets (the loop goes on),
and prints nothing but the final count: no line printed by the seeder is a
warning (the log of the model is what seed.go prints with log.Printf; the
statement logger of the storage library is not part of it). -/
theorem child_failure_not_logged :
    (seedBuilds rejectChildren (.parsed [("1001", buildABC)]) ⟨storeWithMarch, []⟩).2 = none ∧
    (seedBuilds rejectChildren (.parsed [("1001", buildABC)]) ⟨storeWithMarch, []⟩).1.log =
      [.seededBuilds 1] ∧
    (∀ x ∈ (seedBuilds rejectChildren (.parsed [("1001", buildABC)])
      ⟨storeWithMarch, []⟩).1.log, x.isWarning = false) ∧
    (seedBuilds rejectChildren (.parsed [("1001", buildABC)])
      ⟨storeWithMarch, []⟩).1.db.characterBuildSubstats = [] ∧
    (seedBuilds rejectChildren (.parsed [("1001", buildABC)])
      ⟨storeWithMarch, []⟩).1.db.characterBuildSets = [] ∧
    (seedBuilds rejectChildren (.parsed [("1001", buildABC)])
      ⟨storeWithMarch, []⟩).1.db.relicSets = [⟨1, "A", ""⟩, ⟨2, "B", ""⟩, ⟨3, "C", ""⟩] := by
  decide

/-- What `seedBuilds` prints and writes when child writes fail.
`seedBuilds` returns nil for every build map, store and behaviour of the storage
layer, and what it prints is one warning for each entry whose character exists
and whose build upsert is rejected, followed by the count of the entries whose
character exists and whose build upsert is accepted: the outcome of a substat or
build-set write changes neither the log nor the count.  The other child writes
are still made: for an entry of an existing character whose build upsert is
accepted (map keys distinct, build ids unique), every substat whose call is
accepted has its row afterwards, every set whose relic-set call is accepted has
its relic set afterwards, and, when the build-set call for it is accepted, its
build-set row, whatever happens to the other child writes. -/
theorem child_failure_is_silent (fl : Faults) (st : State) (m : List (String × BuildJSON)) :
    (seedBuilds fl (.parsed m) st).2 = none ∧
    (seedBuilds fl (.parsed m) st).1.log =
      st.log ++ buildsFailed fl st.db m ++ [.seededBuilds (buildsCounted fl st.db m)] ∧
    (∀ k b, (k, b) ∈ m → (m.map (·.1)).Nodup → (st.db.characterBuilds.map (·.ID)).Nodup →
      (∃ c ∈ st.db.characters, c.ID = k) → fl (.build k) = false →
      ∃ build, (seedBuilds fl (.parsed m) st).1.db.characterBuilds.find?
          (fun r => r.CharacterID == k) = some build ∧
        (∀ stat w, (stat, w) ∈ b.Substats → fl (.substat build.ID stat) = false →
          ∃ row ∈ (seedBuilds fl (.parsed m) st).1.db.characterBuildSubstats,
            row.BuildID = build.ID ∧ row.StatName = stat) ∧
        (∀ n ∈ b.Sets, fl (.relicSet n) = false →
          ∃ rs, (seedBuilds fl (.parsed m) st).1.db.relicSets.find?
              (fun r => r.Name == n) = some rs ∧
            (fl (.buildSet build.ID rs.ID) = false →
              ∃ row ∈ (seedBuilds fl (.parsed m) st).1.db.characterBuildSets,
                row.BuildID = build.ID ∧ row.RelicSetID = rs.ID))) := by
  refine ⟨rfl, ?_, ?_⟩
  · obtain ⟨h1, h2⟩ := foldl_seedBuild_count_log fl m (0, st)
    simp only [seedBuilds, State.logf]
    rw [h1, h2]
    simp
  · intro k b hmem hkeys hids hchar hfb
    rw [seedBuilds_parsed_store]
    have hc : firstCharacter k st.db ≠ none := by
      obtain ⟨c, hc, hid⟩ := hchar
      unfold firstCharacter
      exact find?_ne_none_of_mem_ids _ _ (List.mem_map.2 ⟨c, hc, hid⟩)
    obtain ⟨db1, g1, _, _, _, _, m1, m2, hm, hdb1⟩ :=
      build_entry_reached fl m k b st.db hkeys hmem hc hids hfb
    have hrun : ¬ (firstCharacter k db1 = none ∨ fl (.build k) = true) := by
      rw [hdb1]
      unfold firstCharacter at hc ⊢
      rw [foldl_buildStep_characters]
      simp [hc, hfb]
    have hfinal : m.foldl (buildStep fl) st.db =
        m2.foldl (buildStep fl) (buildStep fl db1 (k, b)) := by
      rw [hm, List.foldl_append, List.foldl_cons, hdb1]
    obtain ⟨⟨as, hs⟩, ⟨ab, hb⟩⟩ := foldl_buildStep_grows fl m2 (buildStep fl db1 (k, b))
    obtain ⟨ar, hr, _⟩ := foldl_buildStep_relics_grow fl m2 (buildStep fl db1 (k, b))
    rw [← hfinal] at hs hb hr
    have hdb2 := buildStep_run fl db1 (k, b) hrun
    refine ⟨builtRow (k, b) db1, g1, ?_, ?_⟩
    · intro stat w hw hfs
      obtain ⟨row, hrow, q1, q2⟩ := substats_attempted fl (builtRow (k, b) db1).ID b.Substats
        db1.characterBuildSubstats stat w hw hfs
      have hrow2 : row ∈ (buildStep fl db1 (k, b)).characterBuildSubstats := by
        rw [hdb2]; exact hrow
      obtain ⟨r1, hr1, hr2⟩ := exists_of_grows _ _ _ _ hs row hrow2
      simp only [Prod.mk.injEq] at hr2
      exact ⟨r1, hr1, by rw [hr2.2.1, q1], by rw [hr2.2.2, q2]⟩
    · intro n hn hfr
      obtain ⟨rs, hrs, hrow⟩ := sets_attempted fl (builtRow (k, b) db1).ID (b.Sets.enumFrom 0)
        (db1.relicSets, db1.characterBuildSets) n
        (by rw [List.enumFrom_map_snd]; exact hn) hfr
      have hrs2 : (buildStep fl db1 (k, b)).relicSets.find? (fun r => r.Name == n) = some rs := by
        rw [hdb2]; exact hrs
      refine ⟨rs, by rw [hr]; exact find?_append_of_some _ _ _ _ hrs2, ?_⟩
      intro hfbs
      obtain ⟨row, hrow1, q1, q2⟩ := hrow hfbs
      have hrow2 : row ∈ (buildStep fl db1 (k, b)).characterBuildSets := by
        rw [hdb2]; exact hrow1
      obtain ⟨r1, hr1, hr2⟩ := exists_of_grows _ _ _ _ hb row hrow2
      simp only [Prod.mk.injEq] at hr2
      exact ⟨r1, hr1, by rw [hr2.2.1, q1], by rw [hr2.2.2, q2]⟩

theorem child_failure_is_silent_witness :
    (("1001", buildABC) ∈ [("1001", buildABC)] ∧
      ([("1001", buildABC)].map (·.1)).Nodup ∧
      (storeWithMarch.characterBuilds.map (·.ID)).Nodup ∧
      (∃ c ∈ storeWithMarch.characters, c.ID = "1001") ∧
      rejectSubstats (.build "1001") = false) ∧
    (∃ build, (seedBuilds rejectSubstats (.parsed [("1001", buildABC)])
          ⟨storeWithMarch, []⟩).1.db.characterBuilds.find?
          (fun r => r.CharacterID == "1001") = some build ∧
        (∀ stat w, (stat, w) ∈ buildABC.Substats →
          rejectSubstats (.substat build.ID stat) = false →
          ∃ row ∈ (seedBuilds rejectSubstats (.parsed [("1001", buildABC)])
              ⟨storeWithMarch, []⟩).1.db.characterBuildSubstats,
            row.BuildID = build.ID ∧ row.StatName = stat) ∧
        (∀ n ∈ buildABC.Sets, rejectSubstats (.relicSet n) = false →
          ∃ rs, (seedBuilds rejectSubstats (.parsed [("1001", buildABC)])
              ⟨storeWithMarch, []⟩).1.db.relicSets.find? (fun r => r.Name == n) = some rs ∧
            (rejectSubstats (.buildSet build.ID rs.ID) = false →
              ∃ row ∈ (seedBuilds rejectSubstats (.parsed [("1001", buildABC)])
                  ⟨storeWithMarch, []⟩).1.db.characterBuildSets,
                row.BuildID = build.ID ∧ row.RelicSetID = rs.ID))) ∧
    (seedBuilds rejectSubstats (.parsed [("1001", buildABC)]) ⟨storeWithMarch, []⟩).1.log =
      [.seededBuilds 1] ∧
    (seedBuilds rejectSubstats (.parsed [("1001", buildABC)])
      ⟨storeWithMarch, []⟩).1.db.characterBuildSubstats = [] ∧
    (seedBuilds rejectSubstats (.parsed [("1001", buildABC)])
      ⟨storeWithMarch, []⟩).1.db.characterBuildSets.map
        (fun r => (r.BuildID, r.RelicSetID, r.Priority)) = [(1, 1, 1), (1, 2, 2), (1, 3, 3)] :=
  ⟨⟨by decide, by decide, by decide, by decide, rfl⟩,
    (child_failure_is_silent rejectSubstats ⟨storeWithMarch, []⟩ [("1001", buildABC)]).2.2
      "1001" buildABC (by decide) (by decide) (by decide) (by decide) rfl,
    by decide, by decide, by decide⟩

/-! ### Rows of dropped sets -/

theorem id_ne_of_name_ne (rels : List RelicSet) (a s : RelicSet)
    (hnd : (rels.map (·.ID)).Nodup) (ha : a ∈ rels) (hs : s ∈ rels) (hn : a.Name ≠ s.Name) :
    a.ID ≠ s.ID := by
  intro h
  exact hn (congrArg (·.Name) (List.inj_on_of_nodup_map hnd ha hs h))

theorem relicRowsLoad_other_id (fl : Faults) (n : String) (rels : List RelicSet) (s : RelicSet)
    (hnd : (rels.map (·.ID)).Nodup) (hz : ∀ r ∈ rels, r.ID ≠ 0) (hs : s ∈ rels)
    (hn : n ≠ s.Name) : (relicRowsLoad fl n rels).1 ≠ s.ID := by
  rcases relicRowsLoad_cases fl n rels with ⟨_, h⟩ | ⟨_, rs, hrs, h⟩ | ⟨_, _, h⟩
  · rw [h]; exact fun e => hz s hs e.symm
  · rw [h]
    have hname := find?_pred (fun r : RelicSet => r.Name == n) _ _ hrs
    simp only [beq_iff_eq] at hname
    exact id_ne_of_name_ne rels rs s hnd (List.mem_of_find?_eq_some hrs) hs
      (by rw [hname]; exact hn)
  · rw [h]
    intro e
    have e2 : nextID (rels.map (·.ID)) = s.ID := e
    exact nextID_not_mem (rels.map (·.ID)) (by
      rw [e2]; exact List.mem_map.2 ⟨s, hs, rfl⟩)

theorem buildSetRowsWrite_keeps (fl : Faults) (bid rid i : Nat) (rels : List RelicSet)
    (rows : List CharacterBuildSet) (r : CharacterBuildSet) (hr : r ∈ rows)
    (hk : r.RelicSetID ≠ rid) : r ∈ buildSetRowsWrite fl bid rid i rels rows := by
  unfold buildSetRowsWrite
  split
  · exact hr
  · split
    · exact hr
    · exact mem_upsertRows_of_mem _ _ _ _ _ hr (by
        simp only [Bool.and_eq_false_iff, beq_eq_false_iff_ne]
        exact Or.inr hk)

theorem setStep_keeps_row (fl : Faults) (bid : Nat) (t : List RelicSet × List CharacterBuildSet)
    (jn : Nat × String) (r : CharacterBuildSet) (s : RelicSet) (hv : SetsValid t)
    (hs : s ∈ t.1) (hr : r ∈ t.2) (hrs : r.RelicSetID = s.ID) (hn : jn.2 ≠ s.Name) :
    s ∈ (setStep fl bid t jn).1 ∧ r ∈ (setStep fl bid t jn).2 := by
  constructor
  · obtain ⟨a, ha, _⟩ := relicRowsLoad_grow fl jn.2 t.1
    show s ∈ (relicRowsLoad fl jn.2 t.1).2
    rw [ha]; exact List.mem_append_left _ hs
  · exact buildSetRowsWrite_keeps fl bid _ _ _ _ r hr (by
      rw [hrs]
      exact fun e => relicRowsLoad_other_id fl jn.2 t.1 s hv.1 hv.2.1 hs hn e.symm)

theorem foldl_setStep_keeps_row (fl : Faults) (bid : Nat) (r : CharacterBuildSet) (s : RelicSet)
    (hrs : r.RelicSetID = s.ID) (l : List (Nat × String)) :
    ∀ (t : List RelicSet × List CharacterBuildSet), SetsValid t → s ∈ t.1 → r ∈ t.2 →
      (∀ jn ∈ l, jn.2 ≠ s.Name) →
      s ∈ (l.foldl (setStep fl bid) t).1 ∧ r ∈ (l.foldl (setStep fl bid) t).2 := by
  induction l with
  | nil => intro t _ hs hr _; exact ⟨hs, hr⟩
  | cons jn rest ih =>
    intro t hv hs hr hl
    obtain ⟨h1, h2⟩ := setStep_keeps_row fl bid t jn r s hv hs hr hrs
      (hl jn (List.mem_cons_self _ _))
    exact ih _ (setStep_valid fl bid t jn hv) h1 h2
      (fun x hx => hl x (List.mem_cons_of_mem _ hx))

theorem buildStep_keeps_row (fl : Faults) (db : Store) (e : String × BuildJSON) (k : String)
    (s : RelicSet) (r : CharacterBuildSet) (h : DroppedRow db k s r)
    (hdrop : e.1 = k → s.Name ∉ e.2.Sets) : DroppedRow (buildStep fl db e) k s r := by
  obtain ⟨hv, hs, hr, hrs, build, hb, hid⟩ := h
  by_cases hrun : firstCharacter e.1 db = none ∨ fl (.build e.1) = true
  · have e1 : buildStep fl db e = db := by unfold buildStep; rw [if_pos hrun]
    rw [e1]; exact ⟨hv, hs, hr, hrs, build, hb, hid⟩
  · refine ⟨buildStep_valid fl db e hv, ?_, ?_, hrs, ?_⟩
    · obtain ⟨a, ha, _⟩ := buildStep_relics_grow fl db e
      rw [ha]; exact List.mem_append_left _ hs
    · by_cases hk : e.1 = k
      · rw [buildStep_run fl db e hrun]
        exact (foldl_setStep_keeps_row fl _ r s hrs (e.2.Sets.enumFrom 0)
          (db.relicSets, db.characterBuildSets) hv.2 hs hr (by
            intro jn hjn hname
            apply hdrop hk
            rw [← hname, ← List.enumFrom_map_snd 0 e.2.Sets]
            exact List.mem_map.2 ⟨jn, hjn, rfl⟩)).2
      · have hne : r.BuildID ≠ (builtRow e db).ID := by
          rw [← hid]
          exact fun q => builtRow_id_ne e db k build hv.1 hb hk q.symm
        have hf := (buildStep_filters_other fl db e r.BuildID (Or.inr (Or.inr hne))).2
        have : r ∈ db.characterBuildSets.filter (fun x => x.BuildID == r.BuildID) :=
          List.mem_filter.2 ⟨hr, by simp⟩
        rw [← hf] at this
        exact (List.mem_filter.1 this).1
    · by_cases hk : e.1 = k
      · refine ⟨builtRow e db, ?_, ?_⟩
        · rw [buildStep_run fl db e hrun, ← hk]
          exact find?_buildsAfter e db
        · rw [← hid]
          exact builtRow_id_of_found e db build (by rw [hk]; exact hb)
      · refine ⟨build, ?_, hid⟩
        rw [buildStep_run fl db e hrun]
        show (buildsAfter e db).find? _ = _
        rw [find?_buildsAfter_other e db k hk]; exact hb

theorem foldl_buildStep_keeps_row (fl : Faults) (k : String) (s : RelicSet)
    (r : CharacterBuildSet) (l : List (String × BuildJSON)) :
    ∀ db : Store, DroppedRow db k s r → (∀ e ∈ l, e.1 = k → s.Name ∉ e.2.Sets) →
      DroppedRow (l.foldl (buildStep fl) db) k s r := by
  induction l with
  | nil => intro db h _; exact h
  | cons e rest ih =>
    intro db h hl
    exact ih _ (buildStep_keeps_row fl db e k s r h (hl e (List.mem_cons_self _ _)))
      (fun x hx => hl x (List.mem_cons_of_mem _ hx))

theorem seedBuilds_grows (fl : Faults) (file : Source (List (String × BuildJSON))) (st : State) :
    (∃ added, (seedBuilds fl file st).1.db.characterBuildSubstats.map
        (fun r => (r.ID, r.BuildID, r.StatName)) =
      st.db.characterBuildSubstats.map (fun r => (r.ID, r.BuildID, r.StatName)) ++ added) ∧
    (∃ added, (seedBuilds fl file st).1.db.characterBuildSets.map
        (fun r => (r.ID, r.BuildID, r.RelicSetID)) =
      st.db.characterBuildSets.map (fun r => (r.ID, r.BuildID, r.RelicSetID)) ++ added) := by
  cases file with
  | parsed m => rw [seedBuilds_parsed_store]; exact foldl_buildStep_grows fl m st.db
  | unreadable => exact ⟨⟨[], by simp [seedBuilds]⟩, ⟨[], by simp [seedBuilds]⟩⟩
  | malformed => exact ⟨⟨[], by simp [seedBuilds]⟩, ⟨[], by simp [seedBuilds]⟩⟩

/-- C18: the build seeder never deletes.  For every store, every content of the
build file and every behaviour of the storage layer, each CharacterBuildSet row
present before `seedBuilds` has a row with the same id, buildId and relicSetId
afterwards, each CharacterBuildSubstat row a row with the same id, buildId and
statName, and neither table gets shorter.  A row of a dropped set is left as it
was: in a store with valid keys, if `r` is the build-set row of the build of
character `k` for the relic set `s` and no entry for `k` in the new map lists the
name of `s`, then `r` itself, with its old priority, is in the table
afterwards. -/
theorem build_seeder_never_deletes (fl : Faults) (file : Source (List (String × BuildJSON)))
    (st : State) :
    (∀ r ∈ st.db.characterBuildSets, ∃ r1 ∈ (seedBuilds fl file st).1.db.characterBuildSets,
      r1.ID = r.ID ∧ r1.BuildID = r.BuildID ∧ r1.RelicSetID = r.RelicSetID) ∧
    (∀ r ∈ st.db.characterBuildSubstats,
      ∃ r1 ∈ (seedBuilds fl file st).1.db.characterBuildSubstats,
        r1.ID = r.ID ∧ r1.BuildID = r.BuildID ∧ r1.StatName = r.StatName) ∧
    st.db.characterBuildSets.length ≤ (seedBuilds fl file st).1.db.characterBuildSets.length ∧
    st.db.characterBuildSubstats.length ≤
      (seedBuilds fl file st).1.db.characterBuildSubstats.length ∧
    (∀ (m : List (String × BuildJSON)) (k : String) (build : CharacterBuild) (s : RelicSet)
        (r : CharacterBuildSet), file = .parsed m → ValidKeys st.db →
      st.db.characterBuilds.find? (fun b => b.CharacterID == k) = some build →
      s ∈ st.db.relicSets → r ∈ st.db.characterBuildSets →
      r.BuildID = build.ID → r.RelicSetID = s.ID →
      (∀ e ∈ m, e.1 = k → s.Name ∉ e.2.Sets) →
      r ∈ (seedBuilds fl file st).1.db.characterBuildSets) := by
  obtain ⟨⟨a1, h1⟩, ⟨a2, h2⟩⟩ := seedBuilds_grows fl file st
  refine ⟨?_, ?_, ?_, ?_, ?_⟩
  · intro r hr
    obtain ⟨r1, hr1, e⟩ := exists_of_grows _ _ _ _ h2 r hr
    simp only [Prod.mk.injEq] at e
    exact ⟨r1, hr1, e⟩
  · intro r hr
    obtain ⟨r1, hr1, e⟩ := exists_of_grows _ _ _ _ h1 r hr
    simp only [Prod.mk.injEq] at e
    exact ⟨r1, hr1, e⟩
  · have := congrArg List.length h2
    simp only [List.length_map, List.length_append] at this
    omega
  · have := congrArg List.length h1
    simp only [List.length_map, List.length_append] at this
    omega
  · intro m k build s r hfile hv hb hs hr hid hrs hdrop
    subst hfile
    rw [seedBuilds_parsed_store]
    exact (foldl_buildStep_keeps_row fl k s r m st.db
      ⟨hv, hs, hr, hrs, build, hb, hid.symm⟩ hdrop).2.2.1

theorem build_seeder_never_deletes_witness :
    (ValidKeys seededABC.db ∧
      seededABC.db.characterBuilds.find? (fun b => b.CharacterID == "1001") =
        some ⟨1, "1001", "DEF%", "SPD", "DEF%", "ERR%"⟩ ∧
      (⟨2, "B", ""⟩ : RelicSet) ∈ seededABC.db.relicSets ∧
      (⟨2, 1, 2, 2⟩ : CharacterBuildSet) ∈ seededABC.db.characterBuildSets ∧
      (∀ e ∈ [("1001", buildCA)], e.1 = "1001" → "B" ∉ e.2.Sets)) ∧
    (⟨2, 1, 2, 2⟩ : CharacterBuildSet) ∈
      (seedBuilds noFaults (.parsed [("1001", buildCA)]) seededABC).1.db.characterBuildSets ∧
    (seedBuilds noFaults (.parsed [("1001", buildCA)]) seededABC).1.db.characterBuildSets =
      [⟨1, 1, 1, 2⟩, ⟨2, 1, 2, 2⟩, ⟨3, 1, 3, 1⟩] :=
  ⟨⟨by decide, by decide, by decide, by decide, by decide⟩,
    (build_seeder_never_deletes noFaults (.parsed [("1001", buildCA)]) seededABC).2.2.2.2
      [("1001", buildCA)] "1001" ⟨1, "1001", "DEF%", "SPD", "DEF%", "ERR%"⟩ ⟨2, "B", ""⟩
      ⟨2, 1, 2, 2⟩ rfl (by decide) (by decide) (by decide) (by decide) rfl rfl (by decide),
    by decide⟩

/-! ### A set name listed more than once -/

theorem enumFrom_split_last (l : List String) (j : Nat) (n : String) (hj : l[j]? = some n)
    (hlast : ∀ i, j < i → l[i]? ≠ some n) :
    ∃ pre post, l.enumFrom 0 = pre ++ (j, n) :: post ∧ n ∉ post.map (·.2) := by
  obtain ⟨hlt, hget⟩ := List.getElem?_eq_some.1 hj
  have hsplit : l = l.take j ++ n :: l.drop (j + 1) := by
    rw [← hget, ← List.drop_eq_getElem_cons hlt, List.take_append_drop]
  refine ⟨(l.take j).enumFrom 0, (l.drop (j + 1)).enumFrom (j + 1), ?_, ?_⟩
  · conv_lhs => rw [hsplit]
    rw [List.enumFrom_append, List.enumFrom_cons, List.length_take,
      Nat.min_eq_left (Nat.le_of_lt hlt), Nat.zero_add]
  · rw [List.enumFrom_map_snd]
    intro hmem
    obtain ⟨i, hi⟩ := List.getElem?_of_mem hmem
    rw [List.getElem?_drop] at hi
    exact hlast (j + 1 + i) (by omega) hi

theorem setStep_keeps_ranked (fl : Faults) (bid : Nat)
    (t : List RelicSet × List CharacterBuildSet) (jn : Nat × String) (n : String) (rs : RelicSet)
    (row : CharacterBuildSet) (hv : SetsValid t) (hn : n ≠ jn.2)
    (hrs : t.1.find? (fun r => r.Name == n) = some rs)
    (hrow : t.2.find? (fun r => r.BuildID == bid && r.RelicSetID == rs.ID) = some row) :
    (setStep fl bid t jn).1.find? (fun r => r.Name == n) = some rs ∧
    (setStep fl bid t jn).2.find? (fun r => r.BuildID == bid && r.RelicSetID == rs.ID) =
      some row := by
  constructor
  · exact relicRowsLoad_keep fl jn.2 n t.1 rs hrs
  · have hname := find?_pred (fun r : RelicSet => r.Name == n) _ _ hrs
    simp only [beq_iff_eq] at hname
    have hne := relicRowsLoad_other_id fl jn.2 t.1 rs hv.1 hv.2.1 (List.mem_of_find?_eq_some hrs)
      (by rw [hname]; exact fun e => hn e.symm)
    show (buildSetRowsWrite fl bid _ _ _ t.2).find? _ = _
    rw [buildSetRowsWrite_find_other fl bid _ jn.1 bid rs.ID _ t.2
      (Or.inr (fun e => hne e.symm))]
    exact hrow

theorem foldl_setStep_last (fl : Faults) (bid : Nat) (pre post : List (Nat × String)) (j : Nat)
    (n : String) (t : List RelicSet × List CharacterBuildSet) (hv : SetsValid t)
    (hlast : n ∉ post.map (·.2)) (hfr : fl (.relicSet n) = false)
    (hfs : ∀ rid, fl (.buildSet bid rid) = false) :
    ∃ rs row, ((pre ++ (j, n) :: post).foldl (setStep fl bid) t).1.find?
        (fun r => r.Name == n) = some rs ∧
      ((pre ++ (j, n) :: post).foldl (setStep fl bid) t).2.find?
        (fun r => r.BuildID == bid && r.RelicSetID == rs.ID) = some row ∧
      row.Priority = (j : Int) + 1 := by
  have h := foldl_fixed_last (setStep fl bid) (fun a : Nat × String => a.2) SetsValid
    (fun a s => fl (.relicSet a.2) = false →
      ∃ rs row, s.1.find? (fun r => r.Name == a.2) = some rs ∧
        s.2.find? (fun r => r.BuildID == bid && r.RelicSetID == rs.ID) = some row ∧
        row.Priority = (a.1 : Int) + 1)
    (fun s a hs => setStep_valid fl bid s a hs)
    (fun s a _ hf => by
      obtain ⟨rs, h1, h2⟩ := setStep_written fl bid s a.1 a.2 hf
      obtain ⟨row, h3, h4⟩ := h2 (hfs rs.ID)
      exact ⟨rs, row, h1, h3, h4⟩)
    (fun s a b hs hab hfix hf => by
      obtain ⟨rs, row, h1, h2, h3⟩ := hfix hf
      obtain ⟨g1, g2⟩ := setStep_keeps_ranked fl bid s b a.2 rs row hs hab h1 h2
      exact ⟨rs, row, g1, g2, h3⟩)
    pre (j, n) post hlast t hv
  exact h hfr

theorem foldl_buildStep_setKeys (fl : Faults) (l : List (String × BuildJSON)) (db : Store)
    (h : (db.characterBuildSets.map (fun r => (r.BuildID, r.RelicSetID))).Nodup) :
    ((l.foldl (buildStep fl) db).characterBuildSets.map
      (fun r => (r.BuildID, r.RelicSetID))).Nodup :=
  foldl_invariant
    (fun s : Store => (s.characterBuildSets.map (fun r => (r.BuildID, r.RelicSetID))).Nodup)
    (buildStep fl)
    (fun s a hs => by
      unfold buildStep
      split
      · exact hs
      · exact foldl_invariant
          (fun t : List RelicSet × List CharacterBuildSet =>
            (t.2.map (fun r => (r.BuildID, r.RelicSetID))).Nodup)
          (setStep fl (builtRow a s).ID)
          (fun t x ht => buildSetRowsWrite_nodup fl _ _ _ _ _ ht) _
          (s.relicSets, s.characterBuildSets) hs)
    l db h

/-- C19: the last occurrence of a set name decides the priority.  In a store
with valid keys in which no two build-set rows share (buildId, relicSetId), let
`(k, b)` be an entry of the build map (keys pairwise distinct) for an existing
character `k`, and let `j` be the largest index at which the name `n` occurs in
`b.Sets`.  If the storage layer accepts the build upsert of `k`, the relic-set
call for `n` and the build-set calls, then after `seedBuilds` the build row of
`k` and the relic set named `n` exist, exactly one build-set row has their two
ids as (buildId, relicSetId), and its priority is `j + 1`. -/
theorem last_occurrence_decides_priority (fl : Faults) (st : State)
    (m : List (String × BuildJSON)) (k : String) (b : BuildJSON) (n : String) (j : Nat)
    (hkeys : (m.map (·.1)).Nodup) (hmem : (k, b) ∈ m)
    (hchar : ∃ c ∈ st.db.characters, c.ID = k)
    (hvalid : ValidKeys st.db)
    (hrows : (st.db.characterBuildSets.map (fun r => (r.BuildID, r.RelicSetID))).Nodup)
    (hj : b.Sets[j]? = some n) (hlast : ∀ i, j < i → b.Sets[i]? ≠ some n)
    (hfb : fl (.build k) = false) (hfr : fl (.relicSet n) = false)
    (hfs : ∀ bid rid, fl (.buildSet bid rid) = false) :
    (seedBuilds fl (.parsed m) st).2 = none ∧
    ∃ build rs row,
      (seedBuilds fl (.parsed m) st).1.db.characterBuilds.find?
        (fun r => r.CharacterID == k) = some build ∧
      (seedBuilds fl (.parsed m) st).1.db.relicSets.find? (fun r => r.Name == n) = some rs ∧
      (seedBuilds fl (.parsed m) st).1.db.characterBuildSets.filter
        (fun r => r.BuildID == build.ID && r.RelicSetID == rs.ID) = [row] ∧
      row.Priority = (j : Int) + 1 := by
  refine ⟨rfl, ?_⟩
  rw [seedBuilds_parsed_store]
  have hc : firstCharacter k st.db ≠ none := by
    obtain ⟨c, hc, hid⟩ := hchar
    unfold firstCharacter
    exact find?_ne_none_of_mem_ids _ _ (List.mem_map.2 ⟨c, hc, hid⟩)
  obtain ⟨db1, g1, _, _, _, g5, m1, m2, hm, hdb1⟩ :=
    build_entry_reached fl m k b st.db hkeys hmem hc hvalid.1 hfb
  have hv1 : ValidKeys db1 := by
    rw [hdb1]
    exact foldl_invariant ValidKeys (buildStep fl) (fun s a hs => buildStep_valid fl s a hs)
      m1 st.db hvalid
  have hk1 : (db1.characterBuildSets.map (fun r => (r.BuildID, r.RelicSetID))).Nodup := by
    rw [hdb1]; exact foldl_buildStep_setKeys fl m1 st.db hrows
  obtain ⟨pre, post, hsplit, hpost⟩ := enumFrom_split_last b.Sets j n hj hlast
  obtain ⟨rs, row, q1, q2, q3⟩ := foldl_setStep_last fl (builtRow (k, b) db1).ID pre post j n
    (db1.relicSets, db1.characterBuildSets) hv1.2 hpost hfr (fun rid => hfs _ rid)
  rw [← hsplit] at q1 q2
  have hk2 := foldl_invariant
    (fun t : List RelicSet × List CharacterBuildSet =>
      (t.2.map (fun r => (r.BuildID, r.RelicSetID))).Nodup)
    (setStep fl (builtRow (k, b) db1).ID)
    (fun t x ht => buildSetRowsWrite_nodup fl _ _ _ _ _ ht) (b.Sets.enumFrom 0)
    (db1.relicSets, db1.characterBuildSets) hk1
  have hrun : ¬ (firstCharacter k db1 = none ∨ fl (.build k) = true) := by
    rw [hdb1]
    unfold firstCharacter at hc ⊢
    rw [foldl_buildStep_characters]
    simp [hc, hfb]
  have hfinal : m.foldl (buildStep fl) st.db =
      m2.foldl (buildStep fl) (buildStep fl db1 (k, b)) := by
    rw [hm, List.foldl_append, List.foldl_cons, hdb1]
  obtain ⟨ar, hr, _⟩ := foldl_buildStep_relics_grow fl m2 (buildStep fl db1 (k, b))
  rw [← hfinal] at hr
  have hrs2 : (buildStep fl db1 (k, b)).relicSets.find? (fun r => r.Name == n) = some rs := by
    rw [buildStep_run fl db1 (k, b) hrun]; exact q1
  refine ⟨builtRow (k, b) db1, rs, row, g1, ?_, ?_, q3⟩
  · rw [hr]; exact find?_append_of_some _ _ _ _ hrs2
  · rw [filter_and_filter (fun r : CharacterBuildSet => r.BuildID == (builtRow (k, b) db1).ID)
      (fun r => r.RelicSetID == rs.ID), g5,
      ← filter_and_filter (fun r : CharacterBuildSet => r.BuildID == (builtRow (k, b) db1).ID)
      (fun r => r.RelicSetID == rs.ID)]
    exact filter_singleton_of_find (fun r : CharacterBuildSet => (r.BuildID, r.RelicSetID))
      _ _ ((builtRow (k, b) db1).ID, rs.ID) row
      (fun x => by simp [Prod.ext_iff]) hk2 q2

theorem last_occurrence_decides_priority_witness :
    (([("1001", buildAA)].map (·.1)).Nodup ∧ ("1001", buildAA) ∈ [("1001", buildAA)] ∧
      (∃ c ∈ storeWithMarch.characters, c.ID = "1001") ∧ ValidKeys storeWithMarch ∧
      (storeWithMarch.characterBuildSets.map (fun r => (r.BuildID, r.RelicSetID))).Nodup ∧
      buildAA.Sets[1]? = some "A" ∧ (∀ i, 1 < i → buildAA.Sets[i]? ≠ some "A")) ∧
    ((seedBuilds noFaults (.parsed [("1001", buildAA)]) ⟨storeWithMarch, []⟩).2 = none ∧
      ∃ build rs row,
        (seedBuilds noFaults (.parsed [("1001", buildAA)])
          ⟨storeWithMarch, []⟩).1.db.characterBuilds.find?
          (fun r => r.CharacterID == "1001") = some build ∧
        (seedBuilds noFaults (.parsed [("1001", buildAA)])
          ⟨storeWithMarch, []⟩).1.db.relicSets.find? (fun r => r.Name == "A") = some rs ∧
        (seedBuilds noFaults (.parsed [("1001", buildAA)])
          ⟨storeWithMarch, []⟩).1.db.characterBuildSets.filter
          (fun r => r.BuildID == build.ID && r.RelicSetID == rs.ID) = [row] ∧
        row.Priority = ((1 : Nat) : Int) + 1) ∧
    (seedBuilds noFaults (.parsed [("1001", buildAA)])
      ⟨storeWithMarch, []⟩).1.db.characterBuildSets = [⟨1, 1, 1, 2⟩] ∧
    (∀ r ∈ (seedBuilds noFaults (.parsed [("1001", buildAA)])
      ⟨storeWithMarch, []⟩).1.db.characterBuildSets, r.Priority ≠ 1) :=
  have hlast : ∀ i, 1 < i → buildAA.Sets[i]? ≠ some "A" := by
    intro i hi
    have : buildAA.Sets[i]? = none := by
      apply List.getElem?_eq_none
      show 2 ≤ i
      omega
    rw [this]; exact fun h => nomatch h
  ⟨⟨by decide, by decide, by decide, by decide, by decide, by decide, hlast⟩,
    last_occurrence_decides_priority noFaults ⟨storeWithMarch, []⟩ [("1001", buildAA)]
      "1001" buildAA "A" 1 (by decide) (by decide) (by decide) (by decide) (by decide)
      (by decide) hlast rfl rfl (fun _ _ => rfl),
    by decide, by decide⟩

theorem orphan_freedom_invariant_witness :
    (OrphanFree storeWithRows ∧
      storeWithRows.characterSkills.map (·.CharacterID) = ["1001"] ∧
      storeWithRows.characterBuilds.map (·.CharacterID) = ["1001"]) ∧
    (OrphanFree (Seed noFaults orphanFiles ⟨storeWithRows, []⟩).1.db ∧
      OrphanFree (seedSkills noFaults orphanFiles.skills ⟨storeWithRows, []⟩).1.db ∧
      OrphanFree (seedBuilds noFaults orphanFiles.builds ⟨storeWithRows, []⟩).1.db) ∧
    (Seed noFaults orphanFiles ⟨storeWithRows, []⟩).2 = none ∧
    (Seed noFaults orphanFiles ⟨storeWithRows, []⟩).1.db.characters.map (·.ID) =
      ["1001", "1002"] ∧
    (Seed noFaults orphanFiles ⟨storeWithRows, []⟩).1.db.characterSkills.map
      (fun r => (r.ID, r.CharacterID)) = [(1, "1001"), (2, "1002")] ∧
    (Seed noFaults orphanFiles ⟨storeWithRows, []⟩).1.db.characterBuilds.map
      (fun r => (r.ID, r.CharacterID)) = [(1, "1001"), (2, "1002")] ∧
    (seedSkills noFaults orphanFiles.skills ⟨storeWithRows, []⟩).1.db.characterSkills.map
      (fun r => (r.ID, r.CharacterID)) = [(1, "1001")] ∧
    (seedBuilds noFaults orphanFiles.builds ⟨storeWithRows, []⟩).1.db.characterBuilds.map
      (fun r => (r.ID, r.CharacterID)) = [(1, "1001")] :=
  ⟨by decide,
    orphan_freedom_invariant noFaults orphanFiles ⟨storeWithRows, []⟩ (by decide),
    by decide, by decide, by decide, by decide, by decide, by decide⟩

/-- C3, counterexample: an update does not write the element id 0.  In a store
in which the element Ice has the id 0 and character 1001 is a Fire character
(element id 5), the record of 1001 naming Ice is accepted and updates the row
(the rarity becomes 4), but the row keeps the element id 5: the row that
`seedCharacters` updated refers to Fire, not to the element its record names. -/
theorem character_reference_zero_id_kept :
    (seedCharacters noFaults (.parsed [marchFour]) ⟨storeZeroIce, []⟩).2 = none ∧
    (seedCharacters noFaults (.parsed [marchFour]) ⟨storeZeroIce, []⟩).1.db.characters =
      [⟨"1001", "mar7", "March 7th", 5, 1, 4, 101, 3⟩] ∧
    (seedCharacters noFaults (.parsed [marchFour]) ⟨storeZeroIce, []⟩).1.db.elements =
      [⟨0, "Ice", ""⟩, ⟨5, "Fire", ""⟩] ∧
    (seedCharacters noFaults (.parsed [marchFour]) ⟨storeZeroIce, []⟩).1.log =
      [.seededCharacters 1] ∧
    marchFour.Element = "Ice" ∧
    ¬ RefersTo (seedCharacters noFaults (.parsed [marchFour]) ⟨storeZeroIce, []⟩).1.db
      ⟨"1001", "mar7", "March 7th", 5, 1, 4, 101, 3⟩ marchFour := by
  decide

/-! ## Repeated relic-set ids in a set list -/

theorem foldl_absorb_keyed {σ α κ : Type} (f : σ → α → σ) (key : α → κ)
    (Good : α → σ → Prop)
    (hkeep : ∀ s a b, Good a s → Good b s → Good a (f s b))
    (habs : ∀ s a b, Good a s → Good b s → key a = key b → f (f s a) b = f s b)
    (hcomm : ∀ s a b, Good a s → Good b s → key a ≠ key b → f (f s a) b = f (f s b) a)
    (rest : List α) (s : σ) (x : α) (hx : Good x s)
    (hrest : ∀ y ∈ rest, Good y s) (hmem : key x ∈ rest.map key) :
    rest.foldl f (f s x) = rest.foldl f s := by
  induction rest generalizing s with
  | nil => simp at hmem
  | cons y r ih =>
    rw [List.foldl_cons, List.foldl_cons]
    have hy := hrest y (List.mem_cons_self _ _)
    by_cases hk : key x = key y
    · rw [habs s x y hx hy hk]
    · rw [hcomm s x y hx hy hk]
      have hmem1 : key x ∈ r.map key := by
        rw [List.map_cons, List.mem_cons] at hmem
        rcases hmem with h | h
        · exact absurd h hk
        · exact h
      exact ih (f s y) (hkeep s x y hx hy)
        (fun z hz => hkeep s z y (hrest z (List.mem_cons_of_mem _ hz)) hy) hmem1

theorem foldl_noop_keyed {σ α κ : Type} [DecidableEq κ] (f : σ → α → σ) (key : α → κ)
    (Good : α → σ → Prop)
    (hkeep : ∀ s a b, Good a s → Good b s → Good a (f s b))
    (habs : ∀ s a b, Good a s → Good b s → key a = key b → f (f s a) b = f s b)
    (hcomm : ∀ s a b, Good a s → Good b s → key a ≠ key b → f (f s a) b = f (f s b) a)
    (l : List α) (s : σ) (hset : ∀ a ∈ l, Good a s)
    (hlast : ∀ pre a post, l = pre ++ a :: post → key a ∉ post.map key → f s a = s) :
    l.foldl f s = s := by
  induction l with
  | nil => rfl
  | cons x rest ih =>
    rw [List.foldl_cons]
    have hrest : ∀ a ∈ rest, Good a s := fun a ha => hset a (List.mem_cons_of_mem _ ha)
    have hlast1 : ∀ pre a post, rest = pre ++ a :: post → key a ∉ post.map key → f s a = s := by
      intro pre a post he hk
      exact hlast (x :: pre) a post (by rw [he]; rfl) hk
    by_cases hmem : key x ∈ rest.map key
    · rw [foldl_absorb_keyed f key Good hkeep habs hcomm rest s x
        (hset x (List.mem_cons_self _ _)) hrest hmem]
      exact ih hrest hlast1
    · rw [hlast [] x rest rfl hmem]
      exact ih hrest hlast1

theorem relicRowsLoad_append_fixed (fl : Faults) (n : String) (rels more : List RelicSet)
    (h : (relicRowsLoad fl n rels).2 = rels) :
    relicRowsLoad fl n (rels ++ more) = ((relicRowsLoad fl n rels).1, rels ++ more) := by
  rcases relicRowsLoad_fixed fl n rels h with ⟨hf, h0⟩ | ⟨hf, rs, hfind, hid⟩
  · rw [h0]
    unfold relicRowsLoad
    simp only [hf, if_true]
  · rw [hid]
    have hk := find?_append_of_some (fun r : RelicSet => r.Name == n) rels more rs hfind
    unfold relicRowsLoad
    simp only [hf, Bool.false_eq_true, if_false, hk]

theorem setKey_append (fl : Faults) (n : String) (rels more : List RelicSet)
    (h : (relicRowsLoad fl n rels).2 = rels) :
    setKey fl (rels ++ more) n = setKey fl rels n := by
  unfold setKey
  rw [relicRowsLoad_append_fixed fl n rels more h]

theorem relicRowsLoad_any_append (fl : Faults) (n : String) (rels : List RelicSet)
    (rid : Nat) (h : rels.any (fun r => r.ID == rid) = false)
    (hrid : rid = 0 ∨ rid ∈ rels.map (·.ID)) :
    (relicRowsLoad fl n rels).2.any (fun r => r.ID == rid) = false := by
  rcases hrid with rfl | hmem
  · exact relicRowsLoad_any_zero fl n rels h
  · obtain ⟨r, hr, hid⟩ := List.mem_map.1 hmem
    have : rels.any (fun r => r.ID == rid) = true :=
      List.any_eq_true.2 ⟨r, hr, by simp [hid]⟩
    rw [this] at h; cases h

theorem setStep_keeps_fixed (fl : Faults) (bid : Nat)
    (t : List RelicSet × List CharacterBuildSet) (ja jb : Nat × String)
    (hk : setKey fl t.1 ja.2 ≠ setKey fl t.1 jb.2) (h : setStep fl bid t ja = t) :
    setStep fl bid (setStep fl bid t jb) ja = setStep fl bid t jb := by
  have h1 : (relicRowsLoad fl ja.2 t.1).2 = t.1 := congrArg Prod.fst h
  have h2 : buildSetRowsWrite fl bid (relicRowsLoad fl ja.2 t.1).1 ja.1 t.1 t.2 = t.2 := by
    have := congrArg Prod.snd h
    unfold setStep at this
    dsimp only at this
    rw [h1] at this
    exact this
  unfold setKey at hk
  unfold setStep
  dsimp only
  rw [relicRowsLoad_after_fixed fl ja.2 jb.2 t.1 h1]
  dsimp only
  rw [buildSetRowsWrite_fix_other fl bid _ ja.1 bid _ jb.1 t.1 _ _ t.2 (Or.inr hk)
    (relicRowsLoad_any_keep fl ja.2 jb.2 t.1 h1) h2]

theorem setStep_fixed_load (fl : Faults) (bid : Nat)
    (t : List RelicSet × List CharacterBuildSet) (ja : Nat × String)
    (h : setStep fl bid t ja = t) : (relicRowsLoad fl ja.2 t.1).2 = t.1 :=
  congrArg Prod.fst h

theorem foldl_setStep_last_fixed (fl : Faults) (bid : Nat) (ja : Nat × String)
    (post : List (Nat × String)) :
    ∀ u : List RelicSet × List CharacterBuildSet, setStep fl bid u ja = u →
      setKey fl (post.foldl (setStep fl bid) u).1 ja.2 ∉
        post.map (fun x => setKey fl (post.foldl (setStep fl bid) u).1 x.2) →
      setStep fl bid (post.foldl (setStep fl bid) u) ja = post.foldl (setStep fl bid) u := by
  induction post with
  | nil => intro u h _; exact h
  | cons jb rest ih =>
    intro u h hk
    rw [List.foldl_cons] at hk ⊢
    obtain ⟨added, hgrow, _⟩ := foldl_setStep_grow fl bid rest (setStep fl bid u jb)
    obtain ⟨a0, hg0, _⟩ := relicRowsLoad_grow fl jb.2 u.1
    have hu1 : (setStep fl bid u jb).1 = (relicRowsLoad fl jb.2 u.1).2 := rfl
    have hload := setStep_fixed_load fl bid u ja h
    -- the key of `ja` is the same on `u` and at the end
    have ka : setKey fl (rest.foldl (setStep fl bid) (setStep fl bid u jb)).1 ja.2 =
        setKey fl u.1 ja.2 := by
      rw [hgrow, hu1, hg0, List.append_assoc]
      exact setKey_append fl ja.2 u.1 _ hload
    -- the key of `jb` is the same on `u` and at the end
    have kb : setKey fl (rest.foldl (setStep fl bid) (setStep fl bid u jb)).1 jb.2 =
        setKey fl u.1 jb.2 := by
      rw [hgrow, hu1]
      have hidem := relicRowsLoad_idem fl jb.2 u.1
      rw [setKey_append fl jb.2 _ added (by rw [hidem])]
      unfold setKey
      rw [hidem]
    have hne : setKey fl u.1 ja.2 ≠ setKey fl u.1 jb.2 := by
      intro hc
      apply hk
      rw [List.map_cons]
      apply List.mem_cons.2
      left
      rw [ka, kb, hc]
    apply ih (setStep fl bid u jb) (setStep_keeps_fixed fl bid u ja jb hne h)
    intro hc
    apply hk
    rw [List.map_cons]
    exact List.mem_cons_of_mem _ hc

theorem sets_done_after (fl : Faults) (bid : Nat) (l : List (Nat × String))
    (t : List RelicSet × List CharacterBuildSet) :
    SetsDone fl bid l (l.foldl (setStep fl bid) t) := by
  constructor
  · exact foldl_fixed_all (setStep fl bid) (fun _ => True)
      (fun jn s => SetSettled fl bid s jn.2)
      (fun _ _ _ => trivial)
      (fun s a _ => setSettled_after fl bid s a)
      (fun s a b _ ha => setSettled_keep fl bid bid s b a.2 ha) l t trivial
  · intro pre jn post he hk
    subst he
    rw [List.foldl_append, List.foldl_cons] at hk ⊢
    exact foldl_setStep_last_fixed fl bid jn post _ (setStep_idem fl bid _ jn) hk

theorem setStep_absorb_key (fl : Faults) (bid : Nat)
    (t : List RelicSet × List CharacterBuildSet) (ja jb : Nat × String)
    (h1 : SetSettled fl bid t ja.2) (h2 : SetSettled fl bid t jb.2)
    (hk : setKey fl t.1 ja.2 = setKey fl t.1 jb.2) :
    setStep fl bid (setStep fl bid t ja) jb = setStep fl bid t jb := by
  rw [setStep_of_settled fl bid t ja h1.1, setStep_of_settled fl bid t jb h2.1,
    setStep_of_settled fl bid
      (t.1, buildSetRowsWrite fl bid (relicRowsLoad fl ja.2 t.1).1 ja.1 t.1 t.2) jb h2.1]
  dsimp only
  unfold setKey at hk
  rw [hk, buildSetRowsWrite_absorb]

theorem setStep_comm_key (fl : Faults) (bid : Nat)
    (t : List RelicSet × List CharacterBuildSet) (ja jb : Nat × String)
    (h1 : SetSettled fl bid t ja.2) (h2 : SetSettled fl bid t jb.2)
    (hk : setKey fl t.1 ja.2 ≠ setKey fl t.1 jb.2) :
    setStep fl bid (setStep fl bid t ja) jb = setStep fl bid (setStep fl bid t jb) ja := by
  rw [setStep_of_settled fl bid t ja h1.1, setStep_of_settled fl bid t jb h2.1,
    setStep_of_settled fl bid
      (t.1, buildSetRowsWrite fl bid (relicRowsLoad fl ja.2 t.1).1 ja.1 t.1 t.2) jb h2.1,
    setStep_of_settled fl bid
      (t.1, buildSetRowsWrite fl bid (relicRowsLoad fl jb.2 t.1).1 jb.1 t.1 t.2) ja h1.1]
  dsimp only
  unfold setKey at hk
  rw [buildSetRowsWrite_comm fl bid _ _ ja.1 jb.1 t.1 t.2 hk h1.2 h2.2]

theorem setStep_settled_fst (fl : Faults) (bid : Nat)
    (t : List RelicSet × List CharacterBuildSet) (jb : Nat × String)
    (h : SetSettled fl bid t jb.2) : (setStep fl bid t jb).1 = t.1 := h.1

theorem sets_done_noop (fl : Faults) (bid : Nat) (l : List (Nat × String))
    (t : List RelicSet × List CharacterBuildSet)
    (h : SetsDone fl bid l t) : l.foldl (setStep fl bid) t = t :=
  foldl_noop_keyed (setStep fl bid) (fun jn => setKey fl t.1 jn.2)
    (fun jn s => s.1 = t.1 ∧ SetSettled fl bid s jn.2)
    (fun s a b ha hb => ⟨by rw [setStep_settled_fst fl bid s b hb.2]; exact ha.1,
      setSettled_keep fl bid bid s b a.2 ha.2⟩)
    (fun s a b ha hb hk => setStep_absorb_key fl bid s a b ha.2 hb.2 (by rw [ha.1]; exact hk))
    (fun s a b ha hb hk => setStep_comm_key fl bid s a b ha.2 hb.2 (by rw [ha.1]; exact hk))
    l t (fun a ha => ⟨rfl, h.1 a ha⟩) h.2

theorem sets_done_other_build (fl : Faults) (bid bid1 : Nat) (hb : bid ≠ bid1)
    (l l1 : List (Nat × String)) (t : List RelicSet × List CharacterBuildSet)
    (h : SetsDone fl bid l t) : SetsDone fl bid l (l1.foldl (setStep fl bid1) t) := by
  constructor
  · intro jn hjn
    exact foldl_inv (setStep fl bid1) (fun s => SetSettled fl bid s jn.2)
      (fun s a hs => setSettled_keep fl bid bid1 s a jn.2 hs) l1 t (h.1 jn hjn)
  · intro pre jn post he hk
    obtain ⟨added, hgrow, _⟩ := foldl_setStep_grow fl bid1 l1 t
    have hkey : ∀ x ∈ l, setKey fl (l1.foldl (setStep fl bid1) t).1 x.2 = setKey fl t.1 x.2 := by
      intro x hx
      rw [hgrow]
      exact setKey_append fl x.2 t.1 added (h.1 x hx).1
    apply sets_fixed_other_build fl bid bid1 hb l1 t jn
    apply h.2 pre jn post he
    intro hc
    apply hk
    obtain ⟨x, hx, hxe⟩ := List.mem_map.1 hc
    have hxl : x ∈ l := by rw [he]; simp [hx]
    have hjl : jn ∈ l := by rw [he]; simp
    rw [hkey jn hjl, ← hxe, ← hkey x hxl]
    exact List.mem_map.2 ⟨x, hx, rfl⟩

/-! ## A second run in another order: builds and skills -/

theorem buildStep_done_noop (fl : Faults) (db : Store) (e : String × BuildJSON)
    (h : BuildDone fl e db) : buildStep fl db e = db := by
  unfold buildStep
  rcases h with h | h | ⟨h1, h2, h3⟩
  · rw [if_pos (Or.inl h)]
  · rw [if_pos (Or.inr h)]
  · split
    · rfl
    · rw [h1, foldl_noop _ _ _ h2, sets_done_noop fl _ _ _ h3]

theorem buildStep_does (fl : Faults) (db : Store) (e : String × BuildJSON)
    (hs : (e.2.Substats.map (·.1)).Nodup) :
    BuildDone fl e (buildStep fl db e) := by
  by_cases hc : firstCharacter e.1 db = none ∨ fl (.build e.1) = true
  · have : buildStep fl db e = db := by unfold buildStep; rw [if_pos hc]
    rw [this]
    rcases hc with hc | hc
    · exact Or.inl hc
    · exact Or.inr (Or.inl hc)
  · right; right
    have hdb := buildStep_run fl db e hc
    obtain ⟨g1, g2⟩ := buildsAfter_idem e db (buildStep fl db e) (by rw [hdb])
    refine ⟨g1, ?_, ?_⟩
    · rw [g2, hdb]
      exact substats_fixed_after fl _ _ hs _
    · rw [g2, hdb]
      exact sets_done_after fl _ _ _

theorem buildStep_keeps_done (fl : Faults) (db : Store) (e e1 : String × BuildJSON)
    (hnd : (db.characterBuilds.map (·.ID)).Nodup) (hk : e.1 ≠ e1.1) (h : BuildDone fl e db) :
    BuildDone fl e (buildStep fl db e1) := by
  rcases h with h | h | ⟨h1, h2, h3⟩
  · left
    unfold firstCharacter at h ⊢
    rw [buildStep_characters]; exact h
  · exact Or.inr (Or.inl h)
  · by_cases hc : firstCharacter e1.1 db = none ∨ fl (.build e1.1) = true
    · have : buildStep fl db e1 = db := by unfold buildStep; rw [if_pos hc]
      rw [this]
      exact Or.inr (Or.inr ⟨h1, h2, h3⟩)
    · right; right
      have hdb := buildStep_run fl db e1 hc
      have hfix := h1
      unfold buildsAfter at hfix
      obtain ⟨f, hfind, _⟩ := (upsertRows_eq_self_iff _ _ _ _).1 hfix
      have hfind1 : (buildStep fl db e1).characterBuilds.find?
          (fun r => r.CharacterID == e.1) = some f := by
        rw [hdb]
        dsimp only
        rw [find?_buildsAfter_other e1 db e.1 (Ne.symm hk)]
        exact hfind
      have hid : (builtRow e db).ID = f.ID := builtRow_id_of_found e db f hfind
      have hid1 : (builtRow e (buildStep fl db e1)).ID = f.ID :=
        builtRow_id_of_found e _ f hfind1
      have hne : f.ID ≠ (builtRow e1 db).ID :=
        fun hc => builtRow_id_ne e1 db e.1 f hnd hfind (Ne.symm hk) hc.symm
      rw [hid] at h2 h3
      refine ⟨?_, ?_, ?_⟩
      · unfold buildsAfter
        rw [hdb]
        dsimp only
        unfold buildsAfter
        apply upsertRows_fix_other _ _ _ _ _ _ _ _ _ _ hfix
        · intro x hx
          have : x.CharacterID = e1.1 := by simpa using hx
          simp [this, Ne.symm hk]
        · intro g hg
          have hgk : g.CharacterID = e1.1 := by
            simpa using find?_pred (fun r : CharacterBuild => r.CharacterID == e1.1) _ _ hg
          simp [(assignBuild_key e1.1 e1.2 g hgk).1, Ne.symm hk]
        · simp [createBuild, buildRow, Ne.symm hk]
      · rw [hid1, hdb]
        intro s hs
        exact substats_fixed_other_build fl f.ID _ hne _ _ s (h2 s hs)
      · rw [hid1, hdb]
        exact sets_done_other_build fl f.ID _ hne _ _ _ h3

theorem buildStep_ids_nodup (fl : Faults) (db : Store) (e : String × BuildJSON)
    (hnd : (db.characterBuilds.map (·.ID)).Nodup) :
    ((buildStep fl db e).characterBuilds.map (·.ID)).Nodup :=
  foldl_buildStep_nodup fl [e] db hnd

theorem builds_done_after (fl : Faults) (l : List (String × BuildJSON))
    (hkeys : (l.map (·.1)).Nodup) (hin : ∀ e ∈ l, (e.2.Substats.map (·.1)).Nodup)
    (db : Store) (hnd : (db.characterBuilds.map (·.ID)).Nodup) :
    ∀ e ∈ l, BuildDone fl e (l.foldl (buildStep fl) db) := by
  intro e he
  exact foldl_fixed (buildStep fl) (fun e => e.1)
    (fun s => (s.characterBuilds.map (·.ID)).Nodup)
    (fun e db => e ∈ l → BuildDone fl e db)
    (fun s a hs => buildStep_ids_nodup fl s a hs)
    (fun s a _ ha => buildStep_does fl s a (hin a ha))
    (fun s a b hs hk h ha => buildStep_keeps_done fl s a b hs hk (h ha))
    l hkeys db hnd e he he

theorem buildDone_same (fl : Faults) (db : Store) (a b : String × BuildJSON)
    (h : SameBuild a b) (hd : BuildDone fl a db) : BuildDone fl b db := by
  obtain ⟨h1, _, h3, h4, h5⟩ := h
  have hrow : buildRow b.1 b.2 = buildRow a.1 a.2 := by
    unfold buildRow; rw [h1, h3]
  have hafter : buildsAfter b db = buildsAfter a db := by
    unfold buildsAfter; rw [hrow, h1]
  have hbuilt : builtRow b db = builtRow a db := by
    unfold builtRow; rw [hrow, h1]
  unfold BuildDone at hd ⊢
  rw [← h1, hafter, hbuilt, ← h4]
  rcases hd with hd | hd | ⟨g1, g2, g3⟩
  · exact Or.inl hd
  · exact Or.inr (Or.inl hd)
  · exact Or.inr (Or.inr ⟨g1, fun s hs => g2 s (h5.mem_iff.2 hs), g3⟩)

theorem forall₂_mem_right {α β : Type} (R : α → β → Prop) (l1 : List α) (l2 : List β)
    (h : List.Forall₂ R l1 l2) (b : β) (hb : b ∈ l2) : ∃ a ∈ l1, R a b := by
  induction h with
  | nil => cases hb
  | cons hxy _ ih =>
    rcases List.mem_cons.1 hb with rfl | hb
    · exact ⟨_, List.mem_cons_self _ _, hxy⟩
    · obtain ⟨a, ha, hab⟩ := ih hb
      exact ⟨a, List.mem_cons_of_mem _ ha, hab⟩

theorem builds_rerun (fl : Faults) (l l1 l2 : List (String × BuildJSON))
    (hkeys : (l.map (·.1)).Nodup) (hin : ∀ e ∈ l, (e.2.Substats.map (·.1)).Nodup)
    (hperm : l1.Perm l) (hsame : List.Forall₂ SameBuild l1 l2)
    (db : Store) (hnd : (db.characterBuilds.map (·.ID)).Nodup) :
    l2.foldl (buildStep fl) (l.foldl (buildStep fl) db) = l.foldl (buildStep fl) db := by
  apply foldl_noop
  intro b hb
  obtain ⟨a, ha, hab⟩ := forall₂_mem_right SameBuild l1 l2 hsame b hb
  exact buildStep_done_noop fl _ b
    (buildDone_same fl _ a b hab (builds_done_after fl l hkeys hin db hnd a (hperm.mem_iff.1 ha)))

theorem skills_rerun (fl : Faults) (chars : List Character) (l l2 : List (String × SkillJSON))
    (hnd : (l.map (·.1)).Nodup) (hperm : l2.Perm l) (rows : List CharacterSkill) :
    l2.foldl (skillRowsStep fl chars) (l.foldl (skillRowsStep fl chars) rows) =
      l.foldl (skillRowsStep fl chars) rows := by
  apply foldl_noop
  intro e he
  exact foldl_fixed (skillRowsStep fl chars) (fun e => e.1) (fun _ => True)
    (fun e rows => skillRowsStep fl chars rows e = rows)
    (fun _ _ _ => trivial)
    (fun rows e _ => skillRowsStep_idem fl chars rows e)
    (fun rows e e1 _ hk h => skillRowsStep_fix_other fl chars rows e e1 hk h)
    l hnd rows trivial e (hperm.mem_iff.1 he)

/-! ## A second run and the character upserts that failed -/

theorem characterRowsStep_refused (fl : Faults) (em pm : NameMap) (rows : List Character)
    (c : CharacterJSON) (h : refusedOn fl em pm rows c = true) :
    characterRowsStep fl em pm rows c = rows := by
  unfold refusedOn at h
  unfold characterRowsStep
  cases he : em c.Element with
  | none => rfl
  | some eid =>
    cases hp : pm c.Path with
    | none => rfl
    | some pid =>
      rw [he, hp] at h
      dsimp only at h ⊢
      rw [if_neg (by simpa using h)]

theorem recordStable_step (fl : Faults) (em pm : NameMap) (c b : CharacterJSON)
    (rows : List Character) (hne : c.ID ≠ b.ID) (h : RecordStable fl em pm c rows) :
    RecordStable fl em pm c (characterRowsStep fl em pm rows b) := by
  unfold characterRowsStep
  cases he : em b.Element with
  | none => exact h
  | some eid =>
    cases hp : pm b.Path with
    | none => exact h
    | some pid =>
      dsimp only
      by_cases hacc : characterAccepted fl (characterRow b eid pid) rows = true
      · rw [if_pos hacc]
        intro eid1 pid1 he1 hp1
        exact rowStable_pres fl _ _ rows hne hacc (h eid1 pid1 he1 hp1)
      · rw [if_neg hacc]; exact h

theorem recordStable_fold (fl : Faults) (em pm : NameMap) (c : CharacterJSON)
    (rest : List CharacterJSON) (rows : List Character) (hne : ∀ b ∈ rest, c.ID ≠ b.ID)
    (h : RecordStable fl em pm c rows) :
    RecordStable fl em pm c (rest.foldl (characterRowsStep fl em pm) rows) := by
  induction rest generalizing rows with
  | nil => exact h
  | cons b bs ih =>
    rw [List.foldl_cons]
    exact ih _ (fun x hx => hne x (List.mem_cons_of_mem _ hx))
      (recordStable_step fl em pm c b rows (hne b (List.mem_cons_self _ _)) h)

theorem refused_or_stable (fl : Faults) (em pm : NameMap) (l : List CharacterJSON)
    (hnd : (l.map (·.ID)).Nodup) (rows : List Character) :
    ∀ c ∈ l, c ∈ refusedRecords fl em pm rows l ∨
      RecordStable fl em pm c (l.foldl (characterRowsStep fl em pm) rows) := by
  induction l generalizing rows with
  | nil => intro c hc; cases hc
  | cons x rest ih =>
    rw [List.map_cons, List.nodup_cons] at hnd
    intro c hc
    rw [List.foldl_cons]
    rcases List.mem_cons.1 hc with rfl | hc
    · have hne : ∀ b ∈ rest, c.ID ≠ b.ID :=
        fun b hb hcb => hnd.1 (List.mem_map.2 ⟨b, hb, hcb.symm⟩)
      cases he : em c.Element with
      | none =>
        right
        apply recordStable_fold fl em pm c rest _ hne
        intro eid pid he1 _
        rw [he] at he1; cases he1
      | some eid =>
        cases hp : pm c.Path with
        | none =>
          right
          apply recordStable_fold fl em pm c rest _ hne
          intro eid1 pid hx hp1
          rw [hp] at hp1; cases hp1
        | some pid =>
          by_cases hacc : characterAccepted fl (characterRow c eid pid) rows = true
          · right
            apply recordStable_fold fl em pm c rest _ hne
            intro eid1 pid1 he1 hp1
            rw [he] at he1; rw [hp] at hp1
            cases he1; cases hp1
            unfold characterRowsStep
            rw [he, hp]
            dsimp only
            rw [if_pos hacc]
            exact rowStable_est fl _ rows hacc
          · left
            unfold refusedRecords
            rw [he, hp]
            dsimp only
            rw [if_neg hacc]
            exact List.mem_append_left _ (List.mem_singleton_self _)
    · rcases ih hnd.2 (characterRowsStep fl em pm rows x) c hc with h | h
      · left
        unfold refusedRecords
        exact List.mem_append_right _ h
      · exact Or.inr h

theorem characters_rerun (fl : Faults) (em pm : NameMap) (l : List CharacterJSON)
    (hnd : (l.map (·.ID)).Nodup) (rows : List Character)
    (hagain : ∀ c ∈ refusedRecords fl em pm rows l,
      refusedOn fl em pm (l.foldl (characterRowsStep fl em pm) rows) c = true) :
    l.foldl (characterRowsStep fl em pm) (l.foldl (characterRowsStep fl em pm) rows) =
      l.foldl (characterRowsStep fl em pm) rows := by
  apply foldl_noop
  intro c hc
  rcases refused_or_stable fl em pm l hnd rows c hc with h | h
  · exact characterRowsStep_refused fl em pm _ c (hagain c h)
  · exact characterRowsStep_noop fl em pm _ c h

theorem seedStore_rerun (fl : Faults) (cs : List CharacterJSON)
    (ss ss2 : List (String × SkillJSON)) (bs bs1 bs2 : List (String × BuildJSON)) (db : Store)
    (he : ∀ e ∈ elements, fl (.element e.Name) = false)
    (hp : ∀ p ∈ paths, fl (.path p.Name) = false)
    (hids : (db.characterBuilds.map (·.ID)).Nodup)
    (hcs : (cs.map (·.ID)).Nodup) (hss : (ss.map (·.1)).Nodup) (hbs : (bs.map (·.1)).Nodup)
    (hin : ∀ e ∈ bs, (e.2.Substats.map (·.1)).Nodup)
    (hs2 : ss2.Perm ss) (hb1 : bs1.Perm bs) (hb2 : List.Forall₂ SameBuild bs1 bs2)
    (hagain : ∀ c ∈ refusedRecords fl (elementMap (referenceStage fl db))
        (pathMap (referenceStage fl db)) (referenceStage fl db).characters cs,
      refusedOn fl (elementMap (referenceStage fl db)) (pathMap (referenceStage fl db))
        (seedStore fl cs ss bs db).characters c = true) :
    seedStore fl cs ss2 bs2 (seedStore fl cs ss bs db) = seedStore fl cs ss bs db := by
  obtain ⟨ae, ap, hD2, hre, hrp⟩ := referenceStage_eq fl db he hp
  obtain ⟨f1, f2, f3, f4⟩ := buildsStage_frame fl bs
    (skillsStage fl ss (charactersStage fl cs (referenceStage fl db)))
  have hv4 : ((skillsStage fl ss (charactersStage fl cs
      (referenceStage fl db))).characterBuilds.map (·.ID)).Nodup := by
    rw [hD2]; exact hids
  have hel : (seedStore fl cs ss bs db).elements = (referenceStage fl db).elements := f1
  have hpa : (seedStore fl cs ss bs db).paths = (referenceStage fl db).paths := f2
  have hch : (seedStore fl cs ss bs db).characters =
      cs.foldl (characterRowsStep fl (elementMap (referenceStage fl db))
        (pathMap (referenceStage fl db))) (referenceStage fl db).characters := f3
  have hsk : (seedStore fl cs ss bs db).characterSkills =
      ss.foldl (skillRowsStep fl (seedStore fl cs ss bs db).characters)
        (referenceStage fl db).characterSkills := by
    rw [hch]; exact f4
  have h1 : referenceStage fl (seedStore fl cs ss bs db) = seedStore fl cs ss bs db := by
    apply referenceStage_noop fl _ he hp
    · rw [hel, hD2]; exact hre
    · rw [hpa, hD2]; exact hrp
  have h2 : charactersStage fl cs (seedStore fl cs ss bs db) = seedStore fl cs ss bs db := by
    unfold charactersStage
    have hem : elementMap (seedStore fl cs ss bs db) = elementMap (referenceStage fl db) := by
      unfold elementMap; rw [hel]
    have hpm : pathMap (seedStore fl cs ss bs db) = pathMap (referenceStage fl db) := by
      unfold pathMap; rw [hpa]
    rw [hem, hpm]
    have : cs.foldl (characterRowsStep fl (elementMap (referenceStage fl db))
        (pathMap (referenceStage fl db))) (seedStore fl cs ss bs db).characters =
        (seedStore fl cs ss bs db).characters := by
      rw [hch] at hagain ⊢
      exact characters_rerun fl _ _ cs hcs _ hagain
    rw [this]
  have h3 : skillsStage fl ss2 (seedStore fl cs ss bs db) = seedStore fl cs ss bs db := by
    unfold skillsStage
    have : ss2.foldl (skillRowsStep fl (seedStore fl cs ss bs db).characters)
        (seedStore fl cs ss bs db).characterSkills =
        (seedStore fl cs ss bs db).characterSkills := by
      rw [hsk]
      exact skills_rerun fl _ ss ss2 hss hs2 _
    rw [this]
  have h4 : buildsStage fl bs2 (seedStore fl cs ss bs db) = seedStore fl cs ss bs db := by
    unfold seedStore buildsStage
    exact builds_rerun fl bs bs1 bs2 hbs hin hb1 hb2 _ hv4
  show buildsStage fl bs2 (skillsStage fl ss2 (charactersStage fl cs
    (referenceStage fl (seedStore fl cs ss bs db)))) = seedStore fl cs ss bs db
  rw [h1, h2, h3, h4]

theorem seedCharacter_failure_names (fl : Faults) (em pm : NameMap) (acc : Nat × State)
    (c : CharacterJSON) :
    (seedCharacter fl em pm acc c).2.log.filterMap LogEntry.failedCharacter =
      acc.2.log.filterMap LogEntry.failedCharacter ++
        (refusedRecords fl em pm acc.2.db.characters [c]).map (·.Name) := by
  unfold seedCharacter refusedRecords refusedRecords
  cases he : em c.Element with
  | none => simp [State.logf, List.filterMap_append, LogEntry.failedCharacter]
  | some eid =>
    cases hp : pm c.Path with
    | none => simp [State.logf, List.filterMap_append, LogEntry.failedCharacter]
    | some pid =>
      dsimp only
      rcases assignFirstOrCreateCharacter_eq fl (characterRow c eid pid) acc.2.db with
        ⟨hacc, row, hrow⟩ | ⟨hacc, err, herr⟩
      · rw [hrow, if_pos hacc]
        simp
      · rw [herr, if_neg (by rw [hacc]; simp)]
        simp [State.logf, List.filterMap_append, LogEntry.failedCharacter]

theorem refusedRecords_cons (fl : Faults) (em pm : NameMap) (rows : List Character)
    (c : CharacterJSON) (rest : List CharacterJSON) :
    refusedRecords fl em pm rows (c :: rest) =
      refusedRecords fl em pm rows [c] ++
        refusedRecords fl em pm (characterRowsStep fl em pm rows c) rest := by
  simp only [refusedRecords, List.append_nil]

theorem foldl_seedCharacter_failure_names (fl : Faults) (em pm : NameMap)
    (l : List CharacterJSON) (acc : Nat × State) :
    (l.foldl (seedCharacter fl em pm) acc).2.log.filterMap LogEntry.failedCharacter =
      acc.2.log.filterMap LogEntry.failedCharacter ++
        (refusedRecords fl em pm acc.2.db.characters l).map (·.Name) := by
  induction l generalizing acc with
  | nil => simp [refusedRecords]
  | cons c rest ih =>
    rw [List.foldl_cons, ih, seedCharacter_failure_names, seedCharacter_rows,
      refusedRecords_cons fl em pm acc.2.db.characters c rest, List.map_append,
      List.append_assoc]

/-- The lines of failed character upserts that `seedCharacters` prints during a
run of `Seed` name the records of `failedCharacters`, one line each, in order -/
theorem failedCharacters_logged (fl : Faults) (cs : List CharacterJSON) (st : State) :
    (seedCharacters fl (.parsed cs) (afterPaths fl st)).1.log.filterMap
        LogEntry.failedCharacter =
      (afterPaths fl st).log.filterMap LogEntry.failedCharacter ++
        (failedCharacters fl cs st).map (·.Name) := by
  unfold failedCharacters
  simp only [seedCharacters, State.logf, List.filterMap_append]
  rw [foldl_seedCharacter_failure_names]
  simp [LogEntry.failedCharacter]

theorem afterPaths_reference (fl : Faults) (st : State) :
    (afterPaths fl st).db = referenceStage fl st.db := by
  unfold afterPaths afterElements
  rw [seedPaths_db, seedElements_db]; rfl

/-- C1, counterexample: a second run can change the store although both runs
return nil.  (1) On a store holding character 1001 with `charId` `mar7`, the
files `twinFiles` first offer a new character 1002 with `charId` `mar7`, then
rename 1001 to `mar7b`.  The first run logs the failed insert of 1002 and ends
with the one row 1001; the second run inserts 1002: the record that failed in the
first run does not fail on the store the first run left.  (2) With
`repeatedFiles`, where the id 1002 occurs three times, the first run prints no
failure, and ends with rarity 4 for 1002; the second run ends with rarity 5. -/
theorem seed_twice_changes_store :
    ((Seed noFaults twinFiles ⟨storeWithMarch, []⟩).2 = none ∧
     (Seed noFaults twinFiles (Seed noFaults twinFiles ⟨storeWithMarch, []⟩).1).2 = none ∧
     LogEntry.characterFailed "March 7th (Hunt)" .uniqueViolation ∈
       printed noFaults twinFiles ⟨storeWithMarch, []⟩ ∧
     failedCharacters noFaults [marchTwin, marchRenamed] ⟨storeWithMarch, []⟩ = [marchTwin] ∧
     failsOn noFaults (Seed noFaults twinFiles ⟨storeWithMarch, []⟩).1.db marchTwin = false ∧
     (Seed noFaults twinFiles ⟨storeWithMarch, []⟩).1.db.characters =
       [⟨"1001", "mar7b", "March 7th", 1, 1, 4, 101, 3⟩] ∧
     (Seed noFaults twinFiles (Seed noFaults twinFiles ⟨storeWithMarch, []⟩).1).1.db.characters =
       [⟨"1001", "mar7b", "March 7th", 1, 1, 4, 101, 3⟩,
        ⟨"1002", "mar7", "March 7th (Hunt)", 1, 1, 4, 101, 4⟩] ∧
     (Seed noFaults twinFiles (Seed noFaults twinFiles ⟨storeWithMarch, []⟩).1).1.db ≠
       (Seed noFaults twinFiles ⟨storeWithMarch, []⟩).1.db) ∧
    ((Seed noFaults repeatedFiles ⟨storeWithMarch, []⟩).2 = none ∧
     (Seed noFaults repeatedFiles
       (Seed noFaults repeatedFiles ⟨storeWithMarch, []⟩).1).2 = none ∧
     ¬ (repeatedRecords.map (·.ID)).Nodup ∧
     failedCharacters noFaults repeatedRecords ⟨storeWithMarch, []⟩ = [] ∧
     (∀ x ∈ printed noFaults repeatedFiles ⟨storeWithMarch, []⟩,
       x.isCharacterFailure = false) ∧
     (Seed noFaults repeatedFiles ⟨storeWithMarch, []⟩).1.db.characters =
       [⟨"1001", "mar7", "March 7th", 1, 1, 5, 101, 3⟩,
        ⟨"1002", "danPT", "Dan Heng", 1, 1, 4, 110, 5⟩,
        ⟨"1003", "danIL", "Imbibitor Lunae", 1, 1, 5, 102, 6⟩] ∧
     (Seed noFaults repeatedFiles
       (Seed noFaults repeatedFiles ⟨storeWithMarch, []⟩).1).1.db.characters =
       [⟨"1001", "mar7", "March 7th", 1, 1, 5, 101, 3⟩,
        ⟨"1002", "danPT", "Dan Heng", 1, 1, 5, 110, 5⟩,
        ⟨"1003", "danIL", "Imbibitor Lunae", 1, 1, 5, 102, 6⟩] ∧
     (Seed noFaults repeatedFiles
       (Seed noFaults repeatedFiles ⟨storeWithMarch, []⟩).1).1.db ≠
       (Seed noFaults repeatedFiles ⟨storeWithMarch, []⟩).1.db) := by
  decide

/-- Why the build ids have to be unique once the second run may visit the build
map in another order: on a store in which the build rows of 1001 and 1004 share
the id 1, the set A of that id gets the priority of whichever entry is visited
last.  A second run in the same order leaves the store as it is; a second run
in the other order changes it. -/
theorem reordered_rerun_shared_build_id :
    ¬ (storeTwinBuilds.characterBuilds.map (·.ID)).Nodup ∧
    (seedBuilds noFaults (.parsed [("1001", buildA), ("1004", buildCA)])
      ⟨storeTwinBuilds, []⟩).1.db.characterBuildSets = [⟨1, 1, 1, 2⟩, ⟨2, 1, 2, 1⟩] ∧
    (seedBuilds noFaults (.parsed [("1001", buildA), ("1004", buildCA)])
      (seedBuilds noFaults (.parsed [("1001", buildA), ("1004", buildCA)])
        ⟨storeTwinBuilds, []⟩).1).1.db =
      (seedBuilds noFaults (.parsed [("1001", buildA), ("1004", buildCA)])
        ⟨storeTwinBuilds, []⟩).1.db ∧
    (seedBuilds noFaults (.parsed [("1004", buildCA), ("1001", buildA)])
      (seedBuilds noFaults (.parsed [("1001", buildA), ("1004", buildCA)])
        ⟨storeTwinBuilds, []⟩).1).1.db.characterBuildSets = [⟨1, 1, 1, 1⟩, ⟨2, 1, 2, 1⟩] := by
  decide

/-- C1, amended: a second run of `Seed` over the same files, with the same
behaviour of the storage layer, returns nil and leaves the store exactly as the
first run left it (all eight tables: same rows, same field values, no row
added).  The second run may visit the skill map, the build map and each substat
map in another order (`ss2`, `bs2`; Go does not fix the order in which `range`
visits a map); `characters.json` is an array and is read in the same order.
Provided that the first run returned nil, that no character id occurs twice in
`characters.json`, that every character record whose upsert failed in the first
run fails again on the store the first run left (a rejected call stays
rejected, a `charId` clash is still there), that the keys of the skill map, of
the build map and of each substat map are distinct (as the keys of a Go map
are), and that the build ids of the store are unique (the primary key).
Nothing is asked of the relic-set table or of the child tables, a set name may
occur more than once in the list of a build, and character upserts may fail. -/
theorem seed_twice_same_store (fl : Faults) (cs : List CharacterJSON)
    (ss ss2 : List (String × SkillJSON)) (bs bs1 bs2 : List (String × BuildJSON)) (st : State)
    (hids : (st.db.characterBuilds.map (·.ID)).Nodup)
    (hcs : (cs.map (·.ID)).Nodup) (hss : (ss.map (·.1)).Nodup) (hbs : (bs.map (·.1)).Nodup)
    (hin : ∀ e ∈ bs, (e.2.Substats.map (·.1)).Nodup)
    (hs2 : ss2.Perm ss) (hb1 : bs1.Perm bs) (hb2 : List.Forall₂ SameBuild bs1 bs2)
    (herr : (Seed fl ⟨.parsed cs, .parsed ss, .parsed bs⟩ st).2 = none)
    (hagain : ∀ c ∈ failedCharacters fl cs st,
      failsOn fl (Seed fl ⟨.parsed cs, .parsed ss, .parsed bs⟩ st).1.db c = true) :
    (Seed fl ⟨.parsed cs, .parsed ss2, .parsed bs2⟩
      (Seed fl ⟨.parsed cs, .parsed ss, .parsed bs⟩ st).1).2 = none ∧
    (Seed fl ⟨.parsed cs, .parsed ss2, .parsed bs2⟩
      (Seed fl ⟨.parsed cs, .parsed ss, .parsed bs⟩ st).1).1.db =
      (Seed fl ⟨.parsed cs, .parsed ss, .parsed bs⟩ st).1.db := by
  obtain ⟨h1, h2, _⟩ := Seed_parsed_run fl cs ss bs st herr
  have he := (seedElements_error fl _).1 h1
  have hp := (seedPaths_error fl _).1 h2
  have herr2 := Seed_parsed_ok fl cs ss2 bs2
    (Seed fl ⟨.parsed cs, .parsed ss, .parsed bs⟩ st).1 he hp
  refine ⟨herr2, ?_⟩
  have hS := Seed_parsed_db fl cs ss bs st herr
  rw [Seed_parsed_db fl cs ss2 bs2 _ herr2, hS]
  apply seedStore_rerun fl cs ss ss2 bs bs1 bs2 st.db he hp hids hcs hss hbs hin hs2 hb1 hb2
  intro c hc
  have hmem : c ∈ failedCharacters fl cs st := by
    unfold failedCharacters
    rw [afterPaths_reference]
    exact hc
  have := hagain c hmem
  rw [hS] at this
  unfold failsOn at this
  obtain ⟨f1, f2, _, _⟩ := buildsStage_frame fl bs
    (skillsStage fl ss (charactersStage fl cs (referenceStage fl st.db)))
  have hel : (seedStore fl cs ss bs st.db).elements = (referenceStage fl st.db).elements := f1
  have hpa : (seedStore fl cs ss bs st.db).paths = (referenceStage fl st.db).paths := f2
  have hem : elementMap (seedStore fl cs ss bs st.db) = elementMap (referenceStage fl st.db) := by
    unfold elementMap; rw [hel]
  have hpm : pathMap (seedStore fl cs ss bs st.db) = pathMap (referenceStage fl st.db) := by
    unfold pathMap; rw [hpa]
  rw [hem, hpm] at this
  exact this

theorem seed_twice_same_store_witness :
    ((storeZeroRelic.characterBuilds.map (·.ID)).Nodup ∧
      ([marchFour, marchTwin, himeko, welt, voidRecord].map (·.ID)).Nodup ∧
      ([("1001", marchSkills), ("1004", fineSkills)].map (·.1)).Nodup ∧
      ([("1001", buildZQ), ("1004", buildCA)].map (·.1)).Nodup ∧
      (∀ e ∈ [("1001", buildZQ), ("1004", buildCA)], (e.2.Substats.map (·.1)).Nodup) ∧
      (Seed flakyLayer ⟨.parsed [marchFour, marchTwin, himeko, welt, voidRecord],
        .parsed [("1001", marchSkills), ("1004", fineSkills)],
        .parsed [("1001", buildZQ), ("1004", buildCA)]⟩ ⟨storeZeroRelic, []⟩).2 = none ∧
      failedCharacters flakyLayer [marchFour, marchTwin, himeko, welt, voidRecord]
        ⟨storeZeroRelic, []⟩ = [marchTwin, welt] ∧
      (∀ c ∈ [marchTwin, welt], failsOn flakyLayer
        (Seed flakyLayer ⟨.parsed [marchFour, marchTwin, himeko, welt, voidRecord],
          .parsed [("1001", marchSkills), ("1004", fineSkills)],
          .parsed [("1001", buildZQ), ("1004", buildCA)]⟩ ⟨storeZeroRelic, []⟩).1.db c = true)) ∧
    ((Seed flakyLayer ⟨.parsed [marchFour, marchTwin, himeko, welt, voidRecord],
        .parsed [("1004", fineSkills), ("1001", marchSkills)],
        .parsed [("1004", buildCA), ("1001", buildZQ2)]⟩
      (Seed flakyLayer ⟨.parsed [marchFour, marchTwin, himeko, welt, voidRecord],
        .parsed [("1001", marchSkills), ("1004", fineSkills)],
        .parsed [("1001", buildZQ), ("1004", buildCA)]⟩ ⟨storeZeroRelic, []⟩).1).2 = none ∧
     (Seed flakyLayer ⟨.parsed [marchFour, marchTwin, himeko, welt, voidRecord],
        .parsed [("1004", fineSkills), ("1001", marchSkills)],
        .parsed [("1004", buildCA), ("1001", buildZQ2)]⟩
      (Seed flakyLayer ⟨.parsed [marchFour, marchTwin, himeko, welt, voidRecord],
        .parsed [("1001", marchSkills), ("1004", fineSkills)],
        .parsed [("1001", buildZQ), ("1004", buildCA)]⟩ ⟨storeZeroRelic, []⟩).1).1.db =
      (Seed flakyLayer ⟨.parsed [marchFour, marchTwin, himeko, welt, voidRecord],
        .parsed [("1001", marchSkills), ("1004", fineSkills)],
        .parsed [("1001", buildZQ), ("1004", buildCA)]⟩ ⟨storeZeroRelic, []⟩).1.db) ∧
    (Seed flakyLayer ⟨.parsed [marchFour, marchTwin, himeko, welt, voidRecord],
        .parsed [("1001", marchSkills), ("1004", fineSkills)],
        .parsed [("1001", buildZQ), ("1004", buildCA)]⟩
      ⟨storeZeroRelic, []⟩).1.db.characters.map (·.ID) = ["1001", "1004"] ∧
    (Seed flakyLayer ⟨.parsed [marchFour, marchTwin, himeko, welt, voidRecord],
        .parsed [("1001", marchSkills), ("1004", fineSkills)],
        .parsed [("1001", buildZQ), ("1004", buildCA)]⟩
      ⟨storeZeroRelic, []⟩).1.db.relicSets = [⟨0, "Z", ""⟩, ⟨1, "A", ""⟩, ⟨2, "C", ""⟩] ∧
    (Seed flakyLayer ⟨.parsed [marchFour, marchTwin, himeko, welt, voidRecord],
        .parsed [("1001", marchSkills), ("1004", fineSkills)],
        .parsed [("1001", buildZQ), ("1004", buildCA)]⟩
      ⟨storeZeroRelic, []⟩).1.db.characterBuildSets =
      [⟨1, 1, 0, 4⟩, ⟨2, 1, 1, 3⟩, ⟨3, 2, 2, 1⟩, ⟨4, 2, 1, 2⟩] :=
  ⟨⟨by decide, by decide, by decide, by decide, by decide, by decide, by decide, by decide⟩,
    seed_twice_same_store flakyLayer [marchFour, marchTwin, himeko, welt, voidRecord]
      [("1001", marchSkills), ("1004", fineSkills)] [("1004", fineSkills), ("1001", marchSkills)]
      [("1001", buildZQ), ("1004", buildCA)] [("1004", buildCA), ("1001", buildZQ)]
      [("1004", buildCA), ("1001", buildZQ2)] ⟨storeZeroRelic, []⟩
      (by decide) (by decide) (by decide) (by decide) (by decide)
      (List.Perm.swap _ _ _) (List.Perm.swap _ _ _)
      (List.Forall₂.cons ⟨rfl, rfl, rfl, rfl, List.Perm.refl _⟩
        (List.Forall₂.cons ⟨rfl, rfl, rfl, rfl, List.Perm.swap _ _ _⟩ List.Forall₂.nil))
      (by decide) (by decide),
    by decide, by decide, by decide⟩

end database
